import Mathlib

/-!
# Volcano scheduler domain model: `JobInfo` and `NamespaceCollection`

A shallow embedding of `pkg/scheduler/apis/job_info.go` and
`pkg/scheduler/apis/namespace_info.go`.

Conventions of the embedding.

* A Go `map[K]V` is an association list `List (K × V)`.  `mapSet` and `mapDel`
  keep keys unique, `mapGet` is the two-valued lookup `v, found := m[k]`, and
  `mapLen` is `len(m)`.  Go's iteration order is unspecified; every function
  below that ranges over a map is shown to be insensitive to it where that
  matters.
* Go pointers to tasks are modelled by the task values they point to; the one
  place where two jobs share a mutable object (the `TaskMinAvailable` map
  after `Clone`) is modelled with an explicit store of map objects.
* `int32` values are integers; `wrapInt32` is applied wherever the source
  converts to or adds in `int32`.
-/

namespace Volcano

/-! ## Go maps -/

/-- Two-valued lookup `v, found := m[k]`. -/
def mapGet {κ α : Type} [DecidableEq κ] : List (κ × α) → κ → Option α
  | [], _ => none
  | (k', v) :: r, k => if k' = k then some v else mapGet r k

/-- Removal `delete(m, k)`. -/
def mapDel {κ α : Type} [DecidableEq κ] (m : List (κ × α)) (k : κ) : List (κ × α) :=
  m.filter (fun p => decide (p.1 ≠ k))

/-- Assignment `m[k] = v`. -/
def mapSet {κ α : Type} [DecidableEq κ] (m : List (κ × α)) (k : κ) (v : α) : List (κ × α) :=
  (k, v) :: mapDel m k

/-- Length `len(m)`; for a nil or absent map this is `0`. -/
def mapLen {κ α : Type} (m : List (κ × α)) : Nat := m.length

/-- Length of `m[k]` when the values are themselves maps: `len(m[k])`. -/
def mapLenAt {κ κ2 α : Type} [DecidableEq κ] (m : List (κ × List (κ2 × α))) (k : κ) : Nat :=
  match mapGet m k with
  | some t => mapLen t
  | none => 0

/-- Two's-complement conversion to `int32`. -/
def wrapInt32 (x : Int) : Int := (x + 2147483648) % 4294967296 - 2147483648

/-! ## Task status -/

/-- The task statuses named by the scheduler. -/
inductive TaskStatus
  | Pending | Allocated | Pipelined | Binding | Bound | Running
  | Releasing | Succeeded | Failed | Unknown
  deriving DecidableEq, Repr

open TaskStatus

/-- Modelled from the spec: `AllocatedStatus` (declared in the missing
`types.go`/`helpers.go`) is `{Allocated, Binding, Bound, Running}`. -/
def AllocatedStatus : TaskStatus → Bool
  | Allocated | Binding | Bound | Running => true
  | _ => false

/-- Errors returned by the job operations. -/
inductive JobError
  | InvalidStatusTransition (old new : TaskStatus)
  | TaskNotFound
  deriving DecidableEq, Repr

/-- Modelled from the spec: the pairs (from, to) ticked in the task transition
table of section 4.2. -/
def transitionTable : List (TaskStatus × TaskStatus) :=
  [ (Pending, Allocated), (Pending, Pipelined),
    (Allocated, Pending), (Allocated, Binding), (Allocated, Running),
    (Allocated, Releasing), (Allocated, Failed),
    (Pipelined, Pending), (Pipelined, Allocated),
    (Binding, Allocated), (Binding, Bound), (Binding, Releasing), (Binding, Failed),
    (Bound, Running), (Bound, Releasing), (Bound, Succeeded), (Bound, Failed),
    (Running, Releasing), (Running, Succeeded), (Running, Failed),
    (Releasing, Succeeded), (Releasing, Failed) ]

/-- Modelled from the spec: `validateStatusUpdate` (declared in a file that is
not part of the sources) accepts exactly the transitions ticked in the task
transition table and fails with `InvalidStatusTransition` on every other
pair. -/
def validateStatusUpdate (oldStatus newStatus : TaskStatus) : Except JobError Unit :=
  if (oldStatus, newStatus) ∈ transitionTable then .ok ()
  else .error (.InvalidStatusTransition oldStatus newStatus)

/-! ## Resources -/

/-- Modelled from the spec: `Resource` (declared in the missing
`resource_info.go`) is a vector of milli-CPU, memory bytes and scalar resources
keyed by name, with componentwise add and sub.  Quantities are exact integers:
floating-point rounding is not modelled. -/
structure Resource where
  MilliCPU : Int
  Memory : Int
  ScalarResources : List (String × Int)
  deriving DecidableEq, Repr

namespace Resource

/-- `EmptyResource()`. -/
def EmptyResource : Resource := ⟨0, 0, []⟩

/-- The quantity of the scalar resource `n`; a name absent from the map reads as `0`. -/
def scalar (r : Resource) (n : String) : Int := (mapGet r.ScalarResources n).getD 0

/-- The names present in either scalar map. -/
def scalarNames (r rr : Resource) : List String :=
  (r.ScalarResources.map (fun p => p.1) ++ rr.ScalarResources.map (fun p => p.1)).dedup

/-- `r.Add(rr)`: componentwise sum; the result holds every scalar name of either operand. -/
def Add (r rr : Resource) : Resource :=
  ⟨r.MilliCPU + rr.MilliCPU, r.Memory + rr.Memory,
   (scalarNames r rr).map (fun n => (n, r.scalar n + rr.scalar n))⟩

/-- `r.Sub(rr)`: componentwise difference. -/
def Sub (r rr : Resource) : Resource :=
  ⟨r.MilliCPU - rr.MilliCPU, r.Memory - rr.Memory,
   (scalarNames r rr).map (fun n => (n, r.scalar n - rr.scalar n))⟩

/-- `r.IsEmpty()`: every component is zero. -/
def IsEmpty (r : Resource) : Bool :=
  decide (r.MilliCPU = 0) && decide (r.Memory = 0) &&
    r.ScalarResources.all (fun p => decide (p.2 = 0))

/-- `r.Clone()`: a copy with the same quantities. -/
def Clone (r : Resource) : Resource := ⟨r.MilliCPU, r.Memory, r.ScalarResources⟩

end Resource

/-- The vector denoted by a resource: milli-CPU, memory and the scalar quantities by name. -/
abbrev ResVec := Int × Int × (String → Int)

/-- The vector a `Resource` denotes. -/
def Resource.vec (r : Resource) : ResVec := (r.MilliCPU, r.Memory, fun n => r.scalar n)

open Resource

/-! ## Tasks -/

abbrev TaskID := String
abbrev JobID := String
abbrev QueueID := String

/-- The annotation key `batchv1alpha1.TaskSpecKey` naming a pod's task spec
(the spec's `<group>/task-spec`). -/
def TaskSpecKey : String := "volcano.sh/task-spec"

/-- The part of `corev1.Pod` read by the job accessors, the session, the cache
and the plugins: the annotations, `Spec.PriorityClassName`, `Spec.NodeName`,
the namespace, the name, the UID and `Spec.SchedulerName`. -/
structure Pod where
  Annotations : List (String × String)
  PriorityClassName : String := ""
  NodeName : String := ""
  Namespace : String := ""
  Name : String := ""
  UID : String := ""
  SchedulerName : String := ""
  deriving DecidableEq, Repr

/-- The function `getTaskID(pod)`. -/
def getTaskID (pod : Pod) : TaskID :=
  match mapGet pod.Annotations TaskSpecKey with
  | some taskSpec => if taskSpec ≠ "" then taskSpec else ""
  | none => ""

/-- `TransactionContext`. -/
structure TransactionContext where
  NodeName : String
  Status : TaskStatus
  deriving DecidableEq, Repr

/-- `TopologyInfo`: the NUMA policy and the per-NUMA-node resource lists. -/
structure TopologyInfo where
  Policy : String
  ResMap : List (Int × List (String × Int))
  deriving DecidableEq, Repr

/-- `TopologyInfo.Clone`. -/
def TopologyInfo.Clone (info : TopologyInfo) : TopologyInfo :=
  ⟨info.Policy, info.ResMap⟩

/-- `TaskInfo`.  `Status` and `NodeName` are the embedded `TransactionContext`;
`LastTx` and `NumaInfo` are pointers that may be nil; `PodVolumes` is not read
by any function embedded here and is left out. -/
structure TaskInfo where
  UID : TaskID
  Job : JobID
  Name : String
  Namespace : String
  InitResReq : Resource
  ResReq : Resource
  NodeName : String
  Status : TaskStatus
  LastTx : Option TransactionContext
  Priority : Int
  VolumeReady : Bool
  Preemptable : Bool
  BestEffort : Bool
  RevocableZone : String
  NumaInfo : Option TopologyInfo
  Pod : Pod
  deriving DecidableEq, Repr

/-- `TaskInfo.GetTransactionContext`. -/
def TaskInfo.GetTransactionContext (ti : TaskInfo) : TransactionContext :=
  ⟨ti.NodeName, ti.Status⟩

/-- `TaskInfo.Clone`; `ti.NumaInfo.Clone()` dereferences its receiver, so a
nil `NumaInfo` makes the call panic (`none`). -/
def TaskInfo.Clone (ti : TaskInfo) : Option TaskInfo :=
  match ti.NumaInfo with
  | none => none
  | some numa =>
    some { UID := ti.UID, Job := ti.Job, Name := ti.Name, Namespace := ti.Namespace,
           Priority := ti.Priority, Pod := ti.Pod,
           ResReq := ti.ResReq.Clone, InitResReq := ti.InitResReq.Clone,
           VolumeReady := ti.VolumeReady, Preemptable := ti.Preemptable,
           BestEffort := ti.BestEffort, RevocableZone := ti.RevocableZone,
           NumaInfo := some numa.Clone,
           NodeName := ti.NodeName, Status := ti.Status,
           LastTx := ti.LastTx }

abbrev tasksMap := List (TaskID × TaskInfo)

/-! ## Pod groups and jobs -/

/-- `DisruptionBudget`. -/
structure DisruptionBudget where
  MinAvailable : String
  MaxUnavailable : String
  deriving DecidableEq, Repr

/-- `NewDisruptionBudget`. -/
def NewDisruptionBudget (minAvail maxUnAvail : String) : DisruptionBudget :=
  ⟨minAvail, maxUnAvail⟩

/-- `DisruptionBudget.Clone`. -/
def DisruptionBudget.Clone (db : DisruptionBudget) : DisruptionBudget :=
  ⟨db.MinAvailable, db.MaxUnavailable⟩

/-- The fields of `scheduling.PodGroupCondition` that the session writes. -/
structure PodGroupCondition where
  Type_ : String
  Status : String
  LastTransitionTime : Int
  TransitionID : String
  Reason : String
  Message : String
  deriving DecidableEq, Repr

/-- The fields of `PodGroup` (declared in the missing `pod_group_info.go`)
that `SetPodGroup`, the accessors and the session read or write; `Conditions`
is `Status.Conditions`. -/
structure PodGroup where
  Name : String
  Namespace : String
  Annotations : List (String × String)
  Labels : List (String × String)
  CreationTimestamp : Int
  MinMember : Int
  Queue : String
  MinTaskMember : List (String × Int)
  MinResources : Option Resource
  Phase : String
  Conditions : List PodGroupCondition := []
  deriving DecidableEq, Repr

/-- `PodGroup.Clone`: a deep copy. -/
def PodGroup.Clone (pg : PodGroup) : PodGroup := pg

/-- `FitErrors` (declared in the missing `unschedule_info.go`), reduced to the
message its `Error()` method renders. -/
structure FitErrors where
  Error : String
  deriving DecidableEq, Repr

/-- `JobInfo`.  Pointer fields that may be nil are options; an entry of
`NodesFitErrors` may hold a nil pointer. -/
structure JobInfo where
  UID : JobID
  Name : String
  Namespace : String
  Queue : QueueID
  Priority : Int
  MinAvailable : Int
  WaitingTime : Option Int
  JobFitErrors : String
  NodesFitErrors : List (TaskID × Option FitErrors)
  TaskStatusIndex : List (TaskStatus × tasksMap)
  Tasks : tasksMap
  TaskMinAvailable : List (TaskID × Int)
  TaskMinAvailableTotal : Int
  Allocated : Resource
  TotalRequest : Resource
  CreationTimestamp : Int
  PodGroup : Option PodGroup
  ScheduleStartTimestamp : Int
  Preemptable : Bool
  RevocableZone : String
  Budget : Option DisruptionBudget
  deriving DecidableEq, Repr

namespace JobInfo

/-- `addTaskIndex`. -/
def addTaskIndex (ji : JobInfo) (ti : TaskInfo) : JobInfo :=
  let tasks : tasksMap :=
    match mapGet ji.TaskStatusIndex ti.Status with
    | some m => m
    | none => []
  { ji with TaskStatusIndex := mapSet ji.TaskStatusIndex ti.Status (mapSet tasks ti.UID ti) }

/-- `AddTaskInfo`. -/
def AddTaskInfo (ji : JobInfo) (ti : TaskInfo) : JobInfo :=
  let ji1 := { ji with Tasks := mapSet ji.Tasks ti.UID ti }
  let ji2 := addTaskIndex ji1 ti
  let ji3 := { ji2 with TotalRequest := ji2.TotalRequest.Add ti.ResReq }
  if AllocatedStatus ti.Status then
    { ji3 with Allocated := ji3.Allocated.Add ti.ResReq }
  else ji3

/-- `deleteTaskIndex`. -/
def deleteTaskIndex (ji : JobInfo) (ti : TaskInfo) : JobInfo :=
  match mapGet ji.TaskStatusIndex ti.Status with
  | some tasks =>
    let tasks1 := mapDel tasks ti.UID
    if mapLen tasks1 = 0 then
      { ji with TaskStatusIndex := mapDel ji.TaskStatusIndex ti.Status }
    else
      { ji with TaskStatusIndex := mapSet ji.TaskStatusIndex ti.Status tasks1 }
  | none => ji

/-- `DeleteTaskInfo`: the job after the call and the error it returns, if any. -/
def DeleteTaskInfo (ji : JobInfo) (ti : TaskInfo) : JobInfo × Option JobError :=
  match mapGet ji.Tasks ti.UID with
  | some task =>
    let ji1 := { ji with TotalRequest := ji.TotalRequest.Sub task.ResReq }
    let ji2 := if AllocatedStatus task.Status then
        { ji1 with Allocated := ji1.Allocated.Sub task.ResReq } else ji1
    let ji3 := { ji2 with Tasks := mapDel ji2.Tasks task.UID }
    (deleteTaskIndex ji3 task, none)
  | none => (ji, some .TaskNotFound)

/-- `UpdateTaskStatus`: the job and the task after the call, and the error it
returns, if any. -/
def UpdateTaskStatus (ji : JobInfo) (task : TaskInfo) (status : TaskStatus) :
    (JobInfo × TaskInfo) × Option JobError :=
  match validateStatusUpdate task.Status status with
  | .error e => ((ji, task), some e)
  | .ok _ =>
    let r : JobInfo × Option JobError :=
      match mapGet ji.Tasks task.UID with
      | some _ => DeleteTaskInfo ji task
      | none => (ji, none)
    match r.2 with
    | some e => ((r.1, task), some e)
    | none =>
      let task1 := { task with Status := status }
      ((AddTaskInfo r.1 task1, task1), none)

/-- `NewJobInfo`. -/
def NewJobInfo (uid : JobID) (tasks : List TaskInfo) : JobInfo :=
  let job : JobInfo :=
    { UID := uid, Name := "", Namespace := "", Queue := "", Priority := 0,
      MinAvailable := 0, WaitingTime := none, JobFitErrors := "",
      NodesFitErrors := [], TaskStatusIndex := [], Tasks := [],
      TaskMinAvailable := [], TaskMinAvailableTotal := 0,
      Allocated := EmptyResource, TotalRequest := EmptyResource,
      CreationTimestamp := 0, PodGroup := none, ScheduleStartTimestamp := 0,
      Preemptable := false, RevocableZone := "", Budget := none }
  tasks.foldl AddTaskInfo job

/-- `ReadyTaskNum`. -/
def ReadyTaskNum (ji : JobInfo) : Int :=
  let occupied : Nat :=
    mapLenAt ji.TaskStatusIndex .Bound + mapLenAt ji.TaskStatusIndex .Binding
      + mapLenAt ji.TaskStatusIndex .Running + mapLenAt ji.TaskStatusIndex .Allocated
      + mapLenAt ji.TaskStatusIndex .Succeeded
  let occupied : Nat :=
    match mapGet ji.TaskStatusIndex .Pending with
    | some tasks => tasks.foldl (fun n p => if p.2.BestEffort then n + 1 else n) occupied
    | none => occupied
  wrapInt32 occupied

/-- `WaitingTaskNum`. -/
def WaitingTaskNum (ji : JobInfo) : Int :=
  wrapInt32 (mapLenAt ji.TaskStatusIndex .Pipelined)

/-- The status test shared by `ValidTaskNum` and `CheckTaskMinAvailable`. -/
def validStatus (status : TaskStatus) : Bool :=
  AllocatedStatus status || decide (status = .Succeeded) || decide (status = .Pipelined)
    || decide (status = .Pending)

/-- `ValidTaskNum`. -/
def ValidTaskNum (ji : JobInfo) : Int :=
  let occupied : Nat :=
    ji.TaskStatusIndex.foldl
      (fun n e => if validStatus e.1 then n + mapLen e.2 else n) 0
  wrapInt32 occupied

/-- `Ready`. -/
def Ready (ji : JobInfo) : Bool := decide (ReadyTaskNum ji ≥ ji.MinAvailable)

/-- `IsPending`; the phase constant `PodGroupPending` is `"Pending"`. -/
def IsPending (ji : JobInfo) : Bool :=
  match ji.PodGroup with
  | none => true
  | some pg => decide (pg.Phase = "Pending") || decide (pg.Phase = "")

end JobInfo

end Volcano

namespace Volcano

open TaskStatus Resource

/-! ## Well-formed jobs and operation sequences -/

/-- The keys of a Go map are pairwise distinct. -/
def NodupKeys {κ α : Type} (m : List (κ × α)) : Prop := (m.map (fun p => p.1)).Nodup

instance {κ α : Type} [DecidableEq κ] (m : List (κ × α)) : Decidable (NodupKeys m) := by
  unfold NodupKeys; infer_instance

/-- The status index of a job agrees with its task map: keys are distinct,
every task is filed under its own UID, every indexed task is the task stored in
`Tasks` and is filed under its status, every stored task is indexed, and no
status maps to an empty set. -/
def IndexConsistent (ji : JobInfo) : Prop :=
  NodupKeys ji.Tasks ∧ NodupKeys ji.TaskStatusIndex ∧
  (∀ e ∈ ji.Tasks, e.2.UID = e.1 ∧
      ∃ m, mapGet ji.TaskStatusIndex e.2.Status = some m ∧ mapGet m e.1 = some e.2) ∧
  (∀ b ∈ ji.TaskStatusIndex, NodupKeys b.2 ∧ b.2 ≠ [] ∧
      ∀ e ∈ b.2, mapGet ji.Tasks e.1 = some e.2 ∧ e.2.Status = b.1)

instance (ji : JobInfo) : Decidable (IndexConsistent ji) := by
  unfold IndexConsistent; infer_instance

/-- One call on a job. -/
inductive JobOp
  | add (ti : TaskInfo)
  | delete (ti : TaskInfo)
  | update (task : TaskInfo) (status : TaskStatus)
  deriving DecidableEq, Repr

/-- The job after one call. -/
def JobInfo.step (ji : JobInfo) : JobOp → JobInfo
  | .add ti => ji.AddTaskInfo ti
  | .delete ti => (ji.DeleteTaskInfo ti).1
  | .update task status => (ji.UpdateTaskStatus task status).1.1

/-- The job after a sequence of calls. -/
def JobInfo.run (ji : JobInfo) (ops : List JobOp) : JobInfo := ops.foldl JobInfo.step ji

/-- Every `AddTaskInfo` of the sequence is given a task whose UID is not in
the job at that point. -/
def FreshAdds : JobInfo → List JobOp → Prop
  | _, [] => True
  | ji, op :: ops =>
    (match op with
      | .add ti => mapGet ji.Tasks ti.UID = none
      | _ => True) ∧ FreshAdds (ji.step op) ops

instance instDecidableFreshAdds : (ji : JobInfo) → (ops : List JobOp) → Decidable (FreshAdds ji ops)
  | _, [] => isTrue trivial
  | ji, op :: ops =>
    have := instDecidableFreshAdds (ji.step op) ops
    match op with
    | .add ti => by unfold FreshAdds; exact inferInstance
    | .delete _ => by unfold FreshAdds; exact inferInstance
    | .update _ _ => by unfold FreshAdds; exact inferInstance

/-- The status test of `ReadyTaskNum`: a task counts when its status is an
allocated status or `Succeeded`, or when it is a best-effort `Pending` task. -/
def countsAsReady (t : TaskInfo) : Bool :=
  AllocatedStatus t.Status || decide (t.Status = Succeeded) ||
    (decide (t.Status = Pending) && t.BestEffort)

/-- The status test the specification gives for readiness: allocated status,
or best-effort `Pending`. -/
def countsAsReadySpec (t : TaskInfo) : Bool :=
  AllocatedStatus t.Status || (decide (t.Status = Pending) && t.BestEffort)

/-- A task with the given UID, status and request; all other fields blank. -/
def mkTask (uid : TaskID) (status : TaskStatus) (cpu : Int) (bestEffort : Bool) : TaskInfo :=
  { UID := uid, Job := "j", Name := uid, Namespace := "ns",
    InitResReq := ⟨cpu, 0, []⟩, ResReq := ⟨cpu, 0, []⟩, NodeName := "",
    Status := status, LastTx := none, Priority := 1, VolumeReady := false,
    Preemptable := false, BestEffort := bestEffort, RevocableZone := "",
    NumaInfo := some ⟨"", []⟩, Pod := { Annotations := [] } }

/-- The task filed in the index under status `s` and UID `uid`, if any:
`ji.TaskStatusIndex[s][uid]`. -/
def JobInfo.indexed (ji : JobInfo) (s : TaskStatus) (uid : TaskID) : Option TaskInfo :=
  match mapGet ji.TaskStatusIndex s with
  | some m => mapGet m uid
  | none => none

/-- The data-structure invariant of a job, stated through lookups. -/
structure WellFormed (ji : JobInfo) : Prop where
  tasksNodup : NodupKeys ji.Tasks
  indexNodup : NodupKeys ji.TaskStatusIndex
  bucket : ∀ s m, mapGet ji.TaskStatusIndex s = some m → NodupKeys m ∧ m ≠ []
  keyUID : ∀ uid t, mapGet ji.Tasks uid = some t → t.UID = uid
  indexed_iff : ∀ s uid t,
    ji.indexed s uid = some t ↔ mapGet ji.Tasks uid = some t ∧ t.Status = s

/-- The sum of the requests of all tasks of a job, as a vector. -/
def JobInfo.requestSum (ji : JobInfo) : ResVec :=
  (ji.Tasks.map (fun e => e.2.ResReq.vec)).sum

/-- The sum of the requests of the tasks of a job whose status is an allocated
status, as a vector. -/
def JobInfo.allocatedSum (ji : JobInfo) : ResVec :=
  ((ji.Tasks.filter (fun e => AllocatedStatus e.2.Status)).map (fun e => e.2.ResReq.vec)).sum

/-- The aggregates of a job are the sums they are documented to be. -/
def SumsOK (ji : JobInfo) : Prop :=
  ji.TotalRequest.vec = ji.requestSum ∧ ji.Allocated.vec = ji.allocatedSum

/-- A job with one `Succeeded` task and `MinAvailable = 1`. -/
def succeededJob : JobInfo :=
  { JobInfo.NewJobInfo "j" [mkTask "a" Succeeded 1000 false] with MinAvailable := 1 }

/-- A job to which the task `a` was added twice, first `Pending`, then `Running`. -/
def twiceAddedJob : JobInfo :=
  JobInfo.NewJobInfo "j" [mkTask "a" Pending 1000 false, mkTask "a" Running 1000 false]

/-- A job holding one `Pending` task. -/
def pendingJob : JobInfo := JobInfo.NewJobInfo "j" [mkTask "a" Pending 1000 false]

/-! ## Accessors on the status index, `Clone` and `SetPodGroup` -/

/-- Modelled from the spec: `TaskStatus.String()` (declared in the missing
`types.go`) renders a status by its name. -/
def TaskStatus.String : TaskStatus → String
  | .Pending => "Pending"
  | .Allocated => "Allocated"
  | .Pipelined => "Pipelined"
  | .Binding => "Binding"
  | .Bound => "Bound"
  | .Running => "Running"
  | .Releasing => "Releasing"
  | .Succeeded => "Succeeded"
  | .Failed => "Failed"
  | .Unknown => "Unknown"

/-- The pod condition reason `PodReasonUnschedulable`. -/
def PodReasonUnschedulable : String := "Unschedulable"

/-- The pod condition reason `PodReasonSchedulable`. -/
def PodReasonSchedulable : String := "Schedulable"

/-- The pod condition reason `PodReasonUndetermined`. -/
def PodReasonUndetermined : String := "Undetermined"

/-- The pod-group condition reason `scheduling.PodGroupNotReady`. -/
def PodGroupNotReady : String := "NotEnoughResources"

/-- The statement `m[k]++` on a map of `int32` counters. -/
def incr (m : List (TaskID × Int)) (k : TaskID) : List (TaskID × Int) :=
  mapSet m k (wrapInt32 ((mapGet m k).getD 0 + 1))

/-- The statement `m[k] += n` on a map of `int` counters. -/
def histAdd (m : List (String × Int)) (k : String) (n : Int) : List (String × Int) :=
  mapSet m k ((mapGet m k).getD 0 + n)

namespace JobInfo

/-- `CheckTaskMinAvailable`. -/
def CheckTaskMinAvailable (ji : JobInfo) : Bool :=
  if ji.MinAvailable < ji.TaskMinAvailableTotal then true
  else
    let actual : List (TaskID × Int) :=
      ji.TaskStatusIndex.foldl
        (fun acc e =>
          if validStatus e.1 then e.2.foldl (fun a p => incr a (getTaskID p.2.Pod)) acc
          else acc) []
    ji.TaskMinAvailable.all
      (fun e =>
        match mapGet actual e.1 with
        | some act => !decide (act < e.2)
        | none => false)

/-- `CheckTaskMinAvailableReady`. -/
def CheckTaskMinAvailableReady (ji : JobInfo) : Bool :=
  if ji.MinAvailable < ji.TaskMinAvailableTotal then true
  else
    let occupiedMap : List (TaskID × Int) :=
      ji.TaskStatusIndex.foldl
        (fun acc e =>
          if AllocatedStatus e.1 || decide (e.1 = .Succeeded) then
            e.2.foldl (fun a p => incr a (getTaskID p.2.Pod)) acc
          else if e.1 = .Pending then
            e.2.foldl
              (fun a p => if p.2.InitResReq.IsEmpty then incr a (getTaskID p.2.Pod) else a) acc
          else acc) []
    ji.TaskMinAvailable.all
      (fun e => !decide ((mapGet occupiedMap e.1).getD 0 < e.2))

/-- `CheckTaskMinAvailablePipelined`. -/
def CheckTaskMinAvailablePipelined (ji : JobInfo) : Bool :=
  if ji.MinAvailable < ji.TaskMinAvailableTotal then true
  else
    let occupiedMap : List (TaskID × Int) :=
      ji.TaskStatusIndex.foldl
        (fun acc e =>
          if AllocatedStatus e.1 || decide (e.1 = .Succeeded) || decide (e.1 = .Pipelined) then
            e.2.foldl (fun a p => incr a (getTaskID p.2.Pod)) acc
          else if e.1 = .Pending then
            e.2.foldl
              (fun a p => if p.2.InitResReq.IsEmpty then incr a (getTaskID p.2.Pod) else a) acc
          else acc) []
    ji.TaskMinAvailable.all
      (fun e => !decide ((mapGet occupiedMap e.1).getD 0 < e.2))

/-- `TaskSchedulingReason`: the pair (reason, msg). -/
def TaskSchedulingReason (ji : JobInfo) (tid : TaskID) : String × String :=
  match mapGet ji.Tasks tid with
  | none => ("", "")
  | some taskInfo =>
    let ctx : TransactionContext :=
      match taskInfo.LastTx with
      | some tx => tx
      | none => taskInfo.GetTransactionContext
    let msg := ji.JobFitErrors
    match ctx.Status with
    | .Allocated =>
      (PodReasonSchedulable,
        "Pod " ++ taskInfo.Namespace ++ "/" ++ taskInfo.Name
          ++ " can possibly be assigned to " ++ ctx.NodeName)
    | .Pipelined =>
      (PodReasonSchedulable,
        "Pod " ++ taskInfo.Namespace ++ "/" ++ taskInfo.Name
          ++ " can possibly be assigned to " ++ ctx.NodeName ++ " once resource is released")
    | .Pending =>
      match mapGet ji.NodesFitErrors tid with
      | some (some fe) => (PodReasonUnschedulable, fe.Error)
      | _ => (PodReasonUndetermined, msg)
    | status => (status.String, msg)

/-- The local function `sortReasonsHistogram` of `FitError`. -/
def sortReasonsHistogram (reasons : List (String × Int)) : List String :=
  (reasons.map (fun e => toString e.2 ++ " " ++ e.1)).mergeSort (fun a b => decide (a ≤ b))

/-- The first histogram of `FitError`: the number of tasks filed under each
status, by the name of the status, and the entry `minAvailable`. -/
def statusHistogram (ji : JobInfo) : List (String × Int) :=
  let reasons : List (String × Int) :=
    ji.TaskStatusIndex.foldl (fun r e => histAdd r e.1.String (mapLen e.2)) []
  mapSet reasons "minAvailable" ji.MinAvailable

/-- The second histogram of `FitError`: the number of `Pending` tasks by
scheduling reason. -/
def pendingHistogram (ji : JobInfo) : List (String × Int) :=
  match mapGet ji.TaskStatusIndex .Pending with
  | some tasks => tasks.foldl (fun r p => histAdd r (ji.TaskSchedulingReason p.1).1 1) []
  | none => []

/-- `FitError`. -/
def FitError (ji : JobInfo) : String :=
  let reasonMsg :=
    PodGroupNotReady ++ ", " ++ ", ".intercalate (sortReasonsHistogram (statusHistogram ji))
  if mapLen (pendingHistogram ji) > 0 then
    reasonMsg ++ "; " ++ TaskStatus.Pending.String ++ ": "
      ++ ", ".intercalate (sortReasonsHistogram (pendingHistogram ji))
  else reasonMsg

/-- The loop of `Clone` over `ji.Tasks`: each task is cloned and added; a
task that cannot be cloned makes the call panic (`none`). -/
def cloneTasks : List (TaskID × TaskInfo) → JobInfo → Option JobInfo
  | [], info => some info
  | e :: r, info =>
    match e.2.Clone with
    | none => none
    | some t => cloneTasks r (info.AddTaskInfo t)

/-- The struct literal with which `Clone` starts: the scalar fields of the
original, new empty maps and resources, and copies of pod group and budget.
The field `TaskMinAvailable` is the same map object as the original's;
`ScheduleStartTimestamp` is left at its zero value. -/
def cloneBase (ji : JobInfo) (pg : Volcano.PodGroup) (budget : DisruptionBudget) : JobInfo :=
  { UID := ji.UID, Name := ji.Name, Namespace := ji.Namespace, Queue := ji.Queue,
    Priority := ji.Priority, MinAvailable := ji.MinAvailable,
    WaitingTime := ji.WaitingTime, JobFitErrors := ji.JobFitErrors,
    NodesFitErrors := [], Allocated := EmptyResource, TotalRequest := EmptyResource,
    PodGroup := some pg.Clone, TaskStatusIndex := [],
    TaskMinAvailable := ji.TaskMinAvailable,
    TaskMinAvailableTotal := ji.TaskMinAvailableTotal, Tasks := [],
    Preemptable := ji.Preemptable, RevocableZone := ji.RevocableZone,
    Budget := some budget.Clone, CreationTimestamp := ji.CreationTimestamp,
    ScheduleStartTimestamp := 0 }

/-- `Clone`.  `ji.PodGroup.Clone()` and `ji.Budget.Clone()` dereference their
receivers, so a job without pod group or budget makes the call panic (`none`). -/
def Clone (ji : JobInfo) : Option JobInfo :=
  match ji.PodGroup, ji.Budget with
  | some pg, some budget => cloneTasks ji.Tasks (cloneBase ji pg budget)
  | _, _ => none

end JobInfo

/-- The annotation key `JobWaitingTime`. -/
def JobWaitingTime : String := "sla-waiting-time"

/-- The key `schedulingv1alpha1.PodPreemptable` (the spec's `<group>/preemptable`). -/
def PodPreemptable : String := "volcano.sh/preemptable"

/-- The key `schedulingv1alpha1.RevocableZone` (the spec's `<group>/revocable-zone`). -/
def RevocableZoneKey : String := "volcano.sh/revocable-zone"

/-- The key `schedulingv1alpha1.JDBMinAvailable` (the spec's `<group>/jdb-min-available`). -/
def JDBMinAvailable : String := "volcano.sh/jdb-min-available"

/-- The key `schedulingv1alpha1.JDBMaxUnavailable` (the spec's `<group>/jdb-max-unavailable`). -/
def JDBMaxUnavailable : String := "volcano.sh/jdb-max-unavailable"

/-- Go's `strconv.ParseBool`; `none` is the error result. -/
def ParseBool (s : String) : Option Bool :=
  if s = "1" ∨ s = "t" ∨ s = "T" ∨ s = "TRUE" ∨ s = "true" ∨ s = "True" then some true
  else if s = "0" ∨ s = "f" ∨ s = "F" ∨ s = "FALSE" ∨ s = "false" ∨ s = "False" then some false
  else none

namespace JobInfo

/-- `extractWaitingTime` followed by the error handling of `SetPodGroup`: the
waiting time is nil when the annotation is absent, does not parse, or is not
positive.  `parseDuration` stands for Go's `time.ParseDuration`. -/
def extractWaitingTime (parseDuration : String → Option Int) (pg : Volcano.PodGroup) : Option Int :=
  match mapGet pg.Annotations JobWaitingTime with
  | none => none
  | some v =>
    match parseDuration v with
    | none => none
    | some waitingTime => if waitingTime ≤ 0 then none else some waitingTime

/-- `extractPreemptable`. -/
def extractPreemptable (pg : Volcano.PodGroup) : Bool :=
  match (if mapLen pg.Annotations > 0 then mapGet pg.Annotations PodPreemptable else none) with
  | some value => (ParseBool value).getD false
  | none =>
    match (if mapLen pg.Labels > 0 then mapGet pg.Labels PodPreemptable else none) with
    | some value => (ParseBool value).getD false
    | none => false

/-- `extractRevocableZone`. -/
def extractRevocableZone (pg : Volcano.PodGroup) : String :=
  if mapLen pg.Annotations > 0 then
    match mapGet pg.Annotations RevocableZoneKey with
    | some value => if value ≠ "*" then "" else value
    | none =>
      match mapGet pg.Annotations PodPreemptable with
      | some value => if ParseBool value = some true then "*" else ""
      | none => ""
  else ""

/-- `extractBudget`. -/
def extractBudget (pg : Volcano.PodGroup) : DisruptionBudget :=
  if mapLen pg.Annotations > 0 then
    match mapGet pg.Annotations JDBMinAvailable with
    | some value => NewDisruptionBudget value ""
    | none =>
      match mapGet pg.Annotations JDBMaxUnavailable with
      | some value => NewDisruptionBudget "" value
      | none => NewDisruptionBudget "" ""
  else NewDisruptionBudget "" ""

/-- The loop of `SetPodGroup` over `pg.Spec.MinTaskMember`: the map after the
assignments and the `int32` total. -/
def setTaskMinAvailable (tma : List (TaskID × Int)) (members : List (String × Int)) :
    List (TaskID × Int) × Int :=
  members.foldl (fun acc e => (mapSet acc.1 e.1 e.2, wrapInt32 (acc.2 + e.2))) (tma, 0)

/-- `SetPodGroup`. -/
def SetPodGroup (parseDuration : String → Option Int) (ji : JobInfo) (pg : Volcano.PodGroup) :
    JobInfo :=
  let r := setTaskMinAvailable ji.TaskMinAvailable pg.MinTaskMember
  { ji with
    Name := pg.Name
    Namespace := pg.Namespace
    MinAvailable := pg.MinMember
    Queue := pg.Queue
    CreationTimestamp := pg.CreationTimestamp
    WaitingTime := extractWaitingTime parseDuration pg
    Preemptable := extractPreemptable pg
    RevocableZone := extractRevocableZone pg
    Budget := some (extractBudget pg)
    TaskMinAvailable := r.1
    TaskMinAvailableTotal := r.2
    PodGroup := some pg }

end JobInfo

/-- The value of an `int32` counter after `n` increments from zero. -/
def wrapIter : Nat → Int
  | 0 => 0
  | n + 1 => wrapInt32 (wrapIter n + 1)

/-- The task-spec name of a stored task: `getTaskID(task.Pod)`. -/
def taskSpecOf (e : TaskID × TaskInfo) : TaskID := getTaskID e.2.Pod

/-- The number of tasks of the job with task-spec name `name` whose status is
an allocated status, `Succeeded`, `Pipelined` or `Pending`. -/
def JobInfo.validCount (ji : JobInfo) (name : TaskID) : Nat :=
  ji.Tasks.countP (fun e => validStatus e.2.Status && decide (taskSpecOf e = name))

/-- A pod group asking for zero `worker` tasks. -/
def zeroMemberGroup : PodGroup :=
  { Name := "pg", Namespace := "ns", Annotations := [], Labels := [],
    CreationTimestamp := 0, MinMember := 0, Queue := "q",
    MinTaskMember := [("worker", 0)], MinResources := none, Phase := "Pending" }

/-- A job without tasks whose pod group asks for zero `worker` tasks. -/
def zeroMemberJob : JobInfo :=
  JobInfo.SetPodGroup (fun _ => none) (JobInfo.NewJobInfo "j" []) zeroMemberGroup

/-- A pod group asking for one `worker` task. -/
def workerGroup : PodGroup :=
  { Name := "pg", Namespace := "ns", Annotations := [], Labels := [],
    CreationTimestamp := 0, MinMember := 1, Queue := "q",
    MinTaskMember := [("worker", 1)], MinResources := none, Phase := "Pending" }

/-- A `Pending` task of task spec `worker`. -/
def workerTask : TaskInfo :=
  { mkTask "w0" Pending 1000 false with Pod := { Annotations := [(TaskSpecKey, "worker")] } }

/-- A job with one `worker` task whose pod group asks for one. -/
def workerJob : JobInfo :=
  JobInfo.SetPodGroup (fun _ => none) (JobInfo.NewJobInfo "j" [workerTask]) workerGroup

/-! ## Jobs as objects: the shared `TaskMinAvailable` map -/

/-- The Go map objects that the field `TaskMinAvailable` of jobs refers to,
by address. -/
abbrev MapStore := List (List (TaskID × Int))

/-- A job as a Go object: the values of its fields, and the address of the map
object its field `TaskMinAvailable` refers to. -/
structure JobObject where
  fields : JobInfo
  taskMinAvailableAt : Nat
  deriving DecidableEq, Repr

/-- The job a job object denotes in a store: its field values, with
`TaskMinAvailable` read through the reference. -/
def JobObject.view (st : MapStore) (o : JobObject) : JobInfo :=
  { o.fields with TaskMinAvailable := st.getD o.taskMinAvailableAt [] }

/-- `NewJobInfo` as an allocation: `TaskMinAvailable: map[TaskID]int32{}` is a
new map object. -/
def JobObject.NewJobInfo (st : MapStore) (uid : JobID) (tasks : List TaskInfo) :
    MapStore × JobObject :=
  (st ++ [[]], ⟨JobInfo.NewJobInfo uid tasks, st.length⟩)

/-- `SetPodGroup` on a job object: the assignments `ji.TaskMinAvailable[task] = member`
write into the map object the job refers to. -/
def JobObject.SetPodGroup (parseDuration : String → Option Int) (st : MapStore)
    (o : JobObject) (pg : PodGroup) : MapStore × JobObject :=
  let v := JobInfo.SetPodGroup parseDuration (o.view st) pg
  (st.set o.taskMinAvailableAt v.TaskMinAvailable, ⟨v, o.taskMinAvailableAt⟩)

/-- `Clone` on a job object: `TaskMinAvailable: ji.TaskMinAvailable` copies the
reference, every other field is copied by value or rebuilt. -/
def JobObject.Clone (st : MapStore) (o : JobObject) : Option JobObject :=
  match (o.view st).Clone with
  | some c => some ⟨c, o.taskMinAvailableAt⟩
  | none => none

/-- A pod group asking for two tasks `a`. -/
def groupA : PodGroup :=
  { Name := "pg", Namespace := "ns", Annotations := [], Labels := [],
    CreationTimestamp := 0, MinMember := 2, Queue := "q",
    MinTaskMember := [("a", 2)], MinResources := none, Phase := "Pending" }

/-- The same pod group after its tasks were renamed: it asks for one task `b`. -/
def groupB : PodGroup :=
  { Name := "pg", Namespace := "ns", Annotations := [], Labels := [],
    CreationTimestamp := 0, MinMember := 1, Queue := "q",
    MinTaskMember := [("b", 1)], MinResources := none, Phase := "Pending" }

/-- A job given `groupA` and then `groupB`. -/
def regroupedJob : JobInfo :=
  JobInfo.SetPodGroup (fun _ => none)
    (JobInfo.SetPodGroup (fun _ => none) (JobInfo.NewJobInfo "j" []) groupA) groupB

/-- The store and the job object after `NewJobInfo` and `SetPodGroup(groupA)`. -/
def originalObject : MapStore × JobObject :=
  let r := JobObject.NewJobInfo [] "j" []
  JobObject.SetPodGroup (fun _ => none) r.1 r.2 groupA

/-- The store after the clone of `originalObject` was given `groupB`. -/
def storeAfterCloneUpdate : Option MapStore :=
  match JobObject.Clone originalObject.1 originalObject.2 with
  | some c => some (JobObject.SetPodGroup (fun _ => none) originalObject.1 c groupB).1
  | none => none

/-! ## Namespace weights -/

/-- `NamespaceWeightKey`. -/
def NamespaceWeightKey : String := "hliangzhao.io/namespace.weight"

/-- `DefaultNamespaceWeight`. -/
def DefaultNamespaceWeight : Int := 1

/-- `quotaItem`. -/
structure quotaItem where
  name : String
  weight : Int
  deriving DecidableEq, Repr

/-- `quotaItemKeyFunc`. -/
def quotaItemKeyFunc (item : quotaItem) : String := item.name

/-- `quotaItemLessFunc`. -/
def quotaItemLessFunc (a b : quotaItem) : Bool := decide (a.weight > b.weight)

/-- The heap `cache.Heap` of client-go, by its contract: the items held, one
per key. -/
abbrev Heap := List (String × quotaItem)

/-- `Heap.Update` (which is `Heap.Add`): insert the item, or replace the item of the same key. -/
def Heap.Update (h : Heap) (q : quotaItem) : Heap := mapSet h (quotaItemKeyFunc q) q

/-- `Heap.Delete`: remove the item of the same key; the error for a missing key is dropped
by the callers. -/
def Heap.Delete (h : Heap) (q : quotaItem) : Heap := mapDel h (quotaItemKeyFunc q)

/-- The item at the top of the heap: one that no other item is less than. -/
def Heap.top : Heap → Option quotaItem
  | [] => none
  | x :: r =>
    match Heap.top r with
    | none => some x.2
    | some y => if quotaItemLessFunc y x.2 then some y else some x.2

/-- `Heap.Pop`: remove and return the top item; on an empty heap the call blocks
(`none`). -/
def Heap.Pop (h : Heap) : Option (quotaItem × Heap) :=
  match Heap.top h with
  | none => none
  | some x => some (x, mapDel h (quotaItemKeyFunc x))

/-- The part of `corev1.ResourceQuota` read here; a value of `Hard` is the
integer `Quantity.Value()` renders. -/
structure ResourceQuota where
  Name : String
  Hard : List (String × Int)
  Status : String
  deriving DecidableEq, Repr

/-- `NamespaceInfo`. -/
structure NamespaceInfo where
  Name : String
  Weight : Int
  QuotaStatus : List (String × String)
  deriving DecidableEq, Repr

/-- `NamespaceCollection`. -/
structure NamespaceCollection where
  Name : String
  quotaWeight : Heap
  QuotaStatus : List (String × String)
  deriving DecidableEq, Repr

namespace NamespaceCollection

/-- `deleteWeight`. -/
def deleteWeight (nc : NamespaceCollection) (q : quotaItem) : NamespaceCollection :=
  { nc with quotaWeight := nc.quotaWeight.Delete q }

/-- `updateWeight`. -/
def updateWeight (nc : NamespaceCollection) (q : quotaItem) : NamespaceCollection :=
  { nc with quotaWeight := nc.quotaWeight.Update q }

/-- `NewNamespaceCollection`. -/
def NewNamespaceCollection (name : String) : NamespaceCollection :=
  updateWeight { Name := name, quotaWeight := [], QuotaStatus := [] }
    { name := NamespaceWeightKey, weight := DefaultNamespaceWeight }

/-- `itemFromQuota`. -/
def itemFromQuota (quota : ResourceQuota) : quotaItem :=
  { name := quota.Name,
    weight :=
      match mapGet quota.Hard NamespaceWeightKey with
      | some quotaWeight => quotaWeight
      | none => DefaultNamespaceWeight }

/-- `Update`. -/
def Update (nc : NamespaceCollection) (quota : ResourceQuota) : NamespaceCollection :=
  let nc1 := nc.updateWeight (itemFromQuota quota)
  { nc1 with QuotaStatus := mapSet nc1.QuotaStatus quota.Name quota.Status }

/-- `Delete`. -/
def Delete (nc : NamespaceCollection) (quota : ResourceQuota) : NamespaceCollection :=
  let nc1 := nc.deleteWeight (itemFromQuota quota)
  { nc1 with QuotaStatus := mapDel nc1.QuotaStatus quota.Name }

/-- `Snapshot`: the namespace info returned and the collection after the call
(the popped item is put back); `none` when `Pop` blocks on an empty heap. -/
def Snapshot (nc : NamespaceCollection) : Option (NamespaceInfo × NamespaceCollection) :=
  match nc.quotaWeight.Pop with
  | none => none
  | some (item, rest) =>
    some ({ Name := nc.Name, Weight := item.weight, QuotaStatus := nc.QuotaStatus },
          { nc with quotaWeight := Heap.Update rest item })

end NamespaceCollection

/-- One call on a namespace collection. -/
inductive QuotaOp
  | update (quota : ResourceQuota)
  | delete (quota : ResourceQuota)
  deriving DecidableEq, Repr

/-- The quota a call is about. -/
def QuotaOp.quota : QuotaOp → ResourceQuota
  | .update q => q
  | .delete q => q

/-- The collection after one call. -/
def NamespaceCollection.step (nc : NamespaceCollection) : QuotaOp → NamespaceCollection
  | .update q => nc.Update q
  | .delete q => nc.Delete q

/-- The collection after a sequence of calls. -/
def NamespaceCollection.run (nc : NamespaceCollection) (ops : List QuotaOp) :
    NamespaceCollection :=
  ops.foldl NamespaceCollection.step nc

/-- The weight a quota counts with: its weight entry, or 1 without one. -/
def quotaWeightOf (quota : ResourceQuota) : Int :=
  (mapGet quota.Hard NamespaceWeightKey).getD 1

/-- The effect of one call on the quotas present: an update records the quota
under its name with its weight, a delete removes the quota of that name. -/
def presentStep (acc : List (String × Int)) : QuotaOp → List (String × Int)
  | .update q => mapSet acc q.Name (quotaWeightOf q)
  | .delete q => mapDel acc q.Name

/-- The quotas present after a sequence of calls, by name, each with the weight
of its latest update. -/
def presentQuotas (ops : List QuotaOp) : List (String × Int) :=
  ops.foldl presentStep []

/-- The maximum of the default weight 1 and the weights of the quotas present. -/
def expectedWeight (ops : List QuotaOp) : Int :=
  (presentQuotas ops).foldr (fun e m => max e.2 m) 1

/-- A quota named like the weight key, with weight 0. -/
def keyNamedQuota : ResourceQuota :=
  { Name := NamespaceWeightKey, Hard := [(NamespaceWeightKey, 0)], Status := "" }

/-- The heap holds the default item and one item per quota present. -/
def HeapTracks (nc : NamespaceCollection) (present : List (String × Int)) : Prop :=
  NodupKeys nc.quotaWeight ∧ NodupKeys present ∧
  (∀ p ∈ present, p.1 ≠ NamespaceWeightKey) ∧
  ∀ k, mapGet nc.quotaWeight k =
    if k = NamespaceWeightKey then some ⟨NamespaceWeightKey, DefaultNamespaceWeight⟩
    else (mapGet present k).map (fun w => ⟨k, w⟩)

/-- The fields of a job that `AddTaskInfo`, `DeleteTaskInfo` and
`UpdateTaskStatus` leave alone. -/
def sameFrame (a b : JobInfo) : Prop :=
  a.MinAvailable = b.MinAvailable ∧ a.TaskMinAvailable = b.TaskMinAvailable ∧
  a.TaskMinAvailableTotal = b.TaskMinAvailableTotal ∧ a.JobFitErrors = b.JobFitErrors ∧
  a.NodesFitErrors = b.NodesFitErrors ∧ a.PodGroup = b.PodGroup ∧ a.Budget = b.Budget

/-- A job with one best-effort `Pending` task for which the last session
recorded a fit error. -/
def fitErrorJob : JobInfo :=
  { JobInfo.SetPodGroup (fun _ => none)
      (JobInfo.NewJobInfo "j" [mkTask "a" Pending 0 true]) groupA with
    NodesFitErrors := [("a", some ⟨"0/1 nodes are available"⟩)] }

/-! ## Namespace snapshots as objects: the shared `QuotaStatus` map -/

/-- The Go map objects that the field `QuotaStatus` of namespace collections
and namespace infos refers to, by address. -/
abbrev StatusStore := List (List (String × String))

/-- A namespace collection as a Go object: the values of its fields, and the
address of the map object its field `QuotaStatus` refers to. -/
structure NamespaceObject where
  fields : NamespaceCollection
  quotaStatusAt : Nat
  deriving DecidableEq, Repr

/-- A namespace info as a Go object: name and weight by value, `QuotaStatus`
by reference. -/
structure NamespaceInfoObject where
  Name : String
  Weight : Int
  quotaStatusAt : Nat
  deriving DecidableEq, Repr

/-- The collection an object denotes in a store. -/
def NamespaceObject.view (st : StatusStore) (o : NamespaceObject) : NamespaceCollection :=
  { o.fields with QuotaStatus := st.getD o.quotaStatusAt [] }

/-- The namespace info an object denotes in a store. -/
def NamespaceInfoObject.view (st : StatusStore) (o : NamespaceInfoObject) : NamespaceInfo :=
  { Name := o.Name, Weight := o.Weight, QuotaStatus := st.getD o.quotaStatusAt [] }

/-- `NewNamespaceCollection` as an allocation:
`QuotaStatus: map[string]corev1.ResourceQuotaStatus{}` is a new map object. -/
def NamespaceObject.NewNamespaceCollection (st : StatusStore) (name : String) :
    StatusStore × NamespaceObject :=
  (st ++ [[]], ⟨NamespaceCollection.NewNamespaceCollection name, st.length⟩)

/-- `Update` on an object: `nc.QuotaStatus[quota.Name] = quota.Status` writes
into the map object the collection refers to. -/
def NamespaceObject.Update (st : StatusStore) (o : NamespaceObject) (quota : ResourceQuota) :
    StatusStore × NamespaceObject :=
  let v := (o.view st).Update quota
  (st.set o.quotaStatusAt v.QuotaStatus, ⟨v, o.quotaStatusAt⟩)

/-- `Delete` on an object: `delete(nc.QuotaStatus, quota.Name)` writes into the
map object the collection refers to. -/
def NamespaceObject.Delete (st : StatusStore) (o : NamespaceObject) (quota : ResourceQuota) :
    StatusStore × NamespaceObject :=
  let v := (o.view st).Delete quota
  (st.set o.quotaStatusAt v.QuotaStatus, ⟨v, o.quotaStatusAt⟩)

/-- `Snapshot` on an object: `QuotaStatus: nc.QuotaStatus` copies the
reference into the namespace info; the weight is copied by value. -/
def NamespaceObject.Snapshot (st : StatusStore) (o : NamespaceObject) :
    Option (NamespaceInfoObject × NamespaceObject) :=
  match (o.view st).Snapshot with
  | some (info, nc) =>
    some (⟨info.Name, info.Weight, o.quotaStatusAt⟩, ⟨nc, o.quotaStatusAt⟩)
  | none => none

/-- A quota `q1` of weight 5 with status `used-1`. -/
def quotaOne : ResourceQuota :=
  { Name := "q1", Hard := [(NamespaceWeightKey, 5)], Status := "used-1" }

/-- A quota `q2` without weight entry, with status `used-2`. -/
def quotaTwo : ResourceQuota :=
  { Name := "q2", Hard := [], Status := "used-2" }

/-- The store and the collection after `NewNamespaceCollection("ns")` and `Update(q1)`. -/
def collectionWithOne : StatusStore × NamespaceObject :=
  let r := NamespaceObject.NewNamespaceCollection [] "ns"
  NamespaceObject.Update r.1 r.2 quotaOne

/-- The snapshot taken of `collectionWithOne`, as seen when it is taken and as
seen after `Update(q2)` on the collection. -/
def snapshotBeforeAfter : Option (NamespaceInfo × NamespaceInfo) :=
  match NamespaceObject.Snapshot collectionWithOne.1 collectionWithOne.2 with
  | some (s, nc) =>
    let st2 := (NamespaceObject.Update collectionWithOne.1 nc quotaTwo).1
    some (s.view collectionWithOne.1, s.view st2)
  | none => none

/-! ## NUMA topology -/

/-- The set `cpuset.CPUSet` of the kubelet, by its contract: the CPU ids it
holds, each once. -/
abbrev CPUSet := List Nat

/-- `CPUSet.Size`. -/
def CPUSet.Size (s : CPUSet) : Nat := s.length

/-- `NumaChangeFlag`. -/
inductive NumaChangeFlag
  | NumaInfoResetFlag
  | NumaInfoMoreFlag
  | NumaInfoLessFlag
  deriving DecidableEq, Repr

/-- `ResourceInfo`; the per-NUMA quantities `AllocatablePerNuma` and
`UsedPerNuma` are not read by the functions embedded here and are left out. -/
structure ResourceInfo where
  Allocatable : CPUSet
  Capacity : Int
  deriving DecidableEq, Repr

/-- `NumaTopoInfo`; `CPUDetail` and `ResReserved` are not read by the functions
embedded here and are left out. -/
structure NumaTopoInfo where
  Namespace : String
  Name : String
  Policies : List (String × String)
  NumaResMap : List (String × ResourceInfo)
  deriving DecidableEq, Repr

/-- The loop of `Compare` over the resource names of `info.NumaResMap`, in the
order the map is ranged over.  `newInfo.NumaResMap[resName]` is nil for a
name the new info does not have, and reading its `Allocatable` panics (`none`). -/
def NumaTopoInfo.compareLoop (newInfo : NumaTopoInfo) :
    List (String × ResourceInfo) → Option Bool
  | [] => some false
  | e :: rest =>
    match mapGet newInfo.NumaResMap e.1 with
    | none => none
    | some n =>
      if e.2.Allocatable.Size ≤ n.Allocatable.Size then some true
      else NumaTopoInfo.compareLoop newInfo rest

/-- `NumaTopoInfo.Compare`. -/
def NumaTopoInfo.Compare (info newInfo : NumaTopoInfo) : Option Bool :=
  NumaTopoInfo.compareLoop newInfo info.NumaResMap

/-- The resource info of the CRD `nodeinfov1alpha1.ResourceInfo`. -/
structure NumaResourceSpec where
  Allocatable : String
  Capacity : Int
  deriving DecidableEq, Repr

/-- The part of the CRD `nodeinfov1alpha1.Numatopology` read by `getNumaInfo`
for the fields kept in `NumaTopoInfo`. -/
structure Numatopology where
  Namespace : String
  Name : String
  Policies : List (String × String)
  NumaResMap : List (String × NumaResourceSpec)
  deriving DecidableEq, Repr

/-- The loop of `getNumaInfo` over `srcInfo.Spec.NumaResMap`; `mustParse`
stands for `cpuset.MustParse`, which panics (`none`) on a malformed set. -/
def getNumaResMap (mustParse : String → Option CPUSet) :
    List (String × NumaResourceSpec) → List (String × ResourceInfo) →
      Option (List (String × ResourceInfo))
  | [], acc => some acc
  | e :: rest, acc =>
    match mustParse e.2.Allocatable with
    | none => none
    | some s => getNumaResMap mustParse rest (mapSet acc e.1 ⟨s, e.2.Capacity⟩)

/-- `getNumaInfo`. -/
def getNumaInfo (mustParse : String → Option CPUSet) (srcInfo : Numatopology) :
    Option NumaTopoInfo :=
  match getNumaResMap mustParse srcInfo.NumaResMap [] with
  | none => none
  | some resMap =>
    some { Namespace := srcInfo.Namespace, Name := srcInfo.Name,
           Policies := srcInfo.Policies.foldl (fun acc e => mapSet acc e.1 e.2) [],
           NumaResMap := resMap }

/-- Modelled from the spec: `NodeInfo` (declared in the missing
`node_info.go`), reduced to its name, the NUMA fields the cache handlers
write, the resource vectors and the tasks placed on the node. -/
structure NodeInfo where
  Name : String
  NumaInfo : Option NumaTopoInfo
  NumaChgFlag : NumaChangeFlag
  Allocatable : Resource := Resource.EmptyResource
  Idle : Resource := Resource.EmptyResource
  Used : Resource := Resource.EmptyResource
  Tasks : List (TaskID × TaskInfo) := []
  deriving DecidableEq, Repr

/-- Modelled from the spec: `NewNodeInfo(nil)` makes a placeholder node
without name and without NUMA info. -/
def NewNodeInfo : NodeInfo :=
  { Name := "", NumaInfo := none, NumaChgFlag := .NumaInfoResetFlag }

/-- The part of `SchedulerCache` the NUMA handlers, the node handlers and
`getOrCreateJob` work on. -/
structure SchedulerCache where
  Nodes : List (String × NodeInfo)
  NodeList : List String := []
  Jobs : List (JobID × JobInfo) := []
  schedulerName : String := ""
  deriving DecidableEq, Repr

namespace SchedulerCache

/-- `addNumaInfo`: the cache after the call; `none` when `getNumaInfo` or
`Compare` panics.  The call returns no error. -/
def addNumaInfo (mustParse : String → Option CPUSet) (sc : SchedulerCache)
    (info : Numatopology) : Option SchedulerCache :=
  let node : NodeInfo :=
    match mapGet sc.Nodes info.Name with
    | some n => n
    | none => { NewNodeInfo with Name := info.Name }
  match node.NumaInfo with
  | none =>
    match getNumaInfo mustParse info with
    | none => none
    | some newInfo =>
      some { sc with
        Nodes := (mapSet sc.Nodes info.Name
          { node with NumaInfo := some newInfo, NumaChgFlag := .NumaInfoMoreFlag }) }
  | some old =>
    match getNumaInfo mustParse info with
    | none => none
    | some newLocalInfo =>
      match old.Compare newLocalInfo with
      | none => none
      | some true =>
        some { sc with
          Nodes := (mapSet sc.Nodes info.Name
            { node with NumaChgFlag := .NumaInfoMoreFlag, NumaInfo := some newLocalInfo }) }
      | some false =>
        some { sc with
          Nodes := (mapSet sc.Nodes info.Name
            { node with NumaChgFlag := .NumaInfoLessFlag, NumaInfo := some newLocalInfo }) }

/-- `deleteNumaInfo`. -/
def deleteNumaInfo (sc : SchedulerCache) (info : Numatopology) : SchedulerCache :=
  match mapGet sc.Nodes info.Name with
  | some node =>
    { sc with
      Nodes := (mapSet sc.Nodes info.Name
        { node with NumaInfo := none, NumaChgFlag := .NumaInfoResetFlag }) }
  | none => sc

end SchedulerCache

/-- A set parser for the examples: `"0-1"` and `"0-3"` are read, any other text is malformed. -/
def exampleParse (s : String) : Option CPUSet :=
  if s = "0-1" then some [0, 1]
  else if s = "0-3" then some [0, 1, 2, 3]
  else if s = "" then some []
  else none

/-- NUMA info with two CPUs. -/
def numaTwoCpus : NumaTopoInfo :=
  { Namespace := "", Name := "n1", Policies := [], NumaResMap := [("cpu", ⟨[0, 1], 2⟩)] }

/-- NUMA info that lists no resource. -/
def numaNoResource : NumaTopoInfo :=
  { Namespace := "", Name := "n1", Policies := [], NumaResMap := [] }

/-- A topology object for node `n1` with four CPUs. -/
def topoFourCpus : Numatopology :=
  { Namespace := "", Name := "n1", Policies := [], NumaResMap := [("cpu", ⟨"0-3", 4⟩)] }

/-- A cache in which node `n1` has NUMA info with two CPUs. -/
def cacheWithNuma : SchedulerCache :=
  { Nodes := [("n1", { Name := "n1", NumaInfo := some numaTwoCpus,
                        NumaChgFlag := .NumaInfoMoreFlag })] }

/-- NUMA info with four CPUs. -/
def numaFourCpus : NumaTopoInfo :=
  { Namespace := "", Name := "n1", Policies := [], NumaResMap := [("cpu", ⟨[0, 1, 2, 3], 4⟩)] }

/-- The test "at least one resource did not shrink": some resource name of
`info.NumaResMap` has in `newInfo` an allocatable set at least as large as in
`info`. -/
def NumaTopoInfo.didNotShrink (info newInfo : NumaTopoInfo) : Bool :=
  info.NumaResMap.any
    (fun e =>
      match mapGet newInfo.NumaResMap e.1 with
      | some n => decide (e.2.Allocatable.Size ≤ n.Allocatable.Size)
      | none => false)

/-! ## The job cache of the controllers -/

namespace Controller

/-- The pod phases of `corev1`. -/
inductive PodPhase
  | Pending | Running | Succeeded | Failed | Unknown
  deriving DecidableEq, Repr

/-- The part of `corev1.Pod` the job cache reads: the phase, the restart
counts of the init container statuses and of the container statuses, and the
name, namespace and annotations. -/
structure Pod where
  Phase : PodPhase
  InitContainerStatuses : List Int
  ContainerStatuses : List Int
  Name : String := ""
  Namespace : String := ""
  Annotations : List (String × String) := []
  deriving DecidableEq, Repr

/-- The part of `batchv1alpha1.TaskSpec` read here. -/
structure TaskSpec where
  Name : String
  Replicas : Int
  MaxRetry : Int
  deriving DecidableEq, Repr

/-- The phases of a job, `batchv1alpha1.JobPhase`. -/
inductive JobPhase
  | Pending | Aborting | Aborted | Running | Restarting | Completing | Completed
  | Terminating | Terminated | Failed
  deriving DecidableEq, Repr

/-- Modelled from the spec: `batchv1alpha1.JobStatus` (declared in a file that
is not part of the sources): the phase with its reason and message, the pod
counts, the version and the retry count, all `int32`. -/
structure JobStatus where
  Phase : JobPhase
  Reason : String
  Message : String
  MinAvailable : Int
  Pending : Int
  Running : Int
  Succeeded : Int
  Failed : Int
  Terminating : Int
  Unknown : Int
  Version : Int
  RetryCount : Int
  deriving DecidableEq, Repr

/-- The part of `batchv1alpha1.Job` read here. -/
structure Job where
  Name : String
  Namespace : String
  Tasks : List TaskSpec
  MaxRetry : Int
  MinAvailable : Int
  Status : JobStatus
  deriving DecidableEq, Repr

/-- `controllerapis.JobInfo`: the job object, which may be nil, and the pods by
task name and pod name. -/
structure JobInfo where
  Namespace : String
  Name : String
  Job : Option Job
  Pods : List (String × List (String × Pod))
  deriving DecidableEq, Repr

/-- The part of `jobCache` read by the task tests. -/
structure jobCache where
  jobInfos : List (String × JobInfo)
  deriving DecidableEq, Repr

/-- The loop `for _, task := range ji.Job.Spec.Tasks` with its `break`: the
first task spec of the given name, if any. -/
def findTask (tasks : List TaskSpec) (taskName : String) : Option TaskSpec :=
  tasks.find? (fun task => decide (task.Name = taskName))

namespace jobCache

/-- `TaskCompleted`. -/
def TaskCompleted (jc : jobCache) (jobKey taskName : String) : Bool :=
  match mapGet jc.jobInfos jobKey with
  | none => false
  | some ji =>
    match mapGet ji.Pods taskName, ji.Job with
    | some taskPods, some job =>
      let taskReplicas : Int :=
        match findTask job.Tasks taskName with
        | some task => task.Replicas
        | none => 0
      if taskReplicas ≤ 0 then false
      else
        let completed : Int :=
          taskPods.foldl
            (fun c p => if p.2.Phase = PodPhase.Succeeded then wrapInt32 (c + 1) else c) 0
        decide (completed ≥ taskReplicas)
    | _, _ => false

/-- The loop of `TaskFailed` over the pods of the task: the `int32` sum of the
restart counts of the pods that are running or pending. -/
def retriedOf (taskPods : List (String × Pod)) : Int :=
  taskPods.foldl
    (fun retried p =>
      if p.2.Phase = PodPhase.Running ∨ p.2.Phase = PodPhase.Pending then
        p.2.ContainerStatuses.foldl (fun r c => wrapInt32 (r + c))
          (p.2.InitContainerStatuses.foldl (fun r c => wrapInt32 (r + c)) retried)
      else retried) 0

/-- `TaskFailed`. -/
def TaskFailed (jc : jobCache) (jobKey taskName : String) : Bool :=
  match mapGet jc.jobInfos jobKey with
  | none => false
  | some ji =>
    match mapGet ji.Pods taskName, ji.Job with
    | some taskPods, some job =>
      let found := findTask job.Tasks taskName
      let maxRetry : Int :=
        match found with
        | some task => task.MaxRetry
        | none => 0
      let taskReplicas : Int :=
        match found with
        | some task => task.Replicas
        | none => 0
      if taskReplicas = 0 ∨ maxRetry = -1 then false
      else
        let maxRetry : Int := if maxRetry = 0 then 3 else maxRetry
        decide (retriedOf taskPods > maxRetry)
    | _, _ => false

end jobCache

/-- The number of pods of a task that are in phase `Succeeded`. -/
def succeededPods (taskPods : List (String × Pod)) : Nat :=
  taskPods.countP (fun p => decide (p.2.Phase = PodPhase.Succeeded))

/-- The sum of the restart counts over the init container statuses and the
container statuses of the pods of a task that are running or pending. -/
def restartSum (taskPods : List (String × Pod)) : Int :=
  ((taskPods.filter (fun p =>
      decide (p.2.Phase = PodPhase.Running ∨ p.2.Phase = PodPhase.Pending))).map
    (fun p => p.2.InitContainerStatuses.sum + p.2.ContainerStatuses.sum)).sum

/-- A job status with the given phase and zero counts. -/
def blankStatus (phase : JobPhase) : JobStatus :=
  { Phase := phase, Reason := "", Message := "", MinAvailable := 0, Pending := 0,
    Running := 0, Succeeded := 0, Failed := 0, Terminating := 0, Unknown := 0,
    Version := 0, RetryCount := 0 }

/-- A job with one task `worker` of the given replicas and retry limit. -/
def jobWith (replicas maxRetry : Int) : Job :=
  { Name := "j", Namespace := "ns", Tasks := [⟨"worker", replicas, maxRetry⟩],
    MaxRetry := 2, MinAvailable := 1, Status := blankStatus JobPhase.Running }

/-- A cache holding one job with the task `worker` and the given pods of it. -/
def cacheWith (replicas maxRetry : Int) (pods : List (String × Pod)) : jobCache :=
  { jobInfos := [("ns/j", { Namespace := "ns", Name := "j",
                             Job := some (jobWith replicas maxRetry),
                             Pods := [("worker", pods)] })] }

end Controller

/-! ## The job states `Aborted`, `Aborting` and `Restarting` -/

namespace Controller

/-- The actions of `busv1alpha1`, a string type. -/
abbrev Action : Type := String

/-- `busv1alpha1.ResumeJobAction`. -/
def ResumeJobAction : Action := "ResumeJob"

/-- `busv1alpha1.AbortJobAction`. -/
def AbortJobAction : Action := "AbortJob"

/-- `busv1alpha1.SyncJobAction`. -/
def SyncJobAction : Action := "SyncJob"

/-- Modelled from the spec: the pod retain phases of the job states (declared
in a file that is not part of the sources): `PodRetainPhaseSoft` retains pods in
`Succeeded` and `Failed`, `PodRetainPhaseNone` retains none. -/
inductive PhaseMap
  | PodRetainPhaseNone
  | PodRetainPhaseSoft
  deriving DecidableEq, Repr

/-- `UpdateJobStatusFn`: the status after the call and whether the job phase
changed; `none` when the function panics. -/
abbrev UpdateJobStatusFn := JobStatus → Option (JobStatus × Bool)

/-- A call of the function variable `KillJob`, which the controller sets: the
job, the pod retain phase and the status update function, which may be nil. -/
structure KillJobCall where
  job : JobInfo
  podRetainPhase : PhaseMap
  fn : Option UpdateJobStatusFn

/-- The status update function of a resume: `status.State.Phase = Restarting;
status.RetryCount++; return true`. -/
def resumeFn : UpdateJobStatusFn := fun status =>
  some ({ status with Phase := JobPhase.Restarting,
                      RetryCount := wrapInt32 (status.RetryCount + 1) }, true)

/-- `abortedState.Execute`: the call of `KillJob` whose result it returns. -/
def abortedState.Execute (job : JobInfo) (action : Action) : KillJobCall :=
  if action = ResumeJobAction then
    ⟨job, PhaseMap.PodRetainPhaseSoft, some resumeFn⟩
  else
    ⟨job, PhaseMap.PodRetainPhaseSoft, none⟩

/-- `abortingState.Execute`: the call of `KillJob` whose result it returns. -/
def abortingState.Execute (job : JobInfo) (act : Action) : KillJobCall :=
  if act = ResumeJobAction then
    ⟨job, PhaseMap.PodRetainPhaseSoft, some resumeFn⟩
  else
    ⟨job, PhaseMap.PodRetainPhaseSoft, some (fun status =>
      if status.Terminating ≠ 0 ∨ status.Pending ≠ 0 ∨ status.Running ≠ 0 then
        some (status, false)
      else
        some ({ status with Phase := JobPhase.Aborted }, true))⟩

/-- `restartingState.Execute`: the call of `KillJob` whose result it returns.
The update function reads `state.job.Job.Spec` and panics when the job object
is nil. -/
def restartingState.Execute (job : JobInfo) (_act : Action) : KillJobCall :=
  ⟨job, PhaseMap.PodRetainPhaseSoft, some (fun status =>
    match job.Job with
    | none => none
    | some j =>
      let maxRetry := j.MaxRetry
      if status.RetryCount ≥ maxRetry then
        some ({ status with Phase := JobPhase.Failed }, true)
      else
        let total : Int := j.Tasks.foldl (fun total task => wrapInt32 (total + task.Replicas)) 0
        if wrapInt32 (total - status.Terminating) ≥ status.MinAvailable then
          some ({ status with Phase := JobPhase.Pending }, true)
        else some (status, false))⟩

/-- The sum of the replicas of the tasks of a job. -/
def totalReplicas (j : Job) : Int := (j.Tasks.map (fun task => task.Replicas)).sum

/-- A job info around the job `jobWith 3 0`, whose `MaxRetry` is 2. -/
def restartingJob : JobInfo :=
  { Namespace := "ns", Name := "j", Job := some (jobWith 3 0), Pods := [] }

end Controller

/-! ## The queue controller -/

namespace QueueController

/-- Modelled from the spec: the queue state `schedulingv1alpha1.QueueStateOpen`,
declared outside the sources. -/
def QueueStateOpen : String := "Open"

/-- Modelled from the spec: the queue state `schedulingv1alpha1.QueueStateClosed`. -/
def QueueStateClosed : String := "Closed"

/-- Modelled from the spec: the pod-group phase `schedulingv1alpha1.PodGroupPending`;
the four phases named in the `switch` of `syncQueue` are distinct constants. -/
def PodGroupPending : String := "Pending"

/-- Modelled from the spec: the pod-group phase `schedulingv1alpha1.PodGroupRunning`. -/
def PodGroupRunning : String := "Running"

/-- Modelled from the spec: the pod-group phase `schedulingv1alpha1.PodGroupUnknown`. -/
def PodGroupUnknown : String := "Unknown"

/-- Modelled from the spec: the pod-group phase `schedulingv1alpha1.PodGroupInqueue`. -/
def PodGroupInqueue : String := "Inqueue"

/-- Modelled from the spec: the command action `busv1alpha1.OpenQueueAction`. -/
def OpenQueueAction : String := "OpenQueue"

/-- Modelled from the spec: the command action `busv1alpha1.CloseQueueAction`. -/
def CloseQueueAction : String := "CloseQueue"

/-- Modelled from the spec: `schedulingv1alpha1.QueueStatus` (declared in a
file that is not part of the sources): the state and the `int32` counts of
pod groups that are unknown, pending, running and in queue. -/
structure QueueStatus where
  State : String
  Unknown : Int
  Pending : Int
  Running : Int
  Inqueue : Int
  deriving DecidableEq, Repr

/-- Modelled from the spec: the part of `schedulingv1alpha1.Queue` read here (name,
weight and status). -/
structure Queue where
  Name : String
  Weight : Int
  Status : QueueStatus
  deriving DecidableEq, Repr

/-- Modelled from the spec: `Queue.DeepCopy` (generated code), a copy equal to the
queue. -/
def Queue.DeepCopy (q : Queue) : Queue := q

/-- `state.UpdateQueueStatusFn`: the status after the call. -/
abbrev UpdateQueueStatusFn := QueueStatus → List String → QueueStatus

/-- A call the controller issues: `Update`, `Get` and `UpdateStatus` on the
queue client, and `Event` on the recorder with type, reason and message. -/
inductive Call
  | Update (q : Queue)
  | Get (name : String)
  | UpdateStatus (q : Queue)
  | Event (q : Queue) (eventType reason message : String)
  deriving DecidableEq, Repr

/-- What the controller's collaborators answer: the pod-group keys kept for a
queue, the pod-group lister (the phase of the pod group, or an error), and the
queue client. -/
structure Env where
  getPodgroups : String → List String
  getPodGroup : String → Except String String
  update : Queue → Except String Queue
  get : String → Except String Queue
  updateStatus : Queue → Except String Queue

/-- The calls issued and the error returned, if any. -/
structure Outcome where
  calls : List Call
  err : Option String
  deriving DecidableEq, Repr

/-- The `switch pg.Status.Phase` of `syncQueue`. -/
def countPhase (queueStatus : QueueStatus) (phase : String) : QueueStatus :=
  if phase = PodGroupPending then
    { queueStatus with Pending := wrapInt32 (queueStatus.Pending + 1) }
  else if phase = PodGroupRunning then
    { queueStatus with Running := wrapInt32 (queueStatus.Running + 1) }
  else if phase = PodGroupUnknown then
    { queueStatus with Unknown := wrapInt32 (queueStatus.Unknown + 1) }
  else if phase = PodGroupInqueue then
    { queueStatus with Inqueue := wrapInt32 (queueStatus.Inqueue + 1) }
  else queueStatus

/-- The loop of `syncQueue` over the pod-group keys: the status counted so far,
or the error of the first lookup that fails. -/
def countLoop (env : Env) : List String → QueueStatus → Except String QueueStatus
  | [], queueStatus => .ok queueStatus
  | pgKey :: rest, queueStatus =>
    match env.getPodGroup pgKey with
    | .error err => .error err
    | .ok phase => countLoop env rest (countPhase queueStatus phase)

/-- `syncQueue`. -/
def syncQueue (env : Env) (queue : Queue) (updateStateFn : Option UpdateQueueStatusFn) :
    Outcome :=
  let podgroups := env.getPodgroups queue.Name
  match countLoop env podgroups ⟨"", 0, 0, 0, 0⟩ with
  | .error err => ⟨[], some err⟩
  | .ok counted =>
    let queueStatus : QueueStatus :=
      match updateStateFn with
      | some fn => fn counted podgroups
      | none => { counted with State := queue.Status.State }
    if queueStatus = queue.Status then ⟨[], none⟩
    else
      let newQueue : Queue := { queue.DeepCopy with Status := queueStatus }
      match env.updateStatus newQueue with
      | .error err => ⟨[Call.UpdateStatus newQueue], some err⟩
      | .ok _ => ⟨[Call.UpdateStatus newQueue], none⟩

/-- The body shared by `openQueue` and `closeQueue`, which differ in the target
state, the action named in the events, the words of the events, and the
pod-group keys handed to the update function. -/
def switchQueue (target action failed succeed : String) (pgList : String → List String)
    (env : Env) (queue : Queue) (updateStateFn : Option UpdateQueueStatusFn) : Outcome :=
  let newQueue : Queue :=
    { queue.DeepCopy with Status := { queue.DeepCopy.Status with State := target } }
  if queue.Status.State ≠ newQueue.Status.State then
    match env.update newQueue with
    | .error err =>
      ⟨[Call.Update newQueue, Call.Event newQueue "Warning" action (failed ++ err)], some err⟩
    | .ok _ =>
      let calls1 := [Call.Update newQueue, Call.Event newQueue "Normal" action succeed]
      match env.get newQueue.Name with
      | .error err => ⟨calls1 ++ [Call.Get newQueue.Name], some err⟩
      | .ok q =>
        let calls2 := calls1 ++ [Call.Get newQueue.Name]
        match updateStateFn with
        | none => ⟨calls2, some "internal error, update state function should be provided"⟩
        | some fn =>
          let newQueue2 : Queue :=
            { q.DeepCopy with Status := fn q.DeepCopy.Status (pgList q.DeepCopy.Name) }
          if queue.Status.State ≠ newQueue2.Status.State then
            match env.updateStatus newQueue2 with
            | .error err =>
              ⟨calls2 ++ [Call.UpdateStatus newQueue2,
                 Call.Event newQueue2 "Warning" action
                   ("Update queue status from " ++ queue.Status.State ++ " to "
                     ++ newQueue2.Status.State ++ " failed for " ++ err)], some err⟩
            | .ok _ => ⟨calls2 ++ [Call.UpdateStatus newQueue2], none⟩
          else ⟨calls2, none⟩
  else ⟨[], none⟩

/-- `openQueue`: the update function is given no pod-group keys. -/
def openQueue (env : Env) (queue : Queue) (updateStateFn : Option UpdateQueueStatusFn) :
    Outcome :=
  switchQueue QueueStateOpen OpenQueueAction "Open queue failed for " "Open queue succeed"
    (fun _ => []) env queue updateStateFn

/-- `closeQueue`: the update function is given the pod-group keys of the queue. -/
def closeQueue (env : Env) (queue : Queue) (updateStateFn : Option UpdateQueueStatusFn) :
    Outcome :=
  switchQueue QueueStateClosed CloseQueueAction "Close queue failed for "
    "Close queue succeed" env.getPodgroups env queue updateStateFn

/-- The status `syncQueue` counts from the phases of the pod groups of a queue
when no update function is given. -/
def countedStatus (state : String) (phases : List String) : QueueStatus :=
  { State := state,
    Unknown := (phases.count PodGroupUnknown : Nat),
    Pending := (phases.count PodGroupPending : Nat),
    Running := (phases.count PodGroupRunning : Nat),
    Inqueue := (phases.count PodGroupInqueue : Nat) }

/-- Collaborators for the examples: queue `q1` has the pod groups `a`
(pending), `b` (running) and `c` (completed); the client accepts every call. -/
def exampleEnv : Env :=
  { getPodgroups := fun _ => ["ns/a", "ns/b", "ns/c"],
    getPodGroup := fun k =>
      if k = "ns/a" then .ok "Pending" else if k = "ns/b" then .ok "Running"
      else .ok "Completed",
    update := fun q => .ok q,
    get := fun n => .ok ⟨n, 1, ⟨"Open", 0, 0, 0, 0⟩⟩,
    updateStatus := fun q => .ok q }

/-- A closed queue `q1` with zero counts. -/
def closedQueue : Queue := ⟨"q1", 1, ⟨"Closed", 0, 0, 0, 0⟩⟩

/-- An open queue `q1` whose status already counts one pending and one running
pod group. -/
def openedQueue : Queue := ⟨"q1", 1, ⟨"Open", 0, 1, 1, 0⟩⟩

/-- Collaborators whose lister does not find the pod group `b`. -/
def failingEnv : Env :=
  { exampleEnv with
    getPodGroup := fun k =>
      if k = "ns/a" then .ok "Pending" else if k = "ns/b" then .error "not found"
      else .ok "Completed" }

end QueueController

/-! ## The work queues of the queue controller -/

namespace QueueController

/-- The part of `controllerapis.Request` the queue controller fills in and reads. -/
structure Request where
  QueueName : String
  Event : String
  Action : String
  deriving DecidableEq, Repr

/-- Modelled from the spec: the event `busv1alpha1.CommandIssuedEvent`. -/
def CommandIssuedEvent : String := "CommandIssued"

/-- An event handed to `recordEventsForQueue` (a helper declared outside the
sources): queue name, event type, reason and message. -/
structure QueueEvent where
  name : String
  eventType : String
  reason : String
  message : String
  deriving DecidableEq, Repr

/-- Modelled from the spec: the rate-limited work queue `qc.queue` of client-go,
reduced to what `handleQueueErr` uses.  Items are the pointers handed to the
queue, here numbers.  `failures` is the requeue count the rate limiter keeps
per item and `added` lists the items added again, oldest first. -/
structure WorkQueue where
  failures : List (Nat × Nat)
  added : List Nat
  deriving DecidableEq, Repr

namespace WorkQueue

/-- Modelled from the spec: `NumRequeues(obj)`, the number of times the item
was added rate-limited since it was last forgotten. -/
def NumRequeues (q : WorkQueue) (obj : Nat) : Nat := (mapGet q.failures obj).getD 0

/-- Modelled from the spec: `AddRateLimited(obj)` counts one more requeue of
the item and adds it to the queue again. -/
def AddRateLimited (q : WorkQueue) (obj : Nat) : WorkQueue :=
  { failures := mapSet q.failures obj (q.NumRequeues obj + 1), added := q.added ++ [obj] }

/-- Modelled from the spec: `Forget(obj)` clears the requeue count of the item. -/
def Forget (q : WorkQueue) (obj : Nat) : WorkQueue :=
  { q with failures := mapDel q.failures obj }

end WorkQueue

/-- The part of `queueController` that `handleQueueErr` reads and writes, with
the events handed to `recordEventsForQueue`, oldest first. -/
structure queueController where
  maxRequeueNum : Int
  queue : WorkQueue
  events : List QueueEvent
  deriving DecidableEq, Repr

/-- The lines of `Initialize` that set `maxRequeueNum` from the option. -/
def queueController.Initialize (MaxRequeueNum : Int) : queueController :=
  let maxRequeueNum := MaxRequeueNum
  let maxRequeueNum := if maxRequeueNum < 0 then -1 else maxRequeueNum
  { maxRequeueNum := maxRequeueNum, queue := ⟨[], []⟩, events := [] }

/-- `handleQueueErr(err, obj)` where `obj` points to the request `req`. -/
def queueController.handleQueueErr (qc : queueController) (err : Option String)
    (obj : Nat) (req : Request) : queueController :=
  match err with
  | none => { qc with queue := qc.queue.Forget obj }
  | some err =>
    if qc.maxRequeueNum = -1 ∨ (qc.queue.NumRequeues obj : Int) < qc.maxRequeueNum then
      { qc with queue := qc.queue.AddRateLimited obj }
    else
      { qc with
        events := qc.events ++
          [⟨req.QueueName, "Warning", req.Action, req.Action ++ " queue failed for " ++ err⟩],
        queue := qc.queue.Forget obj }

/-- The request `obj` fails up to `n` times in a row: it is handled again as
long as `handleQueueErr` added it back.  The result is the controller and the
number of times the request was added back. -/
def queueController.failing (qc : queueController) (err : String) (obj : Nat)
    (req : Request) : Nat → queueController × Nat
  | 0 => (qc, 0)
  | n + 1 =>
    let qc1 := qc.handleQueueErr (some err) obj req
    if qc1.queue.added = qc.queue.added ++ [obj] then
      let r := queueController.failing qc1 err obj req n
      (r.1, r.2 + 1)
    else (qc1, 0)

/-- The part of `busv1alpha1.Command` read by `handleCmd`. -/
structure Command where
  Name : String
  Namespace : String
  Action : String
  TargetName : String
  deriving DecidableEq, Repr

/-- The error of the client call `Commands(ns).Delete`, if any: not found, or
another error with its text. -/
inductive DeleteError
  | NotFound
  | Other (msg : String)
  deriving DecidableEq, Repr

/-- `handleCmd(cmd)` given what `Delete` answers: the requests handed to
`qc.enqueueQueue` and the error returned. -/
def handleCmd (deleteErr : Option DeleteError) (cmd : Command) :
    List Request × Option String :=
  match deleteErr with
  | some .NotFound => ([], none)
  | some (.Other msg) =>
    ([], some ("failed to delete command <" ++ cmd.Namespace ++ "/" ++ cmd.Name ++ "> for "
      ++ msg))
  | none =>
    let req : Request :=
      { QueueName := cmd.TargetName, Event := CommandIssuedEvent, Action := cmd.Action }
    ([req], none)

/-- A command that opens the queue `q1`. -/
def openCommand : Command := ⟨"cmd-1", "default", "OpenQueue", "q1"⟩

/-- The request that opens the queue `q1`. -/
def openRequest : Request := ⟨"q1", "CommandIssued", "OpenQueue"⟩

end QueueController

/-! ## The conformance plugin -/

namespace Conformance

/-- The priority class `scheduling.SystemClusterCritical` of Kubernetes. -/
def SystemClusterCritical : String := "system-cluster-critical"

/-- The priority class `scheduling.SystemNodeCritical` of Kubernetes. -/
def SystemNodeCritical : String := "system-node-critical"

/-- The namespace `metav1.NamespaceSystem` of Kubernetes. -/
def NamespaceSystem : String := "kube-system"

/-- Modelled from the spec: the verdict `utils.Permit` of the evictable
functions, an `int` declared outside the sources. -/
def Permit : Int := 1

/-- The function `evictableFn` that `OnSessionOpen` registers as preemptable
and reclaimable function. -/
def evictableFn (_evictor : TaskInfo) (evictees : List TaskInfo) : List TaskInfo × Int :=
  let victims : List TaskInfo :=
    evictees.foldl
      (fun victims evictee =>
        let className := evictee.Pod.PriorityClassName
        if className = SystemClusterCritical ∨ className = SystemNodeCritical ∨
            evictee.Namespace = NamespaceSystem then victims
        else victims ++ [evictee]) []
  (victims, Permit)

/-- A task in the given namespace whose pod has the given priority class. -/
def taskOf (uid : TaskID) (ns className : String) : TaskInfo :=
  { mkTask uid TaskStatus.Running 1000 false with
    Namespace := ns, Pod := { Annotations := [], PriorityClassName := className } }

end Conformance

/-! ## The validating webhook for job updates -/

namespace Validate

/-- The part of `batchv1alpha1.VolumeSpec` that `validateJobUpdate` reads or
writes; `VolumeClaim` is a pointer that may be nil. -/
structure VolumeSpec where
  MountPath : String
  VolumeClaimName : String
  VolumeClaim : Option String
  deriving DecidableEq, Repr

/-- The part of `batchv1alpha1.TaskSpec` that `validateJobUpdate` reads or
writes; `MinAvailable` is a pointer that may be nil and `Rest` stands for every
other field (template, policies and so on), which the final comparison of
the specs takes into account. -/
structure TaskSpec where
  Name : String
  Replicas : Int
  MinAvailable : Option Int
  Rest : String
  deriving DecidableEq, Repr

/-- The part of `batchv1alpha1.JobSpec` that `validateJobUpdate` reads or
writes; `Rest` stands for every other field of the spec. -/
structure JobSpec where
  MinAvailable : Int
  PriorityClassName : String
  Tasks : List TaskSpec
  Volumes : List VolumeSpec
  Rest : String
  deriving DecidableEq, Repr

/-- The part of `batchv1alpha1.Job` read here. -/
structure Job where
  Name : String
  Spec : JobSpec
  deriving DecidableEq, Repr

/-- The first loop of `validateJobUpdate` over the tasks of the new job: the
`int32` total of the replicas, or the error of the first task that is refused. -/
def checkTasks : List TaskSpec → Int → Except String Int
  | [], totalReplicas => .ok totalReplicas
  | task :: rest, totalReplicas =>
    if task.Replicas < 0 then
      .error ("'replicas' must be >= 0 in task: " ++ task.Name)
    else
      match task.MinAvailable with
      | some minAvailable =>
        if minAvailable < 0 then
          .error ("'minAvailable' must be >= 0 in task: " ++ task.Name)
        else if minAvailable > task.Replicas then
          .error ("'minAvailable' must be <= 'replicas' in task: " ++ task.Name)
        else checkTasks rest (wrapInt32 (totalReplicas + task.Replicas))
      | none => checkTasks rest (wrapInt32 (totalReplicas + task.Replicas))

/-- The loops over the volumes: the claim name of a volume that carries a
claim is cleared. -/
def clearClaimNames (volumes : List VolumeSpec) : List VolumeSpec :=
  volumes.map (fun v =>
    match v.VolumeClaim with
    | some _ => { v with VolumeClaimName := "" }
    | none => v)

/-- The loop `for i := range new.Spec.Tasks` that writes the replicas and the
`MinAvailable` of the old tasks into the new ones (the lists have the same
length when it runs). -/
def resetTasks (newTasks oldTasks : List TaskSpec) : List TaskSpec :=
  List.zipWith
    (fun n o => { n with Replicas := o.Replicas, MinAvailable := o.MinAvailable })
    newTasks oldTasks

/-- `validateJobUpdate(old, new)`: the error returned, `none` for nil. -/
def validateJobUpdate (old new : Job) : Option String :=
  match checkTasks new.Spec.Tasks 0 with
  | .error err => some err
  | .ok totalReplicas =>
    if new.Spec.MinAvailable > totalReplicas then
      some "job 'minAvailable' must not be greater than total replicas"
    else if new.Spec.MinAvailable < 0 then
      some "job 'minAvailable' must be >= 0"
    else if old.Spec.Tasks.length ≠ new.Spec.Tasks.length then
      some "job updates may not add or remove tasks"
    else
      let newSpec : JobSpec :=
        { new.Spec with
          MinAvailable := old.Spec.MinAvailable,
          PriorityClassName := old.Spec.PriorityClassName,
          Tasks := resetTasks new.Spec.Tasks old.Spec.Tasks,
          Volumes := clearClaimNames new.Spec.Volumes }
      let oldSpec : JobSpec := { old.Spec with Volumes := clearClaimNames old.Spec.Volumes }
      if newSpec ≠ oldSpec then
        some ("job updates may not change fields other than `minAvailable`, "
          ++ "`tasks[*].replicas under spec`")
      else none

/-- The two specs agree outside `minAvailable`, `priorityClassName`, the
replicas and `minAvailable` of the tasks, and the claim names of the volumes
that carry a claim. -/
def sameOutside (old new : JobSpec) : Prop :=
  old.Rest = new.Rest ∧
  List.Forall₂ (fun o n : TaskSpec => o.Name = n.Name ∧ o.Rest = n.Rest) old.Tasks new.Tasks ∧
  List.Forall₂
    (fun o n : VolumeSpec =>
      o.MountPath = n.MountPath ∧ o.VolumeClaim = n.VolumeClaim ∧
        (o.VolumeClaim = none → o.VolumeClaimName = n.VolumeClaimName))
    old.Volumes new.Volumes

/-- A job with one task `worker` of three replicas. -/
def baseJob : Job :=
  { Name := "j",
    Spec := { MinAvailable := 1, PriorityClassName := "low",
              Tasks := [⟨"worker", 3, some 1, "template"⟩],
              Volumes := [⟨"/data", "pvc-1", some "claim"⟩], Rest := "queue=default" } }

/-- The job `baseJob` with another priority class and another `minAvailable`
of its task. -/
def changedJob : Job :=
  { baseJob with
    Spec := { baseJob.Spec with
              PriorityClassName := "high",
              Tasks := [⟨"worker", 3, some 2, "template"⟩] } }

/-- The job `baseJob` scaled to five replicas with `minAvailable` 4. -/
def scaledJob : Job :=
  { baseJob with
    Spec := { baseJob.Spec with
              MinAvailable := 4,
              Tasks := [⟨"worker", 5, some 1, "template"⟩] } }

end Validate

/-! ## Pods in the job cache -/

namespace Controller

/-- Modelled from the spec: the annotation key `batchv1alpha1.JobNameKey`
naming the job of a pod (the spec's `<group>/job-name`). -/
def JobNameKey : String := "volcano.sh/job-name"

/-- The function `keyFn`. -/
def keyFn (namespace_ name : String) : String := namespace_ ++ "/" ++ name

/-- The function `jobKeyOfPod`. -/
def jobKeyOfPod (pod : Pod) : Except String String :=
  match mapGet pod.Annotations JobNameKey with
  | none =>
    .error ("failed to find job name of pod <" ++ pod.Namespace ++ "/" ++ pod.Name ++ ">")
  | some jobName => .ok (keyFn pod.Namespace jobName)

/-- A method of `*controllerapis.JobInfo` that takes a pod (`AddPod`,
`UpdatePod`; the type is declared outside the sources).  On a job it returns
the job as the method leaves it and the error returned.  On a nil receiver it
has no job to write to: it returns an error or panics (`none`). -/
structure PodMethod where
  onJob : JobInfo → Pod → JobInfo × Option String
  onNil : Pod → Option (Option String)

/-- Modelled from the spec: `JobInfo.AddPod` files the pod in `Pods` under the
task name of its annotation `TaskSpecKey` and under its name, and refuses a pod
without that annotation and a pod that is filed already. -/
def JobInfo.AddPod (ji : JobInfo) (pod : Pod) : JobInfo × Option String :=
  match mapGet pod.Annotations TaskSpecKey with
  | none => (ji, some "failed to find taskName of Pod")
  | some taskName =>
    let pods := (mapGet ji.Pods taskName).getD []
    match mapGet pods pod.Name with
    | some _ => (ji, some "duplicated pod")
    | none => ({ ji with Pods := mapSet ji.Pods taskName (mapSet pods pod.Name pod) }, none)

/-- Modelled from the spec: `JobInfo.AddPod` as a method; on a nil receiver the
read of `ji.Pods` panics, unless the pod was refused before. -/
def addPodMethod : PodMethod :=
  { onJob := JobInfo.AddPod,
    onNil := fun pod =>
      match mapGet pod.Annotations TaskSpecKey with
      | none => some (some "failed to find taskName of Pod")
      | some _ => none }

/-- The body shared by `jobCache.AddPod` and `jobCache.UpdatePod`, which differ
in the method of the job they call: the cache afterwards and the error
returned, or `none` when the call panics.  When the key is not in the cache a
new entry is stored under it, and the method is called on `ji`, which is still
nil. -/
def jobCache.withPod (method : PodMethod) (jc : jobCache) (pod : Pod) :
    Option (jobCache × Option String) :=
  match jobKeyOfPod pod with
  | .error err => some (jc, some err)
  | .ok key =>
    match mapGet jc.jobInfos key with
    | some ji =>
      let r := method.onJob ji pod
      some ({ jobInfos := mapSet jc.jobInfos key r.1 }, r.2)
    | none =>
      let jc1 : jobCache :=
        { jobInfos := mapSet jc.jobInfos key
            { Namespace := "", Name := "", Job := none, Pods := [] } }
      match method.onNil pod with
      | none => none
      | some err => some (jc1, err)

/-- `jobCache.AddPod`. -/
def jobCache.AddPod (jc : jobCache) (pod : Pod) : Option (jobCache × Option String) :=
  jobCache.withPod addPodMethod jc pod

/-- A running pod `p` of task `worker` of job `j` in namespace `ns`. -/
def workerPod : Pod :=
  { Phase := .Running, InitContainerStatuses := [], ContainerStatuses := [],
    Name := "p", Namespace := "ns",
    Annotations := [(JobNameKey, "j"), (TaskSpecKey, "worker")] }

/-- A pod without annotations. -/
def strayPod : Pod :=
  { Phase := .Running, InitContainerStatuses := [], ContainerStatuses := [],
    Name := "p", Namespace := "ns" }

end Controller

/-! ## The scheduling session -/

namespace Framework

/-- Modelled from the spec: `apis.ValidateResult`, the result of a job
validation (declared outside the sources). -/
structure ValidateResult where
  Pass : Bool
  Reason : String
  Message : String
  deriving DecidableEq, Repr

/-- Modelled from the spec: `apis.QueueInfo` (declared in the missing
`queue_info.go`), reduced to its identity, name and weight. -/
structure QueueInfo where
  UID : QueueID
  Name : String
  Weight : Int
  deriving DecidableEq, Repr

/-- The part of `apis.ClusterInfo` the session copies. -/
structure ClusterInfo where
  Jobs : List (JobID × JobInfo)
  Nodes : List (String × NodeInfo)
  Queues : List (QueueID × QueueInfo)
  deriving DecidableEq, Repr

/-- The part of `Session` embedded here.  The maps hold pointers in the source;
here an entry of `Jobs` is the job object itself, distinct entries being
distinct objects, and a write through a pointer to a job is a write to the
entry that holds it.  The plugin callbacks are parameters of the functions
that call them, and the cache of pod-group statuses is left out. -/
structure Session where
  UID : String
  TotalResource : Resource
  Jobs : List (JobID × JobInfo)
  Nodes : List (String × NodeInfo)
  Queues : List (QueueID × QueueInfo)
  deriving DecidableEq, Repr

/-- The condition type `scheduling.PodGroupUnschedulableType`. -/
def PodGroupUnschedulableType : String := "Unschedulable"

/-- The condition status `corev1.ConditionTrue`. -/
def ConditionTrue : String := "True"

/-- The second half of `UpdatePodGroupCondition`: the condition of the same
type that comes first is replaced, and without one the condition is appended. -/
def setCondition (conditions : List PodGroupCondition) (cond : PodGroupCondition) :
    List PodGroupCondition :=
  match conditions.findIdx? (fun c => decide (c.Type_ = cond.Type_)) with
  | none => conditions ++ [cond]
  | some index => conditions.set index cond

/-- `Session.UpdatePodGroupCondition`: the session afterwards and the error
returned; `none` when the job has no pod group, whose conditions are read
through a nil pointer. -/
def Session.UpdatePodGroupCondition (sess : Session) (jobInfo : JobInfo)
    (cond : PodGroupCondition) : Option (Session × Option String) :=
  match mapGet sess.Jobs jobInfo.UID with
  | none => some (sess, some ("failed to find job <" ++ jobInfo.Namespace ++ "/"
      ++ jobInfo.Name ++ ">"))
  | some job =>
    match job.PodGroup with
    | none => none
    | some pg =>
      let job1 : JobInfo :=
        { job with PodGroup := some { pg with Conditions := setCondition pg.Conditions cond } }
      some ({ sess with Jobs := mapSet sess.Jobs jobInfo.UID job1 }, none)

/-- The loop `for _, job := range sess.Jobs` of `openSession`.  The keys are
those the map had when the loop began; an entry deleted before the loop reaches
it is not visited.  `jobValid` is `sess.JobValid` and `now` the reading of the
clock.  Next to the session the jobs deleted from it are returned, as they were
when they were deleted; `none` when a call panics. -/
def validateJobs (jobValid : JobInfo → Option ValidateResult) (now : Int) :
    List JobID → Session → List JobInfo → Option (Session × List JobInfo)
  | [], sess, removed => some (sess, removed)
  | key :: rest, sess, removed =>
    match mapGet sess.Jobs key with
    | none => validateJobs jobValid now rest sess removed
    | some job =>
      match jobValid job with
      | none => validateJobs jobValid now rest sess removed
      | some vjr =>
        let updated : Option Session :=
          if !vjr.Pass then
            let jc : PodGroupCondition :=
              { Type_ := PodGroupUnschedulableType, Status := ConditionTrue,
                LastTransitionTime := now, TransitionID := sess.UID,
                Reason := vjr.Reason, Message := vjr.Message }
            (sess.UpdatePodGroupCondition job jc).map (fun r => r.1)
          else some sess
        match updated with
        | none => none
        | some sess1 =>
          let removed1 :=
            match mapGet sess1.Jobs job.UID with
            | some j => removed ++ [j]
            | none => removed
          validateJobs jobValid now rest { sess1 with Jobs := mapDel sess1.Jobs job.UID }
            removed1

/-- `openSession`, given the snapshot of the cache, the fresh UID, the reading
of the clock and `sess.JobValid`: the session and the jobs deleted from it. -/
def openSession (snapshot : ClusterInfo) (uid : String) (now : Int)
    (jobValid : JobInfo → Option ValidateResult) : Option (Session × List JobInfo) :=
  let sess : Session :=
    { UID := uid, TotalResource := Resource.EmptyResource, Jobs := snapshot.Jobs,
      Nodes := [], Queues := [] }
  match validateJobs jobValid now (sess.Jobs.map (fun e => e.1)) sess [] with
  | none => none
  | some (sess1, removed) =>
    let sess2 : Session := { sess1 with Nodes := snapshot.Nodes, Queues := snapshot.Queues }
    some ({ sess2 with
            TotalResource :=
              sess2.Nodes.foldl (fun total n => total.Add n.2.Allocatable)
                sess2.TotalResource },
          removed)

/-- A snapshot that holds the job `workerJob` alone. -/
def oneJobSnapshot : ClusterInfo :=
  { Jobs := [(workerJob.UID, workerJob)], Nodes := [], Queues := [] }

end Framework

namespace Framework

/-- The condition `openSession` builds from a failed validation. -/
abbrev unschedulableCondition (uid : String) (now : Int) (vjr : ValidateResult) :
    PodGroupCondition :=
  { Type_ := PodGroupUnschedulableType, Status := ConditionTrue,
    LastTransitionTime := now, TransitionID := uid,
    Reason := vjr.Reason, Message := vjr.Message }

/-- The job `j` with pod group `pg` after the condition was set on it. -/
abbrev withCondition (j : JobInfo) (pg : PodGroup) (cond : PodGroupCondition) : JobInfo :=
  { j with PodGroup := some { pg with Conditions := setCondition pg.Conditions cond } }

end Framework

/-! ## The action `enqueue` -/

namespace Enqueue

open Framework

/-- Modelled from the spec: `Pop` of `utils.PriorityQueue` (declared outside
the sources) on the items held, in the order they were pushed: an item that no
other item precedes under the less function is taken out, the earliest pushed
among several. -/
def popMin {α : Type} (lessFn : α → α → Bool) : List α → Option (α × List α)
  | [] => none
  | x :: rest =>
    match popMin lessFn rest with
    | none => some (x, [])
    | some (y, rest1) => if lessFn y x then some (y, x :: rest1) else some (x, rest)

/-- The session callbacks `Execute` calls, which the plugins provide; `σ` is
the state the plugins keep.  The order functions are the less functions of the
two kinds of priority queue. -/
structure Callbacks (σ : Type) where
  QueueOrderFn : σ → QueueInfo → QueueInfo → Bool
  JobOrderFn : σ → JobInfo → JobInfo → Bool
  JobEnqueuable : σ → JobInfo → Bool
  JobEnqueued : σ → JobInfo → σ

/-- What `Execute` does that is recorded: a queue popped from `pqForQueues`, a
job popped from the bucket of its queue, `sess.JobEnqueuable(job)` with its
answer, and `sess.JobEnqueued(job)`. -/
inductive Call
  | PopQueue (queue : QueueID)
  | PopJob (job : JobID)
  | JobEnqueuable (job : JobID) (permitted : Bool)
  | JobEnqueued (job : JobID)
  deriving DecidableEq, Repr

/-- How a run ends: it returns, it panics, or the fuel given to the model of
the loop `for` runs out. -/
inductive Status
  | done
  | panic
  | outOfFuel
  deriving DecidableEq, Repr

/-- The variables of `Execute`: the session, the state of the plugins,
`pqForQueues`, `queueMap` and `jobsMap` (a bucket lists the jobs pushed into
it, oldest first), and the calls made so far, oldest first.  A job pointer is
modelled by the job it points to, which is exact for a session whose jobs are
keyed by their UID. -/
structure State (σ : Type) where
  sess : Session
  plugins : σ
  pqForQueues : List QueueInfo
  queueMap : List (QueueID × QueueInfo)
  jobsMap : List (QueueID × List JobInfo)
  calls : List Call

/-- The pod-group phase `scheduling.PodGroupInqueue`. -/
def PodGroupInqueue : String := "Inqueue"

/-- The job after the lines of the first loop that set the schedule start
time: it is set to `now` if it was zero. -/
def stamped (now : Int) (job : JobInfo) : JobInfo :=
  if job.ScheduleStartTimestamp = 0 then { job with ScheduleStartTimestamp := now } else job

/-- The lines `if job.ScheduleStartTimestamp.IsZero() ...` of the first loop:
the timestamp is written through `sess.Jobs[job.UID]`, which panics (`none`)
when there is no such entry. -/
def stampJob (now : Int) (job : JobInfo) (sess : Session) : Option Session :=
  if job.ScheduleStartTimestamp = 0 then
    match mapGet sess.Jobs job.UID with
    | none => none
    | some j =>
      some { sess with
             Jobs := mapSet sess.Jobs job.UID { j with ScheduleStartTimestamp := now } }
  else some sess

/-- The lines `if _, existed := queueMap[queue.UID]; !existed ...` of the first
loop: a queue not yet in `queueMap` is added to it and pushed. -/
def addQueue {σ : Type} (st : State σ) (queue : QueueInfo) : State σ :=
  match mapGet st.queueMap queue.UID with
  | none =>
    { st with queueMap := mapSet st.queueMap queue.UID queue,
              pqForQueues := st.pqForQueues ++ [queue] }
  | some _ => st

/-- The lines under `if job.IsPending()` of the first loop: the job is pushed
into the bucket of its queue, which is made if need be. -/
def addJob {σ : Type} (st : State σ) (job : JobInfo) : State σ :=
  let bucket : List JobInfo :=
    match mapGet st.jobsMap job.Queue with
    | none => []
    | some jobs => jobs
  { st with jobsMap := mapSet st.jobsMap job.Queue (bucket ++ [job]) }

/-- The body of the first loop of `Execute` for the job `job`; `now` is the
reading of the clock; `none` when it panics. -/
def visit {σ : Type} (now : Int) (job : JobInfo) (st : State σ) : Option (State σ) :=
  match stampJob now job st.sess with
  | none => none
  | some sess1 =>
    let job1 := stamped now job
    match mapGet sess1.Queues job1.Queue with
    | none => some { st with sess := sess1 }
    | some queue =>
      let st1 := addQueue { st with sess := sess1 } queue
      if job1.IsPending then some (addJob st1 job1) else some st1

/-- The first loop of `Execute`, over the entries `sess.Jobs` had when the loop
began. -/
def collect {σ : Type} (now : Int) : List (JobID × JobInfo) → State σ → State σ × Status
  | [], st => (st, .done)
  | (_, job) :: rest, st =>
    match visit now job st with
    | none => (st, .panic)
    | some st1 => collect now rest st1

/-- One pass through the body of the second loop of `Execute`: the variables
afterwards, and how the run ends when the pass ends it (`break` or a panic). -/
def loopBody {σ : Type} (cb : Callbacks σ) (st : State σ) : State σ × Option Status :=
  match popMin (cb.QueueOrderFn st.plugins) st.pqForQueues with
  | none => (st, some .done)
  | some (queue, pq1) =>
    let st1 : State σ :=
      { st with pqForQueues := pq1, calls := st.calls ++ [Call.PopQueue queue.UID] }
    match mapGet st1.jobsMap queue.UID with
    | none => (st1, none)
    | some jobs =>
      match popMin (cb.JobOrderFn st1.plugins) jobs with
      | none => (st1, none)
      | some (job, jobs1) =>
        let st2 : State σ :=
          { st1 with jobsMap := mapSet st1.jobsMap queue.UID jobs1,
                     calls := st1.calls ++ [Call.PopJob job.UID] }
        match job.PodGroup with
        | none => (st2, some .panic)
        | some pg =>
          let asked : Bool × List Call :=
            match pg.MinResources with
            | none => (true, [])
            | some _ =>
              (cb.JobEnqueuable st2.plugins job,
                [Call.JobEnqueuable job.UID (cb.JobEnqueuable st2.plugins job)])
          let st3 : State σ := { st2 with calls := st2.calls ++ asked.2 }
          let st4 : State σ :=
            if asked.1 then
              let job1 : JobInfo :=
                { job with PodGroup := some { pg with Phase := PodGroupInqueue } }
              { st3 with plugins := cb.JobEnqueued st3.plugins job,
                         calls := st3.calls ++ [Call.JobEnqueued job.UID],
                         sess := { st3.sess with
                                   Jobs := mapSet st3.sess.Jobs job1.UID job1 } }
            else st3
          ({ st4 with pqForQueues := st4.pqForQueues ++ [queue] }, none)

/-- The second loop of `Execute`; each unit of fuel pays for one pass through
the body of the `for`, the pass that finds `pqForQueues` empty included. -/
def drain {σ : Type} (cb : Callbacks σ) : Nat → State σ → State σ × Status
  | 0, st => (st, .outOfFuel)
  | fuel + 1, st =>
    match loopBody cb st with
    | (st1, some status) => (st1, status)
    | (st1, none) => drain cb fuel st1

/-- `Action.Execute`, with the fuel for its second loop. -/
def Execute {σ : Type} (cb : Callbacks σ) (now : Int) (fuel : Nat) (sess : Session)
    (plugins : σ) : State σ × Status :=
  match collect now sess.Jobs
      { sess := sess, plugins := plugins, pqForQueues := [], queueMap := [], jobsMap := [],
        calls := [] } with
  | (st, .done) => drain cb fuel st
  | (st, status) => (st, status)

/-- The number of jobs of the session that are pending. -/
def pendingJobs (sess : Session) : Nat :=
  (sess.Jobs.filter (fun e => e.2.IsPending)).length

/-- The calls about the job `k`. -/
def Call.about (k : JobID) : Call → Bool
  | .PopQueue _ => false
  | .PopJob j => decide (j = k)
  | .JobEnqueuable j _ => decide (j = k)
  | .JobEnqueued j => decide (j = k)

/-- The job `job` with pod group `pg` once it is in the queue. -/
def inqueue (job : JobInfo) (pg : PodGroup) : JobInfo :=
  { job with PodGroup := some { pg with Phase := PodGroupInqueue } }

/-- Whether the popped job `job` with pod group `pg` is enqueued: it asks for
no minimal resources, or the plugins permit it. -/
def permitted {σ : Type} (cb : Callbacks σ) (plugins : σ) (job : JobInfo) (pg : PodGroup) :
    Bool :=
  match pg.MinResources with
  | none => true
  | some _ => cb.JobEnqueuable plugins job

/-- The calls made for the popped job `job` with pod group `pg`, given whether
it is enqueued. -/
def callsFor (job : JobInfo) (pg : PodGroup) (permit : Bool) : List Call :=
  [Call.PopJob job.UID] ++
    (match pg.MinResources with
     | none => []
     | some _ => [Call.JobEnqueuable job.UID permit]) ++
    (if permit then [Call.JobEnqueued job.UID] else [])

/-- The variables after a pass that popped the queue `queue`, leaving `pq1`,
and the job `job` with pod group `pg`, leaving `jobs1` in its bucket. -/
def afterJob {σ : Type} (cb : Callbacks σ) (st : State σ) (queue : QueueInfo)
    (pq1 : List QueueInfo) (job : JobInfo) (jobs1 : List JobInfo) (pg : PodGroup) : State σ :=
  { sess :=
      if permitted cb st.plugins job pg then
        { st.sess with Jobs := mapSet st.sess.Jobs job.UID (inqueue job pg) }
      else st.sess,
    plugins :=
      if permitted cb st.plugins job pg then cb.JobEnqueued st.plugins job else st.plugins,
    pqForQueues := pq1 ++ [queue],
    queueMap := st.queueMap,
    jobsMap := mapSet st.jobsMap queue.UID jobs1,
    calls := st.calls ++ [Call.PopQueue queue.UID] ++
      callsFor job pg (permitted cb st.plugins job pg) }

/-- The number of jobs held in the buckets of `jobsMap`. -/
def bucketTotal (jobsMap : List (QueueID × List JobInfo)) : Nat :=
  (jobsMap.map (fun e => e.2.length)).sum

/-- The number of queues popped from `pqForQueues`, which is the number of
passes through the body of the second loop that went beyond its first test. -/
def queuePops (calls : List Call) : Nat :=
  calls.countP (fun c => match c with | .PopQueue _ => true | _ => false)

/-- Plugins that keep the number of jobs enqueued and permit at most one job
with minimal resources after another; jobs and queues are ordered by priority
and weight. -/
def exampleCallbacks : Callbacks Nat :=
  { QueueOrderFn := fun _ a b => decide (a.Weight > b.Weight),
    JobOrderFn := fun _ a b => decide (a.Priority > b.Priority),
    JobEnqueuable := fun n _ => decide (n < 1),
    JobEnqueued := fun n _ => n + 1 }

/-- A pending job in queue `q` whose pod group asks for minimal resources. -/
def pendingIn (uid : JobID) (queue : QueueID) (priority : Int) (phase : String)
    (minResources : Option Resource) : JobInfo :=
  { JobInfo.NewJobInfo uid [] with
    Queue := queue, Priority := priority,
    PodGroup := some { workerGroup with Queue := queue, Phase := phase,
                                        MinResources := minResources } }

/-- A session with the queues `q1` and `q2` and four jobs: `a` (no minimal
resources) and `b`, `c` (minimal resources) are pending in `q1`; `d` is running
in `q2`; `e` is pending in the unknown queue `q9`. -/
def exampleSession : Session :=
  { UID := "s1", TotalResource := Resource.EmptyResource,
    Jobs := [("a", pendingIn "a" "q1" 1 "Pending" none),
             ("b", pendingIn "b" "q1" 3 "Pending" (some ⟨1000, 0, []⟩)),
             ("c", pendingIn "c" "q1" 2 "" (some ⟨1000, 0, []⟩)),
             ("d", pendingIn "d" "q2" 1 "Running" none),
             ("e", pendingIn "e" "q9" 1 "Pending" none)],
    Nodes := [],
    Queues := [("q1", ⟨"q1", "q1", 1⟩), ("q2", ⟨"q2", "q2", 2⟩)] }

/-- A session whose only job is pending and has no pod group. -/
def noPodGroupSession : Session :=
  { UID := "s1", TotalResource := Resource.EmptyResource,
    Jobs := [("a", { JobInfo.NewJobInfo "a" [] with Queue := "q1" })],
    Nodes := [],
    Queues := [("q1", ⟨"q1", "q1", 1⟩)] }

end Enqueue

namespace Enqueue

/-- The jobs held in the buckets of `jobsMap`, bucket after bucket. -/
def bucketed (jobsMap : List (QueueID × List JobInfo)) : List JobInfo :=
  jobsMap.flatMap (fun e => e.2)

/-- The job is pending and its queue is a queue of the session: the first loop
of `Execute` pushes it into a bucket. -/
def eligible (sess : Framework.Session) (job : JobInfo) : Bool :=
  job.IsPending && (mapGet sess.Queues job.Queue).isSome

end Enqueue

namespace Enqueue

/-- What the first loop of `Execute` keeps true: the buckets have distinct
keys, a job in a bucket belongs to the queue the bucket is filed under, a queue
of that UID is in `pqForQueues`, and so is a queue of each UID in `queueMap`. -/
def FirstLoopInv {σ : Type} (st : State σ) : Prop :=
  NodupKeys st.jobsMap ∧
  (∀ e ∈ st.jobsMap, ∀ b ∈ e.2,
    b.Queue = e.1 ∧ ∃ queue ∈ st.pqForQueues, queue.UID = e.1) ∧
  (∀ u, mapGet st.queueMap u ≠ none → ∃ q ∈ st.pqForQueues, q.UID = u)

/-- What the second loop of `Execute` keeps true: the buckets have distinct
keys, a queue of the UID a non-empty bucket is filed under is in `pqForQueues`,
the jobs in the buckets have distinct UIDs, are the jobs the session holds under
these UIDs, and have a pod group. -/
def SecondLoopInv {σ : Type} (st : State σ) : Prop :=
  NodupKeys st.jobsMap ∧
  (∀ e ∈ st.jobsMap, ∀ b ∈ e.2, ∃ queue ∈ st.pqForQueues, queue.UID = e.1) ∧
  ((bucketed st.jobsMap).map (fun b => b.UID)).Nodup ∧
  (∀ b ∈ bucketed st.jobsMap, mapGet st.sess.Jobs b.UID = some b ∧ b.PodGroup ≠ none)

end Enqueue

/-! ## Sharding between schedulers -/

namespace Sharding

/-- The part of `corev1.Pod` read by `responsibleForPod`; `OwnerReferences`
lists the names of the owner references. -/
structure Pod where
  Name : String
  Namespace : String
  SchedulerName : String
  OwnerReferences : List String
  deriving DecidableEq, Repr

/-- The part of `schedulingv1alpha1.PodGroup` read by `responsibleForPodGroup`. -/
structure PodGroup where
  Name : String
  Namespace : String
  OwnerReferences : List String
  deriving DecidableEq, Repr

/-- The ring `consistent.Consistent` of the library `stathat.com/c/consistent`,
reduced to the members added to it, first added first. -/
structure Consistent where
  members : List String
  deriving DecidableEq, Repr

/-- `consistent.New()`. -/
def Consistent.New : Consistent := ⟨[]⟩

/-- `c.Add(name)`. -/
def Consistent.Add (c : Consistent) (name : String) : Consistent := ⟨c.members ++ [name]⟩

/-- `c.Get(key)`: one of the members, and an error for a ring without members.
Which member a key is hashed to is decided by the library; here it is the
member at the position `pick members key` modulo the number of members, for a
function `pick` that is a parameter. -/
def Consistent.Get (pick : List String → String → Nat) (c : Consistent) (key : String) :
    String × Option String :=
  match c.members with
  | [] => ("", some "empty circle")
  | m :: ms => ((m :: ms).getD (pick (m :: ms) key % (ms.length + 1)) m, none)

/-- `responsibleForPod`. -/
def responsibleForPod (pick : List String → String → Nat) (pod : Pod)
    (schedulerName mySchedulerPodName : String) (c : Option Consistent) : Bool :=
  if schedulerName ≠ pod.SchedulerName then false
  else
    match c with
    | some c =>
      let key : String :=
        match pod.OwnerReferences with
        | ref :: _ => ref
        | [] => pod.Name
      let schedulerPodName := (c.Get pick key).1
      if schedulerPodName ≠ mySchedulerPodName then false else true
    | none => true

/-- `responsibleForNode`. -/
def responsibleForNode (pick : List String → String → Nat) (nodeName : String)
    (mySchedulerPodName : String) (c : Option Consistent) : Bool :=
  match c with
  | some c =>
    let schedulerPodName := (c.Get pick nodeName).1
    if schedulerPodName ≠ mySchedulerPodName then false else true
  | none => true

/-- `responsibleForPodGroup`. -/
def responsibleForPodGroup (pick : List String → String → Nat) (pg : PodGroup)
    (mySchedulerPodName : String) (c : Option Consistent) : Bool :=
  match c with
  | some c =>
    let key : String :=
      match pg.OwnerReferences with
      | ref :: _ => ref
      | [] => pg.Name
    let schedulerPodName := (c.Get pick key).1
    if schedulerPodName ≠ mySchedulerPodName then false else true
  | none => true

/-- The scan of `strings.LastIndex(s, "-")` from position `i` on, `best` being
the last position found so far. -/
def lastIndexFrom : List Char → Int → Int → Int
  | [], _, best => best
  | x :: rest, i, best => lastIndexFrom rest (i + 1) (if x = '-' then i else best)

/-- `strings.LastIndex(s, "-")`: the position of the last `-`, or -1. -/
def lastIndex (s : String) : Int := lastIndexFrom s.data 0 (-1)

/-- The environment variables read by `getMultiSchedulerInfo`; of
`SCHEDULER_NUM` what `strconv.Atoi` makes of it, `none` for an error. -/
structure Env where
  MULTI_SCHEDULER_ENABLE : String
  SCHEDULER_POD_NAME : String
  SCHEDULER_NUM : Option Int
  deriving DecidableEq, Repr

/-- The loop `for i := 0; i < schedulerNum; i++` of `getMultiSchedulerInfo`,
from `i` on, with `n` rounds left. -/
def addNames (baseName : String) : Nat → Nat → Consistent → Consistent
  | 0, _, c => c
  | n + 1, i, c => addNames baseName n (i + 1) (c.Add (baseName ++ "-" ++ toString i))

/-- `getMultiSchedulerInfo`: the pod name of the scheduler and the ring, nil
when sharding is off; `none` when the slice `mySchedulerPodName[0:index]`
panics for want of a `-` in the name. -/
def getMultiSchedulerInfo (env : Env) : Option (String × Option Consistent) :=
  let mySchedulerPodName := env.SCHEDULER_POD_NAME
  if env.MULTI_SCHEDULER_ENABLE = "true" then
    let schedulerNum : Int :=
      match env.SCHEDULER_NUM with
      | some n => n
      | none => 1
    let index := lastIndex mySchedulerPodName
    if index < 0 then none
    else
      let baseName : String := ⟨mySchedulerPodName.data.take index.toNat⟩
      some (mySchedulerPodName, some (addNames baseName schedulerNum.toNat 0 Consistent.New))
  else some (mySchedulerPodName, none)

/-- The pod name of scheduler `i` of the stateful set `base`. -/
def podName (base : String) (i : Nat) : String := base ++ "-" ++ toString i

/-- The environment of scheduler `i` out of `n` with sharding on. -/
def envOf (base : String) (n i : Nat) : Env :=
  { MULTI_SCHEDULER_ENABLE := "true", SCHEDULER_POD_NAME := podName base i,
    SCHEDULER_NUM := some n }

/-- The ring of the `n` schedulers of the stateful set `base`. -/
def ringOf (base : String) (n : Nat) : Consistent :=
  ⟨(List.range n).map (podName base)⟩

/-- The key of a pod: the name of its first owner reference, or its own name. -/
def Pod.key (pod : Pod) : String :=
  match pod.OwnerReferences with
  | ref :: _ => ref
  | [] => pod.Name

/-- The key of a pod group: the name of its first owner reference, or its own name. -/
def PodGroup.key (pg : PodGroup) : String :=
  match pg.OwnerReferences with
  | ref :: _ => ref
  | [] => pg.Name

end Sharding

/-! ## The session operation `Allocate` -/

/-- Modelled from the spec: `Resource.LessEqual`, componentwise; quantities are
exact integers here, so the tolerance of the spec plays no part. -/
def Resource.LessEqual (r rr : Resource) : Bool :=
  decide (r.MilliCPU ≤ rr.MilliCPU) && decide (r.Memory ≤ rr.Memory) &&
    r.ScalarResources.all (fun p => decide (p.2 ≤ rr.scalar p.1))

/-- Modelled from the spec: `NodeInfo.AddTask` (declared in the missing
`node_info.go`) fails when the idle resource of the node does not cover the
request of the task; otherwise it files the task under its UID and moves the
request from idle to used. -/
def NodeInfo.AddTask (ni : NodeInfo) (task : TaskInfo) : Except String NodeInfo :=
  if task.ResReq.LessEqual ni.Idle then
    .ok { ni with
          Tasks := mapSet ni.Tasks task.UID task,
          Idle := ni.Idle.Sub task.ResReq,
          Used := ni.Used.Add task.ResReq }
  else .error "AllocateFailError"

namespace Framework

/-- The calls on the cache made by `Allocate` and `dispatch`; `κ` is the state
of the cache, and each call returns the cache afterwards and its error, if any. -/
structure CacheCalls (κ : Type) where
  GetPodVolumes : κ → TaskInfo → NodeInfo → κ × Option String
  AllocateVolumes : κ → TaskInfo → String → κ × Option String
  AddBindTask : κ → TaskInfo → κ × Option String

/-- What `Allocate` does that is recorded: the call of the `AllocateFunc` of
the event handler at a position, and the task handed to `cache.AddBindTask`. -/
inductive AllocCall
  | AllocateFunc (handler : Nat) (task : TaskID)
  | AddBindTask (task : TaskID)
  deriving DecidableEq, Repr

/-- The session, the cache and the calls made, oldest first. -/
structure AllocState (κ : Type) where
  sess : Session
  cache : κ
  calls : List AllocCall

/-- `Session.dispatch(task)`; only the error is returned when it fails. -/
def Session.dispatch {κ : Type} (cc : CacheCalls κ) (st : AllocState κ) (task : TaskInfo) :
    Except String (AllocState κ) :=
  let r := cc.AddBindTask st.cache task
  match r.2 with
  | some err => .error err
  | none =>
    let calls := st.calls ++ [AllocCall.AddBindTask task.UID]
    match mapGet st.sess.Jobs task.Job with
    | some job =>
      match job.UpdateTaskStatus task TaskStatus.Binding with
      | (_, some _) => .error "invalid status transition"
      | ((job1, _), none) =>
        .ok { sess := { st.sess with Jobs := mapSet st.sess.Jobs task.Job job1 },
              cache := r.1, calls := calls }
    | none => .error ("failed to find job " ++ task.Job)

/-- The loop `for _, task := range job.TaskStatusIndex[apis.Allocated]` of
`Allocate` over the entries the bucket had when the loop began, `jobKey` being
the key of `job` in the session.  The bucket is the map the job updates in
place, so an entry that is no longer filed under `Allocated` when its turn
comes is not visited. -/
def dispatchAll {κ : Type} (cc : CacheCalls κ) (jobKey : JobID) :
    List TaskID → AllocState κ → Except String (AllocState κ)
  | [], st => .ok st
  | uid :: rest, st =>
    match (mapGet st.sess.Jobs jobKey).bind (fun job => job.indexed TaskStatus.Allocated uid) with
    | none => dispatchAll cc jobKey rest st
    | some task =>
      match Session.dispatch cc st task with
      | .error err => .error err
      | .ok st1 => dispatchAll cc jobKey rest st1

/-- The write `task.NodeName = hostname` as the job that holds the pointer
`task` sees it: in its task map and in its status index. -/
def setNodeName (job : JobInfo) (task : TaskInfo) (hostname : String) : JobInfo :=
  let task1 := { task with NodeName := hostname }
  { job with
    Tasks := mapSet job.Tasks task.UID task1,
    TaskStatusIndex :=
      mapSet job.TaskStatusIndex task.Status
        (mapSet ((mapGet job.TaskStatusIndex task.Status).getD []) task.UID task1) }

/-- The job after the lines of `Allocate` that allocate the task: the node name
of the pod is set, the status of the task is updated to `Allocated`, and the
node name of the task is set; `none` when the update of the status fails. -/
def allocated (job : JobInfo) (task : TaskInfo) (hostname : String) :
    Option (JobInfo × TaskInfo) :=
  let task1 := { task with Pod := { task.Pod with NodeName := hostname } }
  match job.UpdateTaskStatus task1 TaskStatus.Allocated with
  | (_, some _) => none
  | ((job1, task2), none) =>
    some (setNodeName job1 task2 hostname, { task2 with NodeName := hostname })

/-- `Session.Allocate(task, nodeInfo)`: the session, the cache and the calls
made when it returns nil, and the error otherwise.  `handlers` tells for each
event handler of the session whether it has an `AllocateFunc`, and `jobReady`
is `sess.JobReady`.  The callbacks of the plugins are recorded and taken not
to write to the jobs and nodes of the session. -/
def Session.Allocate {κ : Type} (cc : CacheCalls κ) (handlers : List Bool)
    (jobReady : JobInfo → Bool) (st : AllocState κ) (task : TaskInfo) (nodeInfo : NodeInfo) :
    Except String (AllocState κ) :=
  let r1 := cc.GetPodVolumes st.cache task nodeInfo
  match r1.2 with
  | some err => .error err
  | none =>
    let hostname := nodeInfo.Name
    let r2 := cc.AllocateVolumes r1.1 task hostname
    match r2.2 with
    | some err => .error err
    | none =>
      match mapGet st.sess.Jobs task.Job with
      | none => .error ("failed to find job " ++ task.Job)
      | some job =>
        match allocated job task hostname with
        | none => .error "invalid status transition"
        | some (job1, task1) =>
          let jobs1 := mapSet st.sess.Jobs task.Job job1
          match mapGet st.sess.Nodes hostname with
          | none => .error ("failed to find node " ++ hostname)
          | some node =>
            match node.AddTask task1 with
            | .error err => .error err
            | .ok node1 =>
              let sess1 : Session :=
                { st.sess with Jobs := jobs1, Nodes := mapSet st.sess.Nodes hostname node1 }
              let called : List AllocCall :=
                (handlers.enum.filter (fun h => h.2)).map
                  (fun h => AllocCall.AllocateFunc h.1 task1.UID)
              let st1 : AllocState κ :=
                { sess := sess1, cache := r2.1, calls := st.calls ++ called }
              if jobReady job1 then
                dispatchAll cc task.Job
                  (((mapGet job1.TaskStatusIndex TaskStatus.Allocated).getD []).map
                    (fun e => e.1))
                  st1
              else .ok st1

/-- Every task of the job carries the key of the job in the session. -/
def TasksOf (jobKey : JobID) (job : JobInfo) : Prop :=
  ∀ e ∈ job.Tasks, e.2.Job = jobKey

instance (jobKey : JobID) (job : JobInfo) : Decidable (TasksOf jobKey job) := by
  unfold TasksOf; infer_instance

/-- A cache that accepts every call. -/
def agreeable : CacheCalls Nat :=
  { GetPodVolumes := fun n _ _ => (n, none),
    AllocateVolumes := fun n _ _ => (n, none),
    AddBindTask := fun n _ => (n + 1, none) }

/-- A job `j` with the pending tasks `a` and `b`. -/
def gangJob : JobInfo := JobInfo.NewJobInfo "j" [mkTask "a" .Pending 1000 false, mkTask "b" .Pending 1000 false]

/-- A node `n1` with 4000 milli-CPU idle. -/
def bigNode : NodeInfo :=
  { Name := "n1", NumaInfo := none, NumaChgFlag := .NumaInfoResetFlag,
    Allocatable := ⟨4000, 0, []⟩, Idle := ⟨4000, 0, []⟩ }

/-- A session with the job `j` and the node `n1`. -/
def gangSession : AllocState Nat :=
  { sess := { UID := "s1", TotalResource := ⟨4000, 0, []⟩, Jobs := [("j", gangJob)],
              Nodes := [("n1", bigNode)], Queues := [] },
    cache := 0, calls := [] }

/-- The job is ready when two of its tasks are allocated. -/
def twoAllocated (job : JobInfo) : Bool :=
  decide (2 ≤ mapLenAt job.TaskStatusIndex TaskStatus.Allocated)

end Framework

namespace Framework

/-- The UIDs of the tasks handed to `cache.AddBindTask` in a list of calls, in
the order of the calls. -/
def bound (calls : List AllocCall) : List TaskID :=
  calls.filterMap (fun c =>
    match c with
    | .AddBindTask u => some u
    | .AllocateFunc _ _ => none)

/-- The session `gangSession` after the task `a` was allocated to `n1`. -/
def gangSessionA : AllocState Nat :=
  match Session.Allocate agreeable [true] twoAllocated gangSession (mkTask "a" .Pending 1000 false)
      bigNode with
  | .ok st => st
  | .error _ => gangSession

end Framework

namespace Framework

/-- The job `j` of the session `gangSessionA`. -/
def gangJobA : JobInfo :=
  match mapGet gangSessionA.sess.Jobs "j" with
  | some job => job
  | none => gangJob

end Framework

namespace Framework

/-- The fields of `scheduling.PodGroupStatus` that `jobStatus` reads or writes. -/
structure PodGroupStatus where
  Phase : String
  Conditions : List PodGroupCondition
  Running : Int
  Succeeded : Int
  Failed : Int
  deriving DecidableEq, Repr

/-- `jobStatus(sess, jobInfo)`: the status returned; `none` when the job has no
pod group, whose status is read through a nil pointer.  The status starts as a
copy of `jobInfo.PodGroup.Status`, whose three counts are overwritten before it
is returned.  `allocated` is an `int` and is converted to `int32` for the
comparison with `Spec.MinMember`, and so are the three lengths. -/
def jobStatus (sess : Session) (jobInfo : JobInfo) : Option PodGroupStatus :=
  match jobInfo.PodGroup with
  | none => none
  | some pg =>
    let unschedulable : Bool :=
      pg.Conditions.any (fun c =>
        decide (c.Type_ = PodGroupUnschedulableType) && decide (c.Status = ConditionTrue) &&
          decide (c.TransitionID = sess.UID))
    let phase : String :=
      if mapLenAt jobInfo.TaskStatusIndex TaskStatus.Running ≠ 0 ∧ unschedulable = true then
        QueueController.PodGroupUnknown
      else
        let allocated : Nat :=
          jobInfo.TaskStatusIndex.foldl
            (fun n e =>
              if AllocatedStatus e.1 || decide (e.1 = TaskStatus.Succeeded) then n + mapLen e.2
              else n) 0
        if wrapInt32 allocated ≥ pg.MinMember then QueueController.PodGroupRunning
        else if pg.Phase ≠ QueueController.PodGroupInqueue then QueueController.PodGroupPending
        else pg.Phase
    some { Phase := phase, Conditions := pg.Conditions,
           Running := wrapInt32 (mapLenAt jobInfo.TaskStatusIndex TaskStatus.Running),
           Failed := wrapInt32 (mapLenAt jobInfo.TaskStatusIndex TaskStatus.Failed),
           Succeeded := wrapInt32 (mapLenAt jobInfo.TaskStatusIndex TaskStatus.Succeeded) }

/-- The number of tasks of a job whose status satisfies `p`. -/
def countStatus (job : JobInfo) (p : TaskStatus → Bool) : Nat :=
  job.Tasks.countP (fun e => p e.2.Status)

/-- A pod group with `MinMember = 2` in phase `Inqueue`, marked unschedulable in
session `s1`. -/
def markedGroup : Volcano.PodGroup :=
  { Name := "pg", Namespace := "ns", Annotations := [], Labels := [], CreationTimestamp := 0,
    MinMember := 2, Queue := "q1", MinTaskMember := [], MinResources := none,
    Phase := "Inqueue",
    Conditions := [⟨"Unschedulable", "True", 3, "s1", "NotEnoughResources", "1/2 tasks"⟩] }

/-- A job with one running and one pending task and the pod group `markedGroup`. -/
def markedJob : JobInfo :=
  { JobInfo.NewJobInfo "j" [mkTask "a" .Running 1000 false, mkTask "b" .Pending 1000 false] with
    PodGroup := some markedGroup }

/-- A session with UID `s1` that holds `markedJob`. -/
def markedSession : Session :=
  { UID := "s1", TotalResource := Resource.EmptyResource, Jobs := [("j", markedJob)],
    Nodes := [], Queues := [] }

end Framework

/-! ## The scheduler cache: job identities and the node list -/

/-- Modelled from the spec: the annotation key
`schedulingv1alpha1.KubeGroupNameAnnotationKey` (the spec's
`<group>/kube-group-name`), declared outside the sources. -/
def KubeGroupNameAnnotationKey : String := "scheduling.k8s.io/group-name"

/-- `getJobID(pod)` of package `apis`. -/
def getJobID (pod : Pod) : JobID :=
  match mapGet pod.Annotations KubeGroupNameAnnotationKey with
  | some groupName => if groupName ≠ "" then pod.Namespace ++ "/" ++ groupName else ""
  | none => ""

/-- The part of `corev1.Node` the node handlers read. -/
structure Node where
  Name : String
  Allocatable : Resource := Resource.EmptyResource
  deriving DecidableEq, Repr

/-- The functions `apis.NewNodeInfo(node)` and `NodeInfo.SetNode(node)`, which
are declared in the missing `node_info.go` and are parameters here. -/
structure NodeFns where
  NewNodeInfo : Node → NodeInfo
  SetNode : NodeInfo → Node → NodeInfo

/-- An event on a node, for an object that is a `*corev1.Node`; the handlers
log and drop any other object. -/
inductive NodeEvent
  | add (node : Node)
  | update (oldNode newNode : Node)
  | delete (node : Node)
  deriving DecidableEq, Repr

namespace SchedulerCache

/-- `getJobID(pg)` of package `cache`. -/
def getJobID (pg : PodGroup) : JobID := pg.Namespace ++ "/" ++ pg.Name

/-- `getOrCreateJob(ti)`: the cache afterwards and the job returned, `none`
for nil. -/
def getOrCreateJob (sc : SchedulerCache) (ti : TaskInfo) : SchedulerCache × Option JobInfo :=
  if ti.Job = "" then (sc, none)
  else
    let sc1 : SchedulerCache :=
      match mapGet sc.Jobs ti.Job with
      | some _ => sc
      | none => { sc with Jobs := mapSet sc.Jobs ti.Job (JobInfo.NewJobInfo ti.Job []) }
    (sc1, mapGet sc1.Jobs ti.Job)

/-- `addNode`: the cache afterwards and the error returned, which is always nil. -/
def addNode (fns : NodeFns) (sc : SchedulerCache) (node : Node) :
    SchedulerCache × Option String :=
  match mapGet sc.Nodes node.Name with
  | some ni => ({ sc with Nodes := mapSet sc.Nodes node.Name (fns.SetNode ni node) }, none)
  | none => ({ sc with Nodes := mapSet sc.Nodes node.Name (fns.NewNodeInfo node) }, none)

/-- `updateNode`. -/
def updateNode (fns : NodeFns) (sc : SchedulerCache) (_oldNode newNode : Node) :
    SchedulerCache × Option String :=
  match mapGet sc.Nodes newNode.Name with
  | some ni => ({ sc with Nodes := mapSet sc.Nodes newNode.Name (fns.SetNode ni newNode) }, none)
  | none => (sc, some ("node <" ++ newNode.Name ++ "> does not exist"))

/-- `deleteNode`; the request to the API server to delete the NUMA topology of
the node, whose failure is only logged, is left out. -/
def deleteNode (sc : SchedulerCache) (node : Node) : SchedulerCache × Option String :=
  match mapGet sc.Nodes node.Name with
  | none => (sc, some ("node <" ++ node.Name ++ "> does not exist"))
  | some _ => ({ sc with Nodes := mapDel sc.Nodes node.Name }, none)

/-- `AddNode`. -/
def AddNode (fns : NodeFns) (sc : SchedulerCache) (node : Node) : SchedulerCache :=
  match addNode fns sc node with
  | (_, some _) => sc
  | (sc1, none) => { sc1 with NodeList := sc1.NodeList ++ [node.Name] }

/-- `UpdateNode`. -/
def UpdateNode (fns : NodeFns) (sc : SchedulerCache) (oldNode newNode : Node) :
    SchedulerCache :=
  match updateNode fns sc oldNode newNode with
  | (_, some _) => sc
  | (sc1, none) => sc1

/-- `DeleteNode`: after `deleteNode` the first entry of `NodeList` that is the
name of the node is cut out. -/
def DeleteNode (sc : SchedulerCache) (node : Node) : SchedulerCache :=
  match deleteNode sc node with
  | (_, some _) => sc
  | (sc1, none) => { sc1 with NodeList := sc1.NodeList.erase node.Name }

/-- The cache after one node event. -/
def nodeStep (fns : NodeFns) (sc : SchedulerCache) : NodeEvent → SchedulerCache
  | .add node => AddNode fns sc node
  | .update oldNode newNode => UpdateNode fns sc oldNode newNode
  | .delete node => DeleteNode sc node

/-- The cache after a sequence of node events. -/
def nodeRun (fns : NodeFns) (sc : SchedulerCache) (events : List NodeEvent) : SchedulerCache :=
  events.foldl (nodeStep fns) sc

end SchedulerCache

/-- Following the claim: the names for which a node was added and not deleted
since, after one more event. -/
def liveStep (names : List String) : NodeEvent → List String
  | .add node => if node.Name ∈ names then names else names ++ [node.Name]
  | .update _ _ => names
  | .delete node => names.filter (fun n => decide (n ≠ node.Name))

/-- Following the claim: the names for which a node was added and not deleted
since, each once, in the order in which they were added. -/
def liveNames (events : List NodeEvent) : List String := events.foldl liveStep []

/-- No `AddNode` event of the sequence is for a name that is live when the
event comes, `names` being the names that are live before the sequence. -/
def addsOnceFrom : List String → List NodeEvent → Prop
  | _, [] => True
  | names, e :: rest =>
    (match e with
      | .add node => node.Name ∉ names
      | _ => True) ∧ addsOnceFrom (liveStep names e) rest

instance instDecidableAddsOnceFrom :
    (names : List String) → (events : List NodeEvent) → Decidable (addsOnceFrom names events)
  | _, [] => isTrue trivial
  | names, e :: rest =>
    have : Decidable (addsOnceFrom (liveStep names e) rest) :=
      instDecidableAddsOnceFrom (liveStep names e) rest
    match e with
    | .add node => by unfold addsOnceFrom; exact instDecidableAnd
    | .update _ _ => by unfold addsOnceFrom; exact instDecidableAnd
    | .delete _ => by unfold addsOnceFrom; exact instDecidableAnd

/-- Every `AddNode` event of the sequence is for a name that was not added
before, or was deleted since. -/
def AddsOnce (events : List NodeEvent) : Prop := addsOnceFrom [] events

instance (events : List NodeEvent) : Decidable (AddsOnce events) := by
  unfold AddsOnce; infer_instance

/-- The node list holds the live names, each once, and these are the names of
the nodes of the cache. -/
def NodeListInv (sc : SchedulerCache) (names : List String) : Prop :=
  sc.NodeList = names ∧ names.Nodup ∧ ∀ n, n ∈ names ↔ mapGet sc.Nodes n ≠ none

/-- Node functions that keep the name of the node and its allocatable resource. -/
def plainNodeFns : NodeFns :=
  { NewNodeInfo := fun node =>
      { Name := node.Name, NumaInfo := none, NumaChgFlag := .NumaInfoResetFlag,
        Allocatable := node.Allocatable },
    SetNode := fun ni node => { ni with Name := node.Name, Allocatable := node.Allocatable } }

/-- A cache without nodes. -/
def emptyCache : SchedulerCache := { Nodes := [] }

/-- A pod of namespace `ns` that belongs to the pod group `pg1`. -/
def groupedPod : Pod :=
  { Annotations := [(KubeGroupNameAnnotationKey, "pg1")], Namespace := "ns", Name := "p" }

/-- The pod group `pg1` of namespace `ns`. -/
def groupPg1 : PodGroup :=
  { Name := "pg1", Namespace := "ns", Annotations := [], Labels := [], CreationTimestamp := 0,
    MinMember := 1, Queue := "q1", MinTaskMember := [], MinResources := none,
    Phase := "Pending" }

/-! ## The cleanup of the job cache -/

namespace Controller

/-- What `deletedJobs.Get()` hands to `processCleanupJob`: the signal that the
queue is shut down, an object that is not a `*controllerapis.JobInfo`, or a job
info, given as the object is when it is taken from the queue. -/
inductive QueueItem
  | shutdown
  | other
  | job (ji : JobInfo)
  deriving DecidableEq, Repr

/-- The calls that `processCleanupJob` makes on the work queue `deletedJobs`
for the item it took. -/
inductive QueueCall
  | Forget
  | AddRateLimited
  | Done
  deriving DecidableEq, Repr

/-- The function `jobTerminated`. -/
def jobTerminated (job : JobInfo) : Bool :=
  job.Job.isNone || decide (mapLen job.Pods = 0)

/-- `deleteJob`: the job info is added to `deletedJobs`, rate-limited. -/
def jobCache.deleteJob (_jc : jobCache) (_ji : JobInfo) : List QueueCall :=
  [QueueCall.AddRateLimited]

/-- `processCleanupJob`: the cache afterwards, the calls made on the work queue
for the item, the deferred `Done` last, and the value returned. -/
def jobCache.processCleanupJob (jc : jobCache) (item : QueueItem) :
    jobCache × List QueueCall × Bool :=
  match item with
  | .shutdown => (jc, [], false)
  | .other => (jc, [QueueCall.Done], true)
  | .job ji =>
    if jobTerminated ji then
      let key := keyFn ji.Namespace ji.Name
      ({ jobInfos := mapDel jc.jobInfos key }, [QueueCall.Forget, QueueCall.Done], true)
    else
      (jc, jobCache.deleteJob jc ji ++ [QueueCall.Done], true)

/-- The entry of job `ns/j` after the job was deleted while the pod `p` of its
task `worker` is still there. -/
def orphanedInfo : JobInfo :=
  { Namespace := "ns", Name := "j", Job := none, Pods := [("worker", [("p", workerPod)])] }

/-- A job `ns/j` with one task `worker`. -/
def livingJob : Job :=
  { Name := "j", Namespace := "ns", Tasks := [⟨"worker", 1, 3⟩], MaxRetry := 3,
    MinAvailable := 1,
    Status := { Phase := .Running, Reason := "", Message := "", MinAvailable := 1, Pending := 0,
                Running := 0, Succeeded := 0, Failed := 0, Terminating := 0, Unknown := 0,
                Version := 0, RetryCount := 0 } }

/-- The entry of job `ns/j` while the job is there and has no pods. -/
def podlessInfo : JobInfo :=
  { Namespace := "ns", Name := "j", Job := some livingJob, Pods := [] }

end Controller

/-! ## The minimal resources of the pod group of a pod -/

namespace PodGroupController

/-- `corev1.ResourceList`, a map from resource names to quantities; a quantity
(`resource.Quantity`, a type of a library) is an exact integer here. -/
abbrev ResourceList := List (String × Int)

/-- The part of `corev1.Container` read here: `Resources.Requests` and
`Resources.Limits`, each of which may be nil. -/
structure Container where
  Requests : Option ResourceList
  Limits : Option ResourceList
  deriving DecidableEq, Repr

/-- The part of `corev1.Pod` read here: `Spec.Containers`. -/
structure Pod where
  Containers : List Container
  deriving DecidableEq, Repr

/-- The loop that `addResourceList` runs twice: every quantity of `src` is
added to the quantity that `list` has under its name, or stored when there is
none. -/
def addQuantities (list src : ResourceList) : ResourceList :=
  src.foldl
    (fun l e =>
      match mapGet l e.1 with
      | none => mapSet l e.1 e.2
      | some value => mapSet l e.1 (value + e.2))
    list

/-- `addResourceList(list, req, limit)`: the list afterwards.  A nil map is
ranged over as an empty one. -/
def addResourceList (list : ResourceList) (req limit : Option ResourceList) : ResourceList :=
  let list1 := addQuantities list (req.getD [])
  match req with
  | some _ => list1
  | none => addQuantities list1 (limit.getD [])

/-- `calcPGMinResources(pod)`. -/
def calcPGMinResources (pod : Pod) : ResourceList :=
  pod.Containers.foldl (fun pgMinRes c => addResourceList pgMinRes c.Requests c.Limits) []

/-- What a container contributes: its requests when `Requests` is not nil, and
its limits otherwise. -/
def Container.contribution (c : Container) : ResourceList :=
  match c.Requests with
  | some req => req
  | none => c.Limits.getD []

/-- The requests and the limits of the container are maps: no name is listed twice. -/
def Container.IsMap (c : Container) : Prop :=
  NodupKeys (c.Requests.getD []) ∧ NodupKeys (c.Limits.getD [])

instance (c : Container) : Decidable c.IsMap := by
  unfold Container.IsMap NodupKeys; infer_instance

/-- A pod with one container that has empty requests and a limit of two CPUs. -/
def emptyRequestsPod : Pod :=
  { Containers := [{ Requests := some [], Limits := some [("cpu", 2)] }] }

/-- A pod with a container with requests and limits, and a container with
limits only. -/
def twoContainerPod : Pod :=
  { Containers := [{ Requests := some [("cpu", 1), ("memory", 5)],
                     Limits := some [("cpu", 4), ("gpu", 1)] },
                   { Requests := none, Limits := some [("cpu", 2)] }] }

end PodGroupController

/-- A `Pending` task without NUMA info and without last transaction context. -/
def bareTask : TaskInfo :=
  { mkTask "a" TaskStatus.Pending 1000 false with NumaInfo := none, LastTx := none }

/-- A job made by `NewJobInfo` from one task with NUMA info; `SetPodGroup` was
not called on it. -/
def groupless : JobInfo := JobInfo.NewJobInfo "j" [mkTask "a" TaskStatus.Pending 1000 false]

/-- The job `groupless` after `SetPodGroup` gave it a pod group and a budget. -/
def grouped : JobInfo :=
  { groupless with PodGroup := some workerGroup, Budget := some ⟨"", ""⟩, Queue := "q" }

/-! ## The task-topology plugin: the job manager and its buckets -/

namespace TopologyPlugin

/-- The type `topologyType`. -/
inductive topologyType
  | selfAntiAffinity
  | interAntiAffinity
  | selfAffinity
  | interAffinity
  deriving DecidableEq, Repr

/-- The map `affinityPriority`. -/
def affinityPriority : topologyType → Int
  | .selfAntiAffinity => 4
  | .interAffinity => 3
  | .selfAffinity => 2
  | .interAntiAffinity => 1

/-- A set of task names, `map[string]struct{}`. -/
abbrev NameSet := List (String × Unit)

/-- A relation on task names, `map[string]map[string]struct{}`. -/
abbrev Relation := List (String × NameSet)

/-- The test `_, ok := s[name]`. -/
def inSet (s : NameSet) (name : String) : Bool := (mapGet s name).isSome

/-- The test `_, ok := m[src][dst]`; the set of a missing `src` is nil. -/
def inRel (m : Relation) (src dst : String) : Bool :=
  (mapGet ((mapGet m src).getD []) dst).isSome

/-- Modelled from the spec: `OutOfBucket` (declared in the missing
`topology.go`), the mark of a pod that is in no bucket; it is no index. -/
def OutOfBucket : Int := -1

/-- Modelled from the spec: `addAffinity(m, src, dst)` (declared in the missing
`topology.go`) files `dst` in the set `m[src]`, which it makes when there is
none. -/
def addAffinity (m : Relation) (src dst : String) : Relation :=
  mapSet m src (mapSet ((mapGet m src).getD []) dst ())

/-- The type `TaskTopology` (declared in the missing `topology.go`): the
affinity groups, the anti-affinity groups and the task order. -/
structure TaskTopology where
  Affinity : List (List String)
  AntiAffinity : List (List String)
  TaskOrder : List String
  deriving DecidableEq, Repr

/-- The type `reqAction`. -/
inductive reqAction
  | reqSub
  | reqAdd
  deriving DecidableEq, Repr

/-- `Bucket`; the counters are of type `int`, whose overflow is not modelled,
and `reqScore` is a rational number here. -/
structure Bucket where
  index : Int
  tasks : List (String × TaskInfo)
  taskNameSet : List (String × Int)
  reqScore : ℚ
  request : Resource
  boundTask : Int
  node : List (String × Int)
  deriving DecidableEq

/-- The function `NewBucket`. -/
def NewBucket : Bucket :=
  { index := 0, tasks := [], taskNameSet := [], reqScore := 0,
    request := Resource.EmptyResource, boundTask := 0, node := [] }

/-- `Bucket.CalcResReq` for a request that is not nil. -/
def Bucket.CalcResReq (b : Bucket) (req : Resource) (action : reqAction) : Bucket :=
  let cpu : ℚ := req.MilliCPU
  let mem : ℚ := (req.Memory : ℚ) / 1024 / 1024
  let score : ℚ := req.ScalarResources.foldl (fun s request => s + (request.2 : ℚ)) (cpu + mem)
  match action with
  | .reqSub => { b with reqScore := b.reqScore - score, request := b.request.Sub req }
  | .reqAdd => { b with reqScore := b.reqScore + score, request := b.request.Add req }

/-- The statement `m[k]++` on a map of counters. -/
def incrAt (m : List (String × Int)) (k : String) : List (String × Int) :=
  mapSet m k ((mapGet m k).getD 0 + 1)

/-- `Bucket.AddTask`. -/
def Bucket.AddTask (b : Bucket) (taskName : String) (task : TaskInfo) : Bucket :=
  let b1 : Bucket := { b with taskNameSet := incrAt b.taskNameSet taskName }
  if task.NodeName ≠ "" then
    { b1 with node := incrAt b1.node task.NodeName, boundTask := b1.boundTask + 1 }
  else
    Bucket.CalcResReq { b1 with tasks := mapSet b1.tasks task.Pod.UID task } task.ResReq
      reqAction.reqAdd

/-- `Bucket.TaskBound`. -/
def Bucket.TaskBound (b : Bucket) (task : TaskInfo) : Bucket :=
  let b1 : Bucket :=
    { b with node := incrAt b.node task.NodeName, boundTask := b.boundTask + 1 }
  Bucket.CalcResReq { b1 with tasks := mapDel b1.tasks task.Pod.UID } task.ResReq
    reqAction.reqSub

/-- `JobManager`.  The slice `buckets` holds pointers to buckets that are
distinct objects: a bucket is known by its position in the slice, and a write
through the pointer is a write at that position. -/
structure JobManager where
  jobID : JobID
  buckets : List Bucket
  podInBucket : List (String × Int)
  podInTask : List (String × String)
  taskAffinityPriority : List (String × Int)
  taskExistOrder : List (String × Int)
  interAffinity : Relation
  selfAffinity : NameSet
  interAntiAffinity : Relation
  selfAntiAffinity : NameSet
  bucketMaxSize : Int
  nodeTaskSet : List (String × List (String × Int))
  deriving DecidableEq

/-- `NewJobManager`. -/
def NewJobManager (jobID : JobID) : JobManager :=
  { jobID := jobID, buckets := [], podInBucket := [], podInTask := [],
    taskAffinityPriority := [], taskExistOrder := [], interAffinity := [],
    interAntiAffinity := [], selfAffinity := [], selfAntiAffinity := [],
    bucketMaxSize := 0, nodeTaskSet := [] }

namespace JobManager

/-- `jm.NewBucket()`: the manager afterwards; the bucket returned is the last
one of `buckets`. -/
def NewBucket (jm : JobManager) : JobManager :=
  { jm with buckets := jm.buckets ++ [{ TopologyPlugin.NewBucket with index := jm.buckets.length }] }

/-- `jm.GetBucket(task)`: `some none` for nil, `some (some i)` for the bucket
at position `i`, and `none` when the index read from `podInBucket` is out of
range, which is a panic. -/
def GetBucket (jm : JobManager) (task : TaskInfo) : Option (Option Nat) :=
  match mapGet jm.podInBucket task.Pod.UID with
  | none => some none
  | some index =>
    if index = OutOfBucket then some none
    else if 0 ≤ index ∧ index.toNat < jm.buckets.length then some (some index.toNat)
    else none

/-- `jm.AddTaskToBucket(bucketIndex, taskName, task)`: the manager afterwards,
and `none` when `bucketIndex` is out of range, which is a panic. -/
def AddTaskToBucket (jm : JobManager) (bucketIndex : Int) (taskName : String)
    (task : TaskInfo) : Option JobManager :=
  if 0 ≤ bucketIndex then
    match jm.buckets.get? bucketIndex.toNat with
    | none => none
    | some bucket =>
      let bucket1 := bucket.AddTask taskName task
      let jm1 : JobManager :=
        { jm with podInBucket := mapSet jm.podInBucket task.Pod.UID bucketIndex,
                  buckets := jm.buckets.set bucketIndex.toNat bucket1 }
      let size : Int := (mapLen bucket1.tasks : Int) + bucket1.boundTask
      if size > jm1.bucketMaxSize then some { jm1 with bucketMaxSize := size } else some jm1
  else none

/-- `jm.TaskBound(task)`; `getTaskName` is declared in the missing
`topology.go` and is a parameter. -/
def TaskBound (getTaskName : TaskInfo → String) (jm : JobManager) (task : TaskInfo) :
    Option JobManager :=
  let taskName := getTaskName task
  let jm1 : JobManager :=
    if taskName ≠ "" then
      { jm with nodeTaskSet := mapSet jm.nodeTaskSet task.NodeName
                  (incrAt ((mapGet jm.nodeTaskSet task.NodeName).getD []) taskName) }
    else jm
  match jm1.GetBucket task with
  | none => none
  | some none => some jm1
  | some (some i) =>
    match jm1.buckets.get? i with
    | none => none
    | some bucket => some { jm1 with buckets := jm1.buckets.set i (bucket.TaskBound task) }

/-- `jm.MarkOutOfBucket(uid)`. -/
def MarkOutOfBucket (jm : JobManager) (uid : String) : JobManager :=
  { jm with podInBucket := mapSet jm.podInBucket uid OutOfBucket }

/-- `jm.MarkTaskHasTopology(taskName, topoType)`. -/
def MarkTaskHasTopology (jm : JobManager) (taskName : String) (topoType : topologyType) :
    JobManager :=
  let priority := affinityPriority topoType
  if priority > (mapGet jm.taskAffinityPriority taskName).getD 0 then
    { jm with taskAffinityPriority := mapSet jm.taskAffinityPriority taskName priority }
  else jm

/-- The inner loop `for _, dst := range aff[:index]` of `ApplyTaskTopology` on a
relation, `seen` being `aff[:index]`. -/
def linkAll (m : Relation) (src : String) (seen : List String) : Relation :=
  seen.foldl (fun m dst => addAffinity (addAffinity m src dst) dst src) m

/-- The loop `for index, src := range aff` of `ApplyTaskTopology` for an
affinity group of another length than one; `seen` is `aff[:index]`. -/
def linkAffinity : List String → List String → JobManager → JobManager
  | _, [], jm => jm
  | seen, src :: rest, jm =>
    linkAffinity (seen ++ [src]) rest
      (MarkTaskHasTopology { jm with interAffinity := linkAll jm.interAffinity src seen } src
        topologyType.interAffinity)

/-- The same loop for an anti-affinity group. -/
def linkAntiAffinity : List String → List String → JobManager → JobManager
  | _, [], jm => jm
  | seen, src :: rest, jm =>
    linkAntiAffinity (seen ++ [src]) rest
      (MarkTaskHasTopology
        { jm with interAntiAffinity := linkAll jm.interAntiAffinity src seen } src
        topologyType.interAntiAffinity)

/-- The body of the loop over `topo.Affinity`. -/
def applyAffinity (jm : JobManager) (aff : List String) : JobManager :=
  match aff with
  | [taskName] =>
    MarkTaskHasTopology { jm with selfAffinity := mapSet jm.selfAffinity taskName () } taskName
      topologyType.selfAffinity
  | _ => linkAffinity [] aff jm

/-- The body of the loop over `topo.AntiAffinity`. -/
def applyAntiAffinity (jm : JobManager) (aff : List String) : JobManager :=
  match aff with
  | [taskName] =>
    MarkTaskHasTopology { jm with selfAntiAffinity := mapSet jm.selfAntiAffinity taskName () }
      taskName topologyType.selfAntiAffinity
  | _ => linkAntiAffinity [] aff jm

/-- The loop `for index, taskName := range topo.TaskOrder`, from position
`index` on. -/
def setOrder (length : Nat) : Nat → List String → List (String × Int) → List (String × Int)
  | _, [], m => m
  | index, taskName :: rest, m =>
    setOrder length (index + 1) rest (mapSet m taskName ((length : Int) - (index : Int)))

/-- `jm.ApplyTaskTopology(topo)`. -/
def ApplyTaskTopology (jm : JobManager) (topo : TaskTopology) : JobManager :=
  let jm1 := topo.Affinity.foldl applyAffinity jm
  let jm2 := topo.AntiAffinity.foldl applyAntiAffinity jm1
  { jm2 with
    taskExistOrder := setOrder topo.TaskOrder.length 0 topo.TaskOrder jm2.taskExistOrder }

/-- `jm.taskAffinityOrder(L, R)`. -/
def taskAffinityOrder (jm : JobManager) (L R : TaskInfo) : Int :=
  let LTaskName := (mapGet jm.podInTask L.Pod.UID).getD ""
  let RTaskName := (mapGet jm.podInTask R.Pod.UID).getD ""
  if LTaskName = RTaskName then 0
  else
    let LOrder := (mapGet jm.taskExistOrder LTaskName).getD 0
    let ROrder := (mapGet jm.taskExistOrder RTaskName).getD 0
    if LOrder ≠ ROrder then
      if LOrder > ROrder then 1 else -1
    else
      let LPriority := (mapGet jm.taskAffinityPriority LTaskName).getD 0
      let RPriority := (mapGet jm.taskAffinityPriority RTaskName).getD 0
      if LPriority ≠ RPriority then
        if LPriority > RPriority then 1 else -1
      else 0

/-- `jm.checkTaskSetAffinity(taskName, taskNameSet, onlyAnti)`. -/
def checkTaskSetAffinity (jm : JobManager) (taskName : String)
    (taskNameSet : List (String × Int)) (onlyAnti : Bool) : Int :=
  if taskName = "" then 0
  else
    taskNameSet.foldl
      (fun bucketPodAff e =>
        let theSameTask : Bool := decide (e.1 = taskName)
        let aff1 : Int :=
          if !onlyAnti then
            let affinity : Bool :=
              if theSameTask then inSet jm.selfAffinity taskName
              else inRel jm.interAffinity taskName e.1
            if affinity then bucketPodAff + e.2 else bucketPodAff
          else bucketPodAff
        let antiAffinity : Bool :=
          if theSameTask then inSet jm.selfAntiAffinity taskName
          else inRel jm.interAntiAffinity taskName e.1
        if antiAffinity then aff1 - e.2 else aff1)
      0

/-- The loop `for _, bucket := range jm.buckets` of `buildBucket`, from
position `pos` on: the bucket selected so far, with its position, and
`maxAffinity`. -/
def selectFrom (jm : JobManager) (taskName : String) :
    Nat → List Bucket → Option (Nat × Bucket) × Int → Option (Nat × Bucket) × Int
  | _, [], acc => acc
  | pos, bucket :: rest, (selectedBucket, maxAffinity) =>
    let bucketPodAff := checkTaskSetAffinity jm taskName bucket.taskNameSet false
    let acc1 : Option (Nat × Bucket) × Int :=
      if bucketPodAff > maxAffinity then (some (pos, bucket), bucketPodAff)
      else
        match selectedBucket with
        | some sel =>
          if bucketPodAff = maxAffinity ∧ bucket.reqScore < sel.2.reqScore then
            (some (pos, bucket), maxAffinity)
          else (selectedBucket, maxAffinity)
        | none => (selectedBucket, maxAffinity)
    selectFrom jm taskName (pos + 1) rest acc1

/-- The state of the loop of `buildBucket`: the manager and
`nodeBucketMapping`, which gives for a node name the position of its bucket. -/
structure BuildState where
  jm : JobManager
  nodeBucketMapping : List (String × Nat)

/-- The body of the loop of `buildBucket` for one task; `none` when a call
panics. -/
def placeTask (getTaskName : TaskInfo → String) (st : BuildState) (task : TaskInfo) :
    Option BuildState :=
  let taskName := getTaskName task
  let choice : Option Nat × Int :=
    if task.NodeName ≠ "" then (mapGet st.nodeBucketMapping task.NodeName, 0)
    else
      let r := selectFrom st.jm taskName 0 st.jm.buckets (none, -2147483648)
      (r.1.map (fun sel => sel.1), r.2)
  let placed : BuildState × Option Nat :=
    if choice.2 < 0 ∨ choice.1 = none then
      let pos := st.jm.buckets.length
      ({ jm := st.jm.NewBucket,
         nodeBucketMapping :=
           if task.NodeName ≠ "" then mapSet st.nodeBucketMapping task.NodeName pos
           else st.nodeBucketMapping }, some pos)
    else (st, choice.1)
  match placed.2.bind (fun pos => placed.1.jm.buckets.get? pos) with
  | none => none
  | some selectedBucket =>
    match placed.1.jm.AddTaskToBucket selectedBucket.index taskName task with
    | none => none
    | some jm1 => some { placed.1 with jm := jm1 }

/-- `jm.buildBucket(taskWithOrder)`. -/
def buildBucket (getTaskName : TaskInfo → String) (jm : JobManager)
    (taskWithOrder : List TaskInfo) : Option JobManager :=
  (taskWithOrder.foldlM (placeTask getTaskName)
    ({ jm := jm, nodeBucketMapping := [] } : BuildState)).map (fun st => st.jm)

/-- `jm.buildTaskInfo(tasks)`: the manager afterwards and `taskWithoutBucket`. -/
def buildTaskInfo (getTaskName : TaskInfo → String) (jm : JobManager)
    (tasks : List (TaskID × TaskInfo)) : JobManager × List TaskInfo :=
  tasks.foldl
    (fun acc e =>
      let taskName := getTaskName e.2
      if taskName = "" then (acc.1.MarkOutOfBucket e.2.Pod.UID, acc.2)
      else if (mapGet acc.1.taskAffinityPriority taskName).isNone then
        (acc.1.MarkOutOfBucket e.2.Pod.UID, acc.2)
      else
        ({ acc.1 with podInTask := mapSet acc.1.podInTask e.2.Pod.UID taskName },
          acc.2 ++ [e.2]))
    (jm, [])

/-- `jm.ConstructBucket(tasks)`; the sort of the tasks, whose order is declared
in the missing `topology.go`, is the parameter `sort`. -/
def ConstructBucket (getTaskName : TaskInfo → String) (sort : List TaskInfo → List TaskInfo)
    (jm : JobManager) (tasks : List (TaskID × TaskInfo)) : Option JobManager :=
  let r := buildTaskInfo getTaskName jm tasks
  buildBucket getTaskName r.1 (sort r.2)

/-- The task name that `taskAffinityOrder` reads for a task. -/
def taskNameOf (jm : JobManager) (t : TaskInfo) : String :=
  (mapGet jm.podInTask t.Pod.UID).getD ""

/-- The order value that `taskAffinityOrder` reads for a task. -/
def orderValue (jm : JobManager) (t : TaskInfo) : Int :=
  (mapGet jm.taskExistOrder (taskNameOf jm t)).getD 0

/-- The affinity priority that `taskAffinityOrder` reads for a task. -/
def priorityValue (jm : JobManager) (t : TaskInfo) : Int :=
  (mapGet jm.taskAffinityPriority (taskNameOf jm t)).getD 0

/-- The affinity priority filed under a task name, 0 when there is none. -/
def priorityOfName (jm : JobManager) (name : String) : Int :=
  (mapGet jm.taskAffinityPriority name).getD 0

end JobManager

/-- Following the claim: the name is the only member of one of the groups. -/
def occursAlone (groups : List (List String)) (name : String) : Bool :=
  groups.any (fun g => decide (g = [name]))

/-- Following the claim: the name is a member of a group that is no
one-element group. -/
def occursAmong (groups : List (List String)) (name : String) : Bool :=
  groups.any (fun g => decide (g.length ≠ 1) && decide (name ∈ g))

end TopologyPlugin

namespace TopologyPlugin

/-- The size of a bucket as `AddTaskToBucket` computes it:
`len(bucket.tasks) + bucket.boundTask`. -/
def Bucket.size (b : Bucket) : Int := (mapLen b.tasks : Int) + b.boundTask

/-- The largest size of the buckets, 0 for no buckets. -/
def maxSize (buckets : List Bucket) : Int := (buckets.map Bucket.size).foldr max 0

/-- A call of `AddTaskToBucket` or of `TaskBound`. -/
inductive BucketOp
  | add (bucketIndex : Int) (taskName : String) (task : TaskInfo)
  | bound (task : TaskInfo)
  deriving DecidableEq

namespace JobManager

/-- The manager after one call; `none` when the call panics. -/
def applyOp (getTaskName : TaskInfo → String) (jm : JobManager) : BucketOp → Option JobManager
  | .add bucketIndex taskName task => jm.AddTaskToBucket bucketIndex taskName task
  | .bound task => jm.TaskBound getTaskName task

/-- The manager after a sequence of calls; `none` when one of them panics. -/
def runOps (getTaskName : TaskInfo → String) (jm : JobManager) (ops : List BucketOp) :
    Option JobManager :=
  ops.foldlM (applyOp getTaskName) jm

/-- The pod of the task is in no bucket, or the bucket it is in holds the task
in `tasks`: the task was added when it was not bound to a node, and
`TaskBound` was not called on it since. -/
def holds (jm : JobManager) (task : TaskInfo) : Bool :=
  match mapGet jm.podInBucket task.Pod.UID with
  | none => true
  | some index =>
    decide (index = OutOfBucket) ||
      (match jm.buckets.get? index.toNat with
        | some bucket => (mapGet bucket.tasks task.Pod.UID).isSome
        | none => false)

end JobManager

/-- Every `TaskBound` of the sequence is called on a task that the manager
holds at that point. -/
def BoundsHeld (getTaskName : TaskInfo → String) : JobManager → List BucketOp → Prop
  | _, [] => True
  | jm, op :: rest =>
    (match op with
      | .bound task => jm.holds task = true
      | _ => True) ∧
    (match jm.applyOp getTaskName op with
      | some jm1 => BoundsHeld getTaskName jm1 rest
      | none => True)

instance instDecidableBoundsHeld (getTaskName : TaskInfo → String) :
    (jm : JobManager) → (ops : List BucketOp) → Decidable (BoundsHeld getTaskName jm ops)
  | _, [] => isTrue trivial
  | jm, op :: rest =>
    have h2 : Decidable (match jm.applyOp getTaskName op with
        | some jm1 => BoundsHeld getTaskName jm1 rest
        | none => True) :=
      match jm.applyOp getTaskName op with
      | some jm1 => instDecidableBoundsHeld getTaskName jm1 rest
      | none => isTrue trivial
    match op with
    | .add _ _ _ => by unfold BoundsHeld; exact instDecidableAnd
    | .bound _ => by unfold BoundsHeld; exact instDecidableAnd

/-- The invariant of the buckets of a job manager: every bucket stands at the
position its `index` names, every entry of `podInBucket` is `OutOfBucket` or an
index of `buckets`, `bucketMaxSize` is the largest size of the buckets, and in
every bucket `boundTask` is not negative and `tasks` is a map. -/
def BucketInv (jm : JobManager) : Prop :=
  (∀ i b, jm.buckets.get? i = some b → b.index = (i : Int)) ∧
  (∀ uid index, mapGet jm.podInBucket uid = some index →
    index = OutOfBucket ∨ (0 ≤ index ∧ index < (jm.buckets.length : Int))) ∧
  jm.bucketMaxSize = maxSize jm.buckets ∧
  (∀ b ∈ jm.buckets, 0 ≤ b.boundTask ∧ NodupKeys b.tasks)

/-- The invariant of the loop of `buildBucket`: the invariant of the buckets,
and every node of `nodeBucketMapping` has the position of a bucket. -/
def BuildInv (st : JobManager.BuildState) : Prop :=
  BucketInv st.jm ∧
  ∀ node pos, mapGet st.nodeBucketMapping node = some pos → pos < st.jm.buckets.length

/-- The task name of a task: the task-spec annotation of its pod. -/
def annotatedName (task : TaskInfo) : String := getTaskID task.Pod

/-- A task `a` of task `w` that is bound to node `n1`. -/
def boundAtAdd : TaskInfo :=
  { mkTask "a" TaskStatus.Running 1000 false with
    NodeName := "n1",
    Pod := { Annotations := [(TaskSpecKey, "w")], UID := "a", NodeName := "n1" } }

/-- A pending task `b` of task `w` that is bound to no node. -/
def unboundAtAdd : TaskInfo :=
  { mkTask "b" TaskStatus.Pending 1000 false with
    Pod := { Annotations := [(TaskSpecKey, "w")], UID := "b" } }

/-- A new job manager to which the topology "`w` has affinity to itself" was
applied. -/
def selfAffine : JobManager :=
  (NewJobManager "j").ApplyTaskTopology { Affinity := [["w"]], AntiAffinity := [], TaskOrder := [] }

end TopologyPlugin

end Volcano

/-! ## Lemmas on Go maps -/

namespace Volcano

open TaskStatus Resource

section MapLemmas

variable {κ α : Type} [DecidableEq κ]

theorem mapGet_eq_none_iff (m : List (κ × α)) (k : κ) :
    mapGet m k = none ↔ k ∉ m.map (fun p => p.1) := by
  induction m with
  | nil => simp [mapGet]
  | cons p r ih =>
    obtain ⟨k', v⟩ := p
    by_cases h : k' = k
    · simp [mapGet, h]
    · simp [mapGet, h, ih, Ne.symm h]

theorem mem_of_mapGet_eq_some {m : List (κ × α)} {k : κ} {v : α}
    (h : mapGet m k = some v) : (k, v) ∈ m := by
  induction m with
  | nil => simp [mapGet] at h
  | cons p r ih =>
    obtain ⟨k', v'⟩ := p
    by_cases hk : k' = k
    · simp [mapGet, hk] at h; simp [hk, h]
    · simp [mapGet, hk] at h; simp [ih h]

theorem mapGet_eq_some_of_mem {m : List (κ × α)} (hn : NodupKeys m) {k : κ} {v : α}
    (h : (k, v) ∈ m) : mapGet m k = some v := by
  induction m with
  | nil => simp at h
  | cons p r ih =>
    obtain ⟨k', v'⟩ := p
    have hn' : k' ∉ r.map (fun p => p.1) ∧ NodupKeys r := by
      simpa [NodupKeys] using hn
    rcases List.mem_cons.1 h with h1 | h1
    · cases h1; simp [mapGet]
    · have hk : k' ≠ k := by
        intro e
        exact hn'.1 (List.mem_map.2 ⟨(k, v), h1, e.symm⟩)
      simp [mapGet, hk, ih hn'.2 h1]

theorem mapDel_cons (k0 : κ) (v : α) (r : List (κ × α)) (k : κ) :
    mapDel ((k0, v) :: r) k = if k0 = k then mapDel r k else (k0, v) :: mapDel r k := by
  by_cases h0 : k0 = k <;> simp [mapDel, List.filter, h0]

theorem mapGet_mapDel (m : List (κ × α)) (k k' : κ) :
    mapGet (mapDel m k) k' = if k = k' then none else mapGet m k' := by
  induction m with
  | nil => simp [mapDel, mapGet]
  | cons p r ih =>
    obtain ⟨k0, v⟩ := p
    rw [mapDel_cons]
    by_cases h0 : k0 = k
    · subst h0
      by_cases h1 : k0 = k'
      · subst h1; simpa using ih
      · simp [h1, ih, mapGet]
    · by_cases h1 : k = k'
      · subst h1; simp [h0, mapGet, ih]
      · simp [h0, h1, mapGet, ih]

theorem mapGet_mapSet (m : List (κ × α)) (k k' : κ) (v : α) :
    mapGet (mapSet m k v) k' = if k = k' then some v else mapGet m k' := by
  by_cases h : k = k'
  · simp [mapSet, mapGet, h]
  · simp [mapSet, mapGet, h, mapGet_mapDel]

theorem nodupKeys_mapDel {m : List (κ × α)} (hn : NodupKeys m) (k : κ) :
    NodupKeys (mapDel m k) := by
  unfold NodupKeys mapDel at *
  exact (List.Sublist.map _ (List.filter_sublist m)).nodup hn

theorem not_mem_keys_mapDel (m : List (κ × α)) (k : κ) :
    k ∉ (mapDel m k).map (fun p => p.1) := by
  simp [mapDel]

theorem nodupKeys_mapSet {m : List (κ × α)} (hn : NodupKeys m) (k : κ) (v : α) :
    NodupKeys (mapSet m k v) := by
  have h1 := nodupKeys_mapDel hn k
  have h2 := not_mem_keys_mapDel m k
  unfold NodupKeys mapSet at *
  simp only [List.map_cons, List.nodup_cons]
  exact ⟨h2, h1⟩

theorem mapDel_eq_self {m : List (κ × α)} {k : κ} (h : mapGet m k = none) :
    mapDel m k = m := by
  rw [mapGet_eq_none_iff] at h
  unfold mapDel
  rw [List.filter_eq_self]
  intro p hp
  simp only [ne_eq, decide_eq_true_eq]
  intro e
  exact h (List.mem_map.2 ⟨p, hp, e⟩)

theorem mem_mapDel {m : List (κ × α)} {k : κ} {e : κ × α} :
    e ∈ mapDel m k ↔ e ∈ m ∧ e.1 ≠ k := by
  simp [mapDel]

omit [DecidableEq κ] in
theorem nodup_of_nodupKeys {m : List (κ × α)} (hn : NodupKeys m) : m.Nodup :=
  List.Nodup.of_map _ hn

/-- Two Go maps with the same lookups hold the same entries. -/
theorem perm_of_mapGet_eq [DecidableEq α] {m1 m2 : List (κ × α)} (h1 : NodupKeys m1)
    (h2 : NodupKeys m2) (h : ∀ k, mapGet m1 k = mapGet m2 k) : m1.Perm m2 := by
  rw [List.perm_ext_iff_of_nodup (nodup_of_nodupKeys h1) (nodup_of_nodupKeys h2)]
  intro e
  obtain ⟨k, v⟩ := e
  constructor
  · intro he
    exact mem_of_mapGet_eq_some ((h k) ▸ mapGet_eq_some_of_mem h1 he)
  · intro he
    exact mem_of_mapGet_eq_some ((h k).symm ▸ mapGet_eq_some_of_mem h2 he)

end MapLemmas

/-! ## Lemmas on resources -/

theorem mapGet_map_mk {β : Type} (l : List String) (f : String → β) (k : String) :
    mapGet (l.map (fun n => (n, f n))) k = if k ∈ l then some (f k) else none := by
  induction l with
  | nil => simp [mapGet]
  | cons a r ih =>
    by_cases h : a = k
    · subst h; simp [mapGet]
    · simp [mapGet, h, ih, Ne.symm h]

theorem scalar_eq_zero_of_not_mem {r : Resource} {n : String}
    (h : n ∉ r.ScalarResources.map (fun p => p.1)) : r.scalar n = 0 := by
  unfold Resource.scalar
  rw [(mapGet_eq_none_iff _ _).2 h]
  rfl

theorem scalar_Add (r rr : Resource) (n : String) :
    (r.Add rr).scalar n = r.scalar n + rr.scalar n := by
  show (mapGet ((scalarNames r rr).map (fun n => (n, r.scalar n + rr.scalar n))) n).getD 0 = _
  rw [mapGet_map_mk]
  by_cases h : n ∈ scalarNames r rr
  · simp [h]
  · have h' : n ∉ r.ScalarResources.map (fun p => p.1) ∧
        n ∉ rr.ScalarResources.map (fun p => p.1) := by
      simpa [scalarNames, not_or] using h
    simp [h, scalar_eq_zero_of_not_mem h'.1, scalar_eq_zero_of_not_mem h'.2]

theorem scalar_Sub (r rr : Resource) (n : String) :
    (r.Sub rr).scalar n = r.scalar n - rr.scalar n := by
  show (mapGet ((scalarNames r rr).map (fun n => (n, r.scalar n - rr.scalar n))) n).getD 0 = _
  rw [mapGet_map_mk]
  by_cases h : n ∈ scalarNames r rr
  · simp [h]
  · have h' : n ∉ r.ScalarResources.map (fun p => p.1) ∧
        n ∉ rr.ScalarResources.map (fun p => p.1) := by
      simpa [scalarNames, not_or] using h
    simp [h, scalar_eq_zero_of_not_mem h'.1, scalar_eq_zero_of_not_mem h'.2]

theorem vec_Add (r rr : Resource) : (r.Add rr).vec = r.vec + rr.vec := by
  refine Prod.ext rfl (Prod.ext rfl ?_)
  funext n
  exact scalar_Add r rr n

theorem vec_Sub (r rr : Resource) : (r.Sub rr).vec = r.vec - rr.vec := by
  refine Prod.ext rfl (Prod.ext rfl ?_)
  funext n
  exact scalar_Sub r rr n

theorem vec_EmptyResource : EmptyResource.vec = 0 := by
  refine Prod.ext rfl (Prod.ext rfl ?_)
  funext n
  rfl


/-! ## The job operations keep the job well-formed -/

open JobInfo

theorem AddTaskInfo_Tasks (ji : JobInfo) (ti : TaskInfo) :
    (ji.AddTaskInfo ti).Tasks = mapSet ji.Tasks ti.UID ti := by
  unfold AddTaskInfo; split <;> rfl

theorem AddTaskInfo_index (ji : JobInfo) (ti : TaskInfo) :
    (ji.AddTaskInfo ti).TaskStatusIndex = (ji.addTaskIndex ti).TaskStatusIndex := by
  unfold AddTaskInfo; split <;> rfl

theorem AddTaskInfo_TotalRequest (ji : JobInfo) (ti : TaskInfo) :
    (ji.AddTaskInfo ti).TotalRequest = ji.TotalRequest.Add ti.ResReq := by
  unfold AddTaskInfo; split <;> rfl

theorem AddTaskInfo_Allocated (ji : JobInfo) (ti : TaskInfo) :
    (ji.AddTaskInfo ti).Allocated =
      if AllocatedStatus ti.Status then ji.Allocated.Add ti.ResReq else ji.Allocated := by
  unfold AddTaskInfo; split <;> rfl

theorem index_addTaskIndex (ji : JobInfo) (ti : TaskInfo) (s : TaskStatus) :
    mapGet (ji.addTaskIndex ti).TaskStatusIndex s =
      if ti.Status = s then
        some (mapSet ((mapGet ji.TaskStatusIndex ti.Status).getD []) ti.UID ti)
      else mapGet ji.TaskStatusIndex s := by
  unfold addTaskIndex
  simp only [mapGet_mapSet]
  cases mapGet ji.TaskStatusIndex ti.Status <;> rfl

theorem indexed_addTaskIndex (ji : JobInfo) (ti : TaskInfo) (s : TaskStatus) (u : TaskID) :
    (ji.addTaskIndex ti).indexed s u =
      if ti.Status = s ∧ ti.UID = u then some ti else ji.indexed s u := by
  unfold indexed
  rw [index_addTaskIndex]
  by_cases hs : ti.Status = s
  · subst hs
    by_cases hu : ti.UID = u
    · simp [mapGet_mapSet, hu]
    · cases h : mapGet ji.TaskStatusIndex ti.Status with
      | none => simp [mapGet_mapSet, hu, mapGet]
      | some b => simp [mapGet_mapSet, hu]
  · simp [hs]

theorem indexed_deleteTaskIndex (ji : JobInfo) (ti : TaskInfo) (s : TaskStatus) (u : TaskID) :
    (ji.deleteTaskIndex ti).indexed s u =
      if ti.Status = s ∧ ti.UID = u then none else ji.indexed s u := by
  unfold deleteTaskIndex
  cases h : mapGet ji.TaskStatusIndex ti.Status with
  | none =>
    by_cases hs : ti.Status = s
    · subst hs; simp [indexed, h]
    · simp [hs]
  | some tasks =>
    simp only
    by_cases he : mapLen (mapDel tasks ti.UID) = 0
    · rw [if_pos he]
      have he' : mapDel tasks ti.UID = [] := List.length_eq_zero.1 he
      by_cases hs : ti.Status = s
      · subst hs
        have hu : ∀ u, ti.UID ≠ u → mapGet tasks u = none := by
          intro u hu
          have := mapGet_mapDel tasks ti.UID u
          rw [he'] at this
          simpa [mapGet, hu] using this.symm
        by_cases hu' : ti.UID = u
        · simp [indexed, mapGet_mapDel, hu']
        · simp [indexed, mapGet_mapDel, hu', h, hu u hu']
      · simp [indexed, mapGet_mapDel, hs]
    · rw [if_neg he]
      by_cases hs : ti.Status = s
      · subst hs
        by_cases hu' : ti.UID = u
        · simp [indexed, mapGet_mapSet, mapGet_mapDel, hu']
        · simp [indexed, mapGet_mapSet, mapGet_mapDel, hu', h]
      · simp [indexed, mapGet_mapSet, hs]

theorem wellFormed_AddTaskInfo {ji : JobInfo} (h : WellFormed ji) (ti : TaskInfo)
    (hf : mapGet ji.Tasks ti.UID = none) : WellFormed (ji.AddTaskInfo ti) := by
  refine ⟨?_, ?_, ?_, ?_, ?_⟩
  · rw [AddTaskInfo_Tasks]; exact nodupKeys_mapSet h.tasksNodup _ _
  · rw [AddTaskInfo_index]; exact nodupKeys_mapSet h.indexNodup _ _
  · intro s m hm
    rw [AddTaskInfo_index, index_addTaskIndex] at hm
    by_cases hs : ti.Status = s
    · rw [if_pos hs] at hm
      cases hm
      refine ⟨nodupKeys_mapSet ?_ _ _, by simp [mapSet]⟩
      cases hb : mapGet ji.TaskStatusIndex ti.Status with
      | none => simp [NodupKeys]
      | some b => exact (h.bucket _ _ hb).1
    · rw [if_neg hs] at hm
      exact h.bucket s m hm
  · intro uid t ht
    rw [AddTaskInfo_Tasks, mapGet_mapSet] at ht
    by_cases hu : ti.UID = uid
    · rw [if_pos hu] at ht; cases ht; exact hu
    · rw [if_neg hu] at ht; exact h.keyUID uid t ht
  · intro s uid t
    have e : (ji.AddTaskInfo ti).indexed s uid = (ji.addTaskIndex ti).indexed s uid := by
      unfold indexed; rw [AddTaskInfo_index]
    rw [e, indexed_addTaskIndex, AddTaskInfo_Tasks, mapGet_mapSet]
    by_cases hu : ti.UID = uid
    · subst hu
      by_cases hs : ti.Status = s
      · subst hs
        simp only [and_self, if_true, Option.some.injEq]
        constructor
        · intro e; subst e; exact ⟨rfl, rfl⟩
        · intro e; exact e.1
      · simp only [hs, false_and, if_false, if_true, Option.some.injEq]
        constructor
        · intro e
          have := ((h.indexed_iff s ti.UID t).1 e).1
          rw [hf] at this; cases this
        · intro e; exact absurd (e.1 ▸ e.2) hs
    · simp only [hu, and_false, if_false]
      exact h.indexed_iff s uid t


theorem deleteTaskIndex_eq (ji : JobInfo) (ti : TaskInfo) :
    ji.deleteTaskIndex ti =
      { ji with TaskStatusIndex := (ji.deleteTaskIndex ti).TaskStatusIndex } := by
  unfold deleteTaskIndex
  cases mapGet ji.TaskStatusIndex ti.Status with
  | none => rfl
  | some tasks =>
    dsimp only
    by_cases he : mapLen (mapDel tasks ti.UID) = 0
    · rw [if_pos he]
    · rw [if_neg he]

theorem DeleteTaskInfo_found_eq {ji : JobInfo} {ti task : TaskInfo}
    (h : mapGet ji.Tasks ti.UID = some task) :
    ji.DeleteTaskInfo ti =
      (deleteTaskIndex
        { ji with
          TotalRequest := ji.TotalRequest.Sub task.ResReq
          Allocated := if AllocatedStatus task.Status then ji.Allocated.Sub task.ResReq
            else ji.Allocated
          Tasks := mapDel ji.Tasks task.UID } task, none) := by
  unfold DeleteTaskInfo
  rw [h]
  dsimp only
  by_cases ha : AllocatedStatus task.Status = true
  · rw [if_pos ha, if_pos ha]
  · rw [if_neg ha, if_neg ha]

theorem DeleteTaskInfo_found {ji : JobInfo} {ti task : TaskInfo}
    (h : mapGet ji.Tasks ti.UID = some task) :
    (ji.DeleteTaskInfo ti).2 = none ∧
    (ji.DeleteTaskInfo ti).1.Tasks = mapDel ji.Tasks task.UID ∧
    (∀ s u, (ji.DeleteTaskInfo ti).1.indexed s u =
        if task.Status = s ∧ task.UID = u then none else ji.indexed s u) ∧
    (ji.DeleteTaskInfo ti).1.TotalRequest = ji.TotalRequest.Sub task.ResReq ∧
    (ji.DeleteTaskInfo ti).1.Allocated =
      if AllocatedStatus task.Status then ji.Allocated.Sub task.ResReq else ji.Allocated := by
  rw [DeleteTaskInfo_found_eq h]
  refine ⟨rfl, ?_, ?_, ?_, ?_⟩
  · rw [deleteTaskIndex_eq]
  · intro s u; rw [indexed_deleteTaskIndex]; rfl
  · rw [deleteTaskIndex_eq]
  · rw [deleteTaskIndex_eq]

theorem DeleteTaskInfo_not_found {ji : JobInfo} {ti : TaskInfo}
    (h : mapGet ji.Tasks ti.UID = none) :
    ji.DeleteTaskInfo ti = (ji, some JobError.TaskNotFound) := by
  unfold DeleteTaskInfo
  rw [h]

theorem index_deleteTaskIndex_bucket {ji : JobInfo} (h : WellFormed ji) (ti : TaskInfo)
    (s : TaskStatus) (m : tasksMap)
    (hm : mapGet (ji.deleteTaskIndex ti).TaskStatusIndex s = some m) :
    NodupKeys m ∧ m ≠ [] := by
  unfold deleteTaskIndex at hm
  cases hb : mapGet ji.TaskStatusIndex ti.Status with
  | none => rw [hb] at hm; exact h.bucket s m hm
  | some tasks =>
    rw [hb] at hm
    simp only at hm
    by_cases he : mapLen (mapDel tasks ti.UID) = 0
    · rw [if_pos he] at hm
      simp only [mapGet_mapDel] at hm
      by_cases hs : ti.Status = s
      · simp [hs] at hm
      · rw [if_neg hs] at hm; exact h.bucket s m hm
    · rw [if_neg he] at hm
      simp only [mapGet_mapSet] at hm
      by_cases hs : ti.Status = s
      · rw [if_pos hs] at hm
        cases hm
        refine ⟨nodupKeys_mapDel (h.bucket _ _ hb).1 _, ?_⟩
        intro e
        exact he (by rw [e]; rfl)
      · rw [if_neg hs] at hm; exact h.bucket s m hm

theorem deleteTaskIndex_index (ji : JobInfo) (ti : TaskInfo) :
    (ji.deleteTaskIndex ti).TaskStatusIndex =
      match mapGet ji.TaskStatusIndex ti.Status with
      | some tasks =>
        if mapLen (mapDel tasks ti.UID) = 0 then mapDel ji.TaskStatusIndex ti.Status
        else mapSet ji.TaskStatusIndex ti.Status (mapDel tasks ti.UID)
      | none => ji.TaskStatusIndex := by
  unfold deleteTaskIndex
  cases mapGet ji.TaskStatusIndex ti.Status with
  | none => rfl
  | some tasks =>
    dsimp only
    by_cases he : mapLen (mapDel tasks ti.UID) = 0
    · rw [if_pos he, if_pos he]
    · rw [if_neg he, if_neg he]

theorem nodupKeys_index_deleteTaskIndex {ji : JobInfo} (h : NodupKeys ji.TaskStatusIndex)
    (ti : TaskInfo) : NodupKeys (ji.deleteTaskIndex ti).TaskStatusIndex := by
  rw [deleteTaskIndex_index]
  cases mapGet ji.TaskStatusIndex ti.Status with
  | none => exact h
  | some tasks =>
    dsimp only
    by_cases he : mapLen (mapDel tasks ti.UID) = 0
    · rw [if_pos he]; exact nodupKeys_mapDel h _
    · rw [if_neg he]; exact nodupKeys_mapSet h _ _

theorem DeleteTaskInfo_index {ji : JobInfo} {ti task : TaskInfo}
    (h : mapGet ji.Tasks ti.UID = some task) :
    (ji.DeleteTaskInfo ti).1.TaskStatusIndex = (ji.deleteTaskIndex task).TaskStatusIndex := by
  rw [DeleteTaskInfo_found_eq h]
  show (deleteTaskIndex _ task).TaskStatusIndex = _
  rw [deleteTaskIndex_index, deleteTaskIndex_index]

theorem wellFormed_DeleteTaskInfo {ji : JobInfo} (h : WellFormed ji) (ti : TaskInfo) :
    WellFormed (ji.DeleteTaskInfo ti).1 := by
  cases hf : mapGet ji.Tasks ti.UID with
  | none => rw [DeleteTaskInfo_not_found hf]; exact h
  | some task =>
    obtain ⟨-, hT, hI, -, -⟩ := DeleteTaskInfo_found hf
    have hk : task.UID = ti.UID := h.keyUID _ _ hf
    refine ⟨?_, ?_, ?_, ?_, ?_⟩
    · rw [hT]; exact nodupKeys_mapDel h.tasksNodup _
    · rw [DeleteTaskInfo_index hf]; exact nodupKeys_index_deleteTaskIndex h.indexNodup _
    · intro s m hm
      rw [DeleteTaskInfo_index hf] at hm
      exact index_deleteTaskIndex_bucket h task s m hm
    · intro uid t ht
      rw [hT, mapGet_mapDel] at ht
      by_cases hu : task.UID = uid
      · simp [hu] at ht
      · rw [if_neg hu] at ht; exact h.keyUID uid t ht
    · intro s uid t
      rw [hI, hT, mapGet_mapDel]
      by_cases hu : task.UID = uid
      · subst hu
        by_cases hs : task.Status = s
        · simp [hs]
        · simp only [hs, false_and, if_false, if_true]
          constructor
          · intro e
            have := (h.indexed_iff s task.UID t).1 e
            rw [hk, hf] at this
            have e2 : task = t := by simpa using this.1
            exact absurd (e2 ▸ this.2) hs
          · intro e; cases e.1
      · simp only [hu, and_false, if_false]
        exact h.indexed_iff s uid t

theorem Tasks_DeleteTaskInfo_none {ji : JobInfo} (h : WellFormed ji) (ti : TaskInfo) :
    mapGet (ji.DeleteTaskInfo ti).1.Tasks ti.UID = none := by
  cases hf : mapGet ji.Tasks ti.UID with
  | none => rw [DeleteTaskInfo_not_found hf]; exact hf
  | some task =>
    obtain ⟨-, hT, -, -, -⟩ := DeleteTaskInfo_found hf
    rw [hT, mapGet_mapDel, h.keyUID _ _ hf]
    simp

theorem UpdateTaskStatus_job (ji : JobInfo) (task : TaskInfo) (status : TaskStatus) :
    (ji.UpdateTaskStatus task status).1.1 =
      match validateStatusUpdate task.Status status with
      | .error _ => ji
      | .ok _ => (ji.DeleteTaskInfo task).1.AddTaskInfo { task with Status := status } := by
  unfold UpdateTaskStatus
  cases hv : validateStatusUpdate task.Status status with
  | error e => rfl
  | ok u =>
    simp only
    cases hf : mapGet ji.Tasks task.UID with
    | none => simp [DeleteTaskInfo_not_found hf]
    | some t => simp [(DeleteTaskInfo_found hf).1]

theorem wellFormed_step {ji : JobInfo} (h : WellFormed ji) (op : JobOp)
    (hf : ∀ ti, op = JobOp.add ti → mapGet ji.Tasks ti.UID = none) :
    WellFormed (ji.step op) := by
  cases op with
  | add ti => exact wellFormed_AddTaskInfo h ti (hf ti rfl)
  | delete ti => exact wellFormed_DeleteTaskInfo h ti
  | update task status =>
    show WellFormed (ji.UpdateTaskStatus task status).1.1
    rw [UpdateTaskStatus_job]
    cases validateStatusUpdate task.Status status with
    | error e => exact h
    | ok u =>
      exact wellFormed_AddTaskInfo (wellFormed_DeleteTaskInfo h task) _
        (Tasks_DeleteTaskInfo_none h task)

theorem wellFormed_run {ji : JobInfo} (h : WellFormed ji) (ops : List JobOp)
    (hf : FreshAdds ji ops) : WellFormed (ji.run ops) := by
  induction ops generalizing ji with
  | nil => exact h
  | cons op ops ih =>
    have h1 : WellFormed (ji.step op) := by
      apply wellFormed_step h
      intro ti e
      subst e
      exact hf.1
    exact ih h1 hf.2

theorem wellFormed_NewJobInfo_nil (uid : JobID) : WellFormed (NewJobInfo uid []) := by
  refine ⟨by simp [NewJobInfo, NodupKeys], by simp [NewJobInfo, NodupKeys], ?_, ?_, ?_⟩
  · intro s m hm; simp [NewJobInfo, mapGet] at hm
  · intro u t ht; simp [NewJobInfo, mapGet] at ht
  · intro s u t; simp [NewJobInfo, indexed, mapGet]

theorem NewJobInfo_eq_run (uid : JobID) (tasks : List TaskInfo) :
    NewJobInfo uid tasks = (NewJobInfo uid []).run (tasks.map JobOp.add) := by
  unfold JobInfo.run NewJobInfo
  rw [List.foldl_map]
  rfl

theorem run_append (ji : JobInfo) (ops1 ops2 : List JobOp) :
    ji.run (ops1 ++ ops2) = (ji.run ops1).run ops2 := by
  unfold JobInfo.run; rw [List.foldl_append]

/-- Every job built by `NewJobInfo` and changed by calls whose `AddTaskInfo`s
bring new UIDs is well-formed. -/
theorem wellFormed_reachable (uid : JobID) (tasks : List TaskInfo) (ops : List JobOp)
    (hf : FreshAdds (NewJobInfo uid []) (tasks.map JobOp.add ++ ops)) :
    WellFormed ((NewJobInfo uid tasks).run ops) := by
  rw [NewJobInfo_eq_run, ← run_append]
  exact wellFormed_run (wellFormed_NewJobInfo_nil uid) _ hf


/-! ## The aggregates `TotalRequest` and `Allocated` -/

theorem sum_map_mapDel {κ α G : Type} [DecidableEq κ] [AddCommGroup G] (f : κ × α → G)
    {m : List (κ × α)} (hn : NodupKeys m) {k : κ} {v : α} (h : mapGet m k = some v) :
    ((mapDel m k).map f).sum = (m.map f).sum - f (k, v) := by
  induction m with
  | nil => simp [mapGet] at h
  | cons p r ih =>
    obtain ⟨k0, v0⟩ := p
    have hn' : k0 ∉ r.map (fun p => p.1) ∧ NodupKeys r := by
      simpa [NodupKeys] using hn
    rw [mapDel_cons]
    by_cases hk : k0 = k
    · subst hk
      have hv : v0 = v := by simpa [mapGet] using h
      subst hv
      rw [if_pos rfl, mapDel_eq_self ((mapGet_eq_none_iff _ _).2 hn'.1)]
      simp
    · have h' : mapGet r k = some v := by simpa [mapGet, hk] using h
      rw [if_neg hk]
      simp only [List.map_cons, List.sum_cons, ih hn'.2 h']
      abel

theorem sum_map_filter_eq {β G : Type} [AddCommGroup G] (p : β → Bool) (f : β → G)
    (l : List β) :
    ((l.filter p).map f).sum = (l.map (fun e => if p e then f e else 0)).sum := by
  induction l with
  | nil => rfl
  | cons a r ih =>
    by_cases h : p a = true
    · simp [List.filter, h, ih]
    · simp [List.filter, h, ih]

theorem sumsOK_AddTaskInfo {ji : JobInfo} (h : SumsOK ji) (ti : TaskInfo)
    (hf : mapGet ji.Tasks ti.UID = none) : SumsOK (ji.AddTaskInfo ti) := by
  obtain ⟨h1, h2⟩ := h
  unfold SumsOK requestSum allocatedSum at *
  rw [AddTaskInfo_Tasks, AddTaskInfo_TotalRequest, AddTaskInfo_Allocated]
  unfold mapSet
  rw [mapDel_eq_self hf]
  constructor
  · rw [vec_Add, h1]
    simp only [List.map_cons, List.sum_cons]
    abel
  · by_cases ha : AllocatedStatus ti.Status = true
    · rw [if_pos ha, vec_Add, h2]
      simp only [List.filter, ha, List.map_cons, List.sum_cons]
      abel
    · rw [if_neg ha, h2]
      simp only [List.filter, ha]

theorem sumsOK_DeleteTaskInfo {ji : JobInfo} (hw : WellFormed ji) (h : SumsOK ji)
    (ti : TaskInfo) : SumsOK (ji.DeleteTaskInfo ti).1 := by
  cases hf : mapGet ji.Tasks ti.UID with
  | none => rw [DeleteTaskInfo_not_found hf]; exact h
  | some task =>
    obtain ⟨-, hT, -, hR, hA⟩ := DeleteTaskInfo_found hf
    obtain ⟨h1, h2⟩ := h
    have hk : task.UID = ti.UID := hw.keyUID _ _ hf
    rw [← hk] at hf
    unfold SumsOK requestSum allocatedSum at *
    rw [hT, hR, hA]
    constructor
    · rw [vec_Sub, h1, sum_map_mapDel _ hw.tasksNodup hf]
    · rw [sum_map_filter_eq, sum_map_mapDel _ hw.tasksNodup hf, ← sum_map_filter_eq]
      by_cases ha : AllocatedStatus task.Status = true
      · rw [if_pos ha, vec_Sub, h2]
        simp [ha]
      · rw [if_neg ha, h2]
        simp [ha]

theorem sumsOK_step {ji : JobInfo} (hw : WellFormed ji) (h : SumsOK ji) (op : JobOp)
    (hf : ∀ ti, op = JobOp.add ti → mapGet ji.Tasks ti.UID = none) :
    SumsOK (ji.step op) := by
  cases op with
  | add ti => exact sumsOK_AddTaskInfo h ti (hf ti rfl)
  | delete ti => exact sumsOK_DeleteTaskInfo hw h ti
  | update task status =>
    show SumsOK (ji.UpdateTaskStatus task status).1.1
    rw [UpdateTaskStatus_job]
    cases validateStatusUpdate task.Status status with
    | error e => exact h
    | ok u =>
      exact sumsOK_AddTaskInfo (sumsOK_DeleteTaskInfo hw h task) _
        (Tasks_DeleteTaskInfo_none hw task)

theorem sumsOK_run {ji : JobInfo} (hw : WellFormed ji) (h : SumsOK ji) (ops : List JobOp)
    (hf : FreshAdds ji ops) : SumsOK (ji.run ops) := by
  induction ops generalizing ji with
  | nil => exact h
  | cons op ops ih =>
    have hfa : ∀ ti, op = JobOp.add ti → mapGet ji.Tasks ti.UID = none := by
      intro ti e
      subst e
      exact hf.1
    exact ih (wellFormed_step hw op hfa) (sumsOK_step hw h op hfa) hf.2

theorem sumsOK_NewJobInfo_nil (uid : JobID) : SumsOK (NewJobInfo uid []) := by
  unfold SumsOK requestSum allocatedSum
  constructor
  · show EmptyResource.vec = _
    rw [vec_EmptyResource]; rfl
  · show EmptyResource.vec = _
    rw [vec_EmptyResource]; rfl

theorem sumsOK_reachable (uid : JobID) (tasks : List TaskInfo) (ops : List JobOp)
    (hf : FreshAdds (NewJobInfo uid []) (tasks.map JobOp.add ++ ops)) :
    SumsOK ((NewJobInfo uid tasks).run ops) := by
  rw [NewJobInfo_eq_run, ← run_append]
  exact sumsOK_run (wellFormed_NewJobInfo_nil uid) (sumsOK_NewJobInfo_nil uid) _ hf

theorem allocatedSum_le_requestSum (ji : JobInfo)
    (hpos : ∀ e ∈ ji.Tasks, (0 : ResVec) ≤ e.2.ResReq.vec) :
    ji.allocatedSum ≤ ji.requestSum := by
  unfold allocatedSum requestSum
  apply List.Sublist.sum_le_sum
  · exact List.Sublist.map _ (List.filter_sublist _)
  · intro a ha
    obtain ⟨e, he, rfl⟩ := List.mem_map.1 ha
    exact hpos e he


/-! ## Readiness -/

theorem wellFormed_of_indexConsistent {ji : JobInfo} (h : IndexConsistent ji) :
    WellFormed ji := by
  obtain ⟨h1, h2, h3, h4⟩ := h
  refine ⟨h1, h2, ?_, ?_, ?_⟩
  · intro s m hm
    have := h4 (s, m) (mem_of_mapGet_eq_some hm)
    exact ⟨this.1, this.2.1⟩
  · intro uid t ht
    exact (h3 (uid, t) (mem_of_mapGet_eq_some ht)).1
  · intro s uid t
    constructor
    · intro hi
      unfold JobInfo.indexed at hi
      cases hm : mapGet ji.TaskStatusIndex s with
      | none => rw [hm] at hi; cases hi
      | some m =>
        rw [hm] at hi
        exact (h4 (s, m) (mem_of_mapGet_eq_some hm)).2.2 (uid, t) (mem_of_mapGet_eq_some hi)
    · rintro ⟨ht, hs⟩
      obtain ⟨m, hm, hu⟩ := (h3 (uid, t) (mem_of_mapGet_eq_some ht)).2
      subst hs
      unfold JobInfo.indexed
      rw [hm]
      exact hu

theorem indexConsistent_of_wellFormed {ji : JobInfo} (h : WellFormed ji) :
    IndexConsistent ji := by
  refine ⟨h.tasksNodup, h.indexNodup, ?_, ?_⟩
  · rintro ⟨u, t⟩ he
    have ht := mapGet_eq_some_of_mem h.tasksNodup he
    refine ⟨h.keyUID u t ht, ?_⟩
    have hi := (h.indexed_iff t.Status u t).2 ⟨ht, rfl⟩
    unfold JobInfo.indexed at hi
    cases hm : mapGet ji.TaskStatusIndex t.Status with
    | none => rw [hm] at hi; cases hi
    | some m => rw [hm] at hi; exact ⟨m, rfl, hi⟩
  · rintro ⟨s, m⟩ hb
    have hm := mapGet_eq_some_of_mem h.indexNodup hb
    refine ⟨(h.bucket s m hm).1, (h.bucket s m hm).2, ?_⟩
    rintro ⟨u, t⟩ he
    have hu := mapGet_eq_some_of_mem (h.bucket s m hm).1 he
    apply (h.indexed_iff s u t).1
    unfold JobInfo.indexed
    rw [hm]
    exact hu

/-- In a well-formed job the set filed under a status holds exactly the tasks
of `Tasks` with that status. -/
theorem bucket_perm {ji : JobInfo} (h : WellFormed ji) (s : TaskStatus) :
    ((mapGet ji.TaskStatusIndex s).getD []).Perm
      (ji.Tasks.filter (fun e => decide (e.2.Status = s))) := by
  have hb : NodupKeys ((mapGet ji.TaskStatusIndex s).getD []) := by
    cases hm : mapGet ji.TaskStatusIndex s with
    | none => simp [NodupKeys]
    | some m => exact (h.bucket s m hm).1
  rw [List.perm_ext_iff_of_nodup (nodup_of_nodupKeys hb)
    ((nodup_of_nodupKeys h.tasksNodup).filter _)]
  rintro ⟨u, t⟩
  have key : (u, t) ∈ (mapGet ji.TaskStatusIndex s).getD [] ↔ ji.indexed s u = some t := by
    unfold JobInfo.indexed
    cases hm : mapGet ji.TaskStatusIndex s with
    | none => simp
    | some m =>
      have hn := (h.bucket s m hm).1
      exact ⟨fun he => mapGet_eq_some_of_mem hn he, fun he => mem_of_mapGet_eq_some he⟩
  rw [key, h.indexed_iff]
  simp only [List.mem_filter, decide_eq_true_eq]
  constructor
  · rintro ⟨ht, hs⟩; exact ⟨mem_of_mapGet_eq_some ht, hs⟩
  · rintro ⟨ht, hs⟩; exact ⟨mapGet_eq_some_of_mem h.tasksNodup ht, hs⟩

theorem mapLenAt_eq_countP {ji : JobInfo} (h : WellFormed ji) (s : TaskStatus) :
    mapLenAt ji.TaskStatusIndex s = ji.Tasks.countP (fun e => decide (e.2.Status = s)) := by
  have hp := (bucket_perm h s).length_eq
  rw [List.countP_eq_length_filter, ← hp]
  unfold mapLenAt mapLen
  cases mapGet ji.TaskStatusIndex s <;> rfl

theorem foldl_count_eq {β : Type} (p : β → Bool) (l : List β) (n : Nat) :
    l.foldl (fun n e => if p e then n + 1 else n) n = n + l.countP p := by
  induction l generalizing n with
  | nil => simp
  | cons a r ih =>
    by_cases h : p a = true
    · simp [List.foldl, h, ih, List.countP_cons]; omega
    · simp [List.foldl, h, ih, List.countP_cons]

theorem countP_ready_split (l : tasksMap) :
    l.countP (fun e => decide (e.2.Status = Bound))
      + l.countP (fun e => decide (e.2.Status = Binding))
      + l.countP (fun e => decide (e.2.Status = Running))
      + l.countP (fun e => decide (e.2.Status = TaskStatus.Allocated))
      + l.countP (fun e => decide (e.2.Status = Succeeded))
      + l.countP (fun e => decide (e.2.Status = Pending) && e.2.BestEffort)
    = l.countP (fun e => countsAsReady e.2) := by
  induction l with
  | nil => rfl
  | cons a r ih =>
    simp only [List.countP_cons]
    rw [← ih]
    cases hs : a.2.Status <;> cases hb : a.2.BestEffort <;>
      simp [countsAsReady, AllocatedStatus, hs, hb] <;> omega

theorem wrapInt32_of_lt {n : Nat} (h : n < 2147483648) : wrapInt32 (n : Int) = n := by
  unfold wrapInt32
  omega

theorem readyTaskNum_wrap {ji : JobInfo} (h : WellFormed ji) :
    ji.ReadyTaskNum = wrapInt32 (ji.Tasks.countP (fun e => countsAsReady e.2) : Nat) := by
  have hocc : ∀ occupied : Nat,
      (match mapGet ji.TaskStatusIndex Pending with
        | some tasks => tasks.foldl (fun n p => if p.2.BestEffort then n + 1 else n) occupied
        | none => occupied)
      = occupied + ji.Tasks.countP (fun e => decide (e.2.Status = Pending) && e.2.BestEffort) := by
    intro occupied
    have hp := bucket_perm h Pending
    have hc := hp.countP_eq (fun e => e.2.BestEffort)
    rw [List.countP_filter] at hc
    have hc' : List.countP (fun e : TaskID × TaskInfo => e.2.BestEffort)
        ((mapGet ji.TaskStatusIndex Pending).getD []) =
        ji.Tasks.countP (fun e => decide (e.2.Status = Pending) && e.2.BestEffort) := by
      rw [hc]
      congr 1
      funext e
      exact Bool.and_comm _ _
    rw [← hc']
    cases mapGet ji.TaskStatusIndex Pending with
    | none => simp
    | some tasks => exact foldl_count_eq (fun e : TaskID × TaskInfo => e.2.BestEffort) tasks occupied
  unfold JobInfo.ReadyTaskNum
  dsimp only
  rw [hocc, mapLenAt_eq_countP h, mapLenAt_eq_countP h, mapLenAt_eq_countP h,
    mapLenAt_eq_countP h, mapLenAt_eq_countP h, countP_ready_split]

theorem readyTaskNum_eq {ji : JobInfo} (h : WellFormed ji) (hlen : mapLen ji.Tasks < 2147483648) :
    ji.ReadyTaskNum = (ji.Tasks.countP (fun e => countsAsReady e.2) : Nat) := by
  rw [readyTaskNum_wrap h]
  apply wrapInt32_of_lt
  exact lt_of_le_of_lt (List.countP_le_length _) hlen


/-! ## The claims on readiness, status updates and the job invariants -/

/-- C1 (as stated, refuted): a job whose only task is `Succeeded` and whose
`MinAvailable` is 1 is `Ready`, although no task of it is in an allocated
status or best-effort `Pending`. -/
theorem ready_counts_succeeded :
    ¬ (succeededJob.Ready = true ↔
        ((succeededJob.Tasks.countP (fun e => countsAsReadySpec e.2) : Nat) : Int)
          ≥ succeededJob.MinAvailable) := by
  decide

/-- C1 (amended): for a job whose status index is consistent with its tasks
and that holds fewer than 2^31 tasks, `Ready()` is true if and only if the
number of tasks in an allocated status or in `Succeeded`, plus the number of
best-effort `Pending` tasks, is at least `MinAvailable`. -/
theorem ready_iff_count (ji : JobInfo) (hc : IndexConsistent ji)
    (hlen : mapLen ji.Tasks < 2147483648) :
    ji.Ready = true ↔
      ((ji.Tasks.countP (fun e => countsAsReady e.2) : Nat) : Int) ≥ ji.MinAvailable := by
  unfold JobInfo.Ready
  rw [readyTaskNum_eq (wellFormed_of_indexConsistent hc) hlen]
  simp

/-- Witness of C1 (amended) on the job with one `Succeeded` task. -/
theorem ready_iff_count_witness :
    IndexConsistent succeededJob ∧ mapLen succeededJob.Tasks < 2147483648 ∧
    (succeededJob.Ready = true ↔
      ((succeededJob.Tasks.countP (fun e => countsAsReady e.2) : Nat) : Int)
        ≥ succeededJob.MinAvailable) :=
  ⟨by decide, by decide, ready_iff_count succeededJob (by decide) (by decide)⟩

/-- C2: `UpdateTaskStatus` returns no error exactly when the pair (status of
the task, target status) is ticked in the transition table, and returns
`InvalidStatusTransition` for every other pair. -/
theorem updateTaskStatus_error_eq (ji : JobInfo) (task : TaskInfo) (status : TaskStatus) :
    (ji.UpdateTaskStatus task status).2 =
      if (task.Status, status) ∈ transitionTable then none
      else some (JobError.InvalidStatusTransition task.Status status) := by
  unfold JobInfo.UpdateTaskStatus validateStatusUpdate
  by_cases h : (task.Status, status) ∈ transitionTable
  · rw [if_pos h, if_pos h]
    dsimp only
    cases hf : mapGet ji.Tasks task.UID with
    | none => rfl
    | some t =>
      dsimp only
      rw [(DeleteTaskInfo_found hf).1]
  · rw [if_neg h, if_neg h]

/-- C3: when `UpdateTaskStatus` returns an error, the job and the task are
what they were before the call. -/
theorem updateTaskStatus_error_unchanged (ji : JobInfo) (task : TaskInfo)
    (status : TaskStatus) (e : JobError)
    (h : (ji.UpdateTaskStatus task status).2 = some e) :
    (ji.UpdateTaskStatus task status).1 = (ji, task) := by
  unfold JobInfo.UpdateTaskStatus at h ⊢
  cases hv : validateStatusUpdate task.Status status with
  | error e' => rfl
  | ok u =>
    rw [hv] at h
    dsimp only at h ⊢
    cases hf : mapGet ji.Tasks task.UID with
    | none => rw [hf] at h; cases h
    | some t =>
      rw [hf] at h
      dsimp only at h
      rw [(DeleteTaskInfo_found hf).1] at h
      cases h

/-- Witness of C3: moving a `Pending` task to `Running` is refused and changes nothing. -/
theorem updateTaskStatus_error_unchanged_witness :
    (pendingJob.UpdateTaskStatus (mkTask "a" Pending 1000 false) Running).2
        = some (JobError.InvalidStatusTransition Pending Running) ∧
    (pendingJob.UpdateTaskStatus (mkTask "a" Pending 1000 false) Running).1
        = (pendingJob, mkTask "a" Pending 1000 false) :=
  ⟨by decide,
   updateTaskStatus_error_unchanged pendingJob (mkTask "a" Pending 1000 false) Running
     (JobError.InvalidStatusTransition Pending Running) (by decide)⟩

/-- C4 (as stated, refuted): after `AddTaskInfo` of a task whose UID is already
in the job, `TotalRequest` counts the request twice while `Tasks` holds the
task once. -/
theorem totalRequest_double_counts :
    twiceAddedJob.TotalRequest.MilliCPU = 2000 ∧
    (twiceAddedJob.Tasks.map (fun e => e.2.ResReq.MilliCPU)).sum = 1000 ∧
    twiceAddedJob.TotalRequest.vec ≠ twiceAddedJob.requestSum := by
  refine ⟨by decide, by decide, ?_⟩
  intro h
  have h1 := congrArg Prod.fst h
  revert h1
  simp [twiceAddedJob, JobInfo.requestSum, Resource.vec, JobInfo.NewJobInfo,
    JobInfo.AddTaskInfo, JobInfo.addTaskIndex, mkTask, AllocatedStatus, Resource.Add,
    EmptyResource, mapSet, mapDel]

/-- C4 (amended): for every job reached from `NewJobInfo` by calls of
`AddTaskInfo`, `DeleteTaskInfo` and `UpdateTaskStatus` in which `AddTaskInfo`
is only given tasks whose UID is not in the job, `TotalRequest` is the sum of
the requests of the tasks in `Tasks`, `Allocated` is the sum of the requests of
the tasks in an allocated status, and `Allocated ≤ TotalRequest` componentwise
when no request is negative. -/
theorem aggregates_are_sums (uid : JobID) (tasks : List TaskInfo) (ops : List JobOp)
    (hf : FreshAdds (JobInfo.NewJobInfo uid []) (tasks.map JobOp.add ++ ops)) :
    ((JobInfo.NewJobInfo uid tasks).run ops).TotalRequest.vec
        = ((JobInfo.NewJobInfo uid tasks).run ops).requestSum ∧
    ((JobInfo.NewJobInfo uid tasks).run ops).Allocated.vec
        = ((JobInfo.NewJobInfo uid tasks).run ops).allocatedSum ∧
    ((∀ e ∈ ((JobInfo.NewJobInfo uid tasks).run ops).Tasks, (0 : ResVec) ≤ e.2.ResReq.vec) →
      ((JobInfo.NewJobInfo uid tasks).run ops).Allocated.vec
        ≤ ((JobInfo.NewJobInfo uid tasks).run ops).TotalRequest.vec) := by
  have h := sumsOK_reachable uid tasks ops hf
  refine ⟨h.1, h.2, ?_⟩
  intro hpos
  rw [h.1, h.2]
  exact allocatedSum_le_requestSum _ hpos

/-- The calls used in the witnesses: add `b`, allocate `a`, delete `b`. -/
theorem aggregates_are_sums_witness :
    FreshAdds (JobInfo.NewJobInfo "j" [])
      ([mkTask "a" Pending 1000 false].map JobOp.add ++
        [JobOp.add (mkTask "b" Running 500 false),
         JobOp.update (mkTask "a" Pending 1000 false) TaskStatus.Allocated,
         JobOp.delete (mkTask "b" Running 500 false)]) ∧
    ((JobInfo.NewJobInfo "j" [mkTask "a" Pending 1000 false]).run
        [JobOp.add (mkTask "b" Running 500 false),
         JobOp.update (mkTask "a" Pending 1000 false) TaskStatus.Allocated,
         JobOp.delete (mkTask "b" Running 500 false)]).TotalRequest.vec
      = ((JobInfo.NewJobInfo "j" [mkTask "a" Pending 1000 false]).run
        [JobOp.add (mkTask "b" Running 500 false),
         JobOp.update (mkTask "a" Pending 1000 false) TaskStatus.Allocated,
         JobOp.delete (mkTask "b" Running 500 false)]).requestSum :=
  ⟨by decide, (aggregates_are_sums "j" [mkTask "a" Pending 1000 false] _ (by decide)).1⟩

/-- C5 (as stated, refuted): after `AddTaskInfo` of a task whose UID is in the
job under another status, the UID is filed under two statuses. -/
theorem index_files_uid_twice :
    (twiceAddedJob.indexed Pending "a").isSome = true ∧
    (twiceAddedJob.indexed Running "a").isSome = true ∧
    ¬ (∀ s1 s2 t1 t2, twiceAddedJob.indexed s1 "a" = some t1 →
        twiceAddedJob.indexed s2 "a" = some t2 → s1 = s2) := by
  refine ⟨by decide, by decide, ?_⟩
  intro h
  have := h Pending Running (mkTask "a" Pending 1000 false) (mkTask "a" Running 1000 false)
    (by decide) (by decide)
  cases this

/-- C5 (amended): for every job reached from `NewJobInfo` by calls of
`AddTaskInfo`, `DeleteTaskInfo` and `UpdateTaskStatus` in which `AddTaskInfo`
is only given tasks whose UID is not in the job, a task is filed in
`TaskStatusIndex[s]` under a UID if and only if it is the task `Tasks` holds
for that UID and its status is `s`; no UID is filed under two statuses; and no
status maps to an empty set. -/
theorem index_consistent_reachable (uid : JobID) (tasks : List TaskInfo) (ops : List JobOp)
    (hf : FreshAdds (JobInfo.NewJobInfo uid []) (tasks.map JobOp.add ++ ops)) :
    (∀ s u t, ((JobInfo.NewJobInfo uid tasks).run ops).indexed s u = some t ↔
        (mapGet ((JobInfo.NewJobInfo uid tasks).run ops).Tasks u = some t ∧ t.Status = s)) ∧
    (∀ u s1 s2 t1 t2, ((JobInfo.NewJobInfo uid tasks).run ops).indexed s1 u = some t1 →
        ((JobInfo.NewJobInfo uid tasks).run ops).indexed s2 u = some t2 → s1 = s2) ∧
    (∀ s m, mapGet ((JobInfo.NewJobInfo uid tasks).run ops).TaskStatusIndex s = some m →
        m ≠ []) := by
  have h := wellFormed_reachable uid tasks ops hf
  refine ⟨h.indexed_iff, ?_, fun s m hm => (h.bucket s m hm).2⟩
  intro u s1 s2 t1 t2 h1 h2
  have a1 := (h.indexed_iff s1 u t1).1 h1
  have a2 := (h.indexed_iff s2 u t2).1 h2
  have e : t1 = t2 := by
    have := a1.1.symm.trans a2.1
    simpa using this
  rw [← a1.2, ← a2.2, e]

/-- Witness of C5 (amended) on a job changed by an add, an update and a delete. -/
theorem index_consistent_reachable_witness :
    FreshAdds (JobInfo.NewJobInfo "j" [])
      ([mkTask "a" Pending 1000 false].map JobOp.add ++
        [JobOp.add (mkTask "b" Running 500 false),
         JobOp.update (mkTask "a" Pending 1000 false) TaskStatus.Allocated,
         JobOp.delete (mkTask "b" Running 500 false)]) ∧
    (∀ s m, mapGet ((JobInfo.NewJobInfo "j" [mkTask "a" Pending 1000 false]).run
        [JobOp.add (mkTask "b" Running 500 false),
         JobOp.update (mkTask "a" Pending 1000 false) TaskStatus.Allocated,
         JobOp.delete (mkTask "b" Running 500 false)]).TaskStatusIndex s = some m →
        m ≠ []) :=
  ⟨by decide, (index_consistent_reachable "j" [mkTask "a" Pending 1000 false] _ (by decide)).2.2⟩


/-! ## Counting tasks through the status index -/

theorem wrapIter_of_lt {n : Nat} (h : n < 2147483648) : wrapIter n = n := by
  induction n with
  | zero => rfl
  | succ n ih =>
    have := ih (by omega)
    unfold wrapIter
    rw [this]
    unfold wrapInt32
    omega

/-- The counters after a run of increments, by the number of increments of each key. -/
theorem mapGet_foldl_incr (ks : List TaskID) (acc : List (TaskID × Int)) (c : TaskID → Nat)
    (hacc : ∀ k, mapGet acc k = if c k = 0 then none else some (wrapIter (c k))) (k : TaskID) :
    mapGet (ks.foldl incr acc) k =
      if c k + ks.count k = 0 then none else some (wrapIter (c k + ks.count k)) := by
  induction ks generalizing acc c with
  | nil => simpa using hacc k
  | cons a r ih =>
    rw [List.foldl_cons]
    have h' : ∀ k, mapGet (incr acc a) k =
        if (c k + if a = k then 1 else 0) = 0 then none
        else some (wrapIter (c k + if a = k then 1 else 0)) := by
      intro k'
      unfold incr
      rw [mapGet_mapSet]
      by_cases hk : a = k'
      · subst hk
        rw [hacc a]
        by_cases hz : c a = 0
        · simp [hz, wrapIter]
        · simp [hz, wrapIter]
      · simp [hk, hacc k']
    have := ih (incr acc a) (fun k => c k + if a = k then 1 else 0) h'
    rw [this]
    by_cases hk : a = k
    · subst hk
      have e : c a + 1 + List.count a r = c a + (List.count a r + 1) := by omega
      simp [e]
    · have hk' : (a == k) = false := by simpa using hk
      simp [hk, List.count_cons, hk']

theorem foldl_incr_if_eq (q : TaskID × TaskInfo → Bool) (l : tasksMap) (acc : List (TaskID × Int)) :
    l.foldl (fun a p => if q p then incr a (taskSpecOf p) else a) acc =
      ((l.filter q).map taskSpecOf).foldl incr acc := by
  induction l generalizing acc with
  | nil => rfl
  | cons p r ih =>
    by_cases h : q p = true
    · simp [List.foldl_cons, List.filter, h, ih]
    · simp [List.foldl_cons, List.filter, h, ih]

theorem foldl_index_eq (Q : TaskStatus → TaskID × TaskInfo → Bool)
    (idx : List (TaskStatus × tasksMap)) (acc : List (TaskID × Int)) :
    idx.foldl (fun acc e => ((e.2.filter (Q e.1)).map taskSpecOf).foldl incr acc) acc =
      ((idx.flatMap (fun e => (e.2.filter (Q e.1)))).map taskSpecOf).foldl incr acc := by
  induction idx generalizing acc with
  | nil => rfl
  | cons e r ih =>
    simp only [List.foldl_cons, List.flatMap_cons, List.map_append, List.foldl_append]
    exact ih _

/-- In a well-formed job the sets of the index, taken together, are the tasks of the job. -/
theorem index_join_perm {ji : JobInfo} (h : WellFormed ji) :
    (ji.TaskStatusIndex.flatMap (fun e => e.2)).Perm ji.Tasks := by
  have hI := indexConsistent_of_wellFormed h
  obtain ⟨-, -, h3, h4⟩ := hI
  rw [List.perm_ext_iff_of_nodup _ (nodup_of_nodupKeys h.tasksNodup)]
  · rintro ⟨u, t⟩
    simp only [List.mem_flatMap]
    constructor
    · rintro ⟨b, hb, he⟩
      exact mem_of_mapGet_eq_some ((h4 b hb).2.2 (u, t) he).1
    · intro he
      obtain ⟨-, m, hm, hu⟩ := h3 (u, t) he
      exact ⟨(t.Status, m), mem_of_mapGet_eq_some hm, mem_of_mapGet_eq_some hu⟩
  · rw [List.nodup_flatMap]
    constructor
    · intro b hb
      exact nodup_of_nodupKeys (h4 b hb).1
    · have hp : List.Pairwise (fun a b : TaskStatus × tasksMap => a.1 ≠ b.1)
          ji.TaskStatusIndex := List.pairwise_map.1 h.indexNodup
      refine List.Pairwise.imp_of_mem ?_ hp
      intro a b ha hb hab
      rw [Function.onFun, List.disjoint_left]
      intro e hea heb
      exact hab (((h4 a ha).2.2 e hea).2.symm.trans ((h4 b hb).2.2 e heb).2)

/-- In a well-formed job a test on the status under which a task is filed is a
test on the status of the task. -/
theorem index_bind_filter_perm {ji : JobInfo} (h : WellFormed ji)
    (Q : TaskStatus → TaskID × TaskInfo → Bool) :
    (ji.TaskStatusIndex.flatMap (fun e => e.2.filter (Q e.1))).Perm
      (ji.Tasks.filter (fun e => Q e.2.Status e)) := by
  have hI := indexConsistent_of_wellFormed h
  obtain ⟨-, -, -, h4⟩ := hI
  have e1 : ji.TaskStatusIndex.flatMap (fun e => e.2.filter (Q e.1)) =
      (ji.TaskStatusIndex.flatMap (fun e => e.2)).filter (fun e => Q e.2.Status e) := by
    have : ∀ l : List (TaskStatus × tasksMap), (∀ b ∈ l, ∀ e ∈ b.2, e.2.Status = b.1) →
        l.flatMap (fun e => e.2.filter (Q e.1)) =
          (l.flatMap (fun e => e.2)).filter (fun e => Q e.2.Status e) := by
      intro l
      induction l with
      | nil => intro _; rfl
      | cons b r ih =>
        intro hl
        simp only [List.flatMap_cons, List.filter_append]
        rw [ih (fun b' hb' => hl b' (List.mem_cons_of_mem _ hb'))]
        congr 1
        apply List.filter_congr
        intro e he
        rw [hl b (List.mem_cons_self _ _) e he]
    exact this _ (fun b hb e he => ((h4 b hb).2.2 e he).2)
  rw [e1]
  exact (index_join_perm h).filter _


/-- The counters built by ranging over the status index of a well-formed job
hold, for each task-spec name, the number of tasks of that name passing the
test, and no entry for a name without such a task. -/
theorem counters_lookup {ji : JobInfo} (h : WellFormed ji)
    (Q : TaskStatus → TaskID × TaskInfo → Bool) (k : TaskID) :
    mapGet (ji.TaskStatusIndex.foldl
        (fun acc e => ((e.2.filter (Q e.1)).map taskSpecOf).foldl incr acc) []) k =
      if ji.Tasks.countP (fun e => Q e.2.Status e && decide (taskSpecOf e = k)) = 0 then none
      else some (wrapIter
        (ji.Tasks.countP (fun e => Q e.2.Status e && decide (taskSpecOf e = k)))) := by
  rw [foldl_index_eq]
  have h0 := mapGet_foldl_incr
    ((ji.TaskStatusIndex.flatMap (fun e => e.2.filter (Q e.1))).map taskSpecOf) []
    (fun _ => 0) (by intro k; simp [mapGet]) k
  have hc : List.count k
      ((ji.TaskStatusIndex.flatMap (fun e => e.2.filter (Q e.1))).map taskSpecOf) =
      ji.Tasks.countP (fun e => Q e.2.Status e && decide (taskSpecOf e = k)) := by
    rw [List.count, List.countP_map, (index_bind_filter_perm h Q).countP_eq,
      List.countP_filter]
    congr 1
    funext e
    have e1 : (taskSpecOf e == k) = decide (taskSpecOf e = k) := by
      by_cases hk : taskSpecOf e = k <;> simp [hk]
    simp [Function.comp, Bool.and_comm, e1]
  rw [h0, hc, Nat.zero_add]

theorem validStatus_fold_eq :
    (fun (acc : List (TaskID × Int)) (e : TaskStatus × tasksMap) =>
      if validStatus e.1 then e.2.foldl (fun a p => incr a (getTaskID p.2.Pod)) acc else acc) =
    (fun acc e => ((e.2.filter ((fun s _ => validStatus s) e.1)).map taskSpecOf).foldl
      incr acc) := by
  funext acc e
  by_cases hv : validStatus e.1 = true
  · simp only [hv, if_true, List.filter_true, List.foldl_map]
    rfl
  · simp [hv]

/-- C8 (as stated, refuted): for a job without tasks whose `TaskMinAvailable`
asks for zero `worker` tasks, `CheckTaskMinAvailable` is false although every
entry has at least its minimum. -/
theorem checkTaskMinAvailable_zero_member :
    ¬ (zeroMemberJob.CheckTaskMinAvailable = true ↔
        (zeroMemberJob.MinAvailable < zeroMemberJob.TaskMinAvailableTotal ∨
          ∀ e ∈ zeroMemberJob.TaskMinAvailable,
            ((zeroMemberJob.validCount e.1 : Nat) : Int) ≥ e.2)) := by
  decide

/-- What `CheckTaskMinAvailable` computes on a job whose status index is
consistent with its tasks and that holds fewer than 2^31 tasks: an entry
passes when the job has a counted task of its name and at least its minimum
of them. -/
theorem checkTaskMinAvailable_exact (ji : JobInfo) (hc : IndexConsistent ji)
    (hlen : mapLen ji.Tasks < 2147483648) :
    ji.CheckTaskMinAvailable = true ↔
      (ji.MinAvailable < ji.TaskMinAvailableTotal ∨
        ∀ e ∈ ji.TaskMinAvailable,
          0 < ji.validCount e.1 ∧ ((ji.validCount e.1 : Nat) : Int) ≥ e.2) := by
  have h := wellFormed_of_indexConsistent hc
  unfold JobInfo.CheckTaskMinAvailable
  by_cases hm : ji.MinAvailable < ji.TaskMinAvailableTotal
  · simp [hm]
  · rw [if_neg hm]
    dsimp only
    rw [validStatus_fold_eq, List.all_eq_true]
    simp only [hm, false_or]
    apply forall_congr'
    intro e
    apply imp_congr_right
    intro _
    rw [counters_lookup h (fun s _ => validStatus s) e.1]
    have hle : ji.validCount e.1 < 2147483648 :=
      lt_of_le_of_lt (List.countP_le_length _) hlen
    show (match (if ji.validCount e.1 = 0 then none
        else some (wrapIter (ji.validCount e.1))) with
      | some act => !decide (act < e.2)
      | none => false) = true ↔ _
    by_cases hz : ji.validCount e.1 = 0
    · simp [hz]
    · rw [if_neg hz, wrapIter_of_lt hle]
      simp only [Bool.not_eq_true', decide_eq_false_iff_not, not_lt, ge_iff_le]
      constructor
      · intro hge; exact ⟨Nat.pos_of_ne_zero hz, hge⟩
      · intro hge; exact hge.2

/-- C8 (amended): for a job whose status index is consistent with its tasks,
that holds fewer than 2^31 tasks and whose entries of `TaskMinAvailable` are
all positive, `CheckTaskMinAvailable()` is true if and only if
`MinAvailable < TaskMinAvailableTotal`, or for every entry (taskName, min) of
`TaskMinAvailable` the number of the job's tasks with that task-spec name in an
allocated status, `Succeeded`, `Pipelined` or `Pending` is at least `min`. -/
theorem checkTaskMinAvailable_iff (ji : JobInfo) (hc : IndexConsistent ji)
    (hlen : mapLen ji.Tasks < 2147483648) (hpos : ∀ e ∈ ji.TaskMinAvailable, 0 < e.2) :
    ji.CheckTaskMinAvailable = true ↔
      (ji.MinAvailable < ji.TaskMinAvailableTotal ∨
        ∀ e ∈ ji.TaskMinAvailable, ((ji.validCount e.1 : Nat) : Int) ≥ e.2) := by
  rw [checkTaskMinAvailable_exact ji hc hlen]
  apply or_congr_right
  apply forall_congr'
  intro e
  apply imp_congr_right
  intro he
  constructor
  · intro h; exact h.2
  · intro h
    refine ⟨?_, h⟩
    have := hpos e he
    omega

/-- Witness of C8 (amended) on a job with one `worker` task whose pod group asks for one. -/
theorem checkTaskMinAvailable_iff_witness :
    IndexConsistent workerJob ∧ mapLen workerJob.Tasks < 2147483648 ∧
    (∀ e ∈ workerJob.TaskMinAvailable, 0 < e.2) ∧
    (workerJob.CheckTaskMinAvailable = true ↔
      (workerJob.MinAvailable < workerJob.TaskMinAvailableTotal ∨
        ∀ e ∈ workerJob.TaskMinAvailable, ((workerJob.validCount e.1 : Nat) : Int) ≥ e.2)) :=
  ⟨by decide, by decide, by decide,
    checkTaskMinAvailable_iff workerJob (by decide) (by decide) (by decide)⟩

/-! ## `SetPodGroup` and `Clone` on the per-task minima -/

/-- C9 (the code at the failing input): after `SetPodGroup(groupA)` and
`SetPodGroup(groupB)` the map `TaskMinAvailable` still holds the entry `a` of the
earlier pod group, which the latest pod group does not have, and
`TaskMinAvailableTotal` is 1 while the values in the map sum to 3. -/
theorem setPodGroup_keeps_stale_entries :
    regroupedJob.TaskMinAvailable = [("b", 1), ("a", 2)] ∧
    mapGet groupB.MinTaskMember "a" = none ∧
    regroupedJob.TaskMinAvailableTotal = 1 ∧
    (regroupedJob.TaskMinAvailable.map (fun e => e.2)).sum = 3 := by
  decide

/-- C7 (the code at the failing input): a job is given `groupA` and cloned; after
`SetPodGroup(groupB)` on the clone, the original's `TaskMinAvailable` holds the
entry `b` as well, while its `TaskMinAvailableTotal` is still 2. -/
theorem clone_shares_taskMinAvailable :
    (originalObject.2.view originalObject.1).TaskMinAvailable = [("a", 2)] ∧
    storeAfterCloneUpdate.map (fun st => (originalObject.2.view st).TaskMinAvailable)
      = some [("b", 1), ("a", 2)] ∧
    storeAfterCloneUpdate.map (fun st => (originalObject.2.view st).TaskMinAvailableTotal)
      = some 2 := by
  decide


/-! ## The weight of a namespace -/

theorem heap_top_isSome {h : Heap} (hne : h ≠ []) : ∃ x, Heap.top h = some x := by
  cases h with
  | nil => exact absurd rfl hne
  | cons x r =>
    unfold Heap.top
    cases Heap.top r with
    | none => exact ⟨_, rfl⟩
    | some y =>
      dsimp only
      by_cases hl : quotaItemLessFunc y x.2 = true
      · exact ⟨y, by rw [if_pos hl]⟩
      · exact ⟨x.2, by rw [if_neg hl]⟩

theorem heap_top_spec {h : Heap} {x : quotaItem} (ht : Heap.top h = some x) :
    (∃ k, (k, x) ∈ h) ∧ ∀ e ∈ h, e.2.weight ≤ x.weight := by
  induction h generalizing x with
  | nil => simp [Heap.top] at ht
  | cons a r ih =>
    unfold Heap.top at ht
    cases hr : Heap.top r with
    | none =>
      rw [hr] at ht
      have hx : a.2 = x := by simpa using ht
      have hnil : r = [] := by
        by_contra hne
        obtain ⟨y, hy⟩ := heap_top_isSome hne
        rw [hr] at hy; cases hy
      subst hx hnil
      exact ⟨⟨a.1, by simp⟩, by simp⟩
    | some y =>
      rw [hr] at ht
      dsimp only at ht
      obtain ⟨⟨k, hk⟩, hall⟩ := ih hr
      by_cases hl : quotaItemLessFunc y a.2 = true
      · rw [if_pos hl] at ht
        have hx : y = x := by simpa using ht
        subst hx
        have hw : a.2.weight < y.weight := by simpa [quotaItemLessFunc] using hl
        refine ⟨⟨k, List.mem_cons_of_mem _ hk⟩, ?_⟩
        intro e he
        rcases List.mem_cons.1 he with h1 | h1
        · subst h1; exact le_of_lt hw
        · exact hall e h1
      · rw [if_neg hl] at ht
        have hx : a.2 = x := by simpa using ht
        subst hx
        have hw : y.weight ≤ a.2.weight := by simpa [quotaItemLessFunc] using hl
        refine ⟨⟨a.1, by simp⟩, ?_⟩
        intro e he
        rcases List.mem_cons.1 he with h1 | h1
        · subst h1; exact le_refl _
        · exact le_trans (hall e h1) hw

theorem foldr_max_spec (l : List (String × Int)) :
    1 ≤ l.foldr (fun e m => max e.2 m) 1 ∧
    (∀ p ∈ l, p.2 ≤ l.foldr (fun e m => max e.2 m) 1) ∧
    (l.foldr (fun e m => max e.2 m) 1 = 1 ∨
      ∃ p ∈ l, p.2 = l.foldr (fun e m => max e.2 m) 1) := by
  induction l with
  | nil => simp
  | cons a r ih =>
    obtain ⟨h1, h2, h3⟩ := ih
    simp only [List.foldr_cons]
    refine ⟨le_trans h1 (le_max_right _ _), ?_, ?_⟩
    · intro p hp
      rcases List.mem_cons.1 hp with e | e
      · subst e; exact le_max_left _ _
      · exact le_trans (h2 p e) (le_max_right _ _)
    · rcases le_total a.2 (r.foldr (fun e m => max e.2 m) 1) with hle | hle
      · rw [max_eq_right hle]
        rcases h3 with h3 | ⟨p, hp, hpe⟩
        · exact Or.inl h3
        · exact Or.inr ⟨p, List.mem_cons_of_mem _ hp, hpe⟩
      · rw [max_eq_left hle]
        exact Or.inr ⟨a, List.mem_cons_self _ _, rfl⟩

theorem heapTracks_new (name : String) :
    HeapTracks (NamespaceCollection.NewNamespaceCollection name) [] := by
  refine ⟨?_, by simp [NodupKeys], by simp, ?_⟩
  · exact nodupKeys_mapSet (by simp [NodupKeys]) _ _
  · intro k
    show mapGet (mapSet [] NamespaceWeightKey _) k = _
    rw [mapGet_mapSet]
    by_cases hk : k = NamespaceWeightKey
    · simp [hk]
    · simp [hk, Ne.symm hk, mapGet]

theorem itemFromQuota_weight (q : ResourceQuota) :
    NamespaceCollection.itemFromQuota q = ⟨q.Name, quotaWeightOf q⟩ := by
  unfold NamespaceCollection.itemFromQuota quotaWeightOf
  cases mapGet q.Hard NamespaceWeightKey <;> rfl

theorem heapTracks_step {nc : NamespaceCollection} {present : List (String × Int)}
    (h : HeapTracks nc present) (op : QuotaOp) (hn : op.quota.Name ≠ NamespaceWeightKey) :
    HeapTracks (nc.step op) (presentStep present op) := by
  obtain ⟨h1, h2, h3, h4⟩ := h
  cases op with
  | update q =>
    have hn' : q.Name ≠ NamespaceWeightKey := hn
    refine ⟨nodupKeys_mapSet h1 _ _, nodupKeys_mapSet h2 _ _, ?_, ?_⟩
    · intro p hp
      rcases List.mem_cons.1 hp with e | e
      · subst e; exact hn'
      · exact h3 p (mem_mapDel.1 e).1
    · intro k
      show mapGet (mapSet nc.quotaWeight
        (quotaItemKeyFunc (NamespaceCollection.itemFromQuota q)) _) k = _
      rw [itemFromQuota_weight, mapGet_mapSet, h4 k]
      show _ = if k = NamespaceWeightKey then _
        else (mapGet (mapSet present q.Name (quotaWeightOf q)) k).map _
      rw [mapGet_mapSet]
      by_cases hk : k = NamespaceWeightKey
      · subst hk; simp [quotaItemKeyFunc, hn']
      · by_cases hq : q.Name = k
        · subst hq; simp [quotaItemKeyFunc, hk]
        · simp [quotaItemKeyFunc, hk, hq]
  | delete q =>
    have hn' : q.Name ≠ NamespaceWeightKey := hn
    refine ⟨nodupKeys_mapDel h1 _, nodupKeys_mapDel h2 _, ?_, ?_⟩
    · intro p hp
      exact h3 p (mem_mapDel.1 hp).1
    · intro k
      show mapGet (mapDel nc.quotaWeight
        (quotaItemKeyFunc (NamespaceCollection.itemFromQuota q))) k = _
      rw [itemFromQuota_weight, mapGet_mapDel, h4 k]
      show _ = if k = NamespaceWeightKey then _
        else (mapGet (mapDel present q.Name) k).map _
      rw [mapGet_mapDel]
      by_cases hk : k = NamespaceWeightKey
      · subst hk; simp [quotaItemKeyFunc, hn']
      · by_cases hq : q.Name = k
        · subst hq; simp [quotaItemKeyFunc, hk]
        · simp [quotaItemKeyFunc, hk, hq]

theorem heapTracks_run {nc : NamespaceCollection} {present : List (String × Int)}
    (h : HeapTracks nc present) (ops : List QuotaOp)
    (hn : ∀ op ∈ ops, op.quota.Name ≠ NamespaceWeightKey) :
    HeapTracks (nc.run ops) (ops.foldl presentStep present) := by
  induction ops generalizing nc present with
  | nil => exact h
  | cons op ops ih =>
    exact ih (heapTracks_step h op (hn op (List.mem_cons_self _ _)))
      (fun o ho => hn o (List.mem_cons_of_mem _ ho))

theorem snapshot_weight_of_tracks {nc : NamespaceCollection} {present : List (String × Int)}
    (h : HeapTracks nc present) :
    ∃ r, nc.Snapshot = some r ∧
      r.1.Weight = present.foldr (fun e m => max e.2 m) 1 := by
  obtain ⟨h1, h2, h3, h4⟩ := h
  have hkey : mapGet nc.quotaWeight NamespaceWeightKey
      = some ⟨NamespaceWeightKey, DefaultNamespaceWeight⟩ := by
    rw [h4]; simp
  have hne : nc.quotaWeight ≠ [] := by
    intro e; rw [e] at hkey; simp [mapGet] at hkey
  obtain ⟨x, hx⟩ := heap_top_isSome hne
  obtain ⟨⟨k, hk⟩, hall⟩ := heap_top_spec hx
  refine ⟨({ Name := nc.Name, Weight := x.weight, QuotaStatus := nc.QuotaStatus },
    { nc with quotaWeight := Heap.Update (mapDel nc.quotaWeight (quotaItemKeyFunc x)) x }),
    ?_, ?_⟩
  · unfold NamespaceCollection.Snapshot Heap.Pop
    rw [hx]
  · obtain ⟨e1, e2, e3⟩ := foldr_max_spec present
    show x.weight = _
    apply le_antisymm
    · have hkx := mapGet_eq_some_of_mem h1 hk
      rw [h4 k] at hkx
      by_cases hkk : k = NamespaceWeightKey
      · rw [if_pos hkk] at hkx
        have : x = ⟨NamespaceWeightKey, DefaultNamespaceWeight⟩ := by
          simpa using hkx.symm
        rw [this]
        exact e1
      · rw [if_neg hkk] at hkx
        cases hp : mapGet present k with
        | none => rw [hp] at hkx; simp at hkx
        | some w =>
          rw [hp] at hkx
          have : x = ⟨k, w⟩ := by simpa using hkx.symm
          rw [this]
          exact e2 (k, w) (mem_of_mapGet_eq_some hp)
    · rcases e3 with e3 | ⟨p, hp, hpe⟩
      · rw [e3]
        exact hall (NamespaceWeightKey, ⟨NamespaceWeightKey, DefaultNamespaceWeight⟩)
          (mem_of_mapGet_eq_some hkey)
      · rw [← hpe]
        have hpk : mapGet nc.quotaWeight p.1 = some ⟨p.1, p.2⟩ := by
          rw [h4 p.1, if_neg (h3 p hp), mapGet_eq_some_of_mem h2 hp]
          rfl
        exact hall (p.1, ⟨p.1, p.2⟩) (mem_of_mapGet_eq_some hpk)

/-- C10 (as stated, refuted): after `Update` of a quota that is named like the
weight key and has weight 0, `Snapshot().Weight` is 0 and not the maximum 1 of
the default weight and the weight present; after `Delete` of such a quota the
heap is empty and `Snapshot` does not return. -/
theorem snapshot_weight_key_named_quota :
    (((NamespaceCollection.NewNamespaceCollection "ns").run
        [QuotaOp.update keyNamedQuota]).Snapshot).map (fun r => r.1.Weight) = some 0 ∧
    expectedWeight [QuotaOp.update keyNamedQuota] = 1 ∧
    ((NamespaceCollection.NewNamespaceCollection "ns").run
        [QuotaOp.delete keyNamedQuota]).Snapshot = none := by
  decide

/-- C10 (amended): for a collection reached from `NewNamespaceCollection` by
`Update` and `Delete` calls on quotas none of which is named like the weight
key, `Snapshot()` returns, and its `Weight` is the maximum of the default
weight 1 and the weights of the quotas present. -/
theorem snapshot_weight_eq_max (name : String) (ops : List QuotaOp)
    (hn : ∀ op ∈ ops, op.quota.Name ≠ NamespaceWeightKey) :
    ∃ r, ((NamespaceCollection.NewNamespaceCollection name).run ops).Snapshot = some r ∧
      r.1.Weight = expectedWeight ops :=
  snapshot_weight_of_tracks (heapTracks_run (heapTracks_new name) ops hn)

/-- Witness of C10 (amended): a quota of weight 5 updated to weight 3, a quota
without weight entry, and a deleted quota of weight 9. -/
theorem snapshot_weight_eq_max_witness :
    (∀ op ∈ [QuotaOp.update ⟨"q1", [(NamespaceWeightKey, 5)], ""⟩,
             QuotaOp.update ⟨"q2", [], ""⟩,
             QuotaOp.update ⟨"q3", [(NamespaceWeightKey, 9)], ""⟩,
             QuotaOp.update ⟨"q1", [(NamespaceWeightKey, 3)], ""⟩,
             QuotaOp.delete ⟨"q3", [(NamespaceWeightKey, 9)], ""⟩],
        op.quota.Name ≠ NamespaceWeightKey) ∧
    ∃ r, ((NamespaceCollection.NewNamespaceCollection "ns").run
            [QuotaOp.update ⟨"q1", [(NamespaceWeightKey, 5)], ""⟩,
             QuotaOp.update ⟨"q2", [], ""⟩,
             QuotaOp.update ⟨"q3", [(NamespaceWeightKey, 9)], ""⟩,
             QuotaOp.update ⟨"q1", [(NamespaceWeightKey, 3)], ""⟩,
             QuotaOp.delete ⟨"q3", [(NamespaceWeightKey, 9)], ""⟩]).Snapshot = some r ∧
      r.1.Weight = expectedWeight
            [QuotaOp.update ⟨"q1", [(NamespaceWeightKey, 5)], ""⟩,
             QuotaOp.update ⟨"q2", [], ""⟩,
             QuotaOp.update ⟨"q3", [(NamespaceWeightKey, 9)], ""⟩,
             QuotaOp.update ⟨"q1", [(NamespaceWeightKey, 3)], ""⟩,
             QuotaOp.delete ⟨"q3", [(NamespaceWeightKey, 9)], ""⟩] :=
  ⟨by decide, snapshot_weight_eq_max "ns" _ (by decide)⟩


/-! ## `Clone`: the copy is a well-formed job over the same tasks -/

theorem taskInfo_Clone_eq {t : TaskInfo} (h : t.NumaInfo ≠ none) : t.Clone = some t := by
  cases t with
  | mk UID Job Name Namespace InitResReq ResReq NodeName Status LastTx Priority VolumeReady
      Preemptable BestEffort RevocableZone NumaInfo Pod =>
    cases NumaInfo with
    | none => exact absurd rfl h
    | some numa => rfl

theorem cloneTasks_eq (l : List (TaskID × TaskInfo)) (info : JobInfo)
    (h : ∀ e ∈ l, e.2.NumaInfo ≠ none) :
    JobInfo.cloneTasks l info = some (info.run (l.map (fun e => JobOp.add e.2))) := by
  induction l generalizing info with
  | nil => rfl
  | cons e r ih =>
    unfold JobInfo.cloneTasks
    rw [taskInfo_Clone_eq (h e (List.mem_cons_self _ _))]
    dsimp only
    rw [ih _ (fun e' he' => h e' (List.mem_cons_of_mem _ he'))]
    rfl

theorem freshAdds_of_nodupKeys (l : List (TaskID × TaskInfo)) (info : JobInfo)
    (hn : NodupKeys l) (hk : ∀ e ∈ l, e.2.UID = e.1)
    (hf : ∀ e ∈ l, mapGet info.Tasks e.1 = none) :
    FreshAdds info (l.map (fun e => JobOp.add e.2)) := by
  induction l generalizing info with
  | nil => trivial
  | cons e r ih =>
    have hn' : e.1 ∉ r.map (fun p => p.1) ∧ NodupKeys r := by
      simpa [NodupKeys] using hn
    refine ⟨?_, ?_⟩
    · show mapGet info.Tasks e.2.UID = none
      rw [hk e (List.mem_cons_self _ _)]
      exact hf e (List.mem_cons_self _ _)
    · apply ih _ hn'.2 (fun e' he' => hk e' (List.mem_cons_of_mem _ he'))
      intro e' he'
      show mapGet (info.AddTaskInfo e.2).Tasks e'.1 = none
      rw [AddTaskInfo_Tasks, mapGet_mapSet, hk e (List.mem_cons_self _ _)]
      have hne : e.1 ≠ e'.1 := by
        intro heq
        exact hn'.1 (List.mem_map.2 ⟨e', he', heq.symm⟩)
      rw [if_neg hne]
      exact hf e' (List.mem_cons_of_mem _ he')

theorem mapGet_Tasks_run_adds (l : List (TaskID × TaskInfo)) (info : JobInfo)
    (hn : NodupKeys l) (hk : ∀ e ∈ l, e.2.UID = e.1) (k : TaskID) :
    mapGet (info.run (l.map (fun e => JobOp.add e.2))).Tasks k =
      match mapGet l k with
      | some t => some t
      | none => mapGet info.Tasks k := by
  induction l generalizing info with
  | nil => rfl
  | cons e r ih =>
    have hn' : e.1 ∉ r.map (fun p => p.1) ∧ NodupKeys r := by
      simpa [NodupKeys] using hn
    show mapGet ((info.AddTaskInfo e.2).run (r.map (fun e => JobOp.add e.2))).Tasks k = _
    rw [ih _ hn'.2 (fun e' he' => hk e' (List.mem_cons_of_mem _ he'))]
    rw [AddTaskInfo_Tasks, mapGet_mapSet, hk e (List.mem_cons_self _ _)]
    obtain ⟨k0, t0⟩ := e
    by_cases hk0 : k0 = k
    · subst hk0
      have : mapGet r k0 = none := (mapGet_eq_none_iff _ _).2 hn'.1
      simp [mapGet, this]
    · simp [mapGet, hk0]

theorem sameFrame_AddTaskInfo (ji : JobInfo) (ti : TaskInfo) :
    sameFrame (ji.AddTaskInfo ti) ji := by
  unfold JobInfo.AddTaskInfo sameFrame
  split <;> exact ⟨rfl, rfl, rfl, rfl, rfl, rfl, rfl⟩

theorem sameFrame_run_adds (l : List TaskInfo) (info : JobInfo) :
    sameFrame (info.run (l.map JobOp.add)) info := by
  induction l generalizing info with
  | nil => exact ⟨rfl, rfl, rfl, rfl, rfl, rfl, rfl⟩
  | cons t r ih =>
    have h1 := ih (info.AddTaskInfo t)
    have h2 := sameFrame_AddTaskInfo info t
    unfold sameFrame at *
    exact ⟨h1.1.trans h2.1, h1.2.1.trans h2.2.1, h1.2.2.1.trans h2.2.2.1,
      h1.2.2.2.1.trans h2.2.2.2.1, h1.2.2.2.2.1.trans h2.2.2.2.2.1,
      h1.2.2.2.2.2.1.trans h2.2.2.2.2.2.1, h1.2.2.2.2.2.2.trans h2.2.2.2.2.2.2⟩

theorem wellFormed_of_empty {ji : JobInfo} (h1 : ji.Tasks = []) (h2 : ji.TaskStatusIndex = []) :
    WellFormed ji := by
  refine ⟨by simp [h1, NodupKeys], by simp [h2, NodupKeys], ?_, ?_, ?_⟩
  · intro s m hm; simp [h2, mapGet] at hm
  · intro u t ht; simp [h1, mapGet] at ht
  · intro s u t; simp [h1, h2, JobInfo.indexed, mapGet]

/-- What `Clone` returns for a well-formed job with pod group, budget and NUMA
info: a well-formed job with the same tasks under the same UIDs, an empty
`NodesFitErrors`, and the other fields of the original. -/
theorem clone_spec {ji : JobInfo} {pg : PodGroup} {budget : DisruptionBudget}
    (hpg : ji.PodGroup = some pg) (hb : ji.Budget = some budget)
    (hnuma : ∀ e ∈ ji.Tasks, e.2.NumaInfo ≠ none) (h : WellFormed ji) :
    ∃ c, ji.Clone = some c ∧ WellFormed c ∧ c.Tasks.Perm ji.Tasks ∧
      (∀ k, mapGet c.Tasks k = mapGet ji.Tasks k) ∧
      c.MinAvailable = ji.MinAvailable ∧ c.TaskMinAvailable = ji.TaskMinAvailable ∧
      c.TaskMinAvailableTotal = ji.TaskMinAvailableTotal ∧
      c.JobFitErrors = ji.JobFitErrors ∧ c.NodesFitErrors = [] ∧
      c.PodGroup = ji.PodGroup := by
  have hk : ∀ e ∈ ji.Tasks, e.2.UID = e.1 := fun e he =>
    h.keyUID e.1 e.2 (mapGet_eq_some_of_mem h.tasksNodup he)
  have hfresh : FreshAdds (ji.cloneBase pg budget) (ji.Tasks.map (fun e => JobOp.add e.2)) :=
    freshAdds_of_nodupKeys _ _ h.tasksNodup hk (fun e _ => rfl)
  have hbase : WellFormed (ji.cloneBase pg budget) := wellFormed_of_empty rfl rfl
  have hw := wellFormed_run hbase _ hfresh
  have hget : ∀ k, mapGet ((ji.cloneBase pg budget).run
      (ji.Tasks.map (fun e => JobOp.add e.2))).Tasks k = mapGet ji.Tasks k := by
    intro k
    rw [mapGet_Tasks_run_adds _ _ h.tasksNodup hk]
    cases mapGet ji.Tasks k <;> rfl
  refine ⟨(ji.cloneBase pg budget).run (ji.Tasks.map (fun e => JobOp.add e.2)), ?_, hw,
    perm_of_mapGet_eq hw.tasksNodup h.tasksNodup hget, hget, ?_⟩
  · unfold JobInfo.Clone
    rw [hpg, hb]
    exact cloneTasks_eq _ _ hnuma
  · have hf := sameFrame_run_adds (ji.Tasks.map (fun e => e.2)) (ji.cloneBase pg budget)
    rw [List.map_map] at hf
    obtain ⟨f1, f2, f3, f4, f5, f6, -⟩ := hf
    refine ⟨f1, f2, f3, f4, f5, f6.trans ?_⟩
    show some pg.Clone = ji.PodGroup
    rw [hpg]; rfl


/-! ## The accessors read a well-formed job through its tasks -/

theorem waitingTaskNum_wrap {ji : JobInfo} (h : WellFormed ji) :
    ji.WaitingTaskNum =
      wrapInt32 (ji.Tasks.countP (fun e => decide (e.2.Status = Pipelined)) : Nat) := by
  unfold JobInfo.WaitingTaskNum
  rw [mapLenAt_eq_countP h]

theorem foldl_valid_len (idx : List (TaskStatus × tasksMap)) (n : Nat) :
    idx.foldl (fun n e => if validStatus e.1 then n + mapLen e.2 else n) n =
      n + (idx.flatMap (fun e => e.2.filter ((fun s _ => validStatus s) e.1))).length := by
  induction idx generalizing n with
  | nil => rfl
  | cons e r ih =>
    rw [List.foldl_cons, ih, List.flatMap_cons, List.length_append]
    by_cases hv : validStatus e.1 = true
    · simp [hv, mapLen, Nat.add_assoc]
    · simp [hv]

theorem validTaskNum_wrap {ji : JobInfo} (h : WellFormed ji) :
    ji.ValidTaskNum =
      wrapInt32 (ji.Tasks.countP (fun e => validStatus e.2.Status) : Nat) := by
  unfold JobInfo.ValidTaskNum
  dsimp only
  rw [foldl_valid_len, (index_bind_filter_perm h (fun s _ => validStatus s)).length_eq,
    List.countP_eq_length_filter, Nat.zero_add]

theorem counters_lookup_congr {a b : JobInfo} (ha : WellFormed a) (hb : WellFormed b)
    (hp : a.Tasks.Perm b.Tasks) (Q : TaskStatus → TaskID × TaskInfo → Bool) (k : TaskID) :
    mapGet (a.TaskStatusIndex.foldl
        (fun acc e => ((e.2.filter (Q e.1)).map taskSpecOf).foldl incr acc) []) k =
    mapGet (b.TaskStatusIndex.foldl
        (fun acc e => ((e.2.filter (Q e.1)).map taskSpecOf).foldl incr acc) []) k := by
  rw [counters_lookup ha, counters_lookup hb, hp.countP_eq]

theorem cond_fold_eq (A : TaskStatus → Bool) :
    (fun (acc : List (TaskID × Int)) (e : TaskStatus × tasksMap) =>
      if A e.1 = true then e.2.foldl (fun a p => incr a (getTaskID p.2.Pod)) acc
      else if e.1 = TaskStatus.Pending then
        e.2.foldl
          (fun a p => if p.2.InitResReq.IsEmpty = true then incr a (getTaskID p.2.Pod) else a) acc
      else acc) =
    (fun acc e => ((e.2.filter ((fun s p =>
        A s || (decide (s = TaskStatus.Pending) && p.2.InitResReq.IsEmpty)) e.1)).map
          taskSpecOf).foldl incr acc) := by
  funext acc e
  by_cases hA : A e.1 = true
  · simp only [hA, if_true, Bool.true_or, List.filter_true, List.foldl_map]
    rfl
  · by_cases hP : e.1 = TaskStatus.Pending
    · simp only [hA, hP, if_true, if_false, Bool.false_or, decide_True, Bool.true_and]
      have hA' : A TaskStatus.Pending = false := by
        rw [hP] at hA; simpa using hA
      simp only [hA', Bool.false_or]
      exact foldl_incr_if_eq (fun p => p.2.InitResReq.IsEmpty) e.2 acc
    · simp [hA, hP]

/-- Two well-formed jobs over the same tasks and with the same scalar fields
give the same results in the counting accessors. -/
theorem counting_accessors_eq {a b : JobInfo} (ha : WellFormed a) (hb : WellFormed b)
    (hp : a.Tasks.Perm b.Tasks) (h1 : a.MinAvailable = b.MinAvailable)
    (h2 : a.TaskMinAvailable = b.TaskMinAvailable)
    (h3 : a.TaskMinAvailableTotal = b.TaskMinAvailableTotal)
    (h4 : a.PodGroup = b.PodGroup) :
    a.ReadyTaskNum = b.ReadyTaskNum ∧ a.WaitingTaskNum = b.WaitingTaskNum ∧
    a.ValidTaskNum = b.ValidTaskNum ∧ a.Ready = b.Ready ∧ a.IsPending = b.IsPending ∧
    a.CheckTaskMinAvailable = b.CheckTaskMinAvailable ∧
    a.CheckTaskMinAvailableReady = b.CheckTaskMinAvailableReady ∧
    a.CheckTaskMinAvailablePipelined = b.CheckTaskMinAvailablePipelined := by
  have hr : a.ReadyTaskNum = b.ReadyTaskNum := by
    rw [readyTaskNum_wrap ha, readyTaskNum_wrap hb, hp.countP_eq]
  refine ⟨hr, ?_, ?_, ?_, ?_, ?_, ?_, ?_⟩
  · rw [waitingTaskNum_wrap ha, waitingTaskNum_wrap hb, hp.countP_eq]
  · rw [validTaskNum_wrap ha, validTaskNum_wrap hb, hp.countP_eq]
  · unfold JobInfo.Ready; rw [hr, h1]
  · unfold JobInfo.IsPending; rw [h4]
  · unfold JobInfo.CheckTaskMinAvailable
    rw [h1, h3, h2]
    dsimp only
    rw [validStatus_fold_eq]
    have hl := counters_lookup_congr ha hb hp (fun s _ => validStatus s)
    simp only [hl]
  · unfold JobInfo.CheckTaskMinAvailableReady
    rw [h1, h3, h2]
    dsimp only
    have e := cond_fold_eq (fun s => AllocatedStatus s || decide (s = TaskStatus.Succeeded))
    simp only at e
    rw [e]
    have hl := counters_lookup_congr ha hb hp (fun s p =>
      AllocatedStatus s || decide (s = TaskStatus.Succeeded)
        || (decide (s = TaskStatus.Pending) && p.2.InitResReq.IsEmpty))
    simp only [hl]
  · unfold JobInfo.CheckTaskMinAvailablePipelined
    rw [h1, h3, h2]
    dsimp only
    have e := cond_fold_eq (fun s => AllocatedStatus s || decide (s = TaskStatus.Succeeded)
      || decide (s = TaskStatus.Pipelined))
    simp only at e
    rw [e]
    have hl := counters_lookup_congr ha hb hp (fun s p =>
      AllocatedStatus s || decide (s = TaskStatus.Succeeded) || decide (s = TaskStatus.Pipelined)
        || (decide (s = TaskStatus.Pending) && p.2.InitResReq.IsEmpty))
    simp only [hl]

theorem taskSchedulingReason_eq {a b : JobInfo}
    (ht : ∀ k, mapGet a.Tasks k = mapGet b.Tasks k) (hj : a.JobFitErrors = b.JobFitErrors)
    (hna : ∀ e ∈ a.NodesFitErrors, e.2 = none) (hnb : ∀ e ∈ b.NodesFitErrors, e.2 = none)
    (tid : TaskID) : a.TaskSchedulingReason tid = b.TaskSchedulingReason tid := by
  have key : ∀ x : JobInfo, (∀ e ∈ x.NodesFitErrors, e.2 = none) →
      mapGet x.NodesFitErrors tid = none ∨ mapGet x.NodesFitErrors tid = some none := by
    intro x hx
    cases hm : mapGet x.NodesFitErrors tid with
    | none => exact Or.inl rfl
    | some o =>
      have := hx (tid, o) (mem_of_mapGet_eq_some hm)
      simp only at this
      subst this
      exact Or.inr rfl
  unfold JobInfo.TaskSchedulingReason
  rw [ht tid, hj]
  cases mapGet b.Tasks tid with
  | none => rfl
  | some taskInfo =>
    dsimp only
    cases (match taskInfo.LastTx with
      | some tx => tx
      | none => taskInfo.GetTransactionContext).Status <;> try rfl
    dsimp only
    rcases key a hna with h1 | h1 <;> rcases key b hnb with h2 | h2 <;> rw [h1, h2]


/-! ## `FitError` reads a well-formed job through its tasks -/

theorem nodupKeys_foldl_histAdd {β : Type} (f : β → String) (g : β → Int) (L : List β)
    (acc : List (String × Int)) (h : NodupKeys acc) :
    NodupKeys (L.foldl (fun r e => histAdd r (f e) (g e)) acc) := by
  induction L generalizing acc with
  | nil => exact h
  | cons e r ih => exact ih _ (nodupKeys_mapSet h _ _)

theorem mapGet_foldl_histAdd {β : Type} (f : β → String) (g : β → Int) (L : List β)
    (acc : List (String × Int)) (k : String) :
    mapGet (L.foldl (fun r e => histAdd r (f e) (g e)) acc) k =
      if (L.filter (fun e => decide (f e = k))).length = 0 then mapGet acc k
      else some ((mapGet acc k).getD 0 + ((L.filter (fun e => decide (f e = k))).map g).sum) := by
  induction L generalizing acc with
  | nil => simp
  | cons e r ih =>
    rw [List.foldl_cons, ih]
    unfold histAdd
    rw [mapGet_mapSet]
    by_cases hk : f e = k
    · simp only [hk, if_true, List.filter_cons, decide_True, Option.getD_some]
      by_cases hr : (r.filter (fun e => decide (f e = k))).length = 0
      · have hr' : r.filter (fun e => decide (f e = k)) = [] := List.length_eq_zero.1 hr
        simp [hr']
      · simp [hr, add_assoc]
    · simp only [hk, if_false, List.filter_cons, decide_False]
      simp

theorem mapGet_foldl_histAdd_perm {β : Type} (f : β → String) (g : β → Int) {L1 L2 : List β}
    (hp : L1.Perm L2) (acc : List (String × Int)) (k : String) :
    mapGet (L1.foldl (fun r e => histAdd r (f e) (g e)) acc) k =
    mapGet (L2.foldl (fun r e => histAdd r (f e) (g e)) acc) k := by
  rw [mapGet_foldl_histAdd, mapGet_foldl_histAdd]
  have hf := hp.filter (fun e => decide (f e = k))
  rw [(hf.map g).sum_eq, hf.length_eq]

theorem sortReasonsHistogram_perm {m1 m2 : List (String × Int)} (hp : m1.Perm m2) :
    JobInfo.sortReasonsHistogram m1 = JobInfo.sortReasonsHistogram m2 := by
  unfold JobInfo.sortReasonsHistogram
  apply List.eq_of_perm_of_sorted (r := fun a b : String => a ≤ b)
  · exact (List.mergeSort_perm _ _).trans
      ((hp.map _).trans (List.mergeSort_perm _ _).symm)
  · exact List.sorted_mergeSort' _
  · exact List.sorted_mergeSort' _

theorem mapGet_map_val {κ α β : Type} [DecidableEq κ] (F : α → β) (l : List (κ × α)) (k : κ) :
    mapGet (l.map (fun e => (e.1, F e.2))) k = (mapGet l k).map F := by
  induction l with
  | nil => rfl
  | cons e r ih =>
    obtain ⟨k0, v⟩ := e
    by_cases h : k0 = k
    · simp [mapGet, h]
    · simp [mapGet, h, ih]

theorem index_lens_lookup {ji : JobInfo} (h : WellFormed ji) (s : TaskStatus) :
    mapGet (ji.TaskStatusIndex.map (fun e => (e.1, ((mapLen e.2 : Nat) : Int)))) s =
      if ji.Tasks.countP (fun e => decide (e.2.Status = s)) = 0 then none
      else some ((ji.Tasks.countP (fun e => decide (e.2.Status = s)) : Nat) : Int) := by
  rw [mapGet_map_val (fun m : tasksMap => ((mapLen m : Nat) : Int))]
  have hp := (bucket_perm h s).length_eq
  rw [← List.countP_eq_length_filter] at hp
  cases hm : mapGet ji.TaskStatusIndex s with
  | none =>
    rw [hm] at hp
    have : ji.Tasks.countP (fun e => decide (e.2.Status = s)) = 0 := by simpa using hp.symm
    simp [this]
  | some m =>
    rw [hm] at hp
    have hne := (h.bucket s m hm).2
    have hlen : m.length ≠ 0 := fun e => hne (List.length_eq_zero.1 e)
    have hp' : m.length = ji.Tasks.countP (fun e => decide (e.2.Status = s)) := by
      simpa using hp
    rw [← hp']
    simp [hlen, mapLen]

theorem index_lens_perm {a b : JobInfo} (ha : WellFormed a) (hb : WellFormed b)
    (hp : a.Tasks.Perm b.Tasks) :
    (a.TaskStatusIndex.map (fun e => (e.1, ((mapLen e.2 : Nat) : Int)))).Perm
      (b.TaskStatusIndex.map (fun e => (e.1, ((mapLen e.2 : Nat) : Int)))) := by
  apply perm_of_mapGet_eq
  · unfold NodupKeys; rw [List.map_map]; exact ha.indexNodup
  · unfold NodupKeys; rw [List.map_map]; exact hb.indexNodup
  · intro s
    rw [index_lens_lookup ha, index_lens_lookup hb, hp.countP_eq]

theorem statusHistogram_perm {a b : JobInfo} (ha : WellFormed a) (hb : WellFormed b)
    (hp : a.Tasks.Perm b.Tasks) (h1 : a.MinAvailable = b.MinAvailable) :
    (a.statusHistogram).Perm (b.statusHistogram) := by
  have hfold : ∀ x : JobInfo,
      x.TaskStatusIndex.foldl (fun r e => histAdd r e.1.String (mapLen e.2)) [] =
      (x.TaskStatusIndex.map (fun e => (e.1, ((mapLen e.2 : Nat) : Int)))).foldl
        (fun r p => histAdd r p.1.String p.2) [] := by
    intro x; rw [List.foldl_map]
  unfold JobInfo.statusHistogram
  dsimp only
  rw [hfold a, hfold b, h1]
  apply perm_of_mapGet_eq
  · exact nodupKeys_mapSet (nodupKeys_foldl_histAdd _ _ _ _ (by simp [NodupKeys])) _ _
  · exact nodupKeys_mapSet (nodupKeys_foldl_histAdd _ _ _ _ (by simp [NodupKeys])) _ _
  · intro k
    rw [mapGet_mapSet, mapGet_mapSet,
      mapGet_foldl_histAdd_perm _ _ (index_lens_perm ha hb hp)]

theorem pendingHistogram_perm {a b : JobInfo} (ha : WellFormed a) (hb : WellFormed b)
    (hp : a.Tasks.Perm b.Tasks)
    (hr : ∀ tid, a.TaskSchedulingReason tid = b.TaskSchedulingReason tid) :
    (a.pendingHistogram).Perm (b.pendingHistogram) := by
  have ea : a.pendingHistogram =
      ((mapGet a.TaskStatusIndex TaskStatus.Pending).getD []).foldl
        (fun r p => histAdd r (b.TaskSchedulingReason p.1).1 1) [] := by
    unfold JobInfo.pendingHistogram
    simp only [hr]
    cases mapGet a.TaskStatusIndex TaskStatus.Pending <;> rfl
  have eb : b.pendingHistogram =
      ((mapGet b.TaskStatusIndex TaskStatus.Pending).getD []).foldl
        (fun r p => histAdd r (b.TaskSchedulingReason p.1).1 1) [] := by
    unfold JobInfo.pendingHistogram
    cases mapGet b.TaskStatusIndex TaskStatus.Pending <;> rfl
  have hbp : ((mapGet a.TaskStatusIndex TaskStatus.Pending).getD []).Perm
      ((mapGet b.TaskStatusIndex TaskStatus.Pending).getD []) :=
    (bucket_perm ha TaskStatus.Pending).trans
      ((hp.filter _).trans (bucket_perm hb TaskStatus.Pending).symm)
  rw [ea, eb]
  apply perm_of_mapGet_eq
  · exact nodupKeys_foldl_histAdd _ _ _ _ (by simp [NodupKeys])
  · exact nodupKeys_foldl_histAdd _ _ _ _ (by simp [NodupKeys])
  · intro k
    exact mapGet_foldl_histAdd_perm (fun p : TaskID × TaskInfo => (b.TaskSchedulingReason p.1).1)
      (fun _ => 1) hbp [] k

theorem fitError_eq {a b : JobInfo} (ha : WellFormed a) (hb : WellFormed b)
    (hp : a.Tasks.Perm b.Tasks) (h1 : a.MinAvailable = b.MinAvailable)
    (hr : ∀ tid, a.TaskSchedulingReason tid = b.TaskSchedulingReason tid) :
    a.FitError = b.FitError := by
  unfold JobInfo.FitError
  have e1 := sortReasonsHistogram_perm (statusHistogram_perm ha hb hp h1)
  have p2 := pendingHistogram_perm ha hb hp hr
  have e2 := sortReasonsHistogram_perm p2
  have e3 : mapLen a.pendingHistogram = mapLen b.pendingHistogram := p2.length_eq
  rw [e1, e2, e3]


/-! ## `Clone` and the read-only accessors -/

/-- C6 (as stated, refuted): for a job that carries a `NodesFitErrors` entry
for a `Pending` task, `TaskSchedulingReason` gives `Unschedulable` with the
recorded message on the job and `Undetermined` on its clone. -/
theorem clone_drops_nodesFitErrors :
    fitErrorJob.TaskSchedulingReason "a" = ("Unschedulable", "0/1 nodes are available") ∧
    fitErrorJob.Clone.map (fun c => c.TaskSchedulingReason "a")
      = some ("Undetermined", "") ∧
    fitErrorJob.Clone.map (fun c => c.NodesFitErrors) = some [] := by
  decide

/-- C6 (amended): for a job with pod group and budget set, whose tasks carry
NUMA info and whose status index is consistent with its tasks, `Clone()`
returns a job on which `ReadyTaskNum`, `WaitingTaskNum`, `ValidTaskNum`,
`Ready`, `IsPending`, `CheckTaskMinAvailable`, `CheckTaskMinAvailableReady` and
`CheckTaskMinAvailablePipelined` give the same results as on the job, and so
do `TaskSchedulingReason(tid)` and `FitError()` when the job carries no fit
error in `NodesFitErrors`. -/
theorem clone_preserves_accessors (ji : JobInfo) (pg : PodGroup) (budget : DisruptionBudget)
    (hpg : ji.PodGroup = some pg) (hb : ji.Budget = some budget)
    (hnuma : ∀ e ∈ ji.Tasks, e.2.NumaInfo ≠ none) (hc : IndexConsistent ji) :
    ∃ c, ji.Clone = some c ∧
      c.ReadyTaskNum = ji.ReadyTaskNum ∧ c.WaitingTaskNum = ji.WaitingTaskNum ∧
      c.ValidTaskNum = ji.ValidTaskNum ∧ c.Ready = ji.Ready ∧ c.IsPending = ji.IsPending ∧
      c.CheckTaskMinAvailable = ji.CheckTaskMinAvailable ∧
      c.CheckTaskMinAvailableReady = ji.CheckTaskMinAvailableReady ∧
      c.CheckTaskMinAvailablePipelined = ji.CheckTaskMinAvailablePipelined ∧
      ((∀ e ∈ ji.NodesFitErrors, e.2 = none) →
        (∀ tid, c.TaskSchedulingReason tid = ji.TaskSchedulingReason tid) ∧
        c.FitError = ji.FitError) := by
  have h := wellFormed_of_indexConsistent hc
  obtain ⟨c, hcl, hw, hp, hget, f1, f2, f3, f4, f5, f6⟩ := clone_spec hpg hb hnuma h
  obtain ⟨a1, a2, a3, a4, a5, a6, a7, a8⟩ := counting_accessors_eq hw h hp f1 f2 f3 f6
  refine ⟨c, hcl, a1, a2, a3, a4, a5, a6, a7, a8, ?_⟩
  intro hno
  have hr : ∀ tid, c.TaskSchedulingReason tid = ji.TaskSchedulingReason tid :=
    taskSchedulingReason_eq hget f4 (by rw [f5]; intro e he; cases he) hno
  exact ⟨hr, fitError_eq hw h hp f1 hr⟩

/-- Witness of C6 (amended) on the job with one `worker` task. -/
theorem clone_preserves_accessors_witness :
    workerJob.PodGroup = some workerGroup ∧
    workerJob.Budget = some (JobInfo.extractBudget workerGroup) ∧
    (∀ e ∈ workerJob.Tasks, e.2.NumaInfo ≠ none) ∧ IndexConsistent workerJob ∧
    ∃ c, workerJob.Clone = some c ∧ c.ReadyTaskNum = workerJob.ReadyTaskNum ∧
      c.CheckTaskMinAvailable = workerJob.CheckTaskMinAvailable :=
  ⟨by decide, by decide, by decide, by decide,
    (clone_preserves_accessors workerJob workerGroup (JobInfo.extractBudget workerGroup)
      (by decide) (by decide) (by decide) (by decide)).imp
      (fun _ hcw => ⟨hcw.1, hcw.2.1, hcw.2.2.2.2.2.2.1⟩)⟩


/-! ## Namespace snapshots and NUMA topology -/

/-- C11 (the code at the failing input): a snapshot is taken of a collection
that holds the quota `q1`; after `Update(q2)` on the collection the snapshot's
`QuotaStatus` holds the status of `q2` as well, while its `Weight` is still 5. -/
theorem snapshot_shares_quotaStatus :
    snapshotBeforeAfter =
      some ({ Name := "ns", Weight := 5, QuotaStatus := [("q1", "used-1")] },
            { Name := "ns", Weight := 5,
              QuotaStatus := [("q2", "used-2"), ("q1", "used-1")] }) := by
  decide

theorem compareLoop_eq (newInfo : NumaTopoInfo) (l : List (String × ResourceInfo))
    (hall : ∀ e ∈ l, mapGet newInfo.NumaResMap e.1 ≠ none) :
    NumaTopoInfo.compareLoop newInfo l =
      some (l.any (fun e =>
        match mapGet newInfo.NumaResMap e.1 with
        | some n => decide (e.2.Allocatable.Size ≤ n.Allocatable.Size)
        | none => false)) := by
  induction l with
  | nil => rfl
  | cons e r ih =>
    have he := hall e (List.mem_cons_self _ _)
    have ih' := ih (fun e' he' => hall e' (List.mem_cons_of_mem _ he'))
    unfold NumaTopoInfo.compareLoop
    cases hm : mapGet newInfo.NumaResMap e.1 with
    | none => exact absurd hm he
    | some n =>
      dsimp only
      by_cases hs : e.2.Allocatable.Size ≤ n.Allocatable.Size
      · rw [if_pos hs]
        simp [List.any_cons, hm, hs]
      · rw [if_neg hs, ih']
        simp [List.any_cons, hm, hs]

/-- C12 (the code at the failing input): when a resource of the old info is
missing from the new info, no resource has a size in the new info that is at
least its old size, yet `Compare` does not return false, which is what its
comment says it returns then: reading the missing entry panics. -/
theorem compare_missing_resource :
    numaTwoCpus.didNotShrink numaNoResource = false ∧
    numaTwoCpus.Compare numaNoResource = none ∧
    numaTwoCpus.Compare numaNoResource ≠ some (numaTwoCpus.didNotShrink numaNoResource) := by
  decide

/-- `Compare` where it returns: when every resource name of `info.NumaResMap`
is present in `newInfo.NumaResMap`, `Compare(newInfo)` returns, and it returns
true if and only if some resource name of `info.NumaResMap` has in `newInfo` an
allocatable set at least as large as in `info`; so it returns false when every
resource shrank and when `info.NumaResMap` is empty. -/
theorem compare_eq_didNotShrink (info newInfo : NumaTopoInfo)
    (hall : ∀ e ∈ info.NumaResMap, mapGet newInfo.NumaResMap e.1 ≠ none) :
    info.Compare newInfo = some (info.didNotShrink newInfo) ∧
    (info.didNotShrink newInfo = true ↔
      ∃ e ∈ info.NumaResMap, ∃ n, mapGet newInfo.NumaResMap e.1 = some n ∧
        e.2.Allocatable.Size ≤ n.Allocatable.Size) ∧
    (info.NumaResMap = [] → info.Compare newInfo = some false) := by
  refine ⟨compareLoop_eq newInfo _ hall, ?_, ?_⟩
  · unfold NumaTopoInfo.didNotShrink
    rw [List.any_eq_true]
    constructor
    · rintro ⟨e, he, h⟩
      cases hm : mapGet newInfo.NumaResMap e.1 with
      | none => rw [hm] at h; cases h
      | some n =>
        rw [hm] at h
        exact ⟨e, he, n, hm, by simpa using h⟩
    · rintro ⟨e, he, n, hm, hs⟩
      exact ⟨e, he, by rw [hm]; simpa using hs⟩
  · intro h0
    unfold NumaTopoInfo.Compare
    rw [h0]
    rfl

/-- `Compare` where it returns, at an instance: from two CPUs to four, and from
four to two. -/
theorem compare_eq_didNotShrink_witness :
    (∀ e ∈ numaTwoCpus.NumaResMap, mapGet numaFourCpus.NumaResMap e.1 ≠ none) ∧
    numaTwoCpus.Compare numaFourCpus = some (numaTwoCpus.didNotShrink numaFourCpus) ∧
    numaTwoCpus.didNotShrink numaFourCpus = true ∧
    numaFourCpus.didNotShrink numaTwoCpus = false :=
  ⟨by decide, (compare_eq_didNotShrink numaTwoCpus numaFourCpus (by decide)).1,
    by decide, by decide⟩

/-- C13: `addNumaInfo` on a node without NUMA info (a placeholder node named
after the topology object is made for an unknown node) stores the new info
with flag `More`; on a node with NUMA info it stores the new info with flag
`More` when `Compare` returns true and `Less` when it returns false; other
nodes are not touched.  `deleteNumaInfo` clears the NUMA info of a known node
and sets the flag `Reset`, and leaves the cache as it is for an unknown node. -/
theorem numaInfo_handlers (mustParse : String → Option CPUSet) (sc : SchedulerCache)
    (info : Numatopology) (newInfo : NumaTopoInfo)
    (hnew : getNumaInfo mustParse info = some newInfo) :
    (mapGet sc.Nodes info.Name = none →
      ∃ sc', sc.addNumaInfo mustParse info = some sc' ∧
        mapGet sc'.Nodes info.Name =
          some { Name := info.Name, NumaInfo := some newInfo,
                 NumaChgFlag := NumaChangeFlag.NumaInfoMoreFlag } ∧
        ∀ k, k ≠ info.Name → mapGet sc'.Nodes k = mapGet sc.Nodes k) ∧
    (∀ n, mapGet sc.Nodes info.Name = some n → n.NumaInfo = none →
      ∃ sc', sc.addNumaInfo mustParse info = some sc' ∧
        mapGet sc'.Nodes info.Name =
          some { n with NumaInfo := some newInfo,
                        NumaChgFlag := NumaChangeFlag.NumaInfoMoreFlag } ∧
        ∀ k, k ≠ info.Name → mapGet sc'.Nodes k = mapGet sc.Nodes k) ∧
    (∀ n old b, mapGet sc.Nodes info.Name = some n → n.NumaInfo = some old →
      old.Compare newInfo = some b →
      ∃ sc', sc.addNumaInfo mustParse info = some sc' ∧
        mapGet sc'.Nodes info.Name =
          some { n with NumaInfo := some newInfo,
                        NumaChgFlag := if b = true then NumaChangeFlag.NumaInfoMoreFlag
                          else NumaChangeFlag.NumaInfoLessFlag } ∧
        ∀ k, k ≠ info.Name → mapGet sc'.Nodes k = mapGet sc.Nodes k) ∧
    (∀ n, mapGet sc.Nodes info.Name = some n →
      mapGet (sc.deleteNumaInfo info).Nodes info.Name =
        some { n with NumaInfo := none, NumaChgFlag := NumaChangeFlag.NumaInfoResetFlag }) ∧
    (mapGet sc.Nodes info.Name = none → sc.deleteNumaInfo info = sc) := by
  have frame : ∀ (v : NodeInfo) (k : String), k ≠ info.Name →
      mapGet (mapSet sc.Nodes info.Name v) k = mapGet sc.Nodes k := by
    intro v k hk
    rw [mapGet_mapSet, if_neg (Ne.symm hk)]
  refine ⟨?_, ?_, ?_, ?_, ?_⟩
  · intro hnone
    refine ⟨{ sc with
        Nodes := (mapSet sc.Nodes info.Name
          { Name := info.Name, NumaInfo := some newInfo, NumaChgFlag := .NumaInfoMoreFlag }) },
      ?_, ?_, frame _⟩
    · unfold SchedulerCache.addNumaInfo
      rw [hnone]
      dsimp only [NewNodeInfo]
      rw [hnew]
    · simp [mapGet_mapSet]
  · intro n hn hnuma
    refine ⟨{ sc with
        Nodes := (mapSet sc.Nodes info.Name
          { n with NumaInfo := some newInfo, NumaChgFlag := .NumaInfoMoreFlag }) },
      ?_, ?_, frame _⟩
    · unfold SchedulerCache.addNumaInfo
      rw [hn]
      dsimp only
      rw [hnuma]
      dsimp only
      rw [hnew]
    · simp [mapGet_mapSet]
  · intro n old b hn hnuma hb
    refine ⟨{ sc with
        Nodes := (mapSet sc.Nodes info.Name
          { n with
            NumaInfo := some newInfo,
            NumaChgFlag := (if b = true then .NumaInfoMoreFlag else .NumaInfoLessFlag) }) },
      ?_, ?_, frame _⟩
    · unfold SchedulerCache.addNumaInfo
      rw [hn]
      dsimp only
      rw [hnuma]
      dsimp only
      rw [hnew]
      dsimp only
      rw [hb]
      cases b <;> rfl
    · simp [mapGet_mapSet]
  · intro n hn
    unfold SchedulerCache.deleteNumaInfo
    rw [hn]
    simp [mapGet_mapSet]
  · intro hnone
    unfold SchedulerCache.deleteNumaInfo
    rw [hnone]

/-- Witness of C13: node `n1` goes from two CPUs to four and gets the flag `More`. -/
theorem numaInfo_handlers_witness :
    getNumaInfo exampleParse topoFourCpus = some numaFourCpus ∧
    mapGet cacheWithNuma.Nodes topoFourCpus.Name
      = some { Name := "n1", NumaInfo := some numaTwoCpus, NumaChgFlag := NumaChangeFlag.NumaInfoMoreFlag } ∧
    numaTwoCpus.Compare numaFourCpus = some true ∧
    ∃ sc', cacheWithNuma.addNumaInfo exampleParse topoFourCpus = some sc' ∧
      mapGet sc'.Nodes topoFourCpus.Name =
        some { Name := "n1", NumaInfo := some numaFourCpus, NumaChgFlag := NumaChangeFlag.NumaInfoMoreFlag } :=
  ⟨by decide, by decide, by decide,
    ((numaInfo_handlers exampleParse cacheWithNuma topoFourCpus numaFourCpus
        (by decide)).2.2.1 { Name := "n1", NumaInfo := some numaTwoCpus, NumaChgFlag := NumaChangeFlag.NumaInfoMoreFlag }
          numaTwoCpus true (by decide) rfl (by decide)).imp
      (fun _ h => ⟨h.1, h.2.1⟩)⟩


/-! ## The task tests of the job cache -/

theorem wrapInt32_add_left (a b : Int) : wrapInt32 (wrapInt32 a + b) = wrapInt32 (a + b) := by
  unfold wrapInt32
  omega

theorem wrapInt32_of_range {x : Int} (h1 : -2147483648 ≤ x) (h2 : x < 2147483648) :
    wrapInt32 x = x := by
  unfold wrapInt32
  omega

theorem foldl_wrap_count {β : Type} (q : β → Prop) [DecidablePred q] (l : List β) (k : Nat) :
    l.foldl (fun c p => if q p then wrapInt32 (c + 1) else c) (wrapIter k) =
      wrapIter (k + l.countP (fun p => decide (q p))) := by
  induction l generalizing k with
  | nil => simp
  | cons a r ih =>
    rw [List.foldl_cons]
    by_cases h : q a
    · rw [if_pos h]
      have : wrapInt32 (wrapIter k + 1) = wrapIter (k + 1) := rfl
      rw [this, ih (k + 1)]
      simp only [List.countP_cons, h, decide_True, if_true]
      congr 1
      omega
    · rw [if_neg h, ih k]
      simp [List.countP_cons, h]

theorem foldl_wrap_sum (l : List Int) (x : Int) :
    l.foldl (fun r c => wrapInt32 (r + c)) (wrapInt32 x) = wrapInt32 (x + l.sum) := by
  induction l generalizing x with
  | nil => simp
  | cons a r ih =>
    rw [List.foldl_cons, wrapInt32_add_left, ih]
    simp [add_assoc]

theorem retriedOf_eq (taskPods : List (String × Controller.Pod)) :
    Controller.jobCache.retriedOf taskPods = wrapInt32 (Controller.restartSum taskPods) := by
  have key : ∀ (l : List (String × Controller.Pod)) (x : Int),
      l.foldl
        (fun retried p =>
          if p.2.Phase = Controller.PodPhase.Running ∨ p.2.Phase = Controller.PodPhase.Pending
          then
            p.2.ContainerStatuses.foldl (fun r c => wrapInt32 (r + c))
              (p.2.InitContainerStatuses.foldl (fun r c => wrapInt32 (r + c)) retried)
          else retried) (wrapInt32 x) =
      wrapInt32 (x + Controller.restartSum l) := by
    intro l
    induction l with
    | nil => intro x; simp [Controller.restartSum]
    | cons p r ih =>
      intro x
      rw [List.foldl_cons]
      by_cases h : p.2.Phase = Controller.PodPhase.Running ∨
          p.2.Phase = Controller.PodPhase.Pending
      · rw [if_pos h, foldl_wrap_sum, foldl_wrap_sum, ih]
        simp [Controller.restartSum, List.filter_cons, h, add_assoc]
      · rw [if_neg h, ih]
        simp [Controller.restartSum, List.filter_cons, h]
  have h0 : (0 : Int) = wrapInt32 0 := by decide
  unfold Controller.jobCache.retriedOf
  rw [h0, key, zero_add]

/-- C14 (as stated, refuted): for a cached task whose `Replicas` is 0,
`TaskCompleted` is false although the number of its `Succeeded` pods, 0, is at
least its `Replicas`. -/
theorem taskCompleted_zero_replicas :
    (Controller.cacheWith 0 0 []).TaskCompleted "ns/j" "worker" = false ∧
    ((Controller.succeededPods [] : Nat) : Int) ≥ 0 ∧
    Controller.findTask (Controller.jobWith 0 0).Tasks "worker" = some ⟨"worker", 0, 0⟩ := by
  decide

/-- C14 (amended): for a cached job with a job object and a task of it with
fewer than 2^31 recorded pods, `TaskCompleted(jobKey, taskName)` is true if and
only if the task's `Replicas` is positive and the number of the task's pods in
phase `Succeeded` is at least `Replicas`. -/
theorem taskCompleted_iff (jc : Controller.jobCache) (jobKey taskName : String)
    (ji : Controller.JobInfo) (job : Controller.Job) (task : Controller.TaskSpec)
    (taskPods : List (String × Controller.Pod))
    (hji : mapGet jc.jobInfos jobKey = some ji) (hjob : ji.Job = some job)
    (hpods : mapGet ji.Pods taskName = some taskPods)
    (htask : Controller.findTask job.Tasks taskName = some task)
    (hlen : taskPods.length < 2147483648) :
    jc.TaskCompleted jobKey taskName = true ↔
      0 < task.Replicas ∧ ((Controller.succeededPods taskPods : Nat) : Int) ≥ task.Replicas := by
  unfold Controller.jobCache.TaskCompleted
  rw [hji]
  dsimp only
  rw [hpods, hjob]
  dsimp only
  rw [htask]
  dsimp only
  have hc := foldl_wrap_count
    (fun p : String × Controller.Pod => p.2.Phase = Controller.PodPhase.Succeeded) taskPods 0
  have h0 : wrapIter 0 = 0 := rfl
  rw [h0, Nat.zero_add] at hc
  rw [hc, wrapIter_of_lt (lt_of_le_of_lt (List.countP_le_length _) hlen)]
  by_cases hr : task.Replicas ≤ 0
  · rw [if_pos hr]
    constructor
    · intro h; cases h
    · intro h; omega
  · rw [if_neg hr]
    unfold Controller.succeededPods
    simp only [decide_eq_true_eq]
    constructor
    · intro h; exact ⟨by omega, h⟩
    · intro h; exact h.2

/-- Witness of C14 (amended): one replica and one `Succeeded` pod. -/
theorem taskCompleted_iff_witness :
    mapGet (Controller.cacheWith 1 0 [("p", { Phase := .Succeeded, InitContainerStatuses := [], ContainerStatuses := [] })]).jobInfos "ns/j"
      = some { Namespace := "ns", Name := "j", Job := some (Controller.jobWith 1 0),
               Pods := [("worker", [("p", { Phase := .Succeeded, InitContainerStatuses := [], ContainerStatuses := [] })])] } ∧
    ((Controller.cacheWith 1 0 [("p", { Phase := .Succeeded, InitContainerStatuses := [], ContainerStatuses := [] })]).TaskCompleted "ns/j" "worker"
        = true ↔
      (0 : Int) < 1 ∧
        ((Controller.succeededPods [("p", { Phase := .Succeeded, InitContainerStatuses := [], ContainerStatuses := [] })] : Nat) : Int) ≥ 1) :=
  ⟨by decide,
    taskCompleted_iff (Controller.cacheWith 1 0 [("p", { Phase := .Succeeded, InitContainerStatuses := [], ContainerStatuses := [] })]) "ns/j" "worker"
      { Namespace := "ns", Name := "j", Job := some (Controller.jobWith 1 0),
        Pods := [("worker", [("p", { Phase := .Succeeded, InitContainerStatuses := [], ContainerStatuses := [] })])] }
      (Controller.jobWith 1 0) ⟨"worker", 1, 0⟩ [("p", { Phase := .Succeeded, InitContainerStatuses := [], ContainerStatuses := [] })]
      (by decide) (by decide) (by decide) (by decide) (by decide)⟩

/-- C15: `TaskFailed(jobKey, taskName)` is false for an unknown job, for a job
without job object and for a task without recorded pods; otherwise, when the
sum of the restart counts fits `int32`, it is true if and only if the task's
`Replicas` is not 0, its `MaxRetry` is not -1, and the sum of `RestartCount`
over the init container and container statuses of the task's pods in phase
`Running` or `Pending` is greater than `MaxRetry`, read as 3 when it is 0. -/
theorem taskFailed_iff (jc : Controller.jobCache) (jobKey taskName : String)
    (ji : Controller.JobInfo) (job : Controller.Job) (task : Controller.TaskSpec)
    (taskPods : List (String × Controller.Pod))
    (hji : mapGet jc.jobInfos jobKey = some ji) (hjob : ji.Job = some job)
    (hpods : mapGet ji.Pods taskName = some taskPods)
    (htask : Controller.findTask job.Tasks taskName = some task)
    (h1 : -2147483648 ≤ Controller.restartSum taskPods)
    (h2 : Controller.restartSum taskPods < 2147483648) :
    (jc.TaskFailed jobKey taskName = true ↔
      task.Replicas ≠ 0 ∧ task.MaxRetry ≠ -1 ∧
        Controller.restartSum taskPods > (if task.MaxRetry = 0 then 3 else task.MaxRetry)) ∧
    (∀ jc' : Controller.jobCache, mapGet jc'.jobInfos jobKey = none →
      jc'.TaskFailed jobKey taskName = false) ∧
    (∀ (jc' : Controller.jobCache) (ji' : Controller.JobInfo),
      mapGet jc'.jobInfos jobKey = some ji' →
      (ji'.Job = none ∨ mapGet ji'.Pods taskName = none) →
      jc'.TaskFailed jobKey taskName = false) := by
  refine ⟨?_, ?_, ?_⟩
  · unfold Controller.jobCache.TaskFailed
    rw [hji]
    dsimp only
    rw [hpods, hjob]
    dsimp only
    rw [htask]
    dsimp only
    rw [retriedOf_eq, wrapInt32_of_range h1 h2]
    by_cases hr : task.Replicas = 0 ∨ task.MaxRetry = -1
    · rw [if_pos hr]
      constructor
      · intro h; cases h
      · rintro ⟨a, b, -⟩
        rcases hr with hr | hr
        · exact absurd hr a
        · exact absurd hr b
    · rw [if_neg hr]
      rw [not_or] at hr
      simp only [decide_eq_true_eq]
      constructor
      · intro h; exact ⟨hr.1, hr.2, h⟩
      · intro h; exact h.2.2
  · intro jc' h
    unfold Controller.jobCache.TaskFailed
    rw [h]
  · intro jc' ji' h hor
    unfold Controller.jobCache.TaskFailed
    rw [h]
    dsimp only
    rcases hor with hj | hp
    · rw [hj]
      cases mapGet ji'.Pods taskName <;> rfl
    · rw [hp]

/-- Witness of C15: a running pod with restart counts 1 and 3 under the default limit 3. -/
theorem taskFailed_iff_witness :
    Controller.restartSum [("p", { Phase := .Running, InitContainerStatuses := [1], ContainerStatuses := [3] })] = 4 ∧
    ((Controller.cacheWith 1 0 [("p", { Phase := .Running, InitContainerStatuses := [1], ContainerStatuses := [3] })]).TaskFailed "ns/j" "worker"
        = true ↔
      (1 : Int) ≠ 0 ∧ (0 : Int) ≠ -1 ∧
        Controller.restartSum [("p", { Phase := .Running, InitContainerStatuses := [1], ContainerStatuses := [3] })]
          > (if (0 : Int) = 0 then 3 else 0)) :=
  ⟨by decide,
    (taskFailed_iff (Controller.cacheWith 1 0 [("p", { Phase := .Running, InitContainerStatuses := [1], ContainerStatuses := [3] })]) "ns/j" "worker"
      { Namespace := "ns", Name := "j", Job := some (Controller.jobWith 1 0),
        Pods := [("worker", [("p", { Phase := .Running, InitContainerStatuses := [1], ContainerStatuses := [3] })])] }
      (Controller.jobWith 1 0) ⟨"worker", 1, 0⟩ [("p", { Phase := .Running, InitContainerStatuses := [1], ContainerStatuses := [3] })]
      (by decide) (by decide) (by decide) (by decide) (by decide) (by decide)).1⟩


/-! ## The status updates of the job states -/

theorem wrapInt32_sub_left (a b : Int) : wrapInt32 (wrapInt32 a - b) = wrapInt32 (a - b) := by
  unfold wrapInt32
  omega

theorem foldl_replicas_eq (j : Controller.Job) :
    j.Tasks.foldl (fun total task => wrapInt32 (total + task.Replicas)) 0 =
      wrapInt32 (Controller.totalReplicas j) := by
  have h0 : (0 : Int) = wrapInt32 0 := by decide
  have := foldl_wrap_sum (j.Tasks.map (fun task => task.Replicas)) 0
  rw [List.foldl_map, zero_add, ← h0] at this
  exact this

/-- C16: in the states `Aborted` and `Aborting`, `Execute(ResumeJobAction)`
calls `KillJob` with `PodRetainPhaseSoft` and a status update that sets the
phase to `Restarting`, adds 1 to `RetryCount` (below the largest `int32`),
changes no other field and reports a change; in state `Aborted` every other
action calls `KillJob` with `PodRetainPhaseSoft` and no status update. -/
theorem resume_restarts (job : Controller.JobInfo) (status : Controller.JobStatus)
    (h1 : -2147483648 ≤ status.RetryCount) (h2 : status.RetryCount < 2147483647) :
    (Controller.abortedState.Execute job Controller.ResumeJobAction).job = job ∧
    (Controller.abortedState.Execute job Controller.ResumeJobAction).podRetainPhase
      = Controller.PhaseMap.PodRetainPhaseSoft ∧
    (∃ fn, (Controller.abortedState.Execute job Controller.ResumeJobAction).fn = some fn ∧
      fn status = some ({ status with Phase := Controller.JobPhase.Restarting,
                                      RetryCount := status.RetryCount + 1 }, true)) ∧
    (Controller.abortingState.Execute job Controller.ResumeJobAction).job = job ∧
    (Controller.abortingState.Execute job Controller.ResumeJobAction).podRetainPhase
      = Controller.PhaseMap.PodRetainPhaseSoft ∧
    (∃ fn, (Controller.abortingState.Execute job Controller.ResumeJobAction).fn = some fn ∧
      fn status = some ({ status with Phase := Controller.JobPhase.Restarting,
                                      RetryCount := status.RetryCount + 1 }, true)) ∧
    (∀ action, action ≠ Controller.ResumeJobAction →
      (Controller.abortedState.Execute job action).job = job ∧
      (Controller.abortedState.Execute job action).podRetainPhase
        = Controller.PhaseMap.PodRetainPhaseSoft ∧
      (Controller.abortedState.Execute job action).fn.isNone = true) := by
  have hw : wrapInt32 (status.RetryCount + 1) = status.RetryCount + 1 :=
    wrapInt32_of_range (by omega) (by omega)
  have hfn : Controller.resumeFn status =
      some ({ status with Phase := Controller.JobPhase.Restarting,
                          RetryCount := status.RetryCount + 1 }, true) := by
    unfold Controller.resumeFn
    rw [hw]
  refine ⟨?_, ?_, ⟨Controller.resumeFn, ?_, hfn⟩, ?_, ?_, ⟨Controller.resumeFn, ?_, hfn⟩, ?_⟩
  · simp [Controller.abortedState.Execute]
  · simp [Controller.abortedState.Execute]
  · simp [Controller.abortedState.Execute]
  · simp [Controller.abortingState.Execute]
  · simp [Controller.abortingState.Execute]
  · simp [Controller.abortingState.Execute]
  · intro action ha
    simp [Controller.abortedState.Execute, ha]

/-- Witness of C16: a resume of an aborted job that was retried once. -/
theorem resume_restarts_witness :
    ∃ fn, (Controller.abortedState.Execute Controller.restartingJob
        Controller.ResumeJobAction).fn = some fn ∧
      fn { Controller.blankStatus Controller.JobPhase.Aborted with RetryCount := 1 } =
        some ({ Controller.blankStatus Controller.JobPhase.Restarting with RetryCount := 2 },
          true) :=
  (resume_restarts Controller.restartingJob
    { Controller.blankStatus Controller.JobPhase.Aborted with RetryCount := 1 }
    (by decide) (by decide)).2.2.1

/-- C17: in the state `Aborting`, for every action other than the resume the
status update sets the phase to `Aborted` and reports a change when
`Terminating`, `Pending` and `Running` are all 0, and otherwise reports no
change and leaves the status as it was. -/
theorem aborting_settles (job : Controller.JobInfo) (act : Controller.Action)
    (status : Controller.JobStatus) (hact : act ≠ Controller.ResumeJobAction) :
    (Controller.abortingState.Execute job act).podRetainPhase
      = Controller.PhaseMap.PodRetainPhaseSoft ∧
    ∃ fn, (Controller.abortingState.Execute job act).fn = some fn ∧
      fn status =
        if status.Terminating = 0 ∧ status.Pending = 0 ∧ status.Running = 0 then
          some ({ status with Phase := Controller.JobPhase.Aborted }, true)
        else some (status, false) := by
  unfold Controller.abortingState.Execute
  rw [if_neg hact]
  refine ⟨rfl, _, rfl, ?_⟩
  dsimp only
  by_cases h : status.Terminating = 0 ∧ status.Pending = 0 ∧ status.Running = 0
  · rw [if_pos h, if_neg]
    rintro (h' | h' | h')
    · exact h' h.1
    · exact h' h.2.1
    · exact h' h.2.2
  · rw [if_neg h, if_pos]
    by_contra hc
    apply h
    simp only [not_or, not_not, ne_eq] at hc
    exact hc

/-- Witness of C17: with one pod still terminating nothing changes. -/
theorem aborting_settles_witness :
    Controller.SyncJobAction ≠ Controller.ResumeJobAction ∧
    ∃ fn, (Controller.abortingState.Execute Controller.restartingJob
        Controller.SyncJobAction).fn = some fn ∧
      fn { Controller.blankStatus Controller.JobPhase.Aborting with Terminating := 1 } =
        if (1 : Int) = 0 ∧ (0 : Int) = 0 ∧ (0 : Int) = 0 then
          some ({ Controller.blankStatus Controller.JobPhase.Aborted with Terminating := 1 },
            true)
        else
          some ({ Controller.blankStatus Controller.JobPhase.Aborting with Terminating := 1 },
            false) :=
  ⟨by decide,
    (aborting_settles Controller.restartingJob Controller.SyncJobAction
      { Controller.blankStatus Controller.JobPhase.Aborting with Terminating := 1 }
      (by decide)).2⟩

/-- C18: in the state `Restarting`, for every action and a job with a job
object, the status update sets the phase to `Failed` when
`RetryCount ≥ MaxRetry`, whatever the pod counts; else it sets the phase to
`Pending` when the sum of the task replicas minus `Terminating` (within
`int32`) is at least the status's `MinAvailable`; else it reports no change and
leaves the status as it was. -/
theorem restarting_settles (job : Controller.JobInfo) (j : Controller.Job)
    (act : Controller.Action) (status : Controller.JobStatus) (hj : job.Job = some j)
    (h1 : -2147483648 ≤ Controller.totalReplicas j - status.Terminating)
    (h2 : Controller.totalReplicas j - status.Terminating < 2147483648) :
    (Controller.restartingState.Execute job act).podRetainPhase
      = Controller.PhaseMap.PodRetainPhaseSoft ∧
    ∃ fn, (Controller.restartingState.Execute job act).fn = some fn ∧
      fn status =
        if status.RetryCount ≥ j.MaxRetry then
          some ({ status with Phase := Controller.JobPhase.Failed }, true)
        else if Controller.totalReplicas j - status.Terminating ≥ status.MinAvailable then
          some ({ status with Phase := Controller.JobPhase.Pending }, true)
        else some (status, false) := by
  unfold Controller.restartingState.Execute
  refine ⟨rfl, _, rfl, ?_⟩
  dsimp only
  rw [hj]
  dsimp only
  rw [foldl_replicas_eq, wrapInt32_sub_left, wrapInt32_of_range h1 h2]

/-- Witness of C18: with `MaxRetry` 2 the job fails as soon as `RetryCount` is 2. -/
theorem restarting_settles_witness :
    Controller.restartingJob.Job = some (Controller.jobWith 3 0) ∧
    (Controller.jobWith 3 0).MaxRetry = 2 ∧
    ∃ fn, (Controller.restartingState.Execute Controller.restartingJob
        Controller.SyncJobAction).fn = some fn ∧
      fn { Controller.blankStatus Controller.JobPhase.Restarting with RetryCount := 2 } =
        if (2 : Int) ≥ (Controller.jobWith 3 0).MaxRetry then
          some ({ Controller.blankStatus Controller.JobPhase.Failed with RetryCount := 2 },
            true)
        else if Controller.totalReplicas (Controller.jobWith 3 0) - 0 ≥ 0 then
          some ({ Controller.blankStatus Controller.JobPhase.Pending with RetryCount := 2 },
            true)
        else
          some ({ Controller.blankStatus Controller.JobPhase.Restarting with RetryCount := 2 },
            false) :=
  ⟨by decide, by decide,
    (restarting_settles Controller.restartingJob (Controller.jobWith 3 0)
      Controller.SyncJobAction
      { Controller.blankStatus Controller.JobPhase.Restarting with RetryCount := 2 }
      (by decide) (by decide) (by decide)).2⟩


/-! ## The queue controller -/

section QueueTheorems

open QueueController

theorem countPhase_State (st : QueueStatus) (phase : String) :
    (countPhase st phase).State = st.State := by
  unfold countPhase
  split_ifs <;> rfl

theorem countLoop_ok (env : Env) :
    ∀ (keys phases : List String) (st : QueueStatus),
      keys.map env.getPodGroup = phases.map Except.ok →
      countLoop env keys st = .ok (phases.foldl countPhase st) := by
  intro keys
  induction keys with
  | nil =>
    intro phases st h
    cases phases with
    | nil => rfl
    | cons p ps => simp at h
  | cons k ks ih =>
    intro phases st h
    cases phases with
    | nil => simp at h
    | cons p ps =>
      simp only [List.map_cons, List.cons.injEq] at h
      simp only [countLoop, h.1, List.foldl_cons]
      exact ih ps _ h.2

theorem countLoop_error (env : Env) :
    ∀ (keys : List String) (st : QueueStatus),
      (∃ k ∈ keys, ∃ e, env.getPodGroup k = .error e) →
      ∃ k ∈ keys, ∃ e, env.getPodGroup k = .error e ∧ countLoop env keys st = .error e := by
  intro keys
  induction keys with
  | nil => intro st h; simp at h
  | cons k ks ih =>
    intro st h
    cases hk : env.getPodGroup k with
    | error e =>
      exact ⟨k, List.mem_cons_self _ _, e, hk, by simp only [countLoop, hk]⟩
    | ok phase =>
      have h2 : ∃ k2 ∈ ks, ∃ e, env.getPodGroup k2 = .error e := by
        obtain ⟨k2, hmem, e, he⟩ := h
        rcases List.mem_cons.1 hmem with rfl | hmem
        · rw [hk] at he; cases he
        · exact ⟨k2, hmem, e, he⟩
      obtain ⟨k2, hmem, e, he, hl⟩ := ih (countPhase st phase) h2
      exact ⟨k2, List.mem_cons_of_mem _ hmem, e, he, by simp only [countLoop, hk]; exact hl⟩

theorem foldl_countPhase (phases : List String) :
    ∀ (st : QueueStatus) (a b c d : Nat),
      st.Unknown = a → st.Pending = b → st.Running = c → st.Inqueue = d →
      a + phases.length < 2147483648 → b + phases.length < 2147483648 →
      c + phases.length < 2147483648 → d + phases.length < 2147483648 →
      phases.foldl countPhase st =
        { State := st.State,
          Unknown := ((a + phases.count PodGroupUnknown : Nat) : Int),
          Pending := ((b + phases.count PodGroupPending : Nat) : Int),
          Running := ((c + phases.count PodGroupRunning : Nat) : Int),
          Inqueue := ((d + phases.count PodGroupInqueue : Nat) : Int) } := by
  induction phases with
  | nil =>
    intro st a b c d ha hb hc hd _ _ _ _
    cases st
    simp at ha hb hc hd ⊢
    exact ⟨ha, hb, hc, hd⟩
  | cons p ps ih =>
    intro st a b c d ha hb hc hd hal hbl hcl hdl
    simp only [List.length_cons] at hal hbl hcl hdl
    have hw : ∀ n : Nat, n + 1 < 2147483648 → wrapInt32 ((n : Int) + 1) = ((n + 1 : Nat) : Int) := by
      intro n hn
      unfold wrapInt32
      omega
    rw [List.foldl_cons]
    by_cases h1 : p = PodGroupPending
    · subst h1
      rw [ih (countPhase st PodGroupPending) a (b + 1) c d
        (by simp [countPhase, ha]) (by simp only [countPhase, if_true, hb]; exact hw b (by omega))
        (by simp [countPhase, hc]) (by simp [countPhase, hd])
        (by omega) (by omega) (by omega) (by omega)]
      rw [countPhase_State]
      have e1 : List.count PodGroupUnknown (PodGroupPending :: ps) = List.count PodGroupUnknown ps := by
        rw [List.count_cons]; simp [PodGroupPending, PodGroupUnknown]
      have e2 : List.count PodGroupPending (PodGroupPending :: ps) = List.count PodGroupPending ps + 1 := by
        rw [List.count_cons]; simp
      have e3 : List.count PodGroupRunning (PodGroupPending :: ps) = List.count PodGroupRunning ps := by
        rw [List.count_cons]; simp [PodGroupPending, PodGroupRunning]
      have e4 : List.count PodGroupInqueue (PodGroupPending :: ps) = List.count PodGroupInqueue ps := by
        rw [List.count_cons]; simp [PodGroupPending, PodGroupInqueue]
      rw [e1, e2, e3, e4]
      congr 2
      omega
    · by_cases h2 : p = PodGroupRunning
      · subst h2
        rw [ih (countPhase st PodGroupRunning) a b (c + 1) d
          (by simp [countPhase, ha, PodGroupPending, PodGroupRunning])
          (by simp [countPhase, hb, PodGroupPending, PodGroupRunning])
          (by
            simp only [countPhase, if_neg h1, if_true, hc]; exact hw c (by omega))
          (by simp [countPhase, hd, PodGroupPending, PodGroupRunning])
          (by omega) (by omega) (by omega) (by omega)]
        rw [countPhase_State]
        have e1 : List.count PodGroupUnknown (PodGroupRunning :: ps) = List.count PodGroupUnknown ps := by
          rw [List.count_cons]; simp [PodGroupRunning, PodGroupUnknown]
        have e2 : List.count PodGroupPending (PodGroupRunning :: ps) = List.count PodGroupPending ps := by
          rw [List.count_cons]; simp [PodGroupRunning, PodGroupPending]
        have e3 : List.count PodGroupRunning (PodGroupRunning :: ps) = List.count PodGroupRunning ps + 1 := by
          rw [List.count_cons]; simp
        have e4 : List.count PodGroupInqueue (PodGroupRunning :: ps) = List.count PodGroupInqueue ps := by
          rw [List.count_cons]; simp [PodGroupRunning, PodGroupInqueue]
        rw [e1, e2, e3, e4]
        congr 2
        omega
      · by_cases h3 : p = PodGroupUnknown
        · subst h3
          rw [ih (countPhase st PodGroupUnknown) (a + 1) b c d
            (by
              simp only [countPhase, if_neg h1, if_neg h2, if_true, ha]; exact hw a (by omega))
            (by simp [countPhase, hb, PodGroupPending, PodGroupRunning, PodGroupUnknown])
            (by simp [countPhase, hc, PodGroupPending, PodGroupRunning, PodGroupUnknown])
            (by simp [countPhase, hd, PodGroupPending, PodGroupRunning, PodGroupUnknown])
            (by omega) (by omega) (by omega) (by omega)]
          rw [countPhase_State]
          have e1 : List.count PodGroupUnknown (PodGroupUnknown :: ps) = List.count PodGroupUnknown ps + 1 := by
            rw [List.count_cons]; simp
          have e2 : List.count PodGroupPending (PodGroupUnknown :: ps) = List.count PodGroupPending ps := by
            rw [List.count_cons]; simp [PodGroupUnknown, PodGroupPending]
          have e3 : List.count PodGroupRunning (PodGroupUnknown :: ps) = List.count PodGroupRunning ps := by
            rw [List.count_cons]; simp [PodGroupUnknown, PodGroupRunning]
          have e4 : List.count PodGroupInqueue (PodGroupUnknown :: ps) = List.count PodGroupInqueue ps := by
            rw [List.count_cons]; simp [PodGroupUnknown, PodGroupInqueue]
          rw [e1, e2, e3, e4]
          congr 2
          omega
        · by_cases h4 : p = PodGroupInqueue
          · subst h4
            rw [ih (countPhase st PodGroupInqueue) a b c (d + 1)
              (by simp [countPhase, ha, PodGroupPending, PodGroupRunning, PodGroupUnknown, PodGroupInqueue])
              (by simp [countPhase, hb, PodGroupPending, PodGroupRunning, PodGroupUnknown, PodGroupInqueue])
              (by simp [countPhase, hc, PodGroupPending, PodGroupRunning, PodGroupUnknown, PodGroupInqueue])
              (by
                simp only [countPhase, if_neg h1, if_neg h2, if_neg h3, if_true, hd]
                exact hw d (by omega))
              (by omega) (by omega) (by omega) (by omega)]
            rw [countPhase_State]
            have e1 : List.count PodGroupUnknown (PodGroupInqueue :: ps) = List.count PodGroupUnknown ps := by
              rw [List.count_cons]; simp [PodGroupInqueue, PodGroupUnknown]
            have e2 : List.count PodGroupPending (PodGroupInqueue :: ps) = List.count PodGroupPending ps := by
              rw [List.count_cons]; simp [PodGroupInqueue, PodGroupPending]
            have e3 : List.count PodGroupRunning (PodGroupInqueue :: ps) = List.count PodGroupRunning ps := by
              rw [List.count_cons]; simp [PodGroupInqueue, PodGroupRunning]
            have e4 : List.count PodGroupInqueue (PodGroupInqueue :: ps) = List.count PodGroupInqueue ps + 1 := by
              rw [List.count_cons]; simp
            rw [e1, e2, e3, e4]
            congr 2
            omega
          · have hcp : countPhase st p = st := by
              simp only [countPhase, if_neg h1, if_neg h2, if_neg h3, if_neg h4]
            rw [hcp, ih st a b c d ha hb hc hd (by omega) (by omega) (by omega) (by omega)]
            have e1 : List.count PodGroupUnknown (p :: ps) = List.count PodGroupUnknown ps := by
              rw [List.count_cons]; simp [h3]
            have e2 : List.count PodGroupPending (p :: ps) = List.count PodGroupPending ps := by
              rw [List.count_cons]; simp [h1]
            have e3 : List.count PodGroupRunning (p :: ps) = List.count PodGroupRunning ps := by
              rw [List.count_cons]; simp [h2]
            have e4 : List.count PodGroupInqueue (p :: ps) = List.count PodGroupInqueue ps := by
              rw [List.count_cons]; simp [h4]
            rw [e1, e2, e3, e4]

theorem syncQueue_fresh (env : Env) (queue : Queue) (phases : List String)
    (hlookup : (env.getPodgroups queue.Name).map env.getPodGroup = phases.map Except.ok)
    (hlen : phases.length < 2147483648) :
    countLoop env (env.getPodgroups queue.Name) ⟨"", 0, 0, 0, 0⟩ =
      .ok (countedStatus "" phases) := by
  rw [countLoop_ok env _ phases _ hlookup,
    foldl_countPhase phases ⟨"", 0, 0, 0, 0⟩ 0 0 0 0 rfl rfl rfl rfl
      (by omega) (by omega) (by omega) (by omega)]
  simp [countedStatus]

/-- C19: when every pod group of the queue is found (the phases found being
`phases`, fewer than 2^31), `syncQueue` counts a fresh status whose `Pending`,
`Running`, `Unknown` and `Inqueue` are the numbers of pod groups in these
phases, other phases being counted nowhere; the update function, if given,
is applied to it, and otherwise it keeps the `State` of the queue. When the
fresh status equals the status of the queue nothing is called and nil is
returned; otherwise the only call is `UpdateStatus` of the queue with the
fresh status, whose error is returned. When some lookup fails, the error of a
failed lookup is returned and nothing is called. -/
theorem syncQueue_recounts (env : Env) (queue : Queue)
    (updateStateFn : Option UpdateQueueStatusFn) :
    (∀ phases : List String,
      (env.getPodgroups queue.Name).map env.getPodGroup = phases.map Except.ok →
      phases.length < 2147483648 →
      ∀ fresh : QueueStatus,
        fresh = (match updateStateFn with
          | some fn => fn (countedStatus "" phases) (env.getPodgroups queue.Name)
          | none => countedStatus queue.Status.State phases) →
        (fresh = queue.Status → syncQueue env queue updateStateFn = ⟨[], none⟩) ∧
        (fresh ≠ queue.Status →
          syncQueue env queue updateStateFn =
            ⟨[Call.UpdateStatus { queue with Status := fresh }],
              match env.updateStatus { queue with Status := fresh } with
              | .error err => some err
              | .ok _ => none⟩)) ∧
    ((∃ k ∈ env.getPodgroups queue.Name, ∃ e, env.getPodGroup k = .error e) →
      ∃ k ∈ env.getPodgroups queue.Name, ∃ e, env.getPodGroup k = .error e ∧
        syncQueue env queue updateStateFn = ⟨[], some e⟩) := by
  constructor
  · intro phases hlookup hlen fresh hfresh
    have hc := syncQueue_fresh env queue phases hlookup hlen
    cases updateStateFn with
    | none =>
      have hfresh2 : fresh = { countedStatus "" phases with State := queue.Status.State } :=
        hfresh
      constructor
      · intro heq
        simp only [syncQueue, hc, ← hfresh2, if_pos heq]
      · intro hne
        simp only [syncQueue, hc, ← hfresh2, if_neg hne, Queue.DeepCopy]
        cases env.updateStatus { queue with Status := fresh } <;> rfl
    | some fn =>
      have hfresh2 : fresh = fn (countedStatus "" phases) (env.getPodgroups queue.Name) :=
        hfresh
      constructor
      · intro heq
        simp only [syncQueue, hc, ← hfresh2, if_pos heq]
      · intro hne
        simp only [syncQueue, hc, ← hfresh2, if_neg hne, Queue.DeepCopy]
        cases env.updateStatus { queue with Status := fresh } <;> rfl
  · intro h
    obtain ⟨k, hk, e, he, hl⟩ := countLoop_error env _ ⟨"", 0, 0, 0, 0⟩ h
    exact ⟨k, hk, e, he, by simp only [syncQueue, hl]⟩

/-- Witness of C19: a closed queue with a pending, a running and a completed
pod group gets the counts 1 and 1; an open queue that already shows them is
left alone; and a lookup that fails returns its error with no call. -/
theorem syncQueue_recounts_witness :
    syncQueue exampleEnv closedQueue none =
      ⟨[Call.UpdateStatus { closedQueue with Status := ⟨"Closed", 0, 1, 1, 0⟩ }], none⟩ ∧
    syncQueue exampleEnv openedQueue none = ⟨[], none⟩ ∧
    ∃ k ∈ failingEnv.getPodgroups closedQueue.Name, ∃ e,
      failingEnv.getPodGroup k = .error e ∧
      syncQueue failingEnv closedQueue none = ⟨[], some e⟩ :=
  ⟨((syncQueue_recounts exampleEnv closedQueue none).1 ["Pending", "Running", "Completed"]
      rfl (by decide) ⟨"Closed", 0, 1, 1, 0⟩ (by decide)).2 (by decide),
    ((syncQueue_recounts exampleEnv openedQueue none).1 ["Pending", "Running", "Completed"]
      rfl (by decide) ⟨"Open", 0, 1, 1, 0⟩ (by decide)).1 (by decide),
    (syncQueue_recounts failingEnv closedQueue none).2
      ⟨"ns/b", by decide, "not found", rfl⟩⟩

theorem switchQueue_same (target action failed succeed : String)
    (pgList : String → List String) (env : Env) (queue : Queue)
    (updateStateFn : Option UpdateQueueStatusFn) (h : queue.Status.State = target) :
    switchQueue target action failed succeed pgList env queue updateStateFn = ⟨[], none⟩ := by
  simp [switchQueue, Queue.DeepCopy, h]

theorem switchQueue_other (target action failed succeed : String)
    (pgList : String → List String) (env : Env) (queue : Queue)
    (updateStateFn : Option UpdateQueueStatusFn) (h : queue.Status.State ≠ target) :
    ∃ rest, (switchQueue target action failed succeed pgList env queue updateStateFn).calls =
      Call.Update { queue with Status := { queue.Status with State := target } } :: rest := by
  simp only [switchQueue, Queue.DeepCopy, ne_eq, h, not_false_eq_true, if_true]
  cases env.update { queue with Status := { queue.Status with State := target } } with
  | error err => exact ⟨_, rfl⟩
  | ok r =>
    dsimp only
    cases env.get queue.Name with
    | error err => exact ⟨_, rfl⟩
    | ok q =>
      dsimp only
      cases updateStateFn with
      | none => exact ⟨_, rfl⟩
      | some fn =>
        dsimp only
        split_ifs
        · exact ⟨_, rfl⟩
        · split <;> exact ⟨_, rfl⟩

/-- C20: `openQueue` on a queue whose state is `Open`, and `closeQueue` on a
queue whose state is `Closed`, return nil and issue no call at all (no
`Update`, `Get` or `UpdateStatus`, no event); in any other state the first
call is `Update` of the queue with its `Status.State` set to `Open`,
respectively `Closed`. -/
theorem open_close_queue (env : Env) (queue : Queue)
    (updateStateFn : Option UpdateQueueStatusFn) :
    (queue.Status.State = QueueStateOpen →
      openQueue env queue updateStateFn = ⟨[], none⟩) ∧
    (queue.Status.State = QueueStateClosed →
      closeQueue env queue updateStateFn = ⟨[], none⟩) ∧
    (queue.Status.State ≠ QueueStateOpen →
      ∃ rest, (openQueue env queue updateStateFn).calls =
        Call.Update { queue with Status := { queue.Status with State := QueueStateOpen } }
          :: rest) ∧
    (queue.Status.State ≠ QueueStateClosed →
      ∃ rest, (closeQueue env queue updateStateFn).calls =
        Call.Update { queue with Status := { queue.Status with State := QueueStateClosed } }
          :: rest) :=
  ⟨switchQueue_same _ _ _ _ _ env queue updateStateFn,
    switchQueue_same _ _ _ _ _ env queue updateStateFn,
    switchQueue_other _ _ _ _ _ env queue updateStateFn,
    switchQueue_other _ _ _ _ _ env queue updateStateFn⟩

/-- Witness of C20: closing a closed queue and opening an open one do nothing;
opening the closed queue and closing the open one start with the `Update`. -/
theorem open_close_queue_witness :
    openQueue exampleEnv openedQueue none = ⟨[], none⟩ ∧
    closeQueue exampleEnv closedQueue none = ⟨[], none⟩ ∧
    (∃ rest, (openQueue exampleEnv closedQueue none).calls =
      Call.Update { closedQueue with
        Status := { closedQueue.Status with State := QueueStateOpen } } :: rest) ∧
    (∃ rest, (closeQueue exampleEnv openedQueue none).calls =
      Call.Update { openedQueue with
        Status := { openedQueue.Status with State := QueueStateClosed } } :: rest) :=
  ⟨(open_close_queue exampleEnv openedQueue none).1 (by decide),
    (open_close_queue exampleEnv closedQueue none).2.1 (by decide),
    (open_close_queue exampleEnv closedQueue none).2.2.1 (by decide),
    (open_close_queue exampleEnv openedQueue none).2.2.2 (by decide)⟩

end QueueTheorems


/-! ## The work queues of the queue controller -/

section WorkQueueTheorems

open QueueController

theorem numRequeues_AddRateLimited (q : WorkQueue) (obj : Nat) :
    (q.AddRateLimited obj).NumRequeues obj = q.NumRequeues obj + 1 := by
  simp [WorkQueue.NumRequeues, WorkQueue.AddRateLimited, mapGet_mapSet]

theorem failing_count (err : String) (obj : Nat) (req : Request) :
    ∀ (n : Nat) (qc : queueController), 0 ≤ qc.maxRequeueNum →
      (qc.failing err obj req n).2 = min n (qc.maxRequeueNum.toNat - qc.queue.NumRequeues obj) := by
  intro n
  induction n with
  | zero => intro qc _; simp [queueController.failing]
  | succ n ih =>
    intro qc hm
    unfold queueController.failing
    by_cases hc : (qc.queue.NumRequeues obj : Int) < qc.maxRequeueNum
    · have h1 : qc.handleQueueErr (some err) obj req =
          { qc with queue := qc.queue.AddRateLimited obj } := by
        simp [queueController.handleQueueErr, hc]
      simp only [h1]
      rw [if_pos (by simp [WorkQueue.AddRateLimited])]
      simp only []
      rw [ih { qc with queue := qc.queue.AddRateLimited obj } hm]
      simp only [numRequeues_AddRateLimited]
      omega
    · have hne : ¬ qc.maxRequeueNum = -1 := by omega
      have h1 : qc.handleQueueErr (some err) obj req =
          { qc with
            events := qc.events ++
              [⟨req.QueueName, "Warning", req.Action, req.Action ++ " queue failed for " ++ err⟩],
            queue := qc.queue.Forget obj } := by
        simp [queueController.handleQueueErr, hc, hne]
      simp only [h1]
      rw [if_neg (by simp [WorkQueue.Forget])]
      simp only []
      omega

/-- C21: `handleQueueErr` forgets the request when there is no error.  With an
error it adds the request back rate-limited when `maxRequeueNum` is -1 or the
requeue count of the request is below `maxRequeueNum`, recording no event, and
otherwise it records one `Warning` event for the queue of the request and
forgets the request without adding it back.  `Initialize` turns every negative
`MaxRequeueNum` option into -1 and keeps the others; and with
`maxRequeueNum ≥ 0` a request that keeps failing is added back exactly
`maxRequeueNum` times less its requeue count so far, at most. -/
theorem handleQueueErr_requeues (qc : queueController) (obj : Nat) (req : Request) :
    qc.handleQueueErr none obj req = { qc with queue := qc.queue.Forget obj } ∧
    (∀ err : String,
      (qc.maxRequeueNum = -1 ∨ (qc.queue.NumRequeues obj : Int) < qc.maxRequeueNum) →
      qc.handleQueueErr (some err) obj req =
        { qc with queue := qc.queue.AddRateLimited obj }) ∧
    (∀ err : String,
      ¬ (qc.maxRequeueNum = -1 ∨ (qc.queue.NumRequeues obj : Int) < qc.maxRequeueNum) →
      qc.handleQueueErr (some err) obj req =
        { qc with
          events := qc.events ++
            [⟨req.QueueName, "Warning", req.Action, req.Action ++ " queue failed for " ++ err⟩],
          queue := qc.queue.Forget obj } ∧
      (qc.handleQueueErr (some err) obj req).queue.added = qc.queue.added) ∧
    (∀ opt : Int,
      (queueController.Initialize opt).maxRequeueNum = if opt < 0 then -1 else opt) ∧
    (∀ (err : String) (n : Nat), 0 ≤ qc.maxRequeueNum →
      (qc.failing err obj req n).2 =
        min n (qc.maxRequeueNum.toNat - qc.queue.NumRequeues obj) ∧
      ((qc.failing err obj req n).2 : Int) ≤ qc.maxRequeueNum) := by
  refine ⟨rfl, ?_, ?_, ?_, ?_⟩
  · intro err h
    simp only [queueController.handleQueueErr, if_pos h]
  · intro err h
    simp only [queueController.handleQueueErr, if_neg h]
    exact ⟨trivial, rfl⟩
  · intro opt
    rfl
  · intro err n hm
    have h := failing_count err obj req n qc hm
    refine ⟨h, ?_⟩
    rw [h]
    omega

/-- Witness of C21: with `MaxRequeueNum` 2 a request that fails five times in
a row is added back twice; its third failure records the event and drops it. -/
theorem handleQueueErr_requeues_witness :
    (((queueController.Initialize 2).failing "boom" 7 openRequest 5).2 = 2 ∧
      ((((queueController.Initialize 2).failing "boom" 7 openRequest 5).2 : Nat) : Int)
        ≤ (queueController.Initialize 2).maxRequeueNum) ∧
    ((queueController.Initialize 2).failing "boom" 7 openRequest 5).1.events =
      [⟨"q1", "Warning", "OpenQueue", "OpenQueue queue failed for boom"⟩] ∧
    (queueController.Initialize (-5)).handleQueueErr (some "boom") 7 openRequest =
      { queueController.Initialize (-5) with
        queue := (queueController.Initialize (-5)).queue.AddRateLimited 7 } :=
  ⟨(handleQueueErr_requeues (queueController.Initialize 2) 7 openRequest).2.2.2.2
      "boom" 5 (by decide),
    by decide,
    (handleQueueErr_requeues (queueController.Initialize (-5)) 7 openRequest).2.1
      "boom" (by decide)⟩

/-- C22 (as stated, refuted): when the delete of the command answers "not
found", `handleCmd` returns nil and hands no request to the work queue; when
the delete fails otherwise it returns an error and hands over no request. -/
theorem handleCmd_delete_fails :
    handleCmd (some DeleteError.NotFound) openCommand = ([], none) ∧
    (handleCmd (some (DeleteError.Other "timeout")) openCommand).1 = [] ∧
    (handleCmd (some (DeleteError.Other "timeout")) openCommand).2 ≠ none := by
  decide

/-- C22 (amended): when the delete of the command succeeds, `handleCmd` hands
exactly one request to the work queue, with the name of the target object as
queue name, the event `CommandIssued` and the action of the command, and
returns nil. -/
theorem handleCmd_enqueues (deleteErr : Option DeleteError) (cmd : Command)
    (hdel : deleteErr = none) :
    handleCmd deleteErr cmd =
      ([{ QueueName := cmd.TargetName, Event := CommandIssuedEvent, Action := cmd.Action }],
        none) := by
  subst hdel
  rfl

/-- Witness of C22 (amended): the command that opens `q1`. -/
theorem handleCmd_enqueues_witness :
    handleCmd none openCommand = ([openRequest], none) :=
  handleCmd_enqueues none openCommand rfl

end WorkQueueTheorems


/-! ## The conformance plugin -/

theorem foldl_victims (crit : TaskInfo → Prop) [DecidablePred crit] (evictees : List TaskInfo) :
    ∀ acc : List TaskInfo,
      evictees.foldl (fun victims evictee => if crit evictee then victims
        else victims ++ [evictee]) acc =
      acc ++ evictees.filter (fun t => decide (¬ crit t)) := by
  induction evictees with
  | nil => intro acc; simp
  | cons e r ih =>
    intro acc
    rw [List.foldl_cons, List.filter_cons]
    by_cases h : crit e
    · simp [h, ih]
    · simp [h, ih]

/-- C29: for every evictor and every list of evictees the evictable function
of the conformance plugin returns the verdict `Permit` and exactly the
evictees, in their order, whose priority class is neither
`system-cluster-critical` nor `system-node-critical` and whose namespace is not
`kube-system`; every task it returns is one of the evictees. -/
theorem conformance_evictable (evictor : TaskInfo) (evictees : List TaskInfo) :
    Conformance.evictableFn evictor evictees =
      (evictees.filter (fun t =>
          decide (t.Pod.PriorityClassName ≠ "system-cluster-critical" ∧
            t.Pod.PriorityClassName ≠ "system-node-critical" ∧ t.Namespace ≠ "kube-system")),
        Conformance.Permit) ∧
    (Conformance.evictableFn evictor evictees).1.Sublist evictees ∧
    ∀ t ∈ (Conformance.evictableFn evictor evictees).1, t ∈ evictees := by
  have h : Conformance.evictableFn evictor evictees =
      (evictees.filter (fun t =>
          decide (t.Pod.PriorityClassName ≠ "system-cluster-critical" ∧
            t.Pod.PriorityClassName ≠ "system-node-critical" ∧ t.Namespace ≠ "kube-system")),
        Conformance.Permit) := by
    unfold Conformance.evictableFn
    simp only []
    rw [foldl_victims (fun evictee : TaskInfo =>
      evictee.Pod.PriorityClassName = Conformance.SystemClusterCritical ∨
        evictee.Pod.PriorityClassName = Conformance.SystemNodeCritical ∨
        evictee.Namespace = Conformance.NamespaceSystem)]
    simp only [List.nil_append, Conformance.SystemClusterCritical,
      Conformance.SystemNodeCritical, Conformance.NamespaceSystem, not_or, ne_eq]
  refine ⟨h, ?_, ?_⟩
  · rw [h]; exact List.filter_sublist _
  · intro t ht
    rw [h] at ht
    exact (List.mem_filter.1 ht).1


/-! ## The validating webhook for job updates -/

section ValidateTheorems

open Validate

/-- A task of the new job passes the first loop of `validateJobUpdate`. -/
theorem checkTasks_ok :
    ∀ (tasks : List TaskSpec) (total : Int),
      (∀ t ∈ tasks, 0 ≤ t.Replicas ∧ ∀ m, t.MinAvailable = some m → 0 ≤ m ∧ m ≤ t.Replicas) →
      0 ≤ total → total + (tasks.map (fun t => t.Replicas)).sum < 2147483648 →
      checkTasks tasks total = .ok (total + (tasks.map (fun t => t.Replicas)).sum) := by
  intro tasks
  induction tasks with
  | nil => intro total _ _ _; simp [checkTasks]
  | cons t r ih =>
    intro total hall h0 hsum
    have ht := hall t (List.mem_cons_self _ _)
    have hr : ∀ t' ∈ r, 0 ≤ t'.Replicas ∧
        ∀ m, t'.MinAvailable = some m → 0 ≤ m ∧ m ≤ t'.Replicas :=
      fun t' h' => hall t' (List.mem_cons_of_mem _ h')
    have hnn : 0 ≤ (r.map (fun t => t.Replicas)).sum := by
      apply List.sum_nonneg
      intro x hx
      obtain ⟨t', ht', rfl⟩ := List.mem_map.1 hx
      exact (hr t' ht').1
    simp only [List.map_cons, List.sum_cons] at hsum ⊢
    have hw : wrapInt32 (total + t.Replicas) = total + t.Replicas := by
      unfold wrapInt32
      have := ht.1
      omega
    unfold checkTasks
    rw [if_neg (by have := ht.1; omega)]
    cases hm : t.MinAvailable with
    | none =>
      simp only [hw]
      rw [ih (total + t.Replicas) hr (by have := ht.1; omega) (by omega)]
      congr 1
      omega
    | some m =>
      have hm' := ht.2 m hm
      simp only [hw]
      rw [if_neg (by omega), if_neg (by omega)]
      rw [ih (total + t.Replicas) hr (by have := ht.1; omega) (by omega)]
      congr 1
      omega

theorem checkTasks_valid :
    ∀ (tasks : List TaskSpec) (total total2 : Int),
      checkTasks tasks total = .ok total2 →
      ∀ t ∈ tasks, 0 ≤ t.Replicas ∧ ∀ m, t.MinAvailable = some m → 0 ≤ m ∧ m ≤ t.Replicas := by
  intro tasks
  induction tasks with
  | nil => intro _ _ _ t ht; simp at ht
  | cons t r ih =>
    intro total total2 h t' ht'
    unfold checkTasks at h
    by_cases h1 : t.Replicas < 0
    · rw [if_pos h1] at h; cases h
    · rw [if_neg h1] at h
      cases hm : t.MinAvailable with
      | none =>
        simp only [hm] at h
        rcases List.mem_cons.1 ht' with rfl | hmem
        · exact ⟨by omega, fun m hm2 => by rw [hm] at hm2; cases hm2⟩
        · exact ih _ _ h t' hmem
      | some m =>
        simp only [hm] at h
        by_cases h2 : m < 0
        · rw [if_pos h2] at h; cases h
        · rw [if_neg h2] at h
          by_cases h3 : m > t.Replicas
          · rw [if_pos h3] at h; cases h
          · rw [if_neg h3] at h
            rcases List.mem_cons.1 ht' with rfl | hmem
            · refine ⟨by omega, fun m2 hm2 => ?_⟩
              rw [hm] at hm2
              cases hm2
              constructor <;> omega
            · exact ih _ _ h t' hmem

theorem resetTasks_eq_iff :
    ∀ (newTasks oldTasks : List TaskSpec), oldTasks.length = newTasks.length →
      (resetTasks newTasks oldTasks = oldTasks ↔
        List.Forall₂ (fun o n : TaskSpec => o.Name = n.Name ∧ o.Rest = n.Rest)
          oldTasks newTasks) := by
  intro newTasks
  induction newTasks with
  | nil =>
    intro oldTasks hlen
    cases oldTasks with
    | nil => simp [resetTasks]
    | cons o os => simp at hlen
  | cons n ns ih =>
    intro oldTasks hlen
    cases oldTasks with
    | nil => simp at hlen
    | cons o os =>
      simp only [List.length_cons, add_left_inj] at hlen
      have ih' := ih os hlen
      unfold resetTasks at ih' ⊢
      simp only [List.zipWith_cons_cons, List.cons.injEq, List.forall₂_cons]
      rw [ih']
      constructor
      · rintro ⟨h1, h2⟩
        refine ⟨?_, h2⟩
        rw [← h1]
        exact ⟨rfl, rfl⟩
      · rintro ⟨⟨h1, h2⟩, h3⟩
        refine ⟨?_, h3⟩
        cases o
        cases n
        simp only at h1 h2
        simp [h1, h2]

theorem clearClaimNames_eq_iff :
    ∀ (newVolumes oldVolumes : List VolumeSpec),
      (clearClaimNames newVolumes = clearClaimNames oldVolumes ↔
        List.Forall₂
          (fun o n : VolumeSpec =>
            o.MountPath = n.MountPath ∧ o.VolumeClaim = n.VolumeClaim ∧
              (o.VolumeClaim = none → o.VolumeClaimName = n.VolumeClaimName))
          oldVolumes newVolumes) := by
  intro newVolumes
  induction newVolumes with
  | nil =>
    intro oldVolumes
    cases oldVolumes with
    | nil => simp [clearClaimNames]
    | cons o os => simp [clearClaimNames]
  | cons n ns ih =>
    intro oldVolumes
    cases oldVolumes with
    | nil => simp [clearClaimNames]
    | cons o os =>
      have ih' := ih os
      unfold clearClaimNames at ih' ⊢
      simp only [List.map_cons, List.cons.injEq, List.forall₂_cons]
      rw [ih']
      apply and_congr_left
      intro _
      obtain ⟨om, oname, oc⟩ := o
      obtain ⟨nm, nname, nc⟩ := n
      cases oc <;> cases nc <;> simp
      · constructor
        · rintro ⟨h1, h2⟩; exact ⟨h1.symm, h2.symm⟩
        · rintro ⟨h1, h2⟩; exact ⟨h1.symm, h2.symm⟩
      · constructor
        · rintro ⟨h1, h2⟩; exact ⟨h1.symm, h2.symm⟩
        · rintro ⟨h1, h2⟩; exact ⟨h1.symm, h2.symm⟩

/-- C30 (as stated, refuted): an update that changes the priority class of the
job and the `minAvailable` of a task, and nothing else, is accepted. -/
theorem validateJobUpdate_accepts_priority_change :
    validateJobUpdate baseJob changedJob = none ∧
    baseJob.Spec.PriorityClassName ≠ changedJob.Spec.PriorityClassName ∧
    baseJob.Spec.Tasks.map (fun t => t.MinAvailable) ≠
      changedJob.Spec.Tasks.map (fun t => t.MinAvailable) := by
  decide

/-- C30 (amended): when the replicas of the tasks of the new job add up to less
than 2^31, `validateJobUpdate(old, new)` returns nil if and only if every task
of the new job has `Replicas ≥ 0` and, when set, `0 ≤ MinAvailable ≤ Replicas`,
`0 ≤ new.Spec.MinAvailable ≤` the total of the replicas, the number of tasks is
unchanged, and the two specs agree outside `minAvailable`,
`priorityClassName`, the replicas and `minAvailable` of the tasks, and the
claim names of the volumes that carry a claim. -/
theorem validateJobUpdate_iff (old new : Job)
    (hsum : (new.Spec.Tasks.map (fun t => t.Replicas)).sum < 2147483648) :
    validateJobUpdate old new = none ↔
      (∀ t ∈ new.Spec.Tasks,
        0 ≤ t.Replicas ∧ ∀ m, t.MinAvailable = some m → 0 ≤ m ∧ m ≤ t.Replicas) ∧
      0 ≤ new.Spec.MinAvailable ∧
      new.Spec.MinAvailable ≤ (new.Spec.Tasks.map (fun t => t.Replicas)).sum ∧
      old.Spec.Tasks.length = new.Spec.Tasks.length ∧
      sameOutside old.Spec new.Spec := by
  unfold validateJobUpdate
  cases hc : checkTasks new.Spec.Tasks 0 with
  | error e =>
    simp only [false_iff, reduceCtorEq]
    rintro ⟨hall, _⟩
    have := checkTasks_ok new.Spec.Tasks 0 hall (le_refl 0) (by omega)
    rw [this] at hc
    cases hc
  | ok total =>
    have hall := checkTasks_valid new.Spec.Tasks 0 total hc
    have htot := checkTasks_ok new.Spec.Tasks 0 hall (le_refl 0) (by omega)
    rw [htot] at hc
    cases hc
    simp only [zero_add]
    by_cases h1 : new.Spec.MinAvailable > (new.Spec.Tasks.map (fun t => t.Replicas)).sum
    · rw [if_pos h1]
      simp only [false_iff, reduceCtorEq]
      rintro ⟨_, _, h, _⟩
      omega
    · rw [if_neg h1]
      by_cases h2 : new.Spec.MinAvailable < 0
      · rw [if_pos h2]
        simp only [false_iff, reduceCtorEq]
        rintro ⟨_, h, _⟩
        omega
      · rw [if_neg h2]
        by_cases h3 : old.Spec.Tasks.length ≠ new.Spec.Tasks.length
        · rw [if_pos h3]
          simp only [false_iff, reduceCtorEq]
          rintro ⟨_, _, _, h, _⟩
          exact h3 h
        · rw [if_neg h3]
          have hlen : old.Spec.Tasks.length = new.Spec.Tasks.length := not_not.1 h3
          have key : ({ new.Spec with
                MinAvailable := old.Spec.MinAvailable,
                PriorityClassName := old.Spec.PriorityClassName,
                Tasks := resetTasks new.Spec.Tasks old.Spec.Tasks,
                Volumes := clearClaimNames new.Spec.Volumes } : JobSpec) =
              { old.Spec with Volumes := clearClaimNames old.Spec.Volumes } ↔
              sameOutside old.Spec new.Spec := by
            unfold sameOutside
            rw [JobSpec.mk.injEq, resetTasks_eq_iff _ _ hlen, clearClaimNames_eq_iff]
            constructor
            · rintro ⟨_, _, h3, h4, h5⟩
              exact ⟨h5.symm, h3, h4⟩
            · rintro ⟨h5, h3, h4⟩
              exact ⟨rfl, rfl, h3, h4, h5.symm⟩
          by_cases h4 : sameOutside old.Spec new.Spec
          · rw [if_neg (not_not.2 (key.2 h4))]
            simp only [true_iff]
            exact ⟨hall, by omega, by omega, hlen, h4⟩
          · rw [if_pos (fun h => h4 (key.1 h))]
            simp only [false_iff, reduceCtorEq]
            rintro ⟨_, _, _, _, h⟩
            exact h4 h

/-- Witness of C30 (amended): scaling the task from three to five replicas and
raising `minAvailable` to 4 is accepted. -/
theorem validateJobUpdate_iff_witness :
    validateJobUpdate baseJob scaledJob = none ↔
      (∀ t ∈ scaledJob.Spec.Tasks,
        0 ≤ t.Replicas ∧ ∀ m, t.MinAvailable = some m → 0 ≤ m ∧ m ≤ t.Replicas) ∧
      0 ≤ scaledJob.Spec.MinAvailable ∧
      scaledJob.Spec.MinAvailable ≤ (scaledJob.Spec.Tasks.map (fun t => t.Replicas)).sum ∧
      baseJob.Spec.Tasks.length = scaledJob.Spec.Tasks.length ∧
      sameOutside baseJob.Spec scaledJob.Spec :=
  validateJobUpdate_iff baseJob scaledJob (by decide)

end ValidateTheorems


/-! ## Pods in the job cache -/

/-- C28 (the code at the failing input): `AddPod` of a pod of job `ns/j` on an
empty cache stores a new entry under `ns/j` and then calls the method of the
job on `ji`, which is still nil.  Whatever that method does on a nil receiver,
the pod is not in the entry: either the call panics, or the cache holds the
entry without pods.  With `JobInfo.AddPod` as modelled the call panics.  On a
cache that holds the job the pod is added, and a pod without the job-name
annotation is refused with the cache unchanged. -/
theorem addPod_unknown_job (method : Controller.PodMethod) :
    Controller.jobCache.withPod method ⟨[]⟩ Controller.workerPod =
      (match method.onNil Controller.workerPod with
       | none => none
       | some err =>
         some (⟨[("ns/j", { Namespace := "", Name := "", Job := none, Pods := [] })]⟩, err)) ∧
    Controller.jobCache.AddPod ⟨[]⟩ Controller.workerPod = none ∧
    Controller.jobCache.AddPod
        ⟨[("ns/j", { Namespace := "", Name := "", Job := none, Pods := [] })]⟩
        Controller.workerPod =
      some (⟨[("ns/j", { Namespace := "", Name := "", Job := none,
                         Pods := [("worker", [("p", Controller.workerPod)])] })]⟩, none) ∧
    ∀ jc : Controller.jobCache,
      ∃ err, Controller.jobCache.AddPod jc Controller.strayPod = some (jc, some err) := by
  refine ⟨?_, by decide, by decide, ?_⟩
  · have h : Controller.jobKeyOfPod Controller.workerPod = .ok "ns/j" := rfl
    unfold Controller.jobCache.withPod
    rw [h]
    simp only [mapGet]
    cases method.onNil Controller.workerPod <;> rfl
  · intro jc
    exact ⟨_, rfl⟩


/-! ## The scheduling session: `openSession` -/

section OpenSessionTheorems

open Framework

theorem find_setCondition (conditions : List PodGroupCondition) (cond : PodGroupCondition) :
    (setCondition conditions cond).find? (fun c => decide (c.Type_ = cond.Type_)) =
      some cond := by
  unfold setCondition
  induction conditions with
  | nil => simp
  | cons c r ih =>
    rw [List.findIdx?_cons]
    by_cases h : c.Type_ = cond.Type_
    · simp [h]
    · simp only [h, decide_False, Bool.false_eq_true, if_false, zero_add]
      rw [List.findIdx?_succ]
      cases hr : List.findIdx? (fun c => decide (c.Type_ = cond.Type_)) r with
      | none =>
        rw [hr] at ih
        simp only [Option.map_none', List.cons_append, List.find?_cons, h, decide_False]
        exact ih
      | some i =>
        rw [hr] at ih
        simp only [Option.map_some', List.set_cons_succ, List.find?_cons, h, decide_False]
        exact ih

theorem mapDel_mapSet {κ α : Type} [DecidableEq κ] (m : List (κ × α)) (k : κ) (v : α) :
    mapDel (mapSet m k v) k = mapDel m k := by
  unfold mapSet
  rw [mapDel_cons, if_pos rfl]
  unfold mapDel
  rw [List.filter_filter]
  simp

theorem validateJobs_cons_none (jobValid : JobInfo → Option ValidateResult) (now : Int)
    (key : JobID) (rest : List JobID) (sess : Session) (removed : List JobInfo)
    (h : mapGet sess.Jobs key = none) :
    validateJobs jobValid now (key :: rest) sess removed =
      validateJobs jobValid now rest sess removed := by
  simp only [validateJobs, h]

theorem validateJobs_cons_valid (jobValid : JobInfo → Option ValidateResult) (now : Int)
    (key : JobID) (rest : List JobID) (sess : Session) (removed : List JobInfo) (job : JobInfo)
    (h : mapGet sess.Jobs key = some job) (hv : jobValid job = none) :
    validateJobs jobValid now (key :: rest) sess removed =
      validateJobs jobValid now rest sess removed := by
  simp only [validateJobs, h, hv]

theorem validateJobs_cons_fail (jobValid : JobInfo → Option ValidateResult) (now : Int)
    (key : JobID) (rest : List JobID) (sess : Session) (removed : List JobInfo) (job : JobInfo)
    (vjr : ValidateResult) (pg : PodGroup)
    (h : mapGet sess.Jobs key = some job) (hu : job.UID = key)
    (hv : jobValid job = some vjr) (hp : vjr.Pass = false) (hpg : job.PodGroup = some pg) :
    validateJobs jobValid now (key :: rest) sess removed =
      validateJobs jobValid now rest { sess with Jobs := mapDel sess.Jobs key }
        (removed ++ [withCondition job pg (unschedulableCondition sess.UID now vjr)]) := by
  subst hu
  simp only [validateJobs, h, hv, hp, Bool.not_false, if_true, Session.UpdatePodGroupCondition,
    hpg, Option.map_some', mapGet_mapSet, mapDel_mapSet]

/-- The loop of `openSession` over jobs keyed by their UID, when `JobValid`
returns failures only and the jobs that fail have a pod group. -/
theorem validateJobs_spec (jobValid : JobInfo → Option ValidateResult) (now : Int)
    (hfail : ∀ job vjr, jobValid job = some vjr → vjr.Pass = false) :
    ∀ (keys : List JobID) (sess : Session) (removed : List JobInfo),
      keys.Nodup → (∀ e ∈ sess.Jobs, e.2.UID = e.1) →
      (∀ k ∈ keys, ∀ j, mapGet sess.Jobs k = some j → jobValid j ≠ none → j.PodGroup ≠ none) →
      ∃ sess1 removed1, validateJobs jobValid now keys sess removed = some (sess1, removed1) ∧
        sess1.UID = sess.UID ∧ sess1.TotalResource = sess.TotalResource ∧
        (∀ j ∈ removed, j ∈ removed1) ∧
        (∀ k, k ∉ keys → mapGet sess1.Jobs k = mapGet sess.Jobs k) ∧
        (∀ k ∈ keys, ∀ j, mapGet sess.Jobs k = some j →
          (jobValid j = none → mapGet sess1.Jobs k = some j) ∧
          (∀ vjr, jobValid j = some vjr →
            mapGet sess1.Jobs k = none ∧
            ∃ pg, j.PodGroup = some pg ∧
              withCondition j pg (unschedulableCondition sess.UID now vjr) ∈ removed1)) := by
  intro keys
  induction keys with
  | nil =>
    intro sess removed _ _ _
    exact ⟨sess, removed, rfl, rfl, rfl, fun j hj => hj, fun k _ => rfl,
      fun k hk => absurd hk (List.not_mem_nil k)⟩
  | cons key rest ih =>
    intro sess removed hnd huid hpg
    have hnd' := (List.nodup_cons.1 hnd).2
    have hkey : key ∉ rest := (List.nodup_cons.1 hnd).1
    have hpg' : ∀ k ∈ rest, ∀ j, mapGet sess.Jobs k = some j → jobValid j ≠ none →
        j.PodGroup ≠ none := fun k hk => hpg k (List.mem_cons_of_mem _ hk)
    cases hget : mapGet sess.Jobs key with
    | none =>
      rw [validateJobs_cons_none jobValid now key rest sess removed hget]
      obtain ⟨s1, r1, h1, h2, h3, h4, h5, h6⟩ := ih sess removed hnd' huid hpg'
      refine ⟨s1, r1, h1, h2, h3, h4, fun k hk => h5 k (fun h => hk (List.mem_cons_of_mem _ h)),
        ?_⟩
      intro k hk j hj
      rcases List.mem_cons.1 hk with rfl | hk
      · rw [hget] at hj; cases hj
      · exact h6 k hk j hj
    | some job =>
      have hjuid : job.UID = key := huid (key, job) (mem_of_mapGet_eq_some hget)
      cases hv : jobValid job with
      | none =>
        rw [validateJobs_cons_valid jobValid now key rest sess removed job hget hv]
        obtain ⟨s1, r1, h1, h2, h3, h4, h5, h6⟩ := ih sess removed hnd' huid hpg'
        refine ⟨s1, r1, h1, h2, h3, h4,
          fun k hk => h5 k (fun h => hk (List.mem_cons_of_mem _ h)), ?_⟩
        intro k hk j hj
        rcases List.mem_cons.1 hk with rfl | hk
        · rw [hget] at hj
          cases hj
          refine ⟨fun _ => ?_, fun vjr hvj => ?_⟩
          · rw [h5 _ hkey]; exact hget
          · rw [hv] at hvj; cases hvj
        · exact h6 k hk j hj
      | some vjr =>
        have hpass := hfail job vjr hv
        have hpgne := hpg key (List.mem_cons_self _ _) job hget (by rw [hv]; simp)
        obtain ⟨pg, hpgeq⟩ := Option.ne_none_iff_exists'.1 hpgne
        rw [validateJobs_cons_fail jobValid now key rest sess removed job vjr pg hget hjuid hv
          hpass hpgeq]
        have hget2 : ∀ k, k ≠ key → mapGet (mapDel sess.Jobs key) k = mapGet sess.Jobs k := by
          intro k hk
          rw [mapGet_mapDel, if_neg (Ne.symm hk)]
        obtain ⟨s1, r1, h1, h2, h3, h4, h5, h6⟩ :=
          ih { sess with Jobs := mapDel sess.Jobs key }
            (removed ++ [withCondition job pg (unschedulableCondition sess.UID now vjr)])
            hnd' (fun e he => huid e (mem_mapDel.1 he).1)
            (fun k hk j hj => by
              have hne : k ≠ key := fun h => hkey (h ▸ hk)
              have hj2 : mapGet (mapDel sess.Jobs key) k = some j := hj
              rw [hget2 k hne] at hj2
              exact hpg' k hk j hj2)
        refine ⟨s1, r1, h1, h2, h3, fun j hj => h4 j (List.mem_append_left _ hj), ?_, ?_⟩
        · intro k hk
          have hne : k ≠ key := fun h => hk (h ▸ List.mem_cons_self _ _)
          rw [h5 k (fun h => hk (List.mem_cons_of_mem _ h))]
          exact hget2 k hne
        · intro k hk j hj
          rcases List.mem_cons.1 hk with rfl | hk
          · rw [hget] at hj
            cases hj
            refine ⟨fun hn => ?_, fun vjr2 hvj => ?_⟩
            · rw [hv] at hn; cases hn
            · rw [hv] at hvj
              cases hvj
              refine ⟨?_, pg, hpgeq, h4 _ (List.mem_append_right _ (List.mem_singleton_self _))⟩
              rw [h5 _ hkey]
              show mapGet (mapDel sess.Jobs k) k = none
              rw [mapGet_mapDel, if_pos rfl]
          · have hne : k ≠ key := fun h => hkey (h ▸ hk)
            have hj2 : mapGet (mapDel sess.Jobs key) k = some j := by
              rw [hget2 k hne]; exact hj
            exact h6 k hk j hj2

/-- C26 (as stated, refuted): when `JobValid` returns a result with
`Pass = true` for the only job of the snapshot, `openSession` deletes the job
from the session all the same, and sets no condition on it. -/
theorem openSession_removes_passing_job :
    openSession oneJobSnapshot "s1" 7 (fun _ => some ⟨true, "ok", "ok"⟩) =
      some ({ UID := "s1", TotalResource := Resource.EmptyResource, Jobs := [], Nodes := [],
              Queues := [] }, [workerJob]) ∧
    mapGet oneJobSnapshot.Jobs "j" = some workerJob := by
  decide

/-- C26 (amended): let the jobs of the snapshot be keyed by their UID, let
`JobValid` return either no result or a result with `Pass = false`, and let
every job for which it returns a result have a pod group.  Then `openSession`
returns; a job of the snapshot is missing from `sess.Jobs` if and only if
`JobValid` returned a result for it, and it stays in `sess.Jobs` unchanged
otherwise; and a job that was removed received, before it was removed, the
condition of type `Unschedulable` with status `True`, the UID of the session
and the reason and message of the result. -/
theorem openSession_removes_invalid (snapshot : ClusterInfo) (uid : String) (now : Int)
    (jobValid : JobInfo → Option ValidateResult)
    (hnk : NodupKeys snapshot.Jobs) (huid : ∀ e ∈ snapshot.Jobs, e.2.UID = e.1)
    (hfail : ∀ job vjr, jobValid job = some vjr → vjr.Pass = false)
    (hpg : ∀ e ∈ snapshot.Jobs, jobValid e.2 ≠ none → e.2.PodGroup ≠ none) :
    ∃ sess removed, openSession snapshot uid now jobValid = some (sess, removed) ∧
      ∀ k j, mapGet snapshot.Jobs k = some j →
        (mapGet sess.Jobs k = none ↔ ∃ vjr, jobValid j = some vjr ∧ vjr.Pass = false) ∧
        (jobValid j = none → mapGet sess.Jobs k = some j) ∧
        (∀ vjr, jobValid j = some vjr →
          ∃ pg j1 pg1, j.PodGroup = some pg ∧ j1 ∈ removed ∧ j1.UID = k ∧
            j1.PodGroup = some pg1 ∧
            j1 = { j with PodGroup := some pg1 } ∧
            pg1 = { pg with Conditions := pg1.Conditions } ∧
            pg1.Conditions.find? (fun c => decide (c.Type_ = "Unschedulable")) =
              some { Type_ := "Unschedulable", Status := "True", LastTransitionTime := now,
                     TransitionID := uid, Reason := vjr.Reason, Message := vjr.Message }) := by
  obtain ⟨s1, r1, h1, _, _, _, _, h6⟩ :=
    validateJobs_spec jobValid now hfail (snapshot.Jobs.map (fun e => e.1))
      { UID := uid, TotalResource := Resource.EmptyResource, Jobs := snapshot.Jobs,
        Nodes := [], Queues := [] } [] (show (snapshot.Jobs.map (fun e => e.1)).Nodup from hnk) huid
      (fun k _ j hj => hpg (k, j) (mem_of_mapGet_eq_some hj))
  refine ⟨_, r1, by unfold openSession; simp only [h1]; rfl, ?_⟩
  intro k j hj
  have hk : k ∈ snapshot.Jobs.map (fun e => e.1) :=
    List.mem_map.2 ⟨(k, j), mem_of_mapGet_eq_some hj, rfl⟩
  have hju : j.UID = k := huid (k, j) (mem_of_mapGet_eq_some hj)
  obtain ⟨ha, hb⟩ := h6 k hk j hj
  refine ⟨?_, ha, ?_⟩
  · constructor
    · intro hnone
      cases hv : jobValid j with
      | none => rw [ha hv] at hnone; cases hnone
      | some vjr => exact ⟨vjr, rfl, hfail j vjr hv⟩
    · rintro ⟨vjr, hv, _⟩
      exact (hb vjr hv).1
  · intro vjr hv
    obtain ⟨_, pg, hpgeq, hmem⟩ := hb vjr hv
    refine ⟨pg, _, _, hpgeq, hmem, hju, rfl, rfl, rfl, ?_⟩
    exact find_setCondition pg.Conditions (unschedulableCondition uid now vjr)

/-- Witness of C26 (amended): the job of the snapshot fails its validation. -/
theorem openSession_removes_invalid_witness :
    ∃ sess removed,
      openSession oneJobSnapshot "s1" 7 (fun _ => some ⟨false, "r", "m"⟩) =
        some (sess, removed) ∧
      ∀ k j, mapGet oneJobSnapshot.Jobs k = some j →
        (mapGet sess.Jobs k = none ↔
          ∃ vjr, (fun _ => some ⟨false, "r", "m"⟩ : JobInfo → Option ValidateResult) j
            = some vjr ∧ vjr.Pass = false) ∧
        ((fun _ => some ⟨false, "r", "m"⟩ : JobInfo → Option ValidateResult) j = none →
          mapGet sess.Jobs k = some j) ∧
        (∀ vjr, (fun _ => some ⟨false, "r", "m"⟩ : JobInfo → Option ValidateResult) j
            = some vjr →
          ∃ pg j1 pg1, j.PodGroup = some pg ∧ j1 ∈ removed ∧ j1.UID = k ∧
            j1.PodGroup = some pg1 ∧
            j1 = { j with PodGroup := some pg1 } ∧
            pg1 = { pg with Conditions := pg1.Conditions } ∧
            pg1.Conditions.find? (fun c => decide (c.Type_ = "Unschedulable")) =
              some { Type_ := "Unschedulable", Status := "True", LastTransitionTime := 7,
                     TransitionID := "s1", Reason := vjr.Reason, Message := vjr.Message }) :=
  openSession_removes_invalid oneJobSnapshot "s1" 7 (fun _ => some ⟨false, "r", "m"⟩)
    (by decide) (by decide) (fun _ _ h => by cases h; rfl)
    (fun e he _ => by
      have h : e = (workerJob.UID, workerJob) := by simpa [oneJobSnapshot] using he
      subst h
      decide)

end OpenSessionTheorems


/-! ## The action `enqueue` -/

section EnqueueTheorems

open Framework Enqueue

theorem popMin_perm {α : Type} (lessFn : α → α → Bool) :
    ∀ (l : List α) (y : α) (r : List α), popMin lessFn l = some (y, r) → l.Perm (y :: r) := by
  intro l
  induction l with
  | nil => intro y r h; simp [popMin] at h
  | cons x rest ih =>
    intro y r h
    unfold popMin at h
    cases hp : popMin lessFn rest with
    | none =>
      rw [hp] at h
      simp only [Option.some.injEq, Prod.mk.injEq] at h
      obtain ⟨rfl, rfl⟩ := h
      cases rest with
      | nil => exact List.Perm.refl _
      | cons z zs =>
        unfold popMin at hp
        cases hq : popMin lessFn zs with
        | none => rw [hq] at hp; cases hp
        | some p =>
          rw [hq] at hp
          obtain ⟨a, b⟩ := p
          simp only at hp
          split at hp <;> cases hp
    | some p =>
      obtain ⟨z, rest1⟩ := p
      rw [hp] at h
      simp only at h
      have hperm := ih z rest1 hp
      by_cases hl : lessFn z x = true
      · rw [if_pos hl] at h
        simp only [Option.some.injEq, Prod.mk.injEq] at h
        obtain ⟨rfl, rfl⟩ := h
        exact (List.Perm.cons x hperm).trans (List.Perm.swap _ _ _)
      · rw [if_neg hl] at h
        simp only [Option.some.injEq, Prod.mk.injEq] at h
        obtain ⟨rfl, rfl⟩ := h
        exact List.Perm.refl _

theorem popMin_eq_none {α : Type} (lessFn : α → α → Bool) (l : List α) :
    popMin lessFn l = none ↔ l = [] := by
  cases l with
  | nil => simp [popMin]
  | cons x rest =>
    simp only [reduceCtorEq, iff_false]
    unfold popMin
    cases popMin lessFn rest with
    | none => simp
    | some p =>
      obtain ⟨a, b⟩ := p
      simp only
      split <;> simp

theorem bucketTotal_mapDel_le (m : List (QueueID × List JobInfo)) (k : QueueID)
    (b : List JobInfo) (h : mapGet m k = some b) :
    bucketTotal (mapDel m k) + b.length ≤ bucketTotal m := by
  induction m with
  | nil => simp [mapGet] at h
  | cons e r ih =>
    obtain ⟨k', v⟩ := e
    rw [mapDel_cons]
    by_cases hk : k' = k
    · simp only [mapGet, hk, if_true, Option.some.injEq] at h
      subst h
      simp only [hk, if_true]
      have : bucketTotal (mapDel r k) ≤ bucketTotal r := by
        unfold bucketTotal mapDel
        exact List.Sublist.sum_le_sum (List.Sublist.map _ (List.filter_sublist r))
          (fun _ _ => Nat.zero_le _)
      simp only [bucketTotal, List.map_cons, List.sum_cons] at this ⊢
      omega
    · simp only [mapGet, hk, if_false] at h
      have := ih h
      simp only [hk, if_false]
      simp only [bucketTotal, List.map_cons, List.sum_cons] at this ⊢
      omega

theorem bucketTotal_mapSet (m : List (QueueID × List JobInfo)) (k : QueueID)
    (b : List JobInfo) :
    bucketTotal (mapSet m k b) = b.length + bucketTotal (mapDel m k) := by
  simp [bucketTotal, mapSet]

theorem queuePops_append (a b : List Call) : queuePops (a ++ b) = queuePops a + queuePops b := by
  simp [queuePops, List.countP_append]

theorem queuePops_callsFor (job : JobInfo) (pg : PodGroup) (permit : Bool) :
    queuePops (callsFor job pg permit) = 0 := by
  unfold callsFor queuePops
  cases pg.MinResources <;> cases permit <;> simp

theorem loopBody_done {σ : Type} (cb : Callbacks σ) (st : State σ)
    (h : popMin (cb.QueueOrderFn st.plugins) st.pqForQueues = none) :
    loopBody cb st = (st, some Status.done) := by
  simp only [loopBody, h]

theorem loopBody_skip {σ : Type} (cb : Callbacks σ) (st : State σ) (queue : QueueInfo)
    (pq1 : List QueueInfo)
    (h : popMin (cb.QueueOrderFn st.plugins) st.pqForQueues = some (queue, pq1))
    (hb : mapGet st.jobsMap queue.UID = none ∨ mapGet st.jobsMap queue.UID = some []) :
    loopBody cb st =
      ({ st with pqForQueues := pq1, calls := st.calls ++ [Call.PopQueue queue.UID] }, none) := by
  rcases hb with hb | hb
  · simp only [loopBody, h, hb]
  · simp only [loopBody, h, hb, popMin]

theorem loopBody_panic {σ : Type} (cb : Callbacks σ) (st : State σ) (queue : QueueInfo)
    (pq1 : List QueueInfo) (jobs : List JobInfo) (job : JobInfo) (jobs1 : List JobInfo)
    (h : popMin (cb.QueueOrderFn st.plugins) st.pqForQueues = some (queue, pq1))
    (hb : mapGet st.jobsMap queue.UID = some jobs)
    (hj : popMin (cb.JobOrderFn st.plugins) jobs = some (job, jobs1))
    (hpg : job.PodGroup = none) :
    (loopBody cb st).2 = some Status.panic ∧
    (loopBody cb st).1.calls = st.calls ++ [Call.PopQueue queue.UID] ++ [Call.PopJob job.UID] := by
  simp only [loopBody, h, hb, hj, hpg, and_self]

theorem loopBody_job {σ : Type} (cb : Callbacks σ) (st : State σ) (queue : QueueInfo)
    (pq1 : List QueueInfo) (jobs : List JobInfo) (job : JobInfo) (jobs1 : List JobInfo)
    (pg : PodGroup)
    (h : popMin (cb.QueueOrderFn st.plugins) st.pqForQueues = some (queue, pq1))
    (hb : mapGet st.jobsMap queue.UID = some jobs)
    (hj : popMin (cb.JobOrderFn st.plugins) jobs = some (job, jobs1))
    (hpg : job.PodGroup = some pg) :
    loopBody cb st = (afterJob cb st queue pq1 job jobs1 pg, none) := by
  cases hmr : pg.MinResources with
  | none =>
    simp [loopBody, h, hb, hj, hpg, afterJob, permitted, callsFor, inqueue, hmr]
  | some mr =>
    cases hp : cb.JobEnqueuable st.plugins job <;>
      simp [loopBody, h, hb, hj, hpg, afterJob, permitted, callsFor, inqueue, hmr, hp]

theorem drain_bound {σ : Type} (cb : Callbacks σ) :
    ∀ (fuel : Nat) (st : State σ),
      st.pqForQueues.length + bucketTotal st.jobsMap < fuel →
      (drain cb fuel st).2 ≠ Status.outOfFuel ∧
      queuePops (drain cb fuel st).1.calls ≤
        queuePops st.calls + (st.pqForQueues.length + bucketTotal st.jobsMap) := by
  intro fuel
  induction fuel with
  | zero => intro st h; omega
  | succ fuel ih =>
    intro st h
    unfold drain
    cases hq : popMin (cb.QueueOrderFn st.plugins) st.pqForQueues with
    | none =>
      rw [loopBody_done cb st hq]
      simp
    | some p =>
      obtain ⟨queue, pq1⟩ := p
      have hlen : st.pqForQueues.length = pq1.length + 1 := by
        have := (popMin_perm _ _ _ _ hq).length_eq
        simpa using this
      have hskip : ∀ hb : mapGet st.jobsMap queue.UID = none ∨
          mapGet st.jobsMap queue.UID = some [],
          (drain cb (fuel + 1) st).2 ≠ Status.outOfFuel ∧
          queuePops (drain cb (fuel + 1) st).1.calls ≤
            queuePops st.calls + (st.pqForQueues.length + bucketTotal st.jobsMap) := by
        intro hb
        unfold drain
        rw [loopBody_skip cb st queue pq1 hq hb]
        have := ih { st with pqForQueues := pq1,
                             calls := st.calls ++ [Call.PopQueue queue.UID] }
          (by simp only; omega)
        refine ⟨this.1, le_trans this.2 ?_⟩
        simp only [queuePops_append]
        simp only [queuePops, List.countP_cons, List.countP_nil]
        simp only [if_true]
        omega
      have hgoal := hskip
      unfold drain at hgoal
      cases hb : mapGet st.jobsMap queue.UID with
      | none => exact hgoal (Or.inl hb)
      | some jobs =>
        cases hj : popMin (cb.JobOrderFn st.plugins) jobs with
        | none =>
          rw [(popMin_eq_none _ _).1 hj] at hb
          exact hgoal (Or.inr hb)
        | some pj =>
          obtain ⟨job, jobs1⟩ := pj
          have hjl : jobs.length = jobs1.length + 1 := by
            have := (popMin_perm _ _ _ _ hj).length_eq
            simpa using this
          have hbt := bucketTotal_mapDel_le st.jobsMap queue.UID jobs hb
          have hbs := bucketTotal_mapSet st.jobsMap queue.UID jobs1
          cases hpg : job.PodGroup with
          | none =>
            obtain ⟨h1, h2⟩ := loopBody_panic cb st queue pq1 jobs job jobs1 hq hb hj hpg
            have hp : loopBody cb st = ((loopBody cb st).1, some Status.panic) := by
              rw [← h1]
            rw [hp]
            simp only [ne_eq, reduceCtorEq, not_false_eq_true, true_and]
            rw [h2]
            simp only [queuePops_append]
            simp only [queuePops, List.countP_cons, List.countP_nil]
            simp only [if_true]
            simp
            omega
          | some pg =>
            rw [loopBody_job cb st queue pq1 jobs job jobs1 pg hq hb hj hpg]
            have := ih (afterJob cb st queue pq1 job jobs1 pg)
              (by
                simp only [afterJob, List.length_append, List.length_singleton]
                omega)
            refine ⟨this.1, le_trans this.2 ?_⟩
            simp only [afterJob, queuePops_append, queuePops_callsFor, List.length_append,
              List.length_singleton]
            simp only [queuePops, List.countP_cons, List.countP_nil]
            simp only [if_true]
            omega

end EnqueueTheorems

section EnqueueBound

open Framework Enqueue

theorem stampJob_eq {now : Int} {job : JobInfo} {sess sess1 : Session}
    (h : stampJob now job sess = some sess1) :
    sess1.Queues = sess.Queues ∧ sess1.UID = sess.UID ∧ sess1.Nodes = sess.Nodes := by
  unfold stampJob at h
  by_cases hts : job.ScheduleStartTimestamp = 0
  · rw [if_pos hts] at h
    cases hg : mapGet sess.Jobs job.UID with
    | none => rw [hg] at h; cases h
    | some j =>
      rw [hg] at h
      simp only [Option.some.injEq] at h
      subst h
      exact ⟨rfl, rfl, rfl⟩
  · rw [if_neg hts] at h
    simp only [Option.some.injEq] at h
    subst h
    exact ⟨rfl, rfl, rfl⟩

theorem isPending_stamped (now : Int) (job : JobInfo) :
    (stamped now job).IsPending = job.IsPending := by
  unfold stamped
  split <;> rfl

theorem addQueue_frame {σ : Type} (st : State σ) (queue : QueueInfo) :
    (addQueue st queue).sess = st.sess ∧ (addQueue st queue).calls = st.calls ∧
    (addQueue st queue).plugins = st.plugins ∧ (addQueue st queue).jobsMap = st.jobsMap := by
  unfold addQueue
  cases mapGet st.queueMap queue.UID <;> exact ⟨rfl, rfl, rfl, rfl⟩

theorem addJob_frame {σ : Type} (st : State σ) (job : JobInfo) :
    (addJob st job).sess = st.sess ∧ (addJob st job).calls = st.calls ∧
    (addJob st job).plugins = st.plugins ∧ (addJob st job).queueMap = st.queueMap ∧
    (addJob st job).pqForQueues = st.pqForQueues := ⟨rfl, rfl, rfl, rfl, rfl⟩

theorem bucketTotal_addJob {σ : Type} (st : State σ) (job : JobInfo) :
    bucketTotal (addJob st job).jobsMap ≤ bucketTotal st.jobsMap + 1 := by
  unfold addJob
  simp only [bucketTotal_mapSet, List.length_append, List.length_singleton]
  cases hb : mapGet st.jobsMap job.Queue with
  | none =>
    rw [mapDel_eq_self hb]
    simp
    omega
  | some jobs =>
    have := bucketTotal_mapDel_le st.jobsMap job.Queue jobs hb
    simp only
    omega

/-- What the first loop keeps true of `queueMap` and `pqForQueues`: the queues
pushed are the values of `queueMap`, filed under their UID, and are queues of
the session. -/
theorem addQueue_inv {σ : Type} (st : State σ) (queue : QueueInfo)
    (hq : queue ∈ st.sess.Queues.map Prod.snd)
    (h : NodupKeys st.queueMap ∧ st.pqForQueues.length = st.queueMap.length ∧
      ∀ e ∈ st.queueMap, e.2.UID = e.1 ∧ e.2 ∈ st.sess.Queues.map Prod.snd) :
    NodupKeys (addQueue st queue).queueMap ∧
    (addQueue st queue).pqForQueues.length = (addQueue st queue).queueMap.length ∧
    ∀ e ∈ (addQueue st queue).queueMap,
      e.2.UID = e.1 ∧ e.2 ∈ (addQueue st queue).sess.Queues.map Prod.snd := by
  unfold addQueue
  cases hg : mapGet st.queueMap queue.UID with
  | some _ => exact h
  | none =>
    obtain ⟨h1, h2, h3⟩ := h
    refine ⟨nodupKeys_mapSet h1 _ _, ?_, ?_⟩
    · show (st.pqForQueues ++ [queue]).length = (mapSet st.queueMap queue.UID queue).length
      unfold mapSet
      rw [mapDel_eq_self hg]
      simp [h2]
    · intro e he
      simp only [mapSet, mapDel_eq_self hg, List.mem_cons] at he
      rcases he with rfl | he
      · exact ⟨rfl, hq⟩
      · exact h3 e he

theorem visit_frame {σ : Type} (now : Int) (job : JobInfo) (st st1 : State σ)
    (h : visit now job st = some st1) :
    st1.calls = st.calls ∧ st1.sess.Queues = st.sess.Queues ∧ st1.plugins = st.plugins ∧
    bucketTotal st1.jobsMap ≤ bucketTotal st.jobsMap + (if job.IsPending then 1 else 0) ∧
    ((NodupKeys st.queueMap ∧ st.pqForQueues.length = st.queueMap.length ∧
        ∀ e ∈ st.queueMap, e.2.UID = e.1 ∧ e.2 ∈ st.sess.Queues.map Prod.snd) →
      (NodupKeys st1.queueMap ∧ st1.pqForQueues.length = st1.queueMap.length ∧
        ∀ e ∈ st1.queueMap, e.2.UID = e.1 ∧ e.2 ∈ st1.sess.Queues.map Prod.snd)) := by
  unfold visit at h
  cases hs : stampJob now job st.sess with
  | none => rw [hs] at h; cases h
  | some sess1 =>
    rw [hs] at h
    obtain ⟨hsq, _, _⟩ := stampJob_eq hs
    simp only at h
    cases hq : mapGet sess1.Queues (stamped now job).Queue with
    | none =>
      rw [hq] at h
      simp only [Option.some.injEq] at h
      subst h
      refine ⟨rfl, hsq, rfl, by simp only; omega, ?_⟩
      intro hinv
      simp only [hsq]
      exact hinv
    | some queue =>
      rw [hq] at h
      simp only at h
      have hqmem : queue ∈ sess1.Queues.map Prod.snd :=
        List.mem_map.2 ⟨(_, queue), mem_of_mapGet_eq_some hq, rfl⟩
      have hfr := addQueue_frame ({ st with sess := sess1 } : State σ) queue
      have hinv2 : (NodupKeys st.queueMap ∧ st.pqForQueues.length = st.queueMap.length ∧
          ∀ e ∈ st.queueMap, e.2.UID = e.1 ∧ e.2 ∈ st.sess.Queues.map Prod.snd) →
          NodupKeys (addQueue ({ st with sess := sess1 } : State σ) queue).queueMap ∧
          (addQueue ({ st with sess := sess1 } : State σ) queue).pqForQueues.length =
            (addQueue ({ st with sess := sess1 } : State σ) queue).queueMap.length ∧
          ∀ e ∈ (addQueue ({ st with sess := sess1 } : State σ) queue).queueMap,
            e.2.UID = e.1 ∧
            e.2 ∈ (addQueue ({ st with sess := sess1 } : State σ) queue).sess.Queues.map
              Prod.snd := by
        intro hinv
        apply addQueue_inv ({ st with sess := sess1 } : State σ) queue hqmem
        simp only [hsq]
        exact hinv
      rw [isPending_stamped] at h
      by_cases hp : job.IsPending = true
      · rw [if_pos hp] at h
        simp only [Option.some.injEq] at h
        subst h
        have hb := bucketTotal_addJob (addQueue ({ st with sess := sess1 } : State σ) queue)
          (stamped now job)
        rw [hfr.2.2.2] at hb
        refine ⟨?_, ?_, ?_, ?_, ?_⟩
        · rw [(addJob_frame _ _).2.1, hfr.2.1]
        · rw [(addJob_frame _ _).1, hfr.1]; exact hsq
        · rw [(addJob_frame _ _).2.2.1, hfr.2.2.1]
        · rw [if_pos hp]; exact hb
        · intro hinv
          exact hinv2 hinv
      · rw [if_neg hp] at h
        simp only [Option.some.injEq] at h
        subst h
        refine ⟨hfr.2.1, ?_, hfr.2.2.1, ?_, hinv2⟩
        · rw [hfr.1]; exact hsq
        · rw [hfr.2.2.2, if_neg hp]; simp

theorem collect_frame {σ : Type} (now : Int) :
    ∀ (entries : List (JobID × JobInfo)) (st : State σ),
      (collect now entries st).2 ≠ Status.outOfFuel ∧
      (collect now entries st).1.calls = st.calls ∧
      ((collect now entries st).2 = Status.done →
        bucketTotal (collect now entries st).1.jobsMap ≤
          bucketTotal st.jobsMap + (entries.filter (fun e => e.2.IsPending)).length ∧
        (collect now entries st).1.sess.Queues = st.sess.Queues ∧
        ((NodupKeys st.queueMap ∧ st.pqForQueues.length = st.queueMap.length ∧
            ∀ e ∈ st.queueMap, e.2.UID = e.1 ∧ e.2 ∈ st.sess.Queues.map Prod.snd) →
          (NodupKeys (collect now entries st).1.queueMap ∧
            (collect now entries st).1.pqForQueues.length =
              (collect now entries st).1.queueMap.length ∧
            ∀ e ∈ (collect now entries st).1.queueMap,
              e.2.UID = e.1 ∧
              e.2 ∈ (collect now entries st).1.sess.Queues.map Prod.snd))) := by
  intro entries
  induction entries with
  | nil =>
    intro st
    unfold collect
    exact ⟨by simp, rfl, fun _ => ⟨by simp, rfl, fun h => h⟩⟩
  | cons e rest ih =>
    intro st
    obtain ⟨k, job⟩ := e
    unfold collect
    cases hv : visit now job st with
    | none =>
      dsimp only
      exact ⟨by simp, rfl, fun h => by cases h⟩
    | some st1 =>
      dsimp only
      obtain ⟨h1, h2, _, h4, h5⟩ := visit_frame now job st st1 hv
      obtain ⟨i1, i2, i3⟩ := ih st1
      refine ⟨i1, i2.trans h1, fun hd => ?_⟩
      obtain ⟨j1, j2, j3⟩ := i3 hd
      refine ⟨?_, j2.trans h2, fun hinv => j3 (h5 hinv)⟩
      rw [List.filter_cons]
      by_cases hp : job.IsPending = true
      · simp only [hp, if_true, List.length_cons] at h4 ⊢
        omega
      · simp only [hp, if_false, Bool.false_eq_true] at h4 ⊢
        omega

theorem pq_length_le {σ : Type} (st : State σ)
    (h : NodupKeys st.queueMap ∧ st.pqForQueues.length = st.queueMap.length ∧
      ∀ e ∈ st.queueMap, e.2.UID = e.1 ∧ e.2 ∈ st.sess.Queues.map Prod.snd) :
    st.pqForQueues.length ≤ st.sess.Queues.length := by
  obtain ⟨h1, h2, h3⟩ := h
  rw [h2]
  have hmap : st.queueMap.map (fun e => e.2.UID) = st.queueMap.map (fun e => e.1) :=
    List.map_congr_left (fun e he => (h3 e he).1)
  have hnd : (st.queueMap.map Prod.snd).Nodup := by
    have h4 : ((st.queueMap.map Prod.snd).map (fun q => q.UID)).Nodup := by
      rw [List.map_map]
      show (st.queueMap.map (fun e => e.2.UID)).Nodup
      rw [hmap]
      exact h1
    exact List.Nodup.of_map _ h4
  have hsub : st.queueMap.map Prod.snd ⊆ st.sess.Queues.map Prod.snd := by
    intro q hq
    obtain ⟨e, he, rfl⟩ := List.mem_map.1 hq
    exact (h3 e he).2
  have := (List.subperm_of_subset hnd hsub).length_le
  simpa using this

theorem loopBody_progress {σ : Type} (cb : Callbacks σ) (st st1 : State σ)
    (h : loopBody cb st = (st1, none)) :
    (st1.pqForQueues.length + 1 = st.pqForQueues.length ∧ st1.jobsMap = st.jobsMap) ∨
    (st1.pqForQueues.length = st.pqForQueues.length ∧
      bucketTotal st1.jobsMap + 1 ≤ bucketTotal st.jobsMap) := by
  cases hq : popMin (cb.QueueOrderFn st.plugins) st.pqForQueues with
  | none =>
    rw [loopBody_done cb st hq] at h
    cases h
  | some p =>
    obtain ⟨queue, pq1⟩ := p
    have hlen : st.pqForQueues.length = pq1.length + 1 := by
      have := (popMin_perm _ _ _ _ hq).length_eq
      simpa using this
    have hskip : (mapGet st.jobsMap queue.UID = none ∨ mapGet st.jobsMap queue.UID = some []) →
        (st1.pqForQueues.length + 1 = st.pqForQueues.length ∧ st1.jobsMap = st.jobsMap) := by
      intro hb
      rw [loopBody_skip cb st queue pq1 hq hb] at h
      simp only [Prod.mk.injEq, and_true] at h
      subst h
      exact ⟨by simp only; omega, rfl⟩
    cases hb : mapGet st.jobsMap queue.UID with
    | none => exact Or.inl (hskip (Or.inl hb))
    | some jobs =>
      cases hj : popMin (cb.JobOrderFn st.plugins) jobs with
      | none =>
        rw [(popMin_eq_none _ _).1 hj] at hb
        exact Or.inl (hskip (Or.inr hb))
      | some pj =>
        obtain ⟨job, jobs1⟩ := pj
        have hjl : jobs.length = jobs1.length + 1 := by
          have := (popMin_perm _ _ _ _ hj).length_eq
          simpa using this
        have hbt := bucketTotal_mapDel_le st.jobsMap queue.UID jobs hb
        have hbs := bucketTotal_mapSet st.jobsMap queue.UID jobs1
        cases hpg : job.PodGroup with
        | none =>
          have := (loopBody_panic cb st queue pq1 jobs job jobs1 hq hb hj hpg).1
          rw [h] at this
          cases this
        | some pg =>
          rw [loopBody_job cb st queue pq1 jobs job jobs1 pg hq hb hj hpg] at h
          simp only [Prod.mk.injEq, and_true] at h
          subst h
          refine Or.inr ⟨?_, ?_⟩
          · simp only [afterJob, List.length_append, List.length_singleton]
            omega
          · simp only [afterJob]
            omega

/-- C24: for every session, plugin state and reading of the clock,
`Execute` does not run out of fuel when it is given more units than the
session has pending jobs and queues: the second loop ends, by emptying
`pqForQueues` or by a panic, and the number of queues it pops, one per pass
through its body, is at most the number of pending jobs plus the number of
queues of the session.  Every pass that does not end the loop either takes a
queue out of `pqForQueues` for good and leaves the buckets as they are, or
keeps the number of queues and takes one job out of a bucket. -/
theorem enqueue_terminates {σ : Type} (cb : Callbacks σ) (now : Int) (fuel : Nat)
    (sess : Session) (plugins : σ)
    (hfuel : pendingJobs sess + sess.Queues.length < fuel) :
    (Execute cb now fuel sess plugins).2 ≠ Status.outOfFuel ∧
    queuePops (Execute cb now fuel sess plugins).1.calls ≤
      pendingJobs sess + sess.Queues.length ∧
    ∀ st st1 : State σ, loopBody cb st = (st1, none) →
      (st1.pqForQueues.length + 1 = st.pqForQueues.length ∧ st1.jobsMap = st.jobsMap) ∨
      (st1.pqForQueues.length = st.pqForQueues.length ∧
        bucketTotal st1.jobsMap + 1 ≤ bucketTotal st.jobsMap) := by
  refine (and_assoc.1 ⟨?_, loopBody_progress cb⟩)
  obtain ⟨c1, c2, c3⟩ := collect_frame now sess.Jobs
    ({ sess := sess, plugins := plugins, pqForQueues := [], queueMap := [], jobsMap := [],
       calls := [] } : State σ)
  unfold Execute
  generalize hc : collect now sess.Jobs
    ({ sess := sess, plugins := plugins, pqForQueues := [], queueMap := [], jobsMap := [],
       calls := [] } : State σ) = r at c1 c2 c3
  obtain ⟨st, status⟩ := r
  cases status with
  | outOfFuel => exact absurd rfl c1
  | panic =>
    dsimp only at c2 ⊢
    refine ⟨by simp, ?_⟩
    rw [c2]
    simp [queuePops]
  | done =>
    dsimp only at c2 c3 ⊢
    obtain ⟨d1, d2, d3⟩ := c3 rfl
    have hinv := d3 ⟨by simp [NodupKeys], rfl, by simp⟩
    have hpq := pq_length_le st hinv
    rw [d2] at hpq
    simp only [bucketTotal, List.map_nil, List.sum_nil, zero_add] at d1
    have hb : bucketTotal st.jobsMap ≤ pendingJobs sess := d1
    have := drain_bound cb fuel st (by omega)
    refine ⟨this.1, le_trans this.2 ?_⟩
    rw [c2]
    simp only [queuePops, List.countP_nil, zero_add]
    omega

/-- Witness of C24: the example session has four pending jobs and two queues;
with seven units of fuel the run returns after five passes that pop a queue. -/
theorem enqueue_terminates_witness :
    (Execute exampleCallbacks 5 7 exampleSession 0).2 ≠ Status.outOfFuel ∧
    queuePops (Execute exampleCallbacks 5 7 exampleSession 0).1.calls ≤
      pendingJobs exampleSession + exampleSession.Queues.length :=
  ⟨(enqueue_terminates exampleCallbacks 5 7 exampleSession 0 (by decide)).1,
    (enqueue_terminates exampleCallbacks 5 7 exampleSession 0 (by decide)).2.1⟩

end EnqueueBound


section EnqueueSpec

open Framework Enqueue

theorem bucketed_mapSet (m : List (QueueID × List JobInfo)) (q : QueueID)
    (jobs : List JobInfo) :
    bucketed (mapSet m q jobs) = jobs ++ bucketed (mapDel m q) := by
  simp [bucketed, mapSet]

theorem bucketed_perm (m : List (QueueID × List JobInfo)) (q : QueueID) (jobs : List JobInfo)
    (hn : NodupKeys m) (h : mapGet m q = some jobs) :
    (bucketed m).Perm (jobs ++ bucketed (mapDel m q)) := by
  induction m with
  | nil => simp [mapGet] at h
  | cons e r ih =>
    obtain ⟨k, v⟩ := e
    have hn' : k ∉ r.map (fun p => p.1) ∧ NodupKeys r := by
      unfold NodupKeys at hn ⊢
      simpa using hn
    rw [mapDel_cons]
    by_cases hk : k = q
    · subst hk
      simp only [mapGet, if_true, Option.some.injEq] at h
      subst h
      simp only [ne_eq, not_true_eq_false, decide_False, Bool.false_eq_true, if_false,
        if_true]
      have : mapDel r k = r := mapDel_eq_self ((mapGet_eq_none_iff r k).2 hn'.1)
      rw [this]
      simp [bucketed]
    · simp only [mapGet, hk, if_false] at h
      simp only [hk, if_false]
      have := ih hn'.2 h
      simp only [bucketed, List.flatMap_cons] at this ⊢
      exact (List.Perm.append_left v this).trans
        (by
          rw [← List.append_assoc, ← List.append_assoc]
          exact List.Perm.append_right _ List.perm_append_comm)

theorem mem_bucketed {m : List (QueueID × List JobInfo)} {b : JobInfo} :
    b ∈ bucketed m ↔ ∃ e ∈ m, b ∈ e.2 := by
  simp [bucketed, List.mem_flatMap]

theorem bucketTotal_eq_length (m : List (QueueID × List JobInfo)) :
    bucketTotal m = (bucketed m).length := by
  induction m with
  | nil => rfl
  | cons e r ih =>
    simp only [bucketTotal, bucketed, List.map_cons, List.sum_cons, List.flatMap_cons,
      List.length_append] at ih ⊢
    rw [ih]

/-- What the first loop keeps true: the buckets have distinct keys, a job in a
bucket belongs to the queue the bucket is filed under, a queue of that UID is
in `pqForQueues`, and so is a queue of each UID in `queueMap`. -/
theorem addQueue_pq {σ : Type} (st : State σ) (queue : QueueInfo)
    (hqm : ∀ u, mapGet st.queueMap u ≠ none → ∃ q ∈ st.pqForQueues, q.UID = u) :
    (∀ q ∈ st.pqForQueues, q ∈ (addQueue st queue).pqForQueues) ∧
    (∃ q ∈ (addQueue st queue).pqForQueues, q.UID = queue.UID) ∧
    (∀ u, mapGet (addQueue st queue).queueMap u ≠ none →
      ∃ q ∈ (addQueue st queue).pqForQueues, q.UID = u) := by
  unfold addQueue
  cases hg : mapGet st.queueMap queue.UID with
  | some v =>
    exact ⟨fun q hq => hq, hqm queue.UID (by rw [hg]; simp), hqm⟩
  | none =>
    refine ⟨fun q hq => List.mem_append_left _ hq,
      ⟨queue, List.mem_append_right _ (List.mem_singleton_self _), rfl⟩, ?_⟩
    intro u hu
    simp only [mapGet_mapSet] at hu
    by_cases he : queue.UID = u
    · exact ⟨queue, List.mem_append_right _ (List.mem_singleton_self _), he⟩
    · rw [if_neg he] at hu
      obtain ⟨q, hq, hqu⟩ := hqm u hu
      exact ⟨q, List.mem_append_left _ hq, hqu⟩

theorem addJob_spec {σ : Type} (st : State σ) (job : JobInfo) (hn : NodupKeys st.jobsMap) :
    NodupKeys (addJob st job).jobsMap ∧
    (bucketed (addJob st job).jobsMap).Perm (bucketed st.jobsMap ++ [job]) ∧
    (∀ e ∈ (addJob st job).jobsMap, ∀ b ∈ e.2,
      (b = job ∧ e.1 = job.Queue) ∨ (e.1, (mapGet st.jobsMap e.1).getD []) ∈ st.jobsMap ∧
        b ∈ (mapGet st.jobsMap e.1).getD []) := by
  unfold addJob
  refine ⟨nodupKeys_mapSet hn _ _, ?_, ?_⟩
  · simp only [bucketed_mapSet]
    cases hb : mapGet st.jobsMap job.Queue with
    | none =>
      rw [mapDel_eq_self hb]
      simp only [List.nil_append]
      exact List.perm_append_comm
    | some jobs =>
      have := bucketed_perm st.jobsMap job.Queue jobs hn hb
      simp only
      refine List.Perm.trans ?_ (List.Perm.append_right [job] this.symm)
      rw [List.append_assoc, List.append_assoc]
      exact List.Perm.append_left jobs List.perm_append_comm
  · intro e he b hb
    simp only [mapSet, List.mem_cons] at he
    rcases he with rfl | he
    · simp only at hb
      rcases List.mem_append.1 hb with hb | hb
      · right
        cases hg : mapGet st.jobsMap job.Queue with
        | none => rw [hg] at hb; simp at hb
        | some jobs =>
          rw [hg] at hb
          simp only [Option.getD_some]
          exact ⟨mem_of_mapGet_eq_some hg, hb⟩
      · left
        exact ⟨List.mem_singleton.1 hb, rfl⟩
    · right
      have he' := (mem_mapDel.1 he).1
      have hg := mapGet_eq_some_of_mem hn he'
      rw [hg]
      exact ⟨he', hb⟩

theorem stampJob_found (now : Int) (job : JobInfo) (sess : Session)
    (h : mapGet sess.Jobs job.UID = some job) :
    ∃ sess1, stampJob now job sess = some sess1 ∧ sess1.Queues = sess.Queues ∧
      ∀ k, mapGet sess1.Jobs k =
        if job.UID = k then some (stamped now job) else mapGet sess.Jobs k := by
  unfold stampJob stamped
  by_cases hts : job.ScheduleStartTimestamp = 0
  · rw [if_pos hts, h]
    refine ⟨_, rfl, rfl, ?_⟩
    intro k
    simp only [mapGet_mapSet, hts, if_true]
  · rw [if_neg hts]
    refine ⟨_, rfl, rfl, ?_⟩
    intro k
    by_cases hk : job.UID = k
    · rw [if_pos hk, if_neg hts, ← hk, h]
    · rw [if_neg hk]

theorem stamped_fields (now : Int) (job : JobInfo) :
    (stamped now job).UID = job.UID ∧ (stamped now job).Queue = job.Queue ∧
    (stamped now job).PodGroup = job.PodGroup := by
  unfold stamped
  split <;> exact ⟨rfl, rfl, rfl⟩

end EnqueueSpec

section EnqueueFirstLoop

open Framework Enqueue

theorem eligible_congr (sess sess1 : Session) (h : sess1.Queues = sess.Queues)
    (job : JobInfo) : eligible sess1 job = eligible sess job := by
  unfold eligible
  rw [h]

theorem visit_spec {σ : Type} (now : Int) (job : JobInfo) (st : State σ)
    (hinv : FirstLoopInv st) (hfound : mapGet st.sess.Jobs job.UID = some job)
    (hq : ∀ e ∈ st.sess.Queues, e.2.UID = e.1) :
    ∃ st1, visit now job st = some st1 ∧ FirstLoopInv st1 ∧ st1.calls = st.calls ∧
      st1.plugins = st.plugins ∧ st1.sess.Queues = st.sess.Queues ∧
      (∀ k, mapGet st1.sess.Jobs k =
        if job.UID = k then some (stamped now job) else mapGet st.sess.Jobs k) ∧
      (bucketed st1.jobsMap).Perm
        (bucketed st.jobsMap ++ (if eligible st.sess job then [stamped now job] else [])) := by
  obtain ⟨sess1, hs, hsq, hsj⟩ := stampJob_found now job st.sess hfound
  obtain ⟨i1, i2, i3⟩ := hinv
  obtain ⟨_, hsqueue, _⟩ := stamped_fields now job
  unfold visit
  rw [hs]
  dsimp only
  rw [hsqueue, hsq]
  cases hg : mapGet st.sess.Queues job.Queue with
  | none =>
    refine ⟨_, rfl, ⟨i1, i2, i3⟩, rfl, rfl, hsq, hsj, ?_⟩
    have : eligible st.sess job = false := by
      unfold eligible
      rw [hg]
      simp
    rw [this]
    simp
  | some queue =>
    dsimp only
    have hquid : queue.UID = job.Queue := hq (job.Queue, queue) (mem_of_mapGet_eq_some hg)
    obtain ⟨f1, f2, f3, f4⟩ := addQueue_frame ({ st with sess := sess1 } : State σ) queue
    obtain ⟨p1, p2, p3⟩ := addQueue_pq ({ st with sess := sess1 } : State σ) queue i3
    rw [isPending_stamped]
    by_cases hp : job.IsPending = true
    · rw [if_pos hp]
      have hn : NodupKeys (addQueue ({ st with sess := sess1 } : State σ) queue).jobsMap := by
        rw [f4]; exact i1
      obtain ⟨a1, a2, a3⟩ := addJob_spec
        (addQueue ({ st with sess := sess1 } : State σ) queue) (stamped now job) hn
      have hel : eligible st.sess job = true := by
        unfold eligible
        rw [hg, hp]
        rfl
      refine ⟨_, rfl, ⟨a1, ?_, p3⟩, ?_, ?_, ?_, ?_, ?_⟩
      · intro e he b hb
        rcases a3 e he b hb with ⟨hbj, hej⟩ | ⟨hmem, hbm⟩
        · rw [hbj, hej]
          refine ⟨rfl, ?_⟩
          rw [hsqueue, ← hquid]
          exact p2
        · rw [f4] at hmem hbm
          obtain ⟨h1, q, hqm, hqu⟩ := i2 _ hmem b hbm
          exact ⟨h1, q, p1 q hqm, hqu⟩
      · rw [(addJob_frame _ _).2.1, f2]
      · rw [(addJob_frame _ _).2.2.1, f3]
      · rw [(addJob_frame _ _).1, f1]
        exact hsq
      · rw [(addJob_frame _ _).1, f1]
        exact hsj
      · rw [hel, if_pos rfl]
        rw [f4] at a2
        exact a2
    · rw [if_neg hp]
      have hel : eligible st.sess job = false := by
        unfold eligible
        simp [hp]
      refine ⟨_, rfl, ⟨?_, ?_, p3⟩, f2, f3, ?_, ?_, ?_⟩
      · rw [f4]; exact i1
      · intro e he b hb
        rw [f4] at he
        obtain ⟨h1, q, hqm, hqu⟩ := i2 e he b hb
        exact ⟨h1, q, p1 q hqm, hqu⟩
      · rw [f1]; exact hsq
      · rw [f1]; exact hsj
      · rw [f4, hel]
        simp

theorem collect_spec {σ : Type} (now : Int) :
    ∀ (entries : List (JobID × JobInfo)) (st : State σ),
      FirstLoopInv st → NodupKeys entries →
      (∀ e ∈ entries, e.2.UID = e.1 ∧ mapGet st.sess.Jobs e.1 = some e.2) →
      (∀ e ∈ st.sess.Queues, e.2.UID = e.1) →
      ∃ st1, collect now entries st = (st1, Status.done) ∧ FirstLoopInv st1 ∧
        st1.calls = st.calls ∧ st1.plugins = st.plugins ∧
        st1.sess.Queues = st.sess.Queues ∧
        (∀ k, mapGet st1.sess.Jobs k =
          match mapGet entries k with
          | some j => some (stamped now j)
          | none => mapGet st.sess.Jobs k) ∧
        (bucketed st1.jobsMap).Perm
          (bucketed st.jobsMap ++
            (entries.filter (fun e => eligible st.sess e.2)).map
              (fun e => stamped now e.2)) := by
  intro entries
  induction entries with
  | nil =>
    intro st hinv _ _ _
    exact ⟨st, rfl, hinv, rfl, rfl, rfl, fun k => rfl, by simp⟩
  | cons e rest ih =>
    intro st hinv hnd hent hq
    obtain ⟨k0, job⟩ := e
    have hn' : k0 ∉ rest.map (fun p => p.1) ∧ NodupKeys rest := by
      unfold NodupKeys at hnd ⊢
      simpa using hnd
    obtain ⟨hju, hjf⟩ := hent (k0, job) (List.mem_cons_self _ _)
    simp only at hju hjf
    rw [← hju] at hjf
    obtain ⟨st1, v1, v2, v3, v4, v5, v6, v7⟩ := visit_spec now job st hinv hjf hq
    have hent' : ∀ e ∈ rest, e.2.UID = e.1 ∧ mapGet st1.sess.Jobs e.1 = some e.2 := by
      intro e he
      obtain ⟨h1, h2⟩ := hent e (List.mem_cons_of_mem _ he)
      refine ⟨h1, ?_⟩
      rw [v6]
      have hne : job.UID ≠ e.1 := by
        intro heq
        apply hn'.1
        rw [← hju, heq]
        exact List.mem_map.2 ⟨e, he, rfl⟩
      rw [if_neg hne]
      exact h2
    obtain ⟨st2, c1, c2, c3, c4, c5, c6, c7⟩ := ih st1 v2 hn'.2 hent' (by rw [v5]; exact hq)
    refine ⟨st2, ?_, c2, c3.trans v3, c4.trans v4, c5.trans v5, ?_, ?_⟩
    · unfold collect
      rw [v1]
      exact c1
    · intro k
      rw [c6 k]
      simp only [mapGet]
      by_cases hk : k0 = k
      · rw [if_pos hk]
        have : mapGet rest k = none := by
          rw [mapGet_eq_none_iff, ← hk]
          exact hn'.1
        rw [this]
        simp only
        rw [v6, if_pos (hju.trans hk)]
      · rw [if_neg hk]
        cases mapGet rest k with
        | some j => rfl
        | none =>
          simp only
          rw [v6, if_neg (fun h => hk (hju.symm.trans h))]
    · refine c7.trans ?_
      have hfe : (rest.filter (fun e => eligible st1.sess e.2)) =
          (rest.filter (fun e => eligible st.sess e.2)) := by
        congr 1
        funext e
        exact eligible_congr st.sess st1.sess v5 e.2
      rw [hfe, List.filter_cons]
      by_cases hel : eligible st.sess job = true
      · simp only [hel, if_true, List.map_cons] at v7 ⊢
        refine (List.Perm.append_right _ v7).trans ?_
        simp
      · simp only [hel, if_false, Bool.false_eq_true, List.append_nil] at v7 ⊢
        exact List.Perm.append_right _ v7

end EnqueueFirstLoop

section EnqueueSecondLoop

open Framework Enqueue

theorem filter_callsFor_self (job : JobInfo) (pg : PodGroup) (permit : Bool) :
    (callsFor job pg permit).filter (Call.about job.UID) = callsFor job pg permit := by
  rw [List.filter_eq_self]
  intro c hc
  unfold callsFor at hc
  cases hmr : pg.MinResources <;> cases permit <;> simp [hmr] at hc <;>
    (try rcases hc with rfl | hc) <;> (try rcases hc with rfl | rfl) <;>
    simp [Call.about]

theorem filter_callsFor_ne (job : JobInfo) (pg : PodGroup) (permit : Bool) (k : JobID)
    (h : job.UID ≠ k) : (callsFor job pg permit).filter (Call.about k) = [] := by
  rw [List.filter_eq_nil_iff]
  intro c hc
  unfold callsFor at hc
  cases hmr : pg.MinResources <;> cases permit <;> simp [hmr] at hc <;>
    (try rcases hc with rfl | hc) <;> (try rcases hc with rfl | rfl) <;>
    simp [Call.about, h]

theorem secondLoopInv_skip {σ : Type} (cb : Callbacks σ) (st : State σ) (queue : QueueInfo)
    (pq1 : List QueueInfo) (hinv : SecondLoopInv st)
    (hq : popMin (cb.QueueOrderFn st.plugins) st.pqForQueues = some (queue, pq1))
    (hb : mapGet st.jobsMap queue.UID = none ∨ mapGet st.jobsMap queue.UID = some []) :
    SecondLoopInv ({ st with pqForQueues := pq1,
                             calls := st.calls ++ [Call.PopQueue queue.UID] } : State σ) := by
  obtain ⟨d1, d2, d3, d4⟩ := hinv
  refine ⟨d1, ?_, d3, d4⟩
  intro e he b hbe
  obtain ⟨q, hqm, hqu⟩ := d2 e he b hbe
  have hmem : q ∈ queue :: pq1 := (popMin_perm _ _ _ _ hq).mem_iff.1 hqm
  rcases List.mem_cons.1 hmem with rfl | hmem
  · exfalso
    have hg : mapGet st.jobsMap e.1 = some e.2 := mapGet_eq_some_of_mem d1 he
    rw [← hqu] at hg
    rcases hb with hb | hb
    · rw [hb] at hg; cases hg
    · rw [hb] at hg
      simp only [Option.some.injEq] at hg
      rw [← hg] at hbe
      simp at hbe
  · exact ⟨q, hmem, hqu⟩

theorem secondLoopInv_job {σ : Type} (cb : Callbacks σ) (st : State σ) (queue : QueueInfo)
    (pq1 : List QueueInfo) (jobs : List JobInfo) (job : JobInfo) (jobs1 : List JobInfo)
    (pg : PodGroup) (hinv : SecondLoopInv st)
    (hq : popMin (cb.QueueOrderFn st.plugins) st.pqForQueues = some (queue, pq1))
    (hb : mapGet st.jobsMap queue.UID = some jobs)
    (hj : popMin (cb.JobOrderFn st.plugins) jobs = some (job, jobs1)) :
    (bucketed st.jobsMap).Perm
      (job :: bucketed (afterJob cb st queue pq1 job jobs1 pg).jobsMap) ∧
    SecondLoopInv (afterJob cb st queue pq1 job jobs1 pg) ∧
    (∀ k, job.UID ≠ k →
      mapGet (afterJob cb st queue pq1 job jobs1 pg).sess.Jobs k = mapGet st.sess.Jobs k) ∧
    mapGet (afterJob cb st queue pq1 job jobs1 pg).sess.Jobs job.UID =
      if permitted cb st.plugins job pg then some (inqueue job pg)
      else mapGet st.sess.Jobs job.UID := by
  obtain ⟨d1, d2, d3, d4⟩ := hinv
  have hperm : (bucketed st.jobsMap).Perm
      (job :: bucketed (afterJob cb st queue pq1 job jobs1 pg).jobsMap) := by
    have h1 := bucketed_perm st.jobsMap queue.UID jobs d1 hb
    have h2 := popMin_perm _ _ _ _ hj
    simp only [afterJob, bucketed_mapSet]
    exact h1.trans (List.Perm.append_right _ h2)
  have hframe : ∀ k, job.UID ≠ k →
      mapGet (afterJob cb st queue pq1 job jobs1 pg).sess.Jobs k = mapGet st.sess.Jobs k := by
    intro k hk
    simp only [afterJob]
    split
    · simp only [mapGet_mapSet, if_neg hk]
    · rfl
  have hnd : (job.UID :: (bucketed (afterJob cb st queue pq1 job jobs1 pg).jobsMap).map
      (fun b => b.UID)).Nodup := by
    have := (hperm.map (fun b => b.UID)).nodup_iff.1 d3
    simpa using this
  refine ⟨hperm, ⟨?_, ?_, (List.nodup_cons.1 hnd).2, ?_⟩, hframe, ?_⟩
  · exact nodupKeys_mapSet d1 _ _
  · intro e he b hbe
    simp only [afterJob, mapSet, List.mem_cons] at he ⊢
    rcases he with rfl | he
    · exact ⟨queue, List.mem_append_right _ (List.mem_singleton_self _), rfl⟩
    · obtain ⟨q, hqm, hqu⟩ := d2 e (mem_mapDel.1 he).1 b hbe
      have hmem : q ∈ queue :: pq1 := (popMin_perm _ _ _ _ hq).mem_iff.1 hqm
      refine ⟨q, ?_, hqu⟩
      rcases List.mem_cons.1 hmem with rfl | hmem
      · exact List.mem_append_right _ (List.mem_singleton_self _)
      · exact List.mem_append_left _ hmem
  · intro b hbm
    have hbs : b ∈ bucketed st.jobsMap := hperm.mem_iff.2 (List.mem_cons_of_mem _ hbm)
    obtain ⟨h1, h2⟩ := d4 b hbs
    have hne : job.UID ≠ b.UID := by
      intro heq
      apply (List.nodup_cons.1 hnd).1
      rw [heq]
      exact List.mem_map.2 ⟨b, hbm, rfl⟩
    exact ⟨(hframe b.UID hne).trans h1, h2⟩
  · simp only [afterJob]
    split
    · rename_i hp
      simp only [mapGet_mapSet, if_true]
    · rfl

theorem drain_spec {σ : Type} (cb : Callbacks σ) :
    ∀ (fuel : Nat) (st : State σ), SecondLoopInv st →
      st.pqForQueues.length + bucketTotal st.jobsMap < fuel →
      ∃ st1 new, drain cb fuel st = (st1, Status.done) ∧ st1.calls = st.calls ++ new ∧
        (∀ k, k ∉ (bucketed st.jobsMap).map (fun b => b.UID) →
          mapGet st1.sess.Jobs k = mapGet st.sess.Jobs k ∧ new.filter (Call.about k) = []) ∧
        (∀ b ∈ bucketed st.jobsMap, ∃ pg permit,
          b.PodGroup = some pg ∧ (pg.MinResources = none → permit = true) ∧
          new.filter (Call.about b.UID) = callsFor b pg permit ∧
          mapGet st1.sess.Jobs b.UID = some (if permit then inqueue b pg else b)) := by
  intro fuel
  induction fuel with
  | zero => intro st _ h; omega
  | succ fuel ih =>
    intro st hinv hfuel
    unfold drain
    cases hq : popMin (cb.QueueOrderFn st.plugins) st.pqForQueues with
    | none =>
      rw [loopBody_done cb st hq]
      dsimp only
      have hpq : st.pqForQueues = [] := (popMin_eq_none _ _).1 hq
      refine ⟨st, [], rfl, by simp, fun k _ => ⟨rfl, rfl⟩, ?_⟩
      intro b hb
      obtain ⟨e, he, hbe⟩ := mem_bucketed.1 hb
      obtain ⟨q, hqm, _⟩ := hinv.2.1 e he b hbe
      rw [hpq] at hqm
      simp at hqm
    | some p =>
      obtain ⟨queue, pq1⟩ := p
      have hlen : st.pqForQueues.length = pq1.length + 1 := by
        have := (popMin_perm _ _ _ _ hq).length_eq
        simpa using this
      have hskip : (mapGet st.jobsMap queue.UID = none ∨
          mapGet st.jobsMap queue.UID = some []) →
          ∃ st1 new,
            (match loopBody cb st with
              | (st1, some status) => (st1, status)
              | (st1, none) => drain cb fuel st1) = (st1, Status.done) ∧
            st1.calls = st.calls ++ new ∧
            (∀ k, k ∉ (bucketed st.jobsMap).map (fun b => b.UID) →
              mapGet st1.sess.Jobs k = mapGet st.sess.Jobs k ∧
              new.filter (Call.about k) = []) ∧
            (∀ b ∈ bucketed st.jobsMap, ∃ pg permit,
              b.PodGroup = some pg ∧ (pg.MinResources = none → permit = true) ∧
              new.filter (Call.about b.UID) = callsFor b pg permit ∧
              mapGet st1.sess.Jobs b.UID = some (if permit then inqueue b pg else b)) := by
        intro hb
        rw [loopBody_skip cb st queue pq1 hq hb]
        dsimp only
        obtain ⟨st1, new, e1, e2, e3, e4⟩ :=
          ih _ (secondLoopInv_skip cb st queue pq1 hinv hq hb) (by dsimp only; omega)
        refine ⟨st1, [Call.PopQueue queue.UID] ++ new, e1, ?_, ?_, ?_⟩
        · rw [e2, List.append_assoc]
        · intro k hk
          obtain ⟨f1, f2⟩ := e3 k hk
          refine ⟨f1, ?_⟩
          rw [List.filter_append, f2]
          simp [Call.about]
        · intro b hb
          obtain ⟨pg, permit, g1, g2, g3, g4⟩ := e4 b hb
          refine ⟨pg, permit, g1, g2, ?_, g4⟩
          rw [List.filter_append, g3]
          simp [Call.about]
      cases hb : mapGet st.jobsMap queue.UID with
      | none => exact hskip (Or.inl hb)
      | some jobs =>
        cases hj : popMin (cb.JobOrderFn st.plugins) jobs with
        | none =>
          rw [(popMin_eq_none _ _).1 hj] at hb
          exact hskip (Or.inr hb)
        | some pj =>
          obtain ⟨job, jobs1⟩ := pj
          have hjmem : job ∈ bucketed st.jobsMap :=
            mem_bucketed.2 ⟨(queue.UID, jobs), mem_of_mapGet_eq_some hb,
              (popMin_perm _ _ _ _ hj).mem_iff.2 (List.mem_cons_self _ _)⟩
          obtain ⟨hjget, hjpg⟩ := hinv.2.2.2 job hjmem
          obtain ⟨pg, hpg⟩ := Option.ne_none_iff_exists'.1 hjpg
          obtain ⟨hperm, hinv', hframe, hself⟩ :=
            secondLoopInv_job cb st queue pq1 jobs job jobs1 pg hinv hq hb hj
          have hjl : jobs.length = jobs1.length + 1 := by
            have := (popMin_perm _ _ _ _ hj).length_eq
            simpa using this
          have hbt := bucketTotal_mapDel_le st.jobsMap queue.UID jobs hb
          have hbs := bucketTotal_mapSet st.jobsMap queue.UID jobs1
          rw [loopBody_job cb st queue pq1 jobs job jobs1 pg hq hb hj hpg]
          dsimp only
          obtain ⟨st1, new, e1, e2, e3, e4⟩ :=
            ih (afterJob cb st queue pq1 job jobs1 pg) hinv'
              (by
                simp only [afterJob, List.length_append, List.length_singleton]
                omega)
          have hnd : (job.UID :: (bucketed (afterJob cb st queue pq1 job jobs1 pg).jobsMap).map
              (fun b => b.UID)).Nodup := by
            have := (hperm.map (fun b => b.UID)).nodup_iff.1 hinv.2.2.1
            simpa using this
          have hjnot := (List.nodup_cons.1 hnd).1
          refine ⟨st1, [Call.PopQueue queue.UID] ++
            callsFor job pg (permitted cb st.plugins job pg) ++ new, e1, ?_, ?_, ?_⟩
          · rw [e2]
            simp only [afterJob, List.append_assoc]
          · intro k hk
            have hkj : job.UID ≠ k := by
              intro heq
              apply hk
              rw [← heq]
              exact List.mem_map.2 ⟨job, hjmem, rfl⟩
            have hk' : k ∉ (bucketed (afterJob cb st queue pq1 job jobs1 pg).jobsMap).map
                (fun b => b.UID) := by
              intro hmem
              apply hk
              obtain ⟨b, hbm, hbu⟩ := List.mem_map.1 hmem
              exact List.mem_map.2 ⟨b, hperm.mem_iff.2 (List.mem_cons_of_mem _ hbm), hbu⟩
            obtain ⟨f1, f2⟩ := e3 k hk'
            refine ⟨f1.trans (hframe k hkj), ?_⟩
            rw [List.filter_append, List.filter_append, f2, filter_callsFor_ne job pg _ k hkj]
            simp [Call.about]
          · intro b hbm
            rcases List.mem_cons.1 (hperm.mem_iff.1 hbm) with rfl | hbm'
            · obtain ⟨f1, f2⟩ := e3 b.UID hjnot
              refine ⟨pg, permitted cb st.plugins b pg, hpg, ?_, ?_, ?_⟩
              · intro hmr
                unfold permitted
                rw [hmr]
              · rw [List.filter_append, List.filter_append, f2, filter_callsFor_self]
                simp [Call.about]
              · rw [f1, hself]
                cases permitted cb st.plugins b pg
                · simp only [Bool.false_eq_true, if_false]
                  exact hjget
                · simp only [if_true]
            · obtain ⟨pg', permit, g1, g2, g3, g4⟩ := e4 b hbm'
              have hne : job.UID ≠ b.UID := by
                intro heq
                apply hjnot
                rw [heq]
                exact List.mem_map.2 ⟨b, hbm', rfl⟩
              refine ⟨pg', permit, g1, g2, ?_, g4⟩
              rw [List.filter_append, List.filter_append, g3,
                filter_callsFor_ne job pg _ b.UID hne]
              simp [Call.about]

end EnqueueSecondLoop

section EnqueueMain

open Framework Enqueue

theorem callsFor_facts (b : JobInfo) (pg : PodGroup) (permit : Bool) :
    (callsFor b pg permit).count (Call.PopJob b.UID) = 1 ∧
    (callsFor b pg permit).count (Call.JobEnqueued b.UID) = (if permit then 1 else 0) ∧
    (Call.JobEnqueuable b.UID true ∈ callsFor b pg permit ↔
      (pg.MinResources ≠ none ∧ permit = true)) := by
  unfold callsFor
  cases hmr : pg.MinResources <;> cases permit <;> simp [List.count_cons]

theorem mem_filter_about {calls : List Call} {c : Call} {k : JobID}
    (h : Call.about k c = true) : c ∈ calls ↔ c ∈ calls.filter (Call.about k) := by
  simp [List.mem_filter, h]

/-- C23 (as stated, refuted): a pending job without pod group, whose queue is
a queue of the session, is popped, and then `Execute` panics on reading the
minimal resources of its pod group. -/
theorem enqueue_panics_without_podGroup :
    (Execute exampleCallbacks 5 9 noPodGroupSession 0).2 = Status.panic ∧
    (Execute exampleCallbacks 5 9 noPodGroupSession 0).1.calls =
      [Call.PopQueue "q1", Call.PopJob "a"] ∧
    (∃ j, mapGet noPodGroupSession.Jobs "a" = some j ∧ j.IsPending = true ∧
      (mapGet noPodGroupSession.Queues j.Queue).isSome = true) := by
  refine ⟨by decide, by decide, _, rfl, by decide, by decide⟩

/-- C23 (amended): let the jobs and the queues of the session be filed under
their UIDs, let every pending job have a pod group, and let the fuel exceed the
number of pending jobs plus the number of queues.  Then `Execute` returns.  A
job that was pending and whose queue is a queue of the session was popped
exactly once; it is enqueued if and only if its pod group asks for no minimal
resources or `JobEnqueuable` permitted it; `JobEnqueued` was called for it,
once, exactly when it is enqueued; and its phase is `Inqueue` exactly when it
is enqueued.  Every other job is as it was but for the schedule start time,
and nothing was called for it. -/
theorem enqueue_spec {σ : Type} (cb : Callbacks σ) (now : Int) (fuel : Nat)
    (sess : Session) (plugins : σ)
    (hjobs : NodupKeys sess.Jobs) (hjuid : ∀ e ∈ sess.Jobs, e.2.UID = e.1)
    (hquid : ∀ e ∈ sess.Queues, e.2.UID = e.1)
    (hpg : ∀ e ∈ sess.Jobs, e.2.IsPending = true → e.2.PodGroup ≠ none)
    (hfuel : pendingJobs sess + sess.Queues.length < fuel) :
    ∃ st, Execute cb now fuel sess plugins = (st, Status.done) ∧
      ∀ k j, mapGet sess.Jobs k = some j →
        ((j.IsPending = true ∧ mapGet sess.Queues j.Queue ≠ none) →
          ∃ pg permit, j.PodGroup = some pg ∧
            st.calls.count (Call.PopJob k) = 1 ∧
            (permit = true ↔
              (pg.MinResources = none ∨ Call.JobEnqueuable k true ∈ st.calls)) ∧
            (Call.JobEnqueued k ∈ st.calls ↔ permit = true) ∧
            st.calls.count (Call.JobEnqueued k) ≤ 1 ∧
            mapGet st.sess.Jobs k =
              some (if permit then inqueue (stamped now j) pg else stamped now j) ∧
            ((∃ j1 pg1, mapGet st.sess.Jobs k = some j1 ∧ j1.PodGroup = some pg1 ∧
                pg1.Phase = "Inqueue") ↔ permit = true)) ∧
        (¬ (j.IsPending = true ∧ mapGet sess.Queues j.Queue ≠ none) →
          mapGet st.sess.Jobs k = some (stamped now j) ∧
          st.calls.filter (Call.about k) = []) := by
  have hinv0 : FirstLoopInv (⟨sess, plugins, [], [], [], []⟩ : State σ) :=
    ⟨by simp [NodupKeys], by simp, by simp [mapGet]⟩
  obtain ⟨st1, c1, c2, c3, c4, c5, c6, c7⟩ := collect_spec now sess.Jobs
    (⟨sess, plugins, [], [], [], []⟩ : State σ) hinv0 hjobs
    (fun e he => ⟨hjuid e he, mapGet_eq_some_of_mem hjobs he⟩) hquid
  simp only [bucketed, List.flatMap_nil, List.nil_append] at c7
  have c7' : (bucketed st1.jobsMap).Perm
      ((sess.Jobs.filter (fun e => eligible sess e.2)).map (fun e => stamped now e.2)) := c7
  -- the measure after the first loop
  obtain ⟨_, _, b3⟩ := collect_frame now sess.Jobs
    (⟨sess, plugins, [], [], [], []⟩ : State σ)
  rw [c1] at b3
  obtain ⟨d1, d2, d3⟩ := b3 rfl
  have hqinv := d3 ⟨by simp [NodupKeys], rfl, by simp⟩
  have hpq : st1.pqForQueues.length ≤ sess.Queues.length := by
    have h := pq_length_le st1 hqinv
    rw [c5] at h
    exact h
  have hbt : bucketTotal st1.jobsMap ≤ pendingJobs sess := by
    have h : bucketTotal st1.jobsMap ≤
        bucketTotal [] + (sess.Jobs.filter (fun e => e.2.IsPending)).length := d1
    simp only [bucketTotal, List.map_nil, List.sum_nil, zero_add] at h
    exact h
  -- membership in the buckets
  have hmemb : ∀ b, b ∈ bucketed st1.jobsMap ↔
      ∃ e ∈ sess.Jobs, eligible sess e.2 = true ∧ b = stamped now e.2 := by
    intro b
    rw [c7'.mem_iff, List.mem_map]
    constructor
    · rintro ⟨e, he, rfl⟩
      exact ⟨e, (List.mem_filter.1 he).1, (List.mem_filter.1 he).2, rfl⟩
    · rintro ⟨e, he, hel, rfl⟩
      exact ⟨e, List.mem_filter.2 ⟨he, hel⟩, rfl⟩
  have hinv2 : SecondLoopInv st1 := by
    refine ⟨c2.1, fun e he b hb => (c2.2.1 e he b hb).2, ?_, ?_⟩
    · rw [(c7'.map (fun b => b.UID)).nodup_iff, List.map_map]
      have hm : (sess.Jobs.filter (fun e => eligible sess e.2)).map
          ((fun b => b.UID) ∘ fun e => stamped now e.2) =
          (sess.Jobs.filter (fun e => eligible sess e.2)).map (fun e => e.1) := by
        apply List.map_congr_left
        intro e he
        simp only [Function.comp]
        rw [(stamped_fields now e.2).1]
        exact hjuid e (List.mem_filter.1 he).1
      rw [hm]
      exact (List.Sublist.map _ (List.filter_sublist _)).nodup hjobs
    · intro b hb
      obtain ⟨e, he, hel, rfl⟩ := (hmemb b).1 hb
      have hu : (stamped now e.2).UID = e.1 := by
        rw [(stamped_fields now e.2).1]; exact hjuid e he
      refine ⟨?_, ?_⟩
      · rw [hu, c6, mapGet_eq_some_of_mem hjobs he]
      · rw [(stamped_fields now e.2).2.2]
        apply hpg e he
        unfold eligible at hel
        simp only [Bool.and_eq_true] at hel
        exact hel.1
  obtain ⟨st2, new, e1, e2, e3, e4⟩ := drain_spec cb fuel st1 hinv2 (by omega)
  rw [c3] at e2
  simp only [List.nil_append] at e2
  refine ⟨st2, ?_, ?_⟩
  · unfold Execute
    rw [c1]
    exact e1
  · intro k j hj
    have hjmem : (k, j) ∈ sess.Jobs := mem_of_mapGet_eq_some hj
    have hju : j.UID = k := hjuid (k, j) hjmem
    have hel_iff : eligible sess j = true ↔
        (j.IsPending = true ∧ mapGet sess.Queues j.Queue ≠ none) := by
      unfold eligible
      simp only [Bool.and_eq_true, Option.isSome_iff_ne_none]
    constructor
    · intro hcond
      have hel := hel_iff.2 hcond
      have hb : stamped now j ∈ bucketed st1.jobsMap := (hmemb _).2 ⟨(k, j), hjmem, hel, rfl⟩
      obtain ⟨pg, permit, g1, g2, g3, g4⟩ := e4 _ hb
      have hbu : (stamped now j).UID = k := by rw [(stamped_fields now j).1]; exact hju
      rw [(stamped_fields now j).2.2] at g1
      rw [hbu] at g3 g4
      rw [← e2] at g3
      obtain ⟨k1, k2, k3⟩ := callsFor_facts (stamped now j) pg permit
      rw [hbu] at k1 k2 k3
      refine ⟨pg, permit, g1, ?_, ?_, ?_, ?_, g4, ?_⟩
      · rw [← List.count_filter (p := Call.about k) (by simp [Call.about]), g3]
        exact k1
      · constructor
        · intro hp
          cases hmr : pg.MinResources with
          | none => exact Or.inl rfl
          | some mr =>
            right
            rw [mem_filter_about (k := k) (by simp [Call.about]), g3, k3]
            exact ⟨by rw [hmr]; simp, hp⟩
        · rintro (hmr | hmem)
          · exact g2 hmr
          · rw [mem_filter_about (k := k) (by simp [Call.about]), g3, k3] at hmem
            exact hmem.2
      · rw [mem_filter_about (k := k) (by simp [Call.about]), g3, ← List.count_pos_iff, k2]
        cases permit <;> simp
      · rw [← List.count_filter (p := Call.about k) (by simp [Call.about]), g3, k2]
        cases permit <;> simp
      · rw [g4]
        cases permit with
        | true =>
          simp only [if_true, iff_true]
          exact ⟨_, _, rfl, rfl, rfl⟩
        | false =>
          simp only [Bool.false_eq_true, if_false, iff_false]
          rintro ⟨j1, pg1, h1, h2, h3⟩
          simp only [Option.some.injEq] at h1
          subst h1
          rw [(stamped_fields now j).2.2, g1] at h2
          simp only [Option.some.injEq] at h2
          subst h2
          have hpend := hcond.1
          unfold JobInfo.IsPending at hpend
          rw [g1] at hpend
          simp only [Bool.or_eq_true, decide_eq_true_eq] at hpend
          rw [h3] at hpend
          rcases hpend with h | h <;> simp at h
    · intro hcond
      have hnel : ¬ eligible sess j = true := fun h => hcond (hel_iff.1 h)
      have hk : k ∉ (bucketed st1.jobsMap).map (fun b => b.UID) := by
        intro hmem
        obtain ⟨b, hb, hbu⟩ := List.mem_map.1 hmem
        obtain ⟨e, he, hel, rfl⟩ := (hmemb b).1 hb
        rw [(stamped_fields now e.2).1, hjuid e he] at hbu
        have hg := mapGet_eq_some_of_mem hjobs he
        rw [hbu, hj] at hg
        simp only [Option.some.injEq] at hg
        rw [← hg] at hel
        exact hnel hel
      obtain ⟨f1, f2⟩ := e3 k hk
      rw [← e2] at f2
      refine ⟨?_, f2⟩
      rw [f1, c6, hj]

/-- Witness of C23 (amended): the example session, whose jobs `a`, `b` and `c`
are pending in the queue `q1`. -/
theorem enqueue_spec_witness :
    ∃ st, Execute exampleCallbacks 5 7 exampleSession 0 = (st, Status.done) ∧
      ∀ k j, mapGet exampleSession.Jobs k = some j →
        ((j.IsPending = true ∧ mapGet exampleSession.Queues j.Queue ≠ none) →
          ∃ pg permit, j.PodGroup = some pg ∧
            st.calls.count (Call.PopJob k) = 1 ∧
            (permit = true ↔
              (pg.MinResources = none ∨ Call.JobEnqueuable k true ∈ st.calls)) ∧
            (Call.JobEnqueued k ∈ st.calls ↔ permit = true) ∧
            st.calls.count (Call.JobEnqueued k) ≤ 1 ∧
            mapGet st.sess.Jobs k =
              some (if permit then inqueue (stamped 5 j) pg else stamped 5 j) ∧
            ((∃ j1 pg1, mapGet st.sess.Jobs k = some j1 ∧ j1.PodGroup = some pg1 ∧
                pg1.Phase = "Inqueue") ↔ permit = true)) ∧
        (¬ (j.IsPending = true ∧ mapGet exampleSession.Queues j.Queue ≠ none) →
          mapGet st.sess.Jobs k = some (stamped 5 j) ∧
          st.calls.filter (Call.about k) = []) :=
  enqueue_spec exampleCallbacks 5 7 exampleSession 0 (by decide) (by decide) (by decide)
    (by decide) (by decide)

end EnqueueMain


/-! ## Sharding between schedulers -/

section ShardingTheorems

open Sharding

theorem digitChar_facts : ∀ d, d < 10 →
    Nat.digitChar d ≠ '-' ∧ (Nat.digitChar d).toNat - 48 = d := by
  decide

theorem toDigitsCore_no_dash :
    ∀ (fuel n : Nat) (ds : List Char), (∀ c ∈ ds, c ≠ '-') →
      ∀ c ∈ Nat.toDigitsCore 10 fuel n ds, c ≠ '-' := by
  intro fuel
  induction fuel with
  | zero => intro n ds h c hc; exact h c (by simpa [Nat.toDigitsCore] using hc)
  | succ fuel ih =>
    intro n ds h c hc
    unfold Nat.toDigitsCore at hc
    have hd : ∀ c ∈ Nat.digitChar (n % 10) :: ds, c ≠ '-' := by
      intro c hc
      rcases List.mem_cons.1 hc with rfl | hc
      · exact (digitChar_facts (n % 10) (Nat.mod_lt _ (by decide))).1
      · exact h c hc
    simp only at hc
    split at hc
    · exact hd c hc
    · exact ih _ _ hd c hc

/-- The number a list of decimal digits denotes. -/
theorem foldl_digits_shift (ds : List Char) :
    ∀ a : Nat, ds.foldl (fun acc c => acc * 10 + (c.toNat - 48)) a =
      a * 10 ^ ds.length + ds.foldl (fun acc c => acc * 10 + (c.toNat - 48)) 0 := by
  induction ds with
  | nil => intro a; simp
  | cons d r ih =>
    intro a
    simp only [List.foldl_cons, List.length_cons]
    rw [ih (a * 10 + (d.toNat - 48)), ih (0 * 10 + (d.toNat - 48))]
    ring

theorem toDigitsCore_value :
    ∀ (fuel n : Nat) (ds : List Char), n < fuel →
      (Nat.toDigitsCore 10 fuel n ds).foldl (fun acc c => acc * 10 + (c.toNat - 48)) 0 =
        n * 10 ^ ds.length + ds.foldl (fun acc c => acc * 10 + (c.toNat - 48)) 0 := by
  intro fuel
  induction fuel with
  | zero => intro n ds h; omega
  | succ fuel ih =>
    intro n ds h
    unfold Nat.toDigitsCore
    have hv := (digitChar_facts (n % 10) (Nat.mod_lt _ (by decide))).2
    simp only
    split
    · rename_i h0
      simp only [List.foldl_cons, Nat.zero_mul, Nat.zero_add]
      rw [foldl_digits_shift, hv]
      have : n % 10 = n := by omega
      rw [this]
    · rename_i h0
      rw [ih (n / 10) _ (by omega)]
      simp only [List.length_cons, List.foldl_cons, Nat.zero_mul, Nat.zero_add]
      rw [foldl_digits_shift ds ((Nat.digitChar (n % 10)).toNat - 48), hv]
      have h1 : n / 10 * 10 ^ (ds.length + 1) = (n / 10 * 10) * 10 ^ ds.length := by ring
      rw [h1]
      have h2 : n / 10 * 10 + n % 10 = n := by omega
      calc n / 10 * 10 * 10 ^ ds.length +
            (n % 10 * 10 ^ ds.length +
              ds.foldl (fun acc c => acc * 10 + (c.toNat - 48)) 0)
          = (n / 10 * 10 + n % 10) * 10 ^ ds.length +
              ds.foldl (fun acc c => acc * 10 + (c.toNat - 48)) 0 := by ring
        _ = n * 10 ^ ds.length + ds.foldl (fun acc c => acc * 10 + (c.toNat - 48)) 0 := by
            rw [h2]

theorem toString_data (i : Nat) : (toString i).data = Nat.toDigits 10 i := rfl

theorem toString_no_dash (i : Nat) : ∀ c ∈ (toString i).data, c ≠ '-' := by
  rw [toString_data]
  exact toDigitsCore_no_dash _ _ _ (by simp)

theorem toString_injective (i j : Nat) (h : toString i = toString j) : i = j := by
  have hi := toDigitsCore_value (i + 1) i [] (by omega)
  have hj := toDigitsCore_value (j + 1) j [] (by omega)
  have hd : Nat.toDigits 10 i = Nat.toDigits 10 j := by
    rw [← toString_data, ← toString_data, h]
  unfold Nat.toDigits at hd
  rw [hd, hj] at hi
  simpa using hi.symm

theorem podName_data (base : String) (i : Nat) :
    (podName base i).data = base.data ++ '-' :: (toString i).data := by
  simp [podName, String.data_append]

theorem podName_injective (base : String) (i j : Nat) (h : podName base i = podName base j) :
    i = j := by
  have hd : (podName base i).data = (podName base j).data := by rw [h]
  rw [podName_data, podName_data] at hd
  have h2 := List.append_cancel_left hd
  simp only [List.cons.injEq, true_and] at h2
  apply toString_injective
  exact String.ext h2

theorem lastIndexFrom_no_dash (ds : List Char) (h : ∀ c ∈ ds, c ≠ '-') :
    ∀ i best : Int, lastIndexFrom ds i best = best := by
  induction ds with
  | nil => intro i best; rfl
  | cons d r ih =>
    intro i best
    unfold lastIndexFrom
    rw [if_neg (h d (List.mem_cons_self _ _))]
    exact ih (fun c hc => h c (List.mem_cons_of_mem _ hc)) _ _

theorem lastIndexFrom_append (ds : List Char) (h : ∀ c ∈ ds, c ≠ '-') (xs : List Char) :
    ∀ i best : Int, lastIndexFrom (xs ++ '-' :: ds) i best = i + xs.length := by
  induction xs with
  | nil =>
    intro i best
    simp only [List.nil_append, lastIndexFrom, if_true, List.length_nil, Nat.cast_zero,
      add_zero]
    exact lastIndexFrom_no_dash ds h _ _
  | cons x r ih =>
    intro i best
    rw [List.cons_append]
    unfold lastIndexFrom
    rw [ih]
    simp only [List.length_cons, Nat.cast_add, Nat.cast_one]
    ring

theorem lastIndex_podName (base : String) (i : Nat) :
    lastIndex (podName base i) = base.data.length := by
  unfold lastIndex
  rw [podName_data, lastIndexFrom_append _ (toString_no_dash i)]
  simp

theorem addNames_eq (base : String) :
    ∀ (n i : Nat) (c : Consistent),
      addNames base n i c = ⟨c.members ++ (List.range' i n).map (podName base)⟩ := by
  intro n
  induction n with
  | zero => intro i c; simp [addNames]
  | succ n ih =>
    intro i c
    unfold addNames
    rw [ih]
    simp [Consistent.Add, List.range'_succ, podName]

theorem getMultiSchedulerInfo_envOf (base : String) (n i : Nat) :
    getMultiSchedulerInfo (envOf base n i) = some (podName base i, some (ringOf base n)) := by
  unfold getMultiSchedulerInfo envOf
  simp only [if_true, lastIndex_podName]
  rw [if_neg (by omega)]
  have hb : (⟨(podName base i).data.take ((base.data.length : Int)).toNat⟩ : String) = base := by
    apply String.ext
    simp [podName_data]
  rw [hb, addNames_eq]
  simp [Consistent.New, ringOf, List.range_eq_range']

theorem get_ringOf (pick : List String → String → Nat) (base : String) (n : Nat) (hn : 1 ≤ n)
    (key : String) :
    ∃ j, j < n ∧ (ringOf base n).Get pick key = (podName base j, none) := by
  unfold Consistent.Get
  have hlen : ((List.range n).map (podName base)).length = n := by simp
  have hmem : (ringOf base n).members = (List.range n).map (podName base) := rfl
  cases hm : (ringOf base n).members with
  | nil =>
    rw [hmem] at hm
    rw [hm] at hlen
    simp at hlen
    omega
  | cons m ms =>
    dsimp only
    rw [hmem] at hm
    have hl : ms.length + 1 = n := by
      rw [hm] at hlen
      simpa using hlen
    have hlt : pick (m :: ms) key % (ms.length + 1) < n := by
      rw [hl]; exact Nat.mod_lt _ (by omega)
    refine ⟨pick (m :: ms) key % (ms.length + 1), hlt, ?_⟩
    have hget : (m :: ms)[pick (m :: ms) key % (ms.length + 1)]? =
        some (podName base (pick (m :: ms) key % (ms.length + 1))) := by
      generalize pick (m :: ms) key % (ms.length + 1) = idx at hlt ⊢
      rw [← hm, List.getElem?_map, List.getElem?_range hlt]
      rfl
    rw [List.getD_eq_getElem?_getD, hget]
    rfl

/-- C27: with sharding on, scheduler `i` of `n ≥ 1` schedulers named
`base-0 … base-(n-1)` gets from `getMultiSchedulerInfo` its pod name and the
ring of these `n` names; for every node name, every pod group and every pod
whose scheduler name matches, exactly one of the `n` schedulers is
responsible, whichever member the ring hashes a key to.  Without a ring every
scheduler is responsible for every node and every pod group; and with or
without a ring no scheduler is responsible for a pod of another scheduler
name. -/
theorem sharding_exactly_one (pick : List String → String → Nat) (base : String) (n : Nat)
    (hn : 1 ≤ n) :
    (∀ i, getMultiSchedulerInfo (envOf base n i) =
      some (podName base i, some (ringOf base n))) ∧
    (∀ nodeName : String, ∃! j, j < n ∧
      responsibleForNode pick nodeName (podName base j) (some (ringOf base n)) = true) ∧
    (∀ pg : Sharding.PodGroup, ∃! j, j < n ∧
      responsibleForPodGroup pick pg (podName base j) (some (ringOf base n)) = true) ∧
    (∀ (pod : Sharding.Pod) (schedulerName : String), schedulerName = pod.SchedulerName →
      ∃! j, j < n ∧
        responsibleForPod pick pod schedulerName (podName base j) (some (ringOf base n))
          = true) ∧
    (∀ nodeName my, responsibleForNode pick nodeName my none = true) ∧
    (∀ pg my, responsibleForPodGroup pick pg my none = true) ∧
    (∀ (pod : Sharding.Pod) (schedulerName my : String) (c : Option Consistent),
      schedulerName ≠ pod.SchedulerName →
      responsibleForPod pick pod schedulerName my c = false) := by
  have key : ∀ k : String, ∃! j, j < n ∧
      (if ((ringOf base n).Get pick k).1 ≠ podName base j then false else true) = true := by
    intro k
    obtain ⟨j, hj, hget⟩ := get_ringOf pick base n hn k
    refine ⟨j, ⟨hj, by rw [hget]; simp⟩, ?_⟩
    rintro j' ⟨_, h⟩
    rw [hget] at h
    simp only [ne_eq, ite_not, Bool.if_false_right, Bool.and_true, decide_eq_true_eq] at h
    exact (podName_injective base j j' h).symm
  refine ⟨getMultiSchedulerInfo_envOf base n, ?_, ?_, ?_, fun _ _ => rfl, fun _ _ => rfl, ?_⟩
  · intro nodeName
    exact key nodeName
  · intro pg
    exact key pg.key
  · intro pod schedulerName hs
    have := key pod.key
    simp only [responsibleForPod, hs, ne_eq, not_true_eq_false, if_false]
    exact this
  · intro pod schedulerName my c hne
    simp only [responsibleForPod, ne_eq, hne, not_false_eq_true, if_true]

/-- Witness of C27: three schedulers `vc-sched-0`, `vc-sched-1`, `vc-sched-2`
and a ring that hashes a key to the member at the length of the key. -/
theorem sharding_exactly_one_witness :
    getMultiSchedulerInfo (envOf "vc-sched" 3 1) =
      some ("vc-sched-1", some ⟨["vc-sched-0", "vc-sched-1", "vc-sched-2"]⟩) ∧
    ∃! j, j < 3 ∧
      responsibleForNode (fun _ k => k.length) "node-12" (podName "vc-sched" j)
        (some (ringOf "vc-sched" 3)) = true :=
  ⟨(sharding_exactly_one (fun _ k => k.length) "vc-sched" 3 (by decide)).1 1,
    (sharding_exactly_one (fun _ k => k.length) "vc-sched" 3 (by decide)).2.1 "node-12"⟩

end ShardingTheorems

/-! ## The session operation `Allocate` -/

section AllocateTheorems

open Framework JobInfo

theorem mapSet_mapSet {κ α : Type} [DecidableEq κ] (m : List (κ × α)) (k : κ) (v w : α) :
    mapSet (mapSet m k v) k w = mapSet m k w := by
  show (k, w) :: mapDel (mapSet m k v) k = (k, w) :: mapDel m k
  rw [mapDel_mapSet]

theorem UpdateTaskStatus_ok (ji : JobInfo) (task : TaskInfo) (status : TaskStatus)
    (hv : validateStatusUpdate task.Status status = .ok ()) :
    ji.UpdateTaskStatus task status =
      (((ji.DeleteTaskInfo task).1.AddTaskInfo { task with Status := status },
        { task with Status := status }), none) := by
  unfold UpdateTaskStatus
  rw [hv]
  simp only
  cases hf : mapGet ji.Tasks task.UID with
  | none => simp [DeleteTaskInfo_not_found hf]
  | some t => simp [(DeleteTaskInfo_found hf).1]

theorem UpdateTaskStatus_err (ji : JobInfo) (task : TaskInfo) (status : TaskStatus)
    (e : JobError) (hv : validateStatusUpdate task.Status status = .error e) :
    ji.UpdateTaskStatus task status = ((ji, task), some e) := by
  unfold UpdateTaskStatus
  rw [hv]

theorem Tasks_update {ji : JobInfo} (h : WellFormed ji) (task t1 : TaskInfo)
    (hu : t1.UID = task.UID) (u : TaskID) :
    mapGet ((ji.DeleteTaskInfo task).1.AddTaskInfo t1).Tasks u =
      if task.UID = u then some t1 else mapGet ji.Tasks u := by
  rw [AddTaskInfo_Tasks, mapGet_mapSet, hu]
  by_cases hc : task.UID = u
  · rw [if_pos hc, if_pos hc]
  · rw [if_neg hc, if_neg hc]
    cases hf : mapGet ji.Tasks task.UID with
    | none => rw [DeleteTaskInfo_not_found hf]
    | some t =>
      obtain ⟨-, hT, -, -, -⟩ := DeleteTaskInfo_found hf
      rw [hT, mapGet_mapDel, h.keyUID _ _ hf, if_neg hc]

theorem wellFormed_update {ji : JobInfo} (h : WellFormed ji) (task t1 : TaskInfo)
    (hu : t1.UID = task.UID) :
    WellFormed ((ji.DeleteTaskInfo task).1.AddTaskInfo t1) := by
  apply wellFormed_AddTaskInfo (wellFormed_DeleteTaskInfo h task)
  rw [hu]
  exact Tasks_DeleteTaskInfo_none h task

theorem setNodeName_AddTaskInfo (r : JobInfo) (t : TaskInfo) (hostname : String) :
    setNodeName (r.AddTaskInfo t) t hostname = r.AddTaskInfo { t with NodeName := hostname } := by
  unfold setNodeName AddTaskInfo addTaskIndex
  by_cases ha : AllocatedStatus t.Status = true
  · simp [ha, mapSet_mapSet, mapGet_mapSet]
  · simp [ha, mapSet_mapSet, mapGet_mapSet]

theorem allocated_eq (job : JobInfo) (task : TaskInfo) (hostname : String) :
    allocated job task hostname =
      match validateStatusUpdate task.Status TaskStatus.Allocated with
      | .error _ => none
      | .ok _ =>
        some ((job.DeleteTaskInfo task).1.AddTaskInfo
            { task with Pod := { task.Pod with NodeName := hostname },
                        NodeName := hostname, Status := TaskStatus.Allocated },
          { task with Pod := { task.Pod with NodeName := hostname },
                      NodeName := hostname, Status := TaskStatus.Allocated }) := by
  unfold allocated
  cases hv : validateStatusUpdate task.Status TaskStatus.Allocated with
  | error e =>
    simp only
    rw [UpdateTaskStatus_err job { task with Pod := { task.Pod with NodeName := hostname } }
      TaskStatus.Allocated e hv]
  | ok u =>
    simp only
    rw [UpdateTaskStatus_ok job { task with Pod := { task.Pod with NodeName := hostname } }
      TaskStatus.Allocated hv]
    simp only
    rw [setNodeName_AddTaskInfo]
    rfl

theorem dispatch_ok {κ : Type} (cc : CacheCalls κ) (st : AllocState κ) (t : TaskInfo)
    (job : JobInfo) (hj : mapGet st.sess.Jobs t.Job = some job)
    (hs : t.Status = TaskStatus.Allocated) (st1 : AllocState κ)
    (h : Session.dispatch cc st t = .ok st1) :
    st1.sess.Jobs = mapSet st.sess.Jobs t.Job
        ((job.DeleteTaskInfo t).1.AddTaskInfo { t with Status := TaskStatus.Binding }) ∧
      st1.sess.Nodes = st.sess.Nodes ∧
      st1.calls = st.calls ++ [AllocCall.AddBindTask t.UID] := by
  have hv : validateStatusUpdate t.Status TaskStatus.Binding = .ok () := by rw [hs]; rfl
  unfold Session.dispatch at h
  cases hr : (cc.AddBindTask st.cache t).2 with
  | some err => simp only [hr] at h; cases h
  | none =>
    simp only [hr, hj] at h
    rw [UpdateTaskStatus_ok _ _ _ hv] at h
    simp only at h
    cases h
    exact ⟨rfl, rfl, rfl⟩

theorem dispatchAll_spec {κ : Type} (cc : CacheCalls κ) (jobKey : JobID) :
    ∀ (uids : List TaskID) (st : AllocState κ) (job : JobInfo), uids.Nodup →
      mapGet st.sess.Jobs jobKey = some job → WellFormed job →
      (∀ u t, mapGet job.Tasks u = some t → t.Job = jobKey) →
      (∀ u ∈ uids, ∃ t, mapGet job.Tasks u = some t ∧ t.Status = TaskStatus.Allocated) →
      ∀ st1, dispatchAll cc jobKey uids st = .ok st1 →
        ∃ job1, mapGet st1.sess.Jobs jobKey = some job1 ∧ WellFormed job1 ∧
          (∀ u, mapGet job1.Tasks u =
            if u ∈ uids then
              (mapGet job.Tasks u).map (fun t => { t with Status := TaskStatus.Binding })
            else mapGet job.Tasks u) ∧
          st1.calls = st.calls ++ uids.map AllocCall.AddBindTask ∧
          st1.sess.Nodes = st.sess.Nodes := by
  intro uids
  induction uids with
  | nil =>
    intro st job _ hj hwf _ _ st1 h
    unfold dispatchAll at h
    cases h
    exact ⟨job, hj, hwf, by simp, by simp, rfl⟩
  | cons u rest ih =>
    intro st job hnd hj hwf hof hpres st1 h
    obtain ⟨t, ht, hts⟩ := hpres u (List.mem_cons_self _ _)
    have hidx : job.indexed TaskStatus.Allocated u = some t :=
      (hwf.indexed_iff _ _ _).2 ⟨ht, hts⟩
    have htu : t.UID = u := hwf.keyUID _ _ ht
    have htj : t.Job = jobKey := hof _ _ ht
    have hnd2 := List.nodup_cons.1 hnd
    unfold dispatchAll at h
    simp only [hj, Option.some_bind, hidx] at h
    cases hd : Session.dispatch cc st t with
    | error e => rw [hd] at h; cases h
    | ok st2 =>
      rw [hd] at h
      simp only at h
      obtain ⟨hJ, hN, hC⟩ := dispatch_ok cc st t job (htj ▸ hj) hts st2 hd
      have hwf2 : WellFormed
          ((job.DeleteTaskInfo t).1.AddTaskInfo { t with Status := TaskStatus.Binding }) :=
        wellFormed_update hwf t { t with Status := TaskStatus.Binding } rfl
      have hT2 : ∀ v, mapGet
          ((job.DeleteTaskInfo t).1.AddTaskInfo { t with Status := TaskStatus.Binding }).Tasks v =
            if u = v then some { t with Status := TaskStatus.Binding } else mapGet job.Tasks v := by
        intro v
        rw [Tasks_update hwf t { t with Status := TaskStatus.Binding } rfl v, htu]
      have hj2 : mapGet st2.sess.Jobs jobKey = some
          ((job.DeleteTaskInfo t).1.AddTaskInfo { t with Status := TaskStatus.Binding }) := by
        rw [hJ, htj, mapGet_mapSet, if_pos rfl]
      have hof2 : ∀ v x, mapGet
          ((job.DeleteTaskInfo t).1.AddTaskInfo { t with Status := TaskStatus.Binding }).Tasks v =
            some x → x.Job = jobKey := by
        intro v x hx
        rw [hT2] at hx
        by_cases hv : u = v
        · rw [if_pos hv] at hx
          cases hx
          exact htj
        · rw [if_neg hv] at hx
          exact hof v x hx
      have hpres2 : ∀ v ∈ rest, ∃ x, mapGet
          ((job.DeleteTaskInfo t).1.AddTaskInfo { t with Status := TaskStatus.Binding }).Tasks v =
            some x ∧ x.Status = TaskStatus.Allocated := by
        intro v hv
        have hne : u ≠ v := fun e => hnd2.1 (e ▸ hv)
        rw [hT2, if_neg hne]
        exact hpres v (List.mem_cons_of_mem _ hv)
      obtain ⟨job1, a, b, c, d, e⟩ := ih st2 _ hnd2.2 hj2 hwf2 hof2 hpres2 st1 h
      refine ⟨job1, a, b, ?_, ?_, ?_⟩
      · intro v
        rw [c v, hT2 v]
        by_cases hv : u = v
        · subst hv
          simp [hnd2.1, ht]
        · have hv2 : ¬ v = u := fun e => hv e.symm
          simp [hv, hv2]
      · rw [d, hC, htu]
        simp
      · rw [e, hN]

theorem mem_keys_iff {κ α : Type} [DecidableEq κ] (m : List (κ × α)) (k : κ) :
    k ∈ m.map (fun e => e.1) ↔ ∃ v, mapGet m k = some v := by
  have h := mapGet_eq_none_iff m k
  constructor
  · intro hk
    cases hg : mapGet m k with
    | none => exact absurd hk (h.1 hg)
    | some v => exact ⟨v, rfl⟩
  · intro ⟨v, hv⟩
    by_contra hk
    rw [h.2 hk] at hv
    cases hv

theorem bound_callbacks (l : List (Nat × Bool)) (uid : TaskID) :
    bound (l.map (fun h => AllocCall.AllocateFunc h.1 uid)) = [] := by
  induction l with
  | nil => rfl
  | cons x r _ => simp [bound]

theorem bound_binds (uids : List TaskID) : bound (uids.map AllocCall.AddBindTask) = uids := by
  induction uids with
  | nil => rfl
  | cons x r ih =>
    unfold bound at ih ⊢
    simp only [List.map_cons, List.filterMap_cons]
    rw [ih]

theorem bound_append (a b : List AllocCall) : bound (a ++ b) = bound a ++ bound b := by
  unfold bound
  rw [List.filterMap_append]

/-- C25: let the job of the task be in the session, under the key `task.Job`,
with its status index consistent with its tasks and with every task carrying
that key as its job.  When `Allocate(task, node)` returns nil, the job holds
the task with `NodeName = node.Name` in status `Allocated` right after the
allocation and the node named `node.Name` of the session holds it.  If
`JobReady` holds of the job at that point, the tasks handed to
`cache.AddBindTask` by this call are, each exactly once, the tasks of the job
that were then `Allocated`, each of them is now `Binding`, and no task of the
job is `Allocated`.  If `JobReady` does not hold, the job is left as it was
right after the allocation and `AddBindTask` is not called. -/
theorem allocate_spec {κ : Type} (cc : CacheCalls κ) (handlers : List Bool)
    (jobReady : JobInfo → Bool) (st : AllocState κ) (task : TaskInfo) (nodeInfo : NodeInfo)
    (job : JobInfo) (hj : mapGet st.sess.Jobs task.Job = some job) (hc : IndexConsistent job)
    (hof : TasksOf task.Job job) (st1 : AllocState κ)
    (h : Session.Allocate cc handlers jobReady st task nodeInfo = .ok st1) :
    ∃ job1 task1 job2 node1 added,
      allocated job task nodeInfo.Name = some (job1, task1) ∧
      task1.UID = task.UID ∧ task1.NodeName = nodeInfo.Name ∧
      task1.Pod.NodeName = nodeInfo.Name ∧ task1.Status = TaskStatus.Allocated ∧
      mapGet job1.Tasks task.UID = some task1 ∧
      mapGet st1.sess.Nodes nodeInfo.Name = some node1 ∧
      mapGet node1.Tasks task.UID = some task1 ∧
      mapGet st1.sess.Jobs task.Job = some job2 ∧
      st1.calls = st.calls ++ added ∧
      (jobReady job1 = true →
        (bound added).Nodup ∧
        (∀ u, u ∈ bound added ↔
          ∃ t, mapGet job1.Tasks u = some t ∧ t.Status = TaskStatus.Allocated) ∧
        (∀ u t, mapGet job1.Tasks u = some t → t.Status = TaskStatus.Allocated →
          mapGet job2.Tasks u = some { t with Status := TaskStatus.Binding }) ∧
        (∀ u t, mapGet job2.Tasks u = some t → t.Status ≠ TaskStatus.Allocated) ∧
        (∀ u, job2.indexed TaskStatus.Allocated u = none)) ∧
      (jobReady job1 = false → job2 = job1 ∧ bound added = []) := by
  have hwf : WellFormed job := wellFormed_of_indexConsistent hc
  have hof1 : ∀ u t, mapGet job.Tasks u = some t → t.Job = task.Job :=
    fun u t ht => hof (u, t) (mem_of_mapGet_eq_some ht)
  unfold Session.Allocate at h
  cases hr1 : (cc.GetPodVolumes st.cache task nodeInfo).2 with
  | some err => simp only [hr1] at h; cases h
  | none =>
  simp only [hr1] at h
  cases hr2 : (cc.AllocateVolumes (cc.GetPodVolumes st.cache task nodeInfo).1 task
      nodeInfo.Name).2 with
  | some err => simp only [hr2] at h; cases h
  | none =>
  simp only [hr2, hj] at h
  have hal := allocated_eq job task nodeInfo.Name
  cases hv : validateStatusUpdate task.Status TaskStatus.Allocated with
  | error e =>
    rw [hv] at hal
    simp only at hal
    rw [hal] at h
    cases h
  | ok u0 =>
  rw [hv] at hal
  simp only at hal
  rw [hal] at h
  simp only at h
  cases hn : mapGet st.sess.Nodes nodeInfo.Name with
  | none => simp only [hn] at h; cases h
  | some node =>
  simp only [hn] at h
  unfold NodeInfo.AddTask at h
  by_cases hle : task.ResReq.LessEqual node.Idle = true
  swap
  · simp only [hle] at h
    cases h
  simp only [hle, if_true] at h
  have hwf1 : WellFormed ((job.DeleteTaskInfo task).1.AddTaskInfo
      { task with Pod := { task.Pod with NodeName := nodeInfo.Name },
                  NodeName := nodeInfo.Name, Status := TaskStatus.Allocated }) :=
    wellFormed_update hwf task
      { task with Pod := { task.Pod with NodeName := nodeInfo.Name },
                  NodeName := nodeInfo.Name, Status := TaskStatus.Allocated } rfl
  have hT1 := Tasks_update hwf task
      { task with Pod := { task.Pod with NodeName := nodeInfo.Name },
                  NodeName := nodeInfo.Name, Status := TaskStatus.Allocated } rfl
  have hof2 : ∀ v x, mapGet ((job.DeleteTaskInfo task).1.AddTaskInfo
      { task with Pod := { task.Pod with NodeName := nodeInfo.Name },
                  NodeName := nodeInfo.Name, Status := TaskStatus.Allocated }).Tasks v = some x →
      x.Job = task.Job := by
    intro v x hx
    rw [hT1] at hx
    by_cases hc : task.UID = v
    · rw [if_pos hc] at hx
      cases hx
      rfl
    · rw [if_neg hc] at hx
      exact hof1 v x hx
  have hkeys : ∀ u, u ∈ ((mapGet ((job.DeleteTaskInfo task).1.AddTaskInfo
      { task with Pod := { task.Pod with NodeName := nodeInfo.Name },
                  NodeName := nodeInfo.Name, Status := TaskStatus.Allocated }).TaskStatusIndex
        TaskStatus.Allocated).getD []).map (fun e => e.1) ↔
      ∃ t, mapGet ((job.DeleteTaskInfo task).1.AddTaskInfo
        { task with Pod := { task.Pod with NodeName := nodeInfo.Name },
                    NodeName := nodeInfo.Name, Status := TaskStatus.Allocated }).Tasks u = some t ∧
        t.Status = TaskStatus.Allocated := by
    intro u
    rw [mem_keys_iff]
    constructor
    · intro ⟨t, ht⟩
      refine ⟨t, (hwf1.indexed_iff _ _ _).1 ?_⟩
      unfold indexed
      cases hb : mapGet ((job.DeleteTaskInfo task).1.AddTaskInfo
        { task with Pod := { task.Pod with NodeName := nodeInfo.Name },
                    NodeName := nodeInfo.Name, Status := TaskStatus.Allocated }).TaskStatusIndex
          TaskStatus.Allocated with
      | none => rw [hb] at ht; simp [mapGet] at ht
      | some m => rw [hb] at ht; exact ht
    · intro ⟨t, ht⟩
      have hi := (hwf1.indexed_iff _ _ _).2 ht
      unfold indexed at hi
      cases hb : mapGet ((job.DeleteTaskInfo task).1.AddTaskInfo
        { task with Pod := { task.Pod with NodeName := nodeInfo.Name },
                    NodeName := nodeInfo.Name, Status := TaskStatus.Allocated }).TaskStatusIndex
          TaskStatus.Allocated with
      | none => rw [hb] at hi; cases hi
      | some m => rw [hb] at hi; exact ⟨t, hi⟩
  have hnd : (((mapGet ((job.DeleteTaskInfo task).1.AddTaskInfo
      { task with Pod := { task.Pod with NodeName := nodeInfo.Name },
                  NodeName := nodeInfo.Name, Status := TaskStatus.Allocated }).TaskStatusIndex
        TaskStatus.Allocated).getD []).map (fun e => e.1)).Nodup := by
    cases hb : mapGet ((job.DeleteTaskInfo task).1.AddTaskInfo
      { task with Pod := { task.Pod with NodeName := nodeInfo.Name },
                  NodeName := nodeInfo.Name, Status := TaskStatus.Allocated }).TaskStatusIndex
        TaskStatus.Allocated with
    | none => simp
    | some m => exact (hwf1.bucket _ m hb).1
  have hself : mapGet ((job.DeleteTaskInfo task).1.AddTaskInfo
      { task with Pod := { task.Pod with NodeName := nodeInfo.Name },
                  NodeName := nodeInfo.Name, Status := TaskStatus.Allocated }).Tasks task.UID =
      some { task with Pod := { task.Pod with NodeName := nodeInfo.Name },
                       NodeName := nodeInfo.Name, Status := TaskStatus.Allocated } := by
    rw [hT1, if_pos rfl]
  by_cases hready : jobReady ((job.DeleteTaskInfo task).1.AddTaskInfo
      { task with Pod := { task.Pod with NodeName := nodeInfo.Name },
                  NodeName := nodeInfo.Name, Status := TaskStatus.Allocated }) = true
  · simp only [hready, if_true] at h
    obtain ⟨job2, a, b, c, d, e⟩ := dispatchAll_spec cc task.Job _ _ _ hnd
      (by simp only [mapGet_mapSet, if_true]) hwf1 hof2 (fun u hu => (hkeys u).1 hu) st1 h
    refine ⟨_, _, job2,
      ({ node with
          Tasks := mapSet node.Tasks task.UID
            { task with Pod := { task.Pod with NodeName := nodeInfo.Name },
                        NodeName := nodeInfo.Name, Status := TaskStatus.Allocated },
          Idle := node.Idle.Sub task.ResReq,
          Used := node.Used.Add task.ResReq } : NodeInfo),
      _, hal, rfl, rfl, rfl, rfl, hself, ?_, ?_, a,
      d.trans (List.append_assoc _ _ _), ?_, ?_⟩
    · rw [e]
      simp only [mapGet_mapSet, if_true]
    · simp only [mapGet_mapSet, if_true]
    · intro _
      rw [bound_append, bound_callbacks, bound_binds, List.nil_append]
      refine ⟨hnd, hkeys, ?_, ?_, ?_⟩
      · intro u t ht hts
        rw [c u, if_pos ((hkeys u).2 ⟨t, ht, hts⟩), ht]
        rfl
      · intro u t ht hts
        rw [c u] at ht
        by_cases hu : u ∈ ((mapGet ((job.DeleteTaskInfo task).1.AddTaskInfo
            { task with Pod := { task.Pod with NodeName := nodeInfo.Name },
                        NodeName := nodeInfo.Name,
                        Status := TaskStatus.Allocated }).TaskStatusIndex
              TaskStatus.Allocated).getD []).map (fun e => e.1)
        · rw [if_pos hu] at ht
          obtain ⟨x, hx, -⟩ := (hkeys u).1 hu
          rw [hx] at ht
          simp only [Option.map_some', Option.some.injEq] at ht
          rw [← ht] at hts
          cases hts
        · rw [if_neg hu] at ht
          exact hu ((hkeys u).2 ⟨t, ht, hts⟩)
      · intro u
        cases hi : job2.indexed TaskStatus.Allocated u with
        | none => rfl
        | some t =>
          exfalso
          obtain ⟨ht, hts⟩ := (b.indexed_iff _ _ _).1 hi
          rw [c u] at ht
          by_cases hu : u ∈ ((mapGet ((job.DeleteTaskInfo task).1.AddTaskInfo
              { task with Pod := { task.Pod with NodeName := nodeInfo.Name },
                          NodeName := nodeInfo.Name,
                          Status := TaskStatus.Allocated }).TaskStatusIndex
                TaskStatus.Allocated).getD []).map (fun e => e.1)
          · rw [if_pos hu] at ht
            obtain ⟨x, hx, -⟩ := (hkeys u).1 hu
            rw [hx] at ht
            simp only [Option.map_some', Option.some.injEq] at ht
            rw [← ht] at hts
            cases hts
          · rw [if_neg hu] at ht
            exact hu ((hkeys u).2 ⟨t, ht, hts⟩)
    · intro hf
      rw [hready] at hf
      cases hf
  · simp only [hready] at h
    cases h
    refine ⟨_, _,
      ((job.DeleteTaskInfo task).1.AddTaskInfo
        { task with Pod := { task.Pod with NodeName := nodeInfo.Name },
                    NodeName := nodeInfo.Name, Status := TaskStatus.Allocated }),
      ({ node with
          Tasks := mapSet node.Tasks task.UID
            { task with Pod := { task.Pod with NodeName := nodeInfo.Name },
                        NodeName := nodeInfo.Name, Status := TaskStatus.Allocated },
          Idle := node.Idle.Sub task.ResReq,
          Used := node.Used.Add task.ResReq } : NodeInfo),
      _, hal, rfl, rfl, rfl, rfl, hself, ?_, ?_, ?_, rfl, ?_, ?_⟩
    · simp only [mapGet_mapSet, if_true]
    · simp only [mapGet_mapSet, if_true]
    · simp only [mapGet_mapSet, if_true]
    · intro ht
      exact absurd ht hready
    · intro _
      exact ⟨rfl, bound_callbacks _ _⟩

/-- Witness of C25: the second task of a job that is ready with two allocated
tasks is allocated, and both tasks are bound. -/
theorem allocate_spec_witness :
    ∃ st1, Session.Allocate agreeable [true] twoAllocated gangSessionA
        (mkTask "b" .Pending 1000 false) bigNode = .ok st1 ∧
      ∃ job1 task1 job2 node1 added,
        allocated gangJobA (mkTask "b" .Pending 1000 false) bigNode.Name = some (job1, task1) ∧
        task1.UID = (mkTask "b" .Pending 1000 false).UID ∧ task1.NodeName = bigNode.Name ∧
        task1.Pod.NodeName = bigNode.Name ∧ task1.Status = TaskStatus.Allocated ∧
        mapGet job1.Tasks (mkTask "b" .Pending 1000 false).UID = some task1 ∧
        mapGet st1.sess.Nodes bigNode.Name = some node1 ∧
        mapGet node1.Tasks (mkTask "b" .Pending 1000 false).UID = some task1 ∧
        mapGet st1.sess.Jobs (mkTask "b" .Pending 1000 false).Job = some job2 ∧
        st1.calls = gangSessionA.calls ++ added ∧
        (twoAllocated job1 = true →
          (bound added).Nodup ∧
          (∀ u, u ∈ bound added ↔
            ∃ t, mapGet job1.Tasks u = some t ∧ t.Status = TaskStatus.Allocated) ∧
          (∀ u t, mapGet job1.Tasks u = some t → t.Status = TaskStatus.Allocated →
            mapGet job2.Tasks u = some { t with Status := TaskStatus.Binding }) ∧
          (∀ u t, mapGet job2.Tasks u = some t → t.Status ≠ TaskStatus.Allocated) ∧
          (∀ u, job2.indexed TaskStatus.Allocated u = none)) ∧
        (twoAllocated job1 = false → job2 = job1 ∧ bound added = []) :=
  ⟨_, rfl, allocate_spec agreeable [true] twoAllocated gangSessionA
    (mkTask "b" .Pending 1000 false) bigNode gangJobA (by decide) (by decide) (by decide) _ rfl⟩

end AllocateTheorems

/-! ## The pod-group status of a job and its conditions -/

section JobStatusTheorems

open Framework

theorem foldl_status_len (p : TaskStatus → Bool) (idx : List (TaskStatus × tasksMap)) (n : Nat) :
    idx.foldl (fun n e => if p e.1 then n + mapLen e.2 else n) n =
      n + (idx.flatMap (fun e => e.2.filter ((fun s _ => p s) e.1))).length := by
  induction idx generalizing n with
  | nil => rfl
  | cons e r ih =>
    rw [List.foldl_cons, ih, List.flatMap_cons, List.length_append]
    by_cases hv : p e.1 = true
    · simp [hv, mapLen, Nat.add_assoc]
    · simp [hv]

theorem any_condition_iff (conds : List PodGroupCondition) (uid : String) :
    conds.any (fun c =>
        decide (c.Type_ = PodGroupUnschedulableType) && decide (c.Status = ConditionTrue) &&
          decide (c.TransitionID = uid)) = true ↔
      ∃ c ∈ conds, c.Type_ = "Unschedulable" ∧ c.Status = "True" ∧ c.TransitionID = uid := by
  simp [List.any_eq_true, PodGroupUnschedulableType, ConditionTrue, and_assoc]

/-- C31: for a job with a pod group, whose status index is consistent with its
tasks and that holds fewer than 2^31 tasks, `jobStatus(sess, job)` returns the
conditions of the pod group, `Running`, `Failed` and `Succeeded` set to the
number of tasks of the job in these statuses, and the phase `Unknown` if the
job has a `Running` task and a condition `Unschedulable` with status `True`
and the UID of the session as transition id; otherwise `Running` if the number
of tasks that are in an allocated status or `Succeeded` is at least
`Spec.MinMember`; otherwise `Inqueue` if that is the phase of the pod group,
and `Pending` if not. -/
theorem jobStatus_spec (sess : Session) (job : JobInfo) (pg : PodGroup)
    (hpg : job.PodGroup = some pg) (hc : IndexConsistent job)
    (hlen : mapLen job.Tasks < 2147483648) :
    jobStatus sess job =
      some { Phase :=
               if 0 < countStatus job (fun s => decide (s = TaskStatus.Running)) ∧
                   ∃ c ∈ pg.Conditions, c.Type_ = "Unschedulable" ∧ c.Status = "True" ∧
                     c.TransitionID = sess.UID then "Unknown"
               else if pg.MinMember ≤
                   (countStatus job
                     (fun s => AllocatedStatus s || decide (s = TaskStatus.Succeeded)) : Nat)
                 then "Running"
               else if pg.Phase = "Inqueue" then "Inqueue"
               else "Pending",
             Conditions := pg.Conditions,
             Running := (countStatus job (fun s => decide (s = TaskStatus.Running)) : Nat),
             Failed := (countStatus job (fun s => decide (s = TaskStatus.Failed)) : Nat),
             Succeeded := (countStatus job (fun s => decide (s = TaskStatus.Succeeded)) : Nat) } := by
  have h := wellFormed_of_indexConsistent hc
  have hcnt : ∀ p : TaskStatus → Bool, countStatus job p < 2147483648 := fun p =>
    lt_of_le_of_lt (List.countP_le_length _) hlen
  have hat : ∀ s : TaskStatus,
      mapLenAt job.TaskStatusIndex s = countStatus job (fun x => decide (x = s)) := by
    intro s
    rw [mapLenAt_eq_countP h s]
    rfl
  have hall : job.TaskStatusIndex.foldl
      (fun n e =>
        if AllocatedStatus e.1 || decide (e.1 = TaskStatus.Succeeded) then n + mapLen e.2
        else n) 0 =
      countStatus job (fun s => AllocatedStatus s || decide (s = TaskStatus.Succeeded)) := by
    rw [foldl_status_len (fun s => AllocatedStatus s || decide (s = TaskStatus.Succeeded)),
      (index_bind_filter_perm h
        (fun s _ => AllocatedStatus s || decide (s = TaskStatus.Succeeded))).length_eq,
      Nat.zero_add]
    unfold countStatus
    rw [List.countP_eq_length_filter]
  unfold jobStatus
  rw [hpg]
  simp only [hall, hat, wrapInt32_of_lt (hcnt _), any_condition_iff]
  have e1 : (countStatus job (fun x => decide (x = TaskStatus.Running)) ≠ 0) ↔
      0 < countStatus job (fun x => decide (x = TaskStatus.Running)) := Nat.pos_iff_ne_zero.symm
  simp only [e1, ge_iff_le, QueueController.PodGroupUnknown, QueueController.PodGroupRunning,
    QueueController.PodGroupInqueue, QueueController.PodGroupPending]
  congr 2
  by_cases hu : 0 < countStatus job (fun x => decide (x = TaskStatus.Running)) ∧
      ∃ c ∈ pg.Conditions, c.Type_ = "Unschedulable" ∧ c.Status = "True" ∧
        c.TransitionID = sess.UID
  · rw [if_pos hu, if_pos hu]
  · rw [if_neg hu, if_neg hu]
    by_cases hm : pg.MinMember ≤
        (countStatus job (fun s => AllocatedStatus s || decide (s = TaskStatus.Succeeded)) : Nat)
    · rw [if_pos hm, if_pos hm]
    · rw [if_neg hm, if_neg hm]
      by_cases hq : pg.Phase = "Inqueue"
      · simp [hq]
      · simp [hq]

/-- Witness of C31: a job with a running task that was marked unschedulable in
this session gets the phase `Unknown`. -/
theorem jobStatus_spec_witness :
    jobStatus markedSession markedJob =
      some { Phase := "Unknown", Conditions := markedGroup.Conditions,
             Running := 1, Failed := 0, Succeeded := 0 } := by
  have h := jobStatus_spec markedSession markedJob markedGroup rfl (by decide) (by decide)
  rw [h]
  decide

end JobStatusTheorems

section ConditionTheorems

open Framework

theorem setCondition_append (conditions : List PodGroupCondition) (cond : PodGroupCondition)
    (h : ∀ c ∈ conditions, c.Type_ ≠ cond.Type_) :
    setCondition conditions cond = conditions ++ [cond] := by
  unfold setCondition
  have : conditions.findIdx? (fun c => decide (c.Type_ = cond.Type_)) = none := by
    rw [List.findIdx?_eq_none_iff]
    intro c hc
    simpa using h c hc
  rw [this]

theorem setCondition_replace (pre post : List PodGroupCondition) (c cond : PodGroupCondition)
    (hpre : ∀ x ∈ pre, x.Type_ ≠ cond.Type_) (hc : c.Type_ = cond.Type_) :
    setCondition (pre ++ c :: post) cond = pre ++ cond :: post := by
  unfold setCondition
  induction pre with
  | nil => simp [List.findIdx?_cons, hc]
  | cons x r ih =>
    have hx : x.Type_ ≠ cond.Type_ := hpre x (List.mem_cons_self _ _)
    have ih1 := ih (fun y hy => hpre y (List.mem_cons_of_mem _ hy))
    rw [List.cons_append, List.findIdx?_cons]
    simp only [hx, decide_False, Bool.false_eq_true, if_false, zero_add]
    rw [List.findIdx?_succ]
    cases hr : List.findIdx? (fun c => decide (c.Type_ = cond.Type_)) (r ++ c :: post) with
    | none =>
      rw [hr] at ih1
      simp only [Option.map_none']
      simp only [List.cons_append] at ih1 ⊢
      rw [ih1]
    | some i =>
      rw [hr] at ih1
      simp only [Option.map_some', List.set_cons_succ]
      simp only at ih1
      rw [ih1]
      rfl

theorem setCondition_split (conditions : List PodGroupCondition) (cond : PodGroupCondition) :
    (∀ c ∈ conditions, c.Type_ ≠ cond.Type_) ∨
    ∃ pre c post, conditions = pre ++ c :: post ∧ (∀ x ∈ pre, x.Type_ ≠ cond.Type_) ∧
      c.Type_ = cond.Type_ := by
  induction conditions with
  | nil => left; intro c hc; cases hc
  | cons x r ih =>
    by_cases hx : x.Type_ = cond.Type_
    · right
      exact ⟨[], x, r, rfl, ⟨fun y hy => absurd hy (List.not_mem_nil y), hx⟩⟩
    · rcases ih with h | ⟨pre, c, post, h1, h2, h3⟩
      · left
        intro c hc
        rcases List.mem_cons.1 hc with e | e
        · rw [e]; exact hx
        · exact h c e
      · right
        refine ⟨x :: pre, c, post, by rw [h1]; rfl, ?_, h3⟩
        intro y hy
        rcases List.mem_cons.1 hy with e | e
        · rw [e]; exact hx
        · exact h2 y e

theorem setCondition_nodup (conditions : List PodGroupCondition) (cond : PodGroupCondition)
    (h : (conditions.map (fun c => c.Type_)).Nodup) :
    ((setCondition conditions cond).map (fun c => c.Type_)).Nodup := by
  rcases setCondition_split conditions cond with hn | ⟨pre, c, post, h1, h2, h3⟩
  · rw [setCondition_append _ _ hn, List.map_append, List.nodup_append]
    refine ⟨h, by simp, ?_⟩
    intro a ha hb
    simp only [List.map_cons, List.map_nil, List.mem_singleton] at hb
    obtain ⟨c, hc, e⟩ := List.mem_map.1 ha
    exact hn c hc (e.trans hb)
  · subst h1
    rw [setCondition_replace pre post c cond h2 h3]
    have e : (pre ++ cond :: post).map (fun c => c.Type_) =
        (pre ++ c :: post).map (fun c => c.Type_) := by
      simp [h3]
    rw [e]
    exact h

/-- C34: `UpdatePodGroupCondition(job, cond)` returns an error and leaves the
session as it is when no job is filed under the UID of `job`.  When the job
filed there has a pod group, the call returns nil and changes nothing but the
conditions of that pod group: if no condition has the type of `cond`, `cond`
is appended at the end; otherwise the first condition of that type is replaced
by `cond` where it stands, the conditions before and after it staying as they
are, so that the length is kept; and a list with at most one condition per
type is turned into a list with at most one condition per type. -/
theorem updatePodGroupCondition_spec (sess : Session) (jobInfo : JobInfo)
    (cond : PodGroupCondition) :
    (mapGet sess.Jobs jobInfo.UID = none →
      ∃ err, sess.UpdatePodGroupCondition jobInfo cond = some (sess, some err)) ∧
    (∀ job pg, mapGet sess.Jobs jobInfo.UID = some job → job.PodGroup = some pg →
      ∃ conds,
        sess.UpdatePodGroupCondition jobInfo cond =
          some ({ sess with
                  Jobs := mapSet sess.Jobs jobInfo.UID
                    { job with PodGroup := some { pg with Conditions := conds } } }, none) ∧
        ((∀ c ∈ pg.Conditions, c.Type_ ≠ cond.Type_) → conds = pg.Conditions ++ [cond]) ∧
        (∀ pre c post, pg.Conditions = pre ++ c :: post →
          (∀ x ∈ pre, x.Type_ ≠ cond.Type_) → c.Type_ = cond.Type_ →
          conds = pre ++ cond :: post ∧ conds.length = pg.Conditions.length) ∧
        ((pg.Conditions.map (fun c => c.Type_)).Nodup →
          (conds.map (fun c => c.Type_)).Nodup)) := by
  constructor
  · intro h
    unfold Session.UpdatePodGroupCondition
    rw [h]
    exact ⟨_, rfl⟩
  · intro job pg hj hpg
    refine ⟨setCondition pg.Conditions cond, ?_, ?_, ?_, ?_⟩
    · unfold Session.UpdatePodGroupCondition
      rw [hj]
      simp only [hpg]
    · exact setCondition_append _ _
    · intro pre c post e h1 h2
      rw [e, setCondition_replace pre post c cond h1 h2]
      simp
    · exact setCondition_nodup _ _

/-- Witness of C34: the condition `Unschedulable` of the job of `markedSession`
is replaced where it stands, and a job that is not in the session is refused. -/
theorem updatePodGroupCondition_spec_witness :
    mapGet markedSession.Jobs markedJob.UID = some markedJob ∧
    markedJob.PodGroup = some markedGroup ∧
    (∃ conds,
      markedSession.UpdatePodGroupCondition markedJob
          ⟨"Unschedulable", "False", 9, "s2", "r", "m"⟩ =
        some ({ markedSession with
                Jobs := mapSet markedSession.Jobs markedJob.UID
                  { markedJob with
                    PodGroup := some { markedGroup with Conditions := conds } } }, none) ∧
      conds = [⟨"Unschedulable", "False", 9, "s2", "r", "m"⟩]) ∧
    (∃ err, markedSession.UpdatePodGroupCondition { markedJob with UID := "other" }
        ⟨"Scheduled", "True", 9, "s2", "r", "m"⟩ = some (markedSession, some err)) := by
  obtain ⟨conds, h1, -, h3, -⟩ :=
    (updatePodGroupCondition_spec markedSession markedJob
      ⟨"Unschedulable", "False", 9, "s2", "r", "m"⟩).2 markedJob markedGroup (by decide) rfl
  refine ⟨by decide, rfl, ⟨conds, h1, ?_⟩, ?_⟩
  · exact (h3 [] ⟨"Unschedulable", "True", 3, "s1", "NotEnoughResources", "1/2 tasks"⟩ [] rfl
      (fun x hx => absurd hx (List.not_mem_nil x)) rfl).1
  · exact (updatePodGroupCondition_spec markedSession { markedJob with UID := "other" }
      ⟨"Scheduled", "True", 9, "s2", "r", "m"⟩).1 (by decide)

end ConditionTheorems

/-! ## The scheduler cache: job identities and the node list -/

section CacheTheorems

/-- C39: for a pod whose group-name annotation is a non-empty name `g`, the job
ID `getJobID(pod)` of package `apis` is `<namespace>/<g>`, which is the job ID
`getJobID(pg)` that package `cache` gives the pod group named `g` in the
namespace of the pod.  A pod without the annotation, or with an empty one, gets
the empty job ID, and `getOrCreateJob` returns nil for a task with that ID and
leaves the cache as it is. -/
theorem getJobID_agrees (pod : Pod) :
    (∀ (g : String) (pg : PodGroup),
      mapGet pod.Annotations KubeGroupNameAnnotationKey = some g → g ≠ "" →
      pg.Name = g → pg.Namespace = pod.Namespace →
      getJobID pod = SchedulerCache.getJobID pg ∧ getJobID pod = pod.Namespace ++ "/" ++ g) ∧
    ((mapGet pod.Annotations KubeGroupNameAnnotationKey = none ∨
        mapGet pod.Annotations KubeGroupNameAnnotationKey = some "") →
      getJobID pod = "" ∧
      ∀ (sc : SchedulerCache) (ti : TaskInfo), ti.Job = getJobID pod →
        sc.getOrCreateJob ti = (sc, none)) := by
  constructor
  · intro g pg hg hne hname hns
    have h1 : getJobID pod = pod.Namespace ++ "/" ++ g := by
      unfold getJobID
      rw [hg]
      simp only [hne, ne_eq, not_false_eq_true, if_true]
    refine ⟨?_, h1⟩
    rw [h1]
    unfold SchedulerCache.getJobID
    rw [hname, hns]
  · intro h
    have h1 : getJobID pod = "" := by
      unfold getJobID
      rcases h with h | h
      · rw [h]
      · rw [h]
        simp
    refine ⟨h1, ?_⟩
    intro sc ti hti
    unfold SchedulerCache.getOrCreateJob
    rw [hti, h1]
    simp

/-- Witness of C39: the pod `ns/p` of pod group `pg1`, and a pod without
annotations. -/
theorem getJobID_agrees_witness :
    (getJobID groupedPod = SchedulerCache.getJobID groupPg1 ∧
      getJobID groupedPod = "ns/pg1") ∧
    (getJobID { Annotations := [] } = "" ∧
      ∀ (sc : SchedulerCache) (ti : TaskInfo), ti.Job = getJobID { Annotations := [] } →
        sc.getOrCreateJob ti = (sc, none)) :=
  ⟨(getJobID_agrees groupedPod).1 "pg1" groupPg1 (by decide) (by decide) rfl rfl,
    (getJobID_agrees { Annotations := [] }).2 (Or.inl (by decide))⟩

theorem nodeStep_inv (fns : NodeFns) (sc : SchedulerCache) (names : List String)
    (e : NodeEvent) (hinv : NodeListInv sc names)
    (hadd : ∀ node, e = NodeEvent.add node → node.Name ∉ names) :
    NodeListInv (SchedulerCache.nodeStep fns sc e) (liveStep names e) := by
  obtain ⟨h1, h2, h3⟩ := hinv
  cases e with
  | add node =>
    have hn : node.Name ∉ names := hadd node rfl
    have hl : liveStep names (NodeEvent.add node) = names ++ [node.Name] := by
      show (if node.Name ∈ names then names else names ++ [node.Name]) = _
      rw [if_neg hn]
    have hs : ∃ v, SchedulerCache.nodeStep fns sc (NodeEvent.add node) =
        { sc with Nodes := mapSet sc.Nodes node.Name v,
                  NodeList := sc.NodeList ++ [node.Name] } := by
      show ∃ v, SchedulerCache.AddNode fns sc node = _
      unfold SchedulerCache.AddNode SchedulerCache.addNode
      cases mapGet sc.Nodes node.Name with
      | none => exact ⟨fns.NewNodeInfo node, rfl⟩
      | some ni => exact ⟨fns.SetNode ni node, rfl⟩
    obtain ⟨v, hv⟩ := hs
    rw [hv, hl]
    refine ⟨by rw [← h1], ?_, ?_⟩
    · rw [List.nodup_append]
      refine ⟨h2, by simp, ?_⟩
      intro a ha hb
      simp only [List.mem_singleton] at hb
      exact hn (hb ▸ ha)
    · intro n
      show n ∈ names ++ [node.Name] ↔ mapGet (mapSet sc.Nodes node.Name v) n ≠ none
      rw [mapGet_mapSet]
      by_cases hc : node.Name = n
      · simp [hc]
      · rw [if_neg hc, List.mem_append, h3 n]
        simp [Ne.symm hc]
  | update oldNode newNode =>
    have hl : liveStep names (NodeEvent.update oldNode newNode) = names := rfl
    rw [hl]
    show NodeListInv (SchedulerCache.UpdateNode fns sc oldNode newNode) names
    unfold SchedulerCache.UpdateNode SchedulerCache.updateNode
    cases hg : mapGet sc.Nodes newNode.Name with
    | none => exact ⟨h1, h2, h3⟩
    | some ni =>
      refine ⟨h1, h2, ?_⟩
      intro n
      show n ∈ names ↔ mapGet (mapSet sc.Nodes newNode.Name _) n ≠ none
      rw [mapGet_mapSet]
      by_cases hc : newNode.Name = n
      · rw [if_pos hc, h3 n, ← hc, hg]
        simp
      · rw [if_neg hc]
        exact h3 n
  | delete node =>
    show NodeListInv (SchedulerCache.DeleteNode sc node)
      (names.filter (fun n => decide (n ≠ node.Name)))
    unfold SchedulerCache.DeleteNode SchedulerCache.deleteNode
    cases hg : mapGet sc.Nodes node.Name with
    | none =>
      have hn : node.Name ∉ names := fun hm => (h3 _).1 hm hg
      have hl : names.filter (fun n => decide (n ≠ node.Name)) = names := by
        rw [List.filter_eq_self]
        intro a ha
        simp only [ne_eq, decide_eq_true_eq]
        intro e
        exact hn (e ▸ ha)
      rw [hl]
      exact ⟨h1, h2, h3⟩
    | some ni =>
      have hl : names.filter (fun n => decide (n ≠ node.Name)) = names.erase node.Name := by
        rw [h2.erase_eq_filter]
        apply List.filter_congr
        intro a _
        by_cases e : a = node.Name <;> simp [e]
      rw [hl]
      refine ⟨?_, h2.erase _, ?_⟩
      · show sc.NodeList.erase node.Name = names.erase node.Name
        rw [h1]
      · intro n
        show n ∈ names.erase node.Name ↔ mapGet (mapDel sc.Nodes node.Name) n ≠ none
        rw [mapGet_mapDel, h2.mem_erase_iff]
        by_cases hc : node.Name = n
        · simp [hc]
        · rw [if_neg hc, h3 n]
          simp [Ne.symm hc]

theorem nodeRun_inv (fns : NodeFns) (events : List NodeEvent) :
    ∀ (sc : SchedulerCache) (names : List String), NodeListInv sc names →
      addsOnceFrom names events →
      NodeListInv (SchedulerCache.nodeRun fns sc events) (events.foldl liveStep names) := by
  induction events with
  | nil => intro sc names h _; exact h
  | cons e rest ih =>
    intro sc names hinv hadds
    obtain ⟨ha, hr⟩ := hadds
    have hstep : NodeListInv (SchedulerCache.nodeStep fns sc e) (liveStep names e) := by
      apply nodeStep_inv fns sc names e hinv
      intro node he
      subst he
      exact ha
    exact ih _ _ hstep hr

/-- C36 (as stated, refuted): `AddNode` for a name that is already in the node
list adds a second entry, and `DeleteNode` then removes one entry only: the
name stays in `NodeList` although the node is gone from the cache. -/
theorem nodeList_keeps_duplicate :
    (SchedulerCache.nodeRun plainNodeFns emptyCache
      [.add { Name := "n1" }, .add { Name := "n1" }]).NodeList = ["n1", "n1"] ∧
    (SchedulerCache.nodeRun plainNodeFns emptyCache
      [.add { Name := "n1" }, .add { Name := "n1" }, .delete { Name := "n1" }]).NodeList
        = ["n1"] ∧
    mapGet (SchedulerCache.nodeRun plainNodeFns emptyCache
      [.add { Name := "n1" }, .add { Name := "n1" }, .delete { Name := "n1" }]).Nodes "n1"
        = none := by
  decide

/-- C36 (amended): start from a cache without nodes and with an empty node
list, and let every `AddNode` event be for a name that was not added before or
was deleted since.  After the sequence of `AddNode`, `UpdateNode` and
`DeleteNode` events `NodeList` has no duplicates and holds exactly the names
for which a node was added and not deleted since, in the order in which they
were added, and these are the names of the nodes in `Nodes`. -/
theorem nodeList_live (fns : NodeFns) (sc : SchedulerCache) (events : List NodeEvent)
    (hnodes : sc.Nodes = []) (hlist : sc.NodeList = []) (hadds : AddsOnce events) :
    (SchedulerCache.nodeRun fns sc events).NodeList = liveNames events ∧
    (SchedulerCache.nodeRun fns sc events).NodeList.Nodup ∧
    ∀ n, n ∈ (SchedulerCache.nodeRun fns sc events).NodeList ↔
      mapGet (SchedulerCache.nodeRun fns sc events).Nodes n ≠ none := by
  have h0 : NodeListInv sc [] := by
    refine ⟨hlist, List.nodup_nil, ?_⟩
    intro n
    rw [hnodes]
    simp [mapGet]
  obtain ⟨h1, h2, h3⟩ := nodeRun_inv fns events sc [] h0 hadds
  refine ⟨h1, ?_, ?_⟩
  · rw [h1]; exact h2
  · intro n
    rw [h1]
    exact h3 n

/-- Witness of C36 (amended): two nodes are added, one is deleted and added
again. -/
theorem nodeList_live_witness :
    AddsOnce [.add { Name := "n1" }, .add { Name := "n2" }, .update { Name := "n2" } { Name := "n2" },
      .delete { Name := "n1" }, .add { Name := "n1" }] ∧
    (SchedulerCache.nodeRun plainNodeFns emptyCache
      [.add { Name := "n1" }, .add { Name := "n2" }, .update { Name := "n2" } { Name := "n2" },
        .delete { Name := "n1" }, .add { Name := "n1" }]).NodeList = ["n2", "n1"] :=
  ⟨by decide,
    ((nodeList_live plainNodeFns emptyCache
      [.add { Name := "n1" }, .add { Name := "n2" }, .update { Name := "n2" } { Name := "n2" },
        .delete { Name := "n1" }, .add { Name := "n1" }] rfl rfl (by decide)).1).trans
      (by decide)⟩

end CacheTheorems

/-! ## The cleanup of the job cache -/

section CleanupTheorems

open Controller

/-- C40 (the code at the failing input): `jobTerminated` holds of a job info
as soon as its job object is absent or it holds no pods, and
`processCleanupJob` then forgets the item and deletes the entry filed under
`<namespace>/<name>`; only a job info with a job object and with pods is put
back on the queue, the cache staying as it is.  So the entry of a job that was
deleted while a pod of it is still there is deleted from the cache and not
queued again, and so is the entry of a job that is there and has no pods. -/
theorem processCleanupJob_deletes_early (jc : Controller.jobCache) (ji : Controller.JobInfo) :
    jobCache.processCleanupJob jc (QueueItem.job ji) =
      (if ji.Job = none ∨ ji.Pods = [] then
        ({ jobInfos := mapDel jc.jobInfos (keyFn ji.Namespace ji.Name) },
          [QueueCall.Forget, QueueCall.Done], true)
      else (jc, [QueueCall.AddRateLimited, QueueCall.Done], true)) ∧
    jobCache.processCleanupJob ⟨[("ns/j", orphanedInfo)]⟩ (QueueItem.job orphanedInfo) =
      (⟨[]⟩, [QueueCall.Forget, QueueCall.Done], true) ∧
    orphanedInfo.Job = none ∧ orphanedInfo.Pods ≠ [] ∧
    jobCache.processCleanupJob ⟨[("ns/j", podlessInfo)]⟩ (QueueItem.job podlessInfo) =
      (⟨[]⟩, [QueueCall.Forget, QueueCall.Done], true) ∧
    podlessInfo.Job ≠ none ∧ podlessInfo.Pods = [] := by
  refine ⟨?_, by decide, rfl, by decide, by decide, by decide, rfl⟩
  unfold jobCache.processCleanupJob jobTerminated jobCache.deleteJob
  cases hj : ji.Job with
  | none => simp [hj]
  | some job =>
    cases hp : ji.Pods with
    | nil => simp [mapLen, hj, hp]
    | cons e r => simp [mapLen, hj, hp]

end CleanupTheorems

/-! ## The minimal resources of the pod group of a pod -/

section MinResourcesTheorems

open PodGroupController

theorem addQuantities_get (src : ResourceList) (hn : NodupKeys src) :
    ∀ (list : ResourceList) (name : String),
      mapGet (addQuantities list src) name =
        match mapGet src name with
        | none => mapGet list name
        | some q => some ((mapGet list name).getD 0 + q) := by
  induction src with
  | nil => intro list name; rfl
  | cons e r ih =>
    intro list name
    obtain ⟨k, q⟩ := e
    have hn' : k ∉ r.map (fun p => p.1) ∧ NodupKeys r := by
      simpa [NodupKeys] using hn
    have hstep : addQuantities list ((k, q) :: r) =
        addQuantities (mapSet list k ((mapGet list k).getD 0 + q)) r := by
      unfold addQuantities
      rw [List.foldl_cons]
      cases mapGet list k <;> simp
    rw [hstep, ih hn'.2]
    by_cases hk : k = name
    · subst hk
      have hr : mapGet r k = none := (mapGet_eq_none_iff _ _).2 hn'.1
      rw [hr]
      simp [mapGet, mapGet_mapSet]
    · have hm : mapGet ((k, q) :: r) name = mapGet r name := by
        simp [mapGet, hk]
      rw [hm, mapGet_mapSet, if_neg hk]

theorem addQuantities_value (list src : ResourceList) (hn : NodupKeys src) (name : String) :
    (mapGet (addQuantities list src) name).getD 0 =
      (mapGet list name).getD 0 + (mapGet src name).getD 0 := by
  rw [addQuantities_get src hn]
  cases mapGet src name <;> simp

theorem addQuantities_isSome (list src : ResourceList) (hn : NodupKeys src) (name : String) :
    (mapGet (addQuantities list src) name).isSome =
      ((mapGet list name).isSome || (mapGet src name).isSome) := by
  rw [addQuantities_get src hn]
  cases mapGet src name <;> simp

theorem addResourceList_eq (list : ResourceList) (c : Container) :
    addResourceList list c.Requests c.Limits = addQuantities list c.contribution := by
  unfold addResourceList Container.contribution
  cases c.Requests with
  | some req => rfl
  | none => rfl

theorem contribution_nodup (c : Container) (h : c.IsMap) : NodupKeys c.contribution := by
  unfold Container.contribution
  cases hr : c.Requests with
  | some req =>
    have := h.1
    rw [hr] at this
    exact this
  | none => exact h.2

theorem foldl_addResourceList (cs : List Container) (hn : ∀ c ∈ cs, c.IsMap) :
    ∀ (list : ResourceList) (name : String),
      (mapGet (cs.foldl (fun l c => addResourceList l c.Requests c.Limits) list) name).getD 0 =
        (mapGet list name).getD 0 +
          (cs.map (fun c => (mapGet c.contribution name).getD 0)).sum ∧
      (mapGet (cs.foldl (fun l c => addResourceList l c.Requests c.Limits) list) name).isSome =
        ((mapGet list name).isSome ||
          cs.any (fun c => (mapGet c.contribution name).isSome)) := by
  induction cs with
  | nil => intro list name; simp
  | cons c r ih =>
    intro list name
    have hc := contribution_nodup c (hn c (List.mem_cons_self _ _))
    obtain ⟨i1, i2⟩ := ih (fun x hx => hn x (List.mem_cons_of_mem _ hx))
      (addResourceList list c.Requests c.Limits) name
    rw [List.foldl_cons]
    constructor
    · rw [i1, addResourceList_eq, addQuantities_value _ _ hc]
      simp [Int.add_assoc]
    · rw [i2, addResourceList_eq, addQuantities_isSome _ _ hc]
      simp [Bool.or_assoc]

/-- C33 (as stated, refuted): a container whose requests are present but empty
and that has a limit of two CPUs contributes nothing, its limits included. -/
theorem calcPGMinResources_empty_requests :
    calcPGMinResources emptyRequestsPod = [] ∧
    emptyRequestsPod.Containers =
      [{ Requests := some [], Limits := some [("cpu", 2)] }] := by
  decide

/-- C33 (amended): for a pod whose containers have maps as requests and limits,
`calcPGMinResources(pod)` holds for every resource name the sum over the
containers of what the container contributes for that name, where a container
whose `Requests` is nil contributes its limits and a container whose
`Requests` is not nil, be it empty, contributes its requests and nothing from
its limits; and it has an entry for a name exactly when some container
contributes one. -/
theorem calcPGMinResources_sum (pod : PodGroupController.Pod)
    (hmaps : ∀ c ∈ pod.Containers, c.IsMap) (name : String) :
    (mapGet (calcPGMinResources pod) name).getD 0 =
      (pod.Containers.map (fun c =>
        match c.Requests with
        | some req => (mapGet req name).getD 0
        | none => (mapGet (c.Limits.getD []) name).getD 0)).sum ∧
    ((mapGet (calcPGMinResources pod) name).isSome = true ↔
      ∃ c ∈ pod.Containers,
        match c.Requests with
        | some req => (mapGet req name).isSome = true
        | none => (mapGet (c.Limits.getD []) name).isSome = true) := by
  obtain ⟨h1, h2⟩ := foldl_addResourceList pod.Containers hmaps [] name
  have e1 : ∀ c : Container, (mapGet c.contribution name).getD 0 =
      (match c.Requests with
        | some req => (mapGet req name).getD 0
        | none => (mapGet (c.Limits.getD []) name).getD 0) := by
    intro c
    unfold Container.contribution
    cases c.Requests <;> rfl
  have e2 : ∀ c : Container, ((mapGet c.contribution name).isSome = true) ↔
      (match c.Requests with
        | some req => (mapGet req name).isSome = true
        | none => (mapGet (c.Limits.getD []) name).isSome = true) := by
    intro c
    unfold Container.contribution
    cases c.Requests <;> rfl
  constructor
  · unfold calcPGMinResources
    rw [h1]
    simp only [mapGet, Option.getD_none, zero_add]
    congr 1
    apply List.map_congr_left
    intro c _
    exact e1 c
  · unfold calcPGMinResources
    rw [h2]
    simp only [mapGet, Option.isSome_none, Bool.false_or, List.any_eq_true]
    constructor
    · rintro ⟨c, hc, h⟩
      exact ⟨c, hc, (e2 c).1 h⟩
    · rintro ⟨c, hc, h⟩
      exact ⟨c, hc, (e2 c).2 h⟩

/-- Witness of C33 (amended): the CPU of a pod with two containers is the
request of the first plus the limit of the second. -/
theorem calcPGMinResources_sum_witness :
    (∀ c ∈ twoContainerPod.Containers, c.IsMap) ∧
    (mapGet (calcPGMinResources twoContainerPod) "cpu").getD 0 = 3 ∧
    (mapGet (calcPGMinResources twoContainerPod) "gpu").isSome = false :=
  ⟨by decide,
    ((calcPGMinResources_sum twoContainerPod (by decide) "cpu").1).trans (by decide),
    by decide⟩

end MinResourcesTheorems

/-! ## `Clone` is partial -/

section CloneTotalTheorems

open JobInfo

theorem uid_queue_AddTaskInfo (ji : JobInfo) (ti : TaskInfo) :
    (ji.AddTaskInfo ti).UID = ji.UID ∧ (ji.AddTaskInfo ti).Queue = ji.Queue := by
  unfold JobInfo.AddTaskInfo
  split <;> exact ⟨rfl, rfl⟩

theorem uid_queue_run_adds (l : List TaskInfo) (info : JobInfo) :
    (info.run (l.map JobOp.add)).UID = info.UID ∧
    (info.run (l.map JobOp.add)).Queue = info.Queue := by
  induction l generalizing info with
  | nil => exact ⟨rfl, rfl⟩
  | cons t r ih =>
    have h1 := ih (info.AddTaskInfo t)
    have h2 := uid_queue_AddTaskInfo info t
    exact ⟨h1.1.trans h2.1, h1.2.trans h2.2⟩

theorem tasks_keyed_run_adds (l : List TaskInfo) (info : JobInfo)
    (hn : NodupKeys info.Tasks) (hk : ∀ e ∈ info.Tasks, e.2.UID = e.1) :
    NodupKeys (info.run (l.map JobOp.add)).Tasks ∧
    ∀ e ∈ (info.run (l.map JobOp.add)).Tasks, e.2.UID = e.1 := by
  induction l generalizing info with
  | nil => exact ⟨hn, hk⟩
  | cons t r ih =>
    apply ih (info.AddTaskInfo t)
    · rw [AddTaskInfo_Tasks]
      exact nodupKeys_mapSet hn _ _
    · intro e he
      rw [AddTaskInfo_Tasks] at he
      unfold mapSet at he
      rcases List.mem_cons.1 he with h | h
      · rw [h]
      · unfold mapDel at he h
        exact hk e (List.mem_filter.1 h).1

/-- C35 (the code at the failing input): `TaskInfo.Clone` panics on a task
without NUMA info and without last transaction context, and `JobInfo.Clone`
panics on a job made by `NewJobInfo` on which `SetPodGroup` was not called, so
that it has no pod group and no budget, although its task has NUMA info. -/
theorem clone_panics_on_absent :
    bareTask.Clone = none ∧ bareTask.NumaInfo = none ∧ bareTask.LastTx = none ∧
    groupless.Clone = none ∧ groupless.PodGroup = none ∧ groupless.Budget = none ∧
    (∀ e ∈ groupless.Tasks, e.2.NumaInfo ≠ none) := by
  decide

/-- Cloning where it returns: `TaskInfo.Clone` succeeds on every task that has
NUMA info, with or without a last transaction context, and the clone has the fields of
the task.  `JobInfo.Clone` succeeds on every job that has a pod group and a
budget, whose tasks are filed under their UIDs and all have NUMA info; the
clone has the UID, the queue and `MinAvailable` of the job and, under every
UID, the task the job has there.  The tasks of a job made by `NewJobInfo` and
`AddTaskInfo` are filed under their UIDs. -/
theorem clone_succeeds (ji : JobInfo) (pg : PodGroup) (budget : DisruptionBudget)
    (hpg : ji.PodGroup = some pg) (hb : ji.Budget = some budget)
    (hnuma : ∀ e ∈ ji.Tasks, e.2.NumaInfo ≠ none)
    (hn : NodupKeys ji.Tasks) (hk : ∀ e ∈ ji.Tasks, e.2.UID = e.1) :
    (∀ t : TaskInfo, t.NumaInfo ≠ none →
      ∃ c, t.Clone = some c ∧ c.UID = t.UID ∧ c.Status = t.Status ∧
        c.NodeName = t.NodeName ∧ c.Priority = t.Priority ∧ c.ResReq = t.ResReq ∧
        c.BestEffort = t.BestEffort ∧ c.LastTx = t.LastTx) ∧
    (∃ c, ji.Clone = some c ∧ c.UID = ji.UID ∧ c.Queue = ji.Queue ∧
      c.MinAvailable = ji.MinAvailable ∧ ∀ k, mapGet c.Tasks k = mapGet ji.Tasks k) ∧
    (∀ (uid : JobID) (tasks more : List TaskInfo),
      NodupKeys ((NewJobInfo uid tasks).run (more.map JobOp.add)).Tasks ∧
      ∀ e ∈ ((NewJobInfo uid tasks).run (more.map JobOp.add)).Tasks, e.2.UID = e.1) := by
  refine ⟨?_, ?_, ?_⟩
  · intro t ht
    exact ⟨t, taskInfo_Clone_eq ht, rfl, rfl, rfl, rfl, rfl, rfl, rfl⟩
  · refine ⟨(ji.cloneBase pg budget).run (ji.Tasks.map (fun e => JobOp.add e.2)), ?_, ?_, ?_,
      ?_, ?_⟩
    · unfold JobInfo.Clone
      rw [hpg, hb]
      exact cloneTasks_eq _ _ hnuma
    · have hf := uid_queue_run_adds (ji.Tasks.map (fun e => e.2)) (ji.cloneBase pg budget)
      rw [List.map_map] at hf
      exact hf.1
    · have hf := uid_queue_run_adds (ji.Tasks.map (fun e => e.2)) (ji.cloneBase pg budget)
      rw [List.map_map] at hf
      exact hf.2
    · have hf := sameFrame_run_adds (ji.Tasks.map (fun e => e.2)) (ji.cloneBase pg budget)
      rw [List.map_map] at hf
      exact hf.1
    · intro k
      rw [mapGet_Tasks_run_adds _ _ hn hk]
      cases mapGet ji.Tasks k <;> rfl
  · intro uid tasks more
    rw [NewJobInfo_eq_run, ← run_append, ← List.map_append]
    apply tasks_keyed_run_adds
    · simp [NewJobInfo, NodupKeys]
    · intro e he
      simp [NewJobInfo] at he

/-- Cloning where it returns, at an instance: the job `grouped`, which has a
pod group and a budget, is cloned. -/
theorem clone_succeeds_witness :
    grouped.PodGroup = some workerGroup ∧ grouped.Budget = some ⟨"", ""⟩ ∧
    ∃ c, grouped.Clone = some c ∧ c.UID = grouped.UID ∧ c.Queue = grouped.Queue ∧
      c.MinAvailable = grouped.MinAvailable ∧ ∀ k, mapGet c.Tasks k = mapGet grouped.Tasks k :=
  ⟨rfl, rfl,
    (clone_succeeds grouped workerGroup ⟨"", ""⟩ rfl rfl (by decide) (by decide)
      (by decide)).2.1⟩

end CloneTotalTheorems

/-! ## The task-topology plugin -/

section TaskOrderTheorems

open TopologyPlugin TopologyPlugin.JobManager

theorem taskAffinityOrder_eq (jm : JobManager) (L R : TaskInfo) :
    jm.taskAffinityOrder L R =
      if orderValue jm L ≠ orderValue jm R then (if orderValue jm L > orderValue jm R then 1 else -1)
      else if priorityValue jm L ≠ priorityValue jm R then
        (if priorityValue jm L > priorityValue jm R then 1 else -1)
      else 0 := by
  unfold taskAffinityOrder orderValue priorityValue taskNameOf
  by_cases hn : (mapGet jm.podInTask L.Pod.UID).getD "" = (mapGet jm.podInTask R.Pod.UID).getD ""
  · simp only [hn, if_true, ne_eq, not_true_eq_false, if_false]
  · simp only [hn, if_false]

/-- C38: `taskAffinityOrder` returns -1, 0 or 1; swapping the tasks negates
the result; the result is 0 when the pods of both tasks belong to the same
task name; when the task names differ the order values decide if they differ,
and the affinity priorities decide if the order values are equal; and the
relation "the result is not negative" is reflexive, total and transitive, with
"the result is 0" as its equivalence. -/
theorem taskAffinityOrder_consistent (jm : JobManager) :
    (∀ L R, jm.taskAffinityOrder L R = -1 ∨ jm.taskAffinityOrder L R = 0 ∨
      jm.taskAffinityOrder L R = 1) ∧
    (∀ L R, jm.taskAffinityOrder L R = - jm.taskAffinityOrder R L) ∧
    (∀ L R, taskNameOf jm L = taskNameOf jm R → jm.taskAffinityOrder L R = 0) ∧
    (∀ L R, taskNameOf jm L ≠ taskNameOf jm R → orderValue jm L ≠ orderValue jm R →
      jm.taskAffinityOrder L R = if orderValue jm L > orderValue jm R then 1 else -1) ∧
    (∀ L R, taskNameOf jm L ≠ taskNameOf jm R → orderValue jm L = orderValue jm R →
      jm.taskAffinityOrder L R =
        if priorityValue jm L = priorityValue jm R then 0
        else if priorityValue jm L > priorityValue jm R then 1 else -1) ∧
    (∀ A, 0 ≤ jm.taskAffinityOrder A A) ∧
    (∀ A B, 0 ≤ jm.taskAffinityOrder A B ∨ 0 ≤ jm.taskAffinityOrder B A) ∧
    (∀ A B C, 0 ≤ jm.taskAffinityOrder A B → 0 ≤ jm.taskAffinityOrder B C →
      0 ≤ jm.taskAffinityOrder A C) ∧
    (∀ A B C, jm.taskAffinityOrder A B = 0 → jm.taskAffinityOrder B C = 0 →
      jm.taskAffinityOrder A C = 0) := by
  refine ⟨?_, ?_, ?_, ?_, ?_, ?_, ?_, ?_, ?_⟩
  · intro L R
    rw [taskAffinityOrder_eq]
    split_ifs <;> simp
  · intro L R
    rw [taskAffinityOrder_eq, taskAffinityOrder_eq]
    split_ifs <;> omega
  · intro L R h
    unfold taskAffinityOrder
    unfold taskNameOf at h
    simp only [h, if_true]
  · intro L R _ ho
    rw [taskAffinityOrder_eq, if_pos ho]
  · intro L R _ ho
    rw [taskAffinityOrder_eq]
    split_ifs <;> first | rfl | omega
  · intro A
    rw [taskAffinityOrder_eq]
    simp
  · intro A B
    rw [taskAffinityOrder_eq, taskAffinityOrder_eq]
    split_ifs <;> omega
  · intro A B C
    rw [taskAffinityOrder_eq, taskAffinityOrder_eq, taskAffinityOrder_eq]
    generalize orderValue jm A = a1
    generalize orderValue jm B = b1
    generalize orderValue jm C = c1
    generalize priorityValue jm A = a2
    generalize priorityValue jm B = b2
    generalize priorityValue jm C = c2
    intro h1 h2
    rcases lt_trichotomy a1 b1 with h | h | h
    · rw [if_pos (ne_of_lt h), if_neg (not_lt.2 (le_of_lt h))] at h1
      omega
    · subst h
      rw [if_neg (not_not.2 rfl)] at h1
      rcases lt_trichotomy a1 c1 with g | g | g
      · rw [if_pos (ne_of_lt g), if_neg (not_lt.2 (le_of_lt g))] at h2
        omega
      · subst g
        rw [if_neg (not_not.2 rfl)] at h2 ⊢
        split_ifs at h1 h2 ⊢ <;> omega
      · rw [if_pos (ne_of_gt g), if_pos g]
        omega
    · rcases lt_trichotomy b1 c1 with g | g | g
      · rw [if_pos (ne_of_lt g), if_neg (not_lt.2 (le_of_lt g))] at h2
        omega
      · subst g
        rw [if_pos (ne_of_gt h), if_pos h]
        omega
      · have hac : a1 > c1 := by omega
        rw [if_pos (ne_of_gt hac), if_pos hac]
        omega
  · intro A B C
    rw [taskAffinityOrder_eq, taskAffinityOrder_eq, taskAffinityOrder_eq]
    generalize orderValue jm A = a1
    generalize orderValue jm B = b1
    generalize orderValue jm C = c1
    generalize priorityValue jm A = a2
    generalize priorityValue jm B = b2
    generalize priorityValue jm C = c2
    intro h1 h2
    have e1 : a1 = b1 ∧ a2 = b2 := by
      split_ifs at h1 <;> omega
    have e2 : b1 = c1 ∧ b2 = c2 := by
      split_ifs at h2 <;> omega
    obtain ⟨e11, e12⟩ := e1
    obtain ⟨e21, e22⟩ := e2
    subst e11 e12 e21 e22
    simp

end TaskOrderTheorems
section TopologyTheorems

open TopologyPlugin TopologyPlugin.JobManager

theorem inRel_addAffinity (m : Relation) (s d a b : String) :
    inRel (addAffinity m s d) a b = true ↔ inRel m a b = true ∨ (a = s ∧ b = d) := by
  unfold inRel addAffinity
  rw [mapGet_mapSet]
  by_cases hs : s = a
  · subst hs
    simp only [if_true, Option.getD_some, mapGet_mapSet]
    by_cases hd : d = b
    · subst hd; simp
    · have hd2 : ¬ b = d := fun e => hd e.symm
      simp [hd, hd2]
  · have hs2 : ¬ a = s := fun e => hs e.symm
    simp [hs, hs2]

theorem inRel_linkAll (src : String) (seen : List String) :
    ∀ (m : Relation) (a b : String),
      inRel (linkAll m src seen) a b = true ↔
        inRel m a b = true ∨ (a = src ∧ b ∈ seen) ∨ (b = src ∧ a ∈ seen) := by
  induction seen with
  | nil => intro m a b; simp [linkAll]
  | cons d r ih =>
    intro m a b
    have hstep : linkAll m src (d :: r) =
        linkAll (addAffinity (addAffinity m src d) d src) src r := rfl
    rw [hstep, ih, inRel_addAffinity, inRel_addAffinity]
    simp only [List.mem_cons]
    constructor
    · rintro (((h | ⟨h1, h2⟩) | ⟨h1, h2⟩) | ⟨h1, h2⟩ | ⟨h1, h2⟩)
      · exact Or.inl h
      · exact Or.inr (Or.inl ⟨h1, Or.inl h2⟩)
      · exact Or.inr (Or.inr ⟨h2, Or.inl h1⟩)
      · exact Or.inr (Or.inl ⟨h1, Or.inr h2⟩)
      · exact Or.inr (Or.inr ⟨h1, Or.inr h2⟩)
    · rintro (h | ⟨h1, h2 | h2⟩ | ⟨h1, h2 | h2⟩)
      · exact Or.inl (Or.inl (Or.inl h))
      · exact Or.inl (Or.inl (Or.inr ⟨h1, h2⟩))
      · exact Or.inr (Or.inl ⟨h1, h2⟩)
      · exact Or.inl (Or.inr ⟨h2, h1⟩)
      · exact Or.inr (Or.inr ⟨h1, h2⟩)

theorem affinityPriority_pos (k : topologyType) : 0 < affinityPriority k := by
  cases k <;> decide

theorem mark_spec (jm : JobManager) (t : String) (k : topologyType) :
    (jm.MarkTaskHasTopology t k).selfAffinity = jm.selfAffinity ∧
    (jm.MarkTaskHasTopology t k).interAffinity = jm.interAffinity ∧
    (jm.MarkTaskHasTopology t k).selfAntiAffinity = jm.selfAntiAffinity ∧
    (jm.MarkTaskHasTopology t k).interAntiAffinity = jm.interAntiAffinity ∧
    (jm.MarkTaskHasTopology t k).taskExistOrder = jm.taskExistOrder ∧
    (∀ n, priorityOfName (jm.MarkTaskHasTopology t k) n =
      if n = t then max (priorityOfName jm n) (affinityPriority k) else priorityOfName jm n) ∧
    (∀ n, (mapGet (jm.MarkTaskHasTopology t k).taskAffinityPriority n).isSome =
      ((mapGet jm.taskAffinityPriority n).isSome || decide (n = t))) := by
  have hpos := affinityPriority_pos k
  unfold MarkTaskHasTopology priorityOfName
  by_cases hgt : affinityPriority k > (mapGet jm.taskAffinityPriority t).getD 0
  · simp only [hgt, if_true]
    refine ⟨trivial, trivial, trivial, trivial, trivial, ?_, ?_⟩
    · intro n
      rw [mapGet_mapSet]
      by_cases hn : n = t
      · subst hn
        simp only [if_true, Option.getD_some]
        omega
      · have hn2 : ¬ t = n := fun e => hn e.symm
        simp [hn, hn2]
    · intro n
      rw [mapGet_mapSet]
      by_cases hn : n = t
      · subst hn; simp
      · have hn2 : ¬ t = n := fun e => hn e.symm
        simp [hn, hn2]
  · simp only [hgt, if_false]
    refine ⟨trivial, trivial, trivial, trivial, trivial, ?_, ?_⟩
    · intro n
      by_cases hn : n = t
      · subst hn
        simp only [if_true]
        omega
      · simp [hn]
    · intro n
      by_cases hn : n = t
      · subst hn
        cases hg : mapGet jm.taskAffinityPriority n with
        | none => rw [hg] at hgt; simp at hgt; omega
        | some v => simp
      · simp [hn]

theorem linkAffinity_spec (rest : List String) :
    ∀ (seen : List String) (jm : JobManager),
      (linkAffinity seen rest jm).selfAffinity = jm.selfAffinity ∧
      (linkAffinity seen rest jm).selfAntiAffinity = jm.selfAntiAffinity ∧
      (linkAffinity seen rest jm).interAntiAffinity = jm.interAntiAffinity ∧
      (linkAffinity seen rest jm).taskExistOrder = jm.taskExistOrder ∧
      (∀ n, priorityOfName (linkAffinity seen rest jm) n =
        if n ∈ rest then max (priorityOfName jm n) 3 else priorityOfName jm n) ∧
      (∀ n, (mapGet (linkAffinity seen rest jm).taskAffinityPriority n).isSome =
        ((mapGet jm.taskAffinityPriority n).isSome || decide (n ∈ rest))) ∧
      (∀ a b, inRel (linkAffinity seen rest jm).interAffinity a b = true →
        inRel jm.interAffinity a b = true ∨ (a ∈ seen ++ rest ∧ b ∈ seen ++ rest)) ∧
      (∀ a b, inRel jm.interAffinity a b = true → inRel (linkAffinity seen rest jm).interAffinity a b = true) ∧
      (∀ a b, a ≠ b → a ∈ seen ++ rest → b ∈ seen ++ rest → (a ∈ rest ∨ b ∈ rest) →
        inRel (linkAffinity seen rest jm).interAffinity a b = true) ∧
      ((∀ a b, inRel jm.interAffinity a b = inRel jm.interAffinity b a) →
        ∀ a b, inRel (linkAffinity seen rest jm).interAffinity a b = inRel (linkAffinity seen rest jm).interAffinity b a) := by
  induction rest with
  | nil =>
    intro seen jm
    refine ⟨rfl, rfl, rfl, rfl, fun n => by simp [linkAffinity], fun n => by simp [linkAffinity],
      fun a b h => Or.inl h, fun a b h => h, ?_, fun h => h⟩
    intro a b _ _ _ h
    rcases h with h | h <;> cases h
  | cons src r ih =>
    intro seen jm
    obtain ⟨m1, m2, m3, m4, m5, m6, m7⟩ :=
      mark_spec { jm with interAffinity := linkAll jm.interAffinity src seen } src topologyType.interAffinity
    obtain ⟨i1, i2, i3, i4, i5, i6, i7, i8, i9, i10⟩ := ih (seen ++ [src])
      (MarkTaskHasTopology { jm with interAffinity := linkAll jm.interAffinity src seen } src topologyType.interAffinity)
    have hstep : linkAffinity seen (src :: r) jm = linkAffinity (seen ++ [src]) r
        (MarkTaskHasTopology { jm with interAffinity := linkAll jm.interAffinity src seen } src topologyType.interAffinity) := rfl
    have hrel : ∀ a b, inRel (MarkTaskHasTopology
        { jm with interAffinity := linkAll jm.interAffinity src seen } src topologyType.interAffinity).interAffinity a b = true ↔
        inRel jm.interAffinity a b = true ∨ (a = src ∧ b ∈ seen) ∨ (b = src ∧ a ∈ seen) := by
      intro a b
      rw [m2]
      exact inRel_linkAll src seen jm.interAffinity a b
    rw [hstep]
    refine ⟨i1.trans m1, i2.trans m3, i3.trans m4, i4.trans m5, ?_, ?_, ?_, ?_,
      ?_, ?_⟩
    · intro n
      have hp : priorityOfName { jm with interAffinity := linkAll jm.interAffinity src seen } n =
          priorityOfName jm n := rfl
      rw [i5 n, m6 n, hp]
      have hk : affinityPriority topologyType.interAffinity = 3 := rfl
      rw [hk]
      show _ = if n ∈ src :: r then max (priorityOfName jm n) 3 else priorityOfName jm n
      by_cases h1 : n = src
      · subst h1
        simp only [List.mem_cons, true_or, if_true]
        split_ifs <;> omega
      · simp only [List.mem_cons, h1, false_or, if_false]
    · intro n
      rw [i6 n, m7 n]
      show _ = ((mapGet jm.taskAffinityPriority n).isSome || decide (n ∈ src :: r))
      by_cases h1 : n = src
      · simp [h1]
      · simp [h1, Bool.or_assoc]
    · intro a b h
      rcases i7 a b h with h1 | ⟨h1, h2⟩
      · rcases (hrel a b).1 h1 with g | ⟨g1, g2⟩ | ⟨g1, g2⟩
        · exact Or.inl g
        · right
          subst g1
          exact ⟨by simp, by simp [g2]⟩
        · right
          subst g1
          exact ⟨by simp [g2], by simp⟩
      · right
        simp only [List.append_assoc, List.singleton_append] at h1 h2
        exact ⟨h1, h2⟩
    · intro a b h
      exact i8 a b ((hrel a b).2 (Or.inl h))
    · intro a b hab ha hb hor
      by_cases hsa : a = src
      · by_cases hbs : b ∈ seen
        · exact i8 a b ((hrel a b).2 (Or.inr (Or.inl ⟨hsa, hbs⟩)))
        · have hbr : b ∈ r := by
            have hbne : b ≠ src := fun e => hab (hsa.trans e.symm)
            simp only [List.mem_append, List.mem_cons] at hb
            rcases hb with h | h | h
            · exact absurd h hbs
            · exact absurd h hbne
            · exact h
          apply i9 a b hab
          · simp [hsa]
          · simp [hbr]
          · exact Or.inr hbr
      · by_cases hsb : b = src
        · by_cases has : a ∈ seen
          · exact i8 a b ((hrel a b).2 (Or.inr (Or.inr ⟨hsb, has⟩)))
          · have har : a ∈ r := by
              simp only [List.mem_append, List.mem_cons] at ha
              rcases ha with h | h | h
              · exact absurd h has
              · exact absurd h hsa
              · exact h
            apply i9 a b hab
            · simp [har]
            · simp [hsb]
            · exact Or.inl har
        · apply i9 a b hab
          · simp only [List.mem_append, List.mem_cons] at ha
            rcases ha with h | h | h
            · simp [h]
            · exact absurd h hsa
            · simp [h]
          · simp only [List.mem_append, List.mem_cons] at hb
            rcases hb with h | h | h
            · simp [h]
            · exact absurd h hsb
            · simp [h]
          · simp only [List.mem_cons] at hor
            rcases hor with (h | h) | (h | h)
            · exact absurd h hsa
            · exact Or.inl h
            · exact absurd h hsb
            · exact Or.inr h
    · intro hsym
      apply i10
      intro a b
      have h1 := hrel a b
      have h2 := hrel b a
      have h3 := hsym a b
      rw [Bool.eq_iff_iff, h1, h2]
      rw [Bool.eq_iff_iff] at h3
      rw [h3]
      constructor
      · rintro (g | g | g)
        · exact Or.inl g
        · exact Or.inr (Or.inr g)
        · exact Or.inr (Or.inl g)
      · rintro (g | g | g)
        · exact Or.inl g
        · exact Or.inr (Or.inr g)
        · exact Or.inr (Or.inl g)

theorem applyAffinity_spec (jm : JobManager) (g : List String) :
    (applyAffinity jm g).selfAntiAffinity = jm.selfAntiAffinity ∧
    (applyAffinity jm g).interAntiAffinity = jm.interAntiAffinity ∧
    (applyAffinity jm g).taskExistOrder = jm.taskExistOrder ∧
    (∀ c, inSet (applyAffinity jm g).selfAffinity c = (inSet jm.selfAffinity c || decide (g = [c]))) ∧
    (∀ n, priorityOfName (applyAffinity jm g) n =
      if g = [n] then max (priorityOfName jm n) 2
      else if g.length ≠ 1 ∧ n ∈ g then max (priorityOfName jm n) 3
      else priorityOfName jm n) ∧
    (∀ n, (mapGet (applyAffinity jm g).taskAffinityPriority n).isSome =
      ((mapGet jm.taskAffinityPriority n).isSome || decide (n ∈ g))) ∧
    (∀ a b, inRel (applyAffinity jm g).interAffinity a b = true →
      inRel jm.interAffinity a b = true ∨ (g.length ≠ 1 ∧ a ∈ g ∧ b ∈ g)) ∧
    (∀ a b, inRel jm.interAffinity a b = true → inRel (applyAffinity jm g).interAffinity a b = true) ∧
    (g.length ≠ 1 → ∀ a b, a ≠ b → a ∈ g → b ∈ g →
      inRel (applyAffinity jm g).interAffinity a b = true) ∧
    ((∀ a b, inRel jm.interAffinity a b = inRel jm.interAffinity b a) →
      ∀ a b, inRel (applyAffinity jm g).interAffinity a b = inRel (applyAffinity jm g).interAffinity b a) := by
  have hlink : ∀ l : List String, l.length ≠ 1 → applyAffinity jm l = linkAffinity [] l jm := by
    intro l hl
    cases l with
    | nil => rfl
    | cons x r =>
      cases r with
      | nil => exact absurd rfl hl
      | cons y r2 => rfl
  by_cases hlen : g.length = 1
  · obtain ⟨x, hx⟩ := List.length_eq_one.1 hlen
    subst hx
    obtain ⟨m1, m2, m3, m4, m5, m6, m7⟩ :=
      mark_spec { jm with selfAffinity := mapSet jm.selfAffinity x () } x topologyType.selfAffinity
    have hap : applyAffinity jm [x] =
        MarkTaskHasTopology { jm with selfAffinity := mapSet jm.selfAffinity x () } x topologyType.selfAffinity := rfl
    rw [hap]
    refine ⟨m3, m4, m5, ?_, ?_, ?_, ?_, ?_, ?_, ?_⟩
    · intro c
      rw [m1]
      show (mapGet (mapSet jm.selfAffinity x ()) c).isSome = _
      rw [mapGet_mapSet]
      unfold inSet
      by_cases hc : x = c
      · simp [hc]
      · have hc2 : ¬ c = x := fun e => hc e.symm
        simp [hc, hc2]
    · intro n
      have hp : priorityOfName { jm with selfAffinity := mapSet jm.selfAffinity x () } n =
          priorityOfName jm n := rfl
      have hk : affinityPriority topologyType.selfAffinity = 2 := rfl
      rw [m6 n, hp, hk]
      by_cases hn : n = x
      · subst hn
        simp
      · have hn2 : ¬ x = n := fun e => hn e.symm
        simp [hn, hn2]
    · intro n
      rw [m7 n]
      show _ = ((mapGet jm.taskAffinityPriority n).isSome || decide (n ∈ [x]))
      simp
    · intro a b h
      rw [m2] at h
      exact Or.inl h
    · intro a b h
      rw [m2]
      exact h
    · intro h
      exact absurd rfl h
    · intro hsym a b
      rw [m2]
      exact hsym a b
  · rw [hlink g hlen]
    obtain ⟨i1, i2, i3, i4, i5, i6, i7, i8, i9, i10⟩ := linkAffinity_spec g [] jm
    refine ⟨i2, i3, i4, ?_, ?_, i6, ?_, i8, ?_, i10⟩
    · intro c
      rw [i1]
      have hne : ¬ g = [c] := fun e => hlen (by rw [e]; rfl)
      simp [hne]
    · intro n
      rw [i5 n]
      have hne : ¬ g = [n] := fun e => hlen (by rw [e]; rfl)
      simp [hne, hlen]
    · intro a b h
      rcases i7 a b h with h1 | ⟨h1, h2⟩
      · exact Or.inl h1
      · exact Or.inr ⟨hlen, by simpa using h1, by simpa using h2⟩
    · intro _ a b hab ha hb
      exact i9 a b hab (by simpa using ha) (by simpa using hb) (Or.inl ha)

theorem affinityGroups_spec (gs : List (List String)) :
    ∀ jm : JobManager, (∀ n, 0 ≤ priorityOfName jm n) →
      (gs.foldl applyAffinity jm).selfAntiAffinity = jm.selfAntiAffinity ∧
      (gs.foldl applyAffinity jm).interAntiAffinity = jm.interAntiAffinity ∧
      (gs.foldl applyAffinity jm).taskExistOrder = jm.taskExistOrder ∧
      (∀ c, inSet (gs.foldl applyAffinity jm).selfAffinity c = (inSet jm.selfAffinity c || occursAlone gs c)) ∧
      (∀ n, priorityOfName (gs.foldl applyAffinity jm) n =
        max (priorityOfName jm n)
          (max (if occursAlone gs n = true then 2 else 0)
            (if occursAmong gs n = true then 3 else 0))) ∧
      (∀ n, (mapGet (gs.foldl applyAffinity jm).taskAffinityPriority n).isSome =
        ((mapGet jm.taskAffinityPriority n).isSome || occursAlone gs n || occursAmong gs n)) ∧
      (∀ a b, inRel (gs.foldl applyAffinity jm).interAffinity a b = true →
        inRel jm.interAffinity a b = true ∨ ∃ g ∈ gs, g.length ≠ 1 ∧ a ∈ g ∧ b ∈ g) ∧
      (∀ a b, inRel jm.interAffinity a b = true → inRel (gs.foldl applyAffinity jm).interAffinity a b = true) ∧
      (∀ g ∈ gs, g.length ≠ 1 → ∀ a b, a ≠ b → a ∈ g → b ∈ g →
        inRel (gs.foldl applyAffinity jm).interAffinity a b = true) ∧
      ((∀ a b, inRel jm.interAffinity a b = inRel jm.interAffinity b a) →
        ∀ a b, inRel (gs.foldl applyAffinity jm).interAffinity a b = inRel (gs.foldl applyAffinity jm).interAffinity b a) := by
  induction gs with
  | nil =>
    intro jm hpos
    refine ⟨rfl, rfl, rfl, fun c => by simp [occursAlone], ?_, fun n => by simp [occursAlone, occursAmong],
      fun a b h => Or.inl h, fun a b h => h, fun g hg => absurd hg (List.not_mem_nil g),
      fun h => h⟩
    intro n
    have := hpos n
    simp only [List.foldl_nil, occursAlone, occursAmong, List.any_nil, Bool.false_eq_true,
      if_false]
    omega
  | cons g r ih =>
    intro jm hpos
    obtain ⟨s1, s2, s3, s4, s5, s6, s7, s8, s9, s10⟩ := applyAffinity_spec jm g
    have hpos1 : ∀ n, 0 ≤ priorityOfName (applyAffinity jm g) n := by
      intro n
      rw [s5 n]
      have := hpos n
      split_ifs <;> omega
    obtain ⟨i1, i2, i3, i4, i5, i6, i7, i8, i9, i10⟩ := ih (applyAffinity jm g) hpos1
    rw [List.foldl_cons]
    have hal : ∀ n, occursAlone (g :: r) n = (decide (g = [n]) || occursAlone r n) := by
      intro n; simp [occursAlone]
    have ham : ∀ n, occursAmong (g :: r) n =
        ((decide (g.length ≠ 1) && decide (n ∈ g)) || occursAmong r n) := by
      intro n; simp [occursAmong]
    refine ⟨i1.trans s1, i2.trans s2, i3.trans s3, ?_, ?_, ?_, ?_, ?_, ?_, ?_⟩
    · intro c
      rw [i4 c, s4 c, hal, Bool.or_assoc]
    · intro n
      rw [i5 n, s5 n, hal, ham]
      have := hpos n
      by_cases h1 : g = [n]
      · have h2 : ¬ (g.length ≠ 1 ∧ n ∈ g) := fun h => h.1 (by rw [h1]; rfl)
        have h3 : (decide (g.length ≠ 1) && decide (n ∈ g)) = false := by
          simpa using fun h => (h2 ⟨h, ·⟩)
        rw [if_pos h1, h3]
        simp only [h1, decide_True, Bool.true_or, if_true, Bool.false_or]
        split_ifs <;> omega
      · rw [if_neg h1]
        by_cases h2 : g.length ≠ 1 ∧ n ∈ g
        · have h3 : (decide (g.length ≠ 1) && decide (n ∈ g)) = true := by
            simpa using h2
          rw [if_pos h2, h3]
          simp only [h1, decide_False, Bool.false_or, Bool.true_or, if_true]
          split_ifs <;> omega
        · have h3 : (decide (g.length ≠ 1) && decide (n ∈ g)) = false := by
            simpa using fun h => (fun h' => h2 ⟨h, h'⟩)
          rw [if_neg h2, h3]
          simp only [h1, decide_False, Bool.false_or]
    · intro n
      rw [i6 n, s6 n, hal, ham]
      by_cases h1 : g = [n]
      · have hm : n ∈ g := by rw [h1]; simp
        simp [h1]
      · by_cases h2 : n ∈ g
        · have hl : g.length ≠ 1 := by
            intro hl
            obtain ⟨x, hx⟩ := List.length_eq_one.1 hl
            rw [hx] at h2 h1
            simp only [List.mem_singleton] at h2
            exact h1 (by rw [h2])
          simp [h1, h2, hl]
        · simp [h1, h2]
    · intro a b h
      rcases i7 a b h with h1 | ⟨g2, hg2, h2⟩
      · rcases s7 a b h1 with h3 | h3
        · exact Or.inl h3
        · exact Or.inr ⟨g, List.mem_cons_self _ _, h3⟩
      · exact Or.inr ⟨g2, List.mem_cons_of_mem _ hg2, h2⟩
    · intro a b h
      exact i8 a b (s8 a b h)
    · intro g2 hg2 hlen a b hab ha hb
      rcases List.mem_cons.1 hg2 with e | e
      · subst e
        exact i8 a b (s9 hlen a b hab ha hb)
      · exact i9 g2 e hlen a b hab ha hb
    · intro hsym
      exact i10 (s10 hsym)

theorem linkAntiAffinity_spec (rest : List String) :
    ∀ (seen : List String) (jm : JobManager),
      (linkAntiAffinity seen rest jm).selfAntiAffinity = jm.selfAntiAffinity ∧
      (linkAntiAffinity seen rest jm).selfAffinity = jm.selfAffinity ∧
      (linkAntiAffinity seen rest jm).interAffinity = jm.interAffinity ∧
      (linkAntiAffinity seen rest jm).taskExistOrder = jm.taskExistOrder ∧
      (∀ n, priorityOfName (linkAntiAffinity seen rest jm) n =
        if n ∈ rest then max (priorityOfName jm n) 1 else priorityOfName jm n) ∧
      (∀ n, (mapGet (linkAntiAffinity seen rest jm).taskAffinityPriority n).isSome =
        ((mapGet jm.taskAffinityPriority n).isSome || decide (n ∈ rest))) ∧
      (∀ a b, inRel (linkAntiAffinity seen rest jm).interAntiAffinity a b = true →
        inRel jm.interAntiAffinity a b = true ∨ (a ∈ seen ++ rest ∧ b ∈ seen ++ rest)) ∧
      (∀ a b, inRel jm.interAntiAffinity a b = true → inRel (linkAntiAffinity seen rest jm).interAntiAffinity a b = true) ∧
      (∀ a b, a ≠ b → a ∈ seen ++ rest → b ∈ seen ++ rest → (a ∈ rest ∨ b ∈ rest) →
        inRel (linkAntiAffinity seen rest jm).interAntiAffinity a b = true) ∧
      ((∀ a b, inRel jm.interAntiAffinity a b = inRel jm.interAntiAffinity b a) →
        ∀ a b, inRel (linkAntiAffinity seen rest jm).interAntiAffinity a b = inRel (linkAntiAffinity seen rest jm).interAntiAffinity b a) := by
  induction rest with
  | nil =>
    intro seen jm
    refine ⟨rfl, rfl, rfl, rfl, fun n => by simp [linkAntiAffinity], fun n => by simp [linkAntiAffinity],
      fun a b h => Or.inl h, fun a b h => h, ?_, fun h => h⟩
    intro a b _ _ _ h
    rcases h with h | h <;> cases h
  | cons src r ih =>
    intro seen jm
    obtain ⟨m1, m2, m3, m4, m5, m6, m7⟩ :=
      mark_spec { jm with interAntiAffinity := linkAll jm.interAntiAffinity src seen } src topologyType.interAntiAffinity
    obtain ⟨i1, i2, i3, i4, i5, i6, i7, i8, i9, i10⟩ := ih (seen ++ [src])
      (MarkTaskHasTopology { jm with interAntiAffinity := linkAll jm.interAntiAffinity src seen } src topologyType.interAntiAffinity)
    have hstep : linkAntiAffinity seen (src :: r) jm = linkAntiAffinity (seen ++ [src]) r
        (MarkTaskHasTopology { jm with interAntiAffinity := linkAll jm.interAntiAffinity src seen } src topologyType.interAntiAffinity) := rfl
    have hrel : ∀ a b, inRel (MarkTaskHasTopology
        { jm with interAntiAffinity := linkAll jm.interAntiAffinity src seen } src topologyType.interAntiAffinity).interAntiAffinity a b = true ↔
        inRel jm.interAntiAffinity a b = true ∨ (a = src ∧ b ∈ seen) ∨ (b = src ∧ a ∈ seen) := by
      intro a b
      rw [m4]
      exact inRel_linkAll src seen jm.interAntiAffinity a b
    rw [hstep]
    refine ⟨i1.trans m3, i2.trans m1, i3.trans m2, i4.trans m5, ?_, ?_, ?_, ?_,
      ?_, ?_⟩
    · intro n
      have hp : priorityOfName { jm with interAntiAffinity := linkAll jm.interAntiAffinity src seen } n =
          priorityOfName jm n := rfl
      rw [i5 n, m6 n, hp]
      have hk : affinityPriority topologyType.interAntiAffinity = 1 := rfl
      rw [hk]
      show _ = if n ∈ src :: r then max (priorityOfName jm n) 1 else priorityOfName jm n
      by_cases h1 : n = src
      · subst h1
        simp only [List.mem_cons, true_or, if_true]
        split_ifs <;> omega
      · simp only [List.mem_cons, h1, false_or, if_false]
    · intro n
      rw [i6 n, m7 n]
      show _ = ((mapGet jm.taskAffinityPriority n).isSome || decide (n ∈ src :: r))
      by_cases h1 : n = src
      · simp [h1]
      · simp [h1, Bool.or_assoc]
    · intro a b h
      rcases i7 a b h with h1 | ⟨h1, h2⟩
      · rcases (hrel a b).1 h1 with g | ⟨g1, g2⟩ | ⟨g1, g2⟩
        · exact Or.inl g
        · right
          subst g1
          exact ⟨by simp, by simp [g2]⟩
        · right
          subst g1
          exact ⟨by simp [g2], by simp⟩
      · right
        simp only [List.append_assoc, List.singleton_append] at h1 h2
        exact ⟨h1, h2⟩
    · intro a b h
      exact i8 a b ((hrel a b).2 (Or.inl h))
    · intro a b hab ha hb hor
      by_cases hsa : a = src
      · by_cases hbs : b ∈ seen
        · exact i8 a b ((hrel a b).2 (Or.inr (Or.inl ⟨hsa, hbs⟩)))
        · have hbr : b ∈ r := by
            have hbne : b ≠ src := fun e => hab (hsa.trans e.symm)
            simp only [List.mem_append, List.mem_cons] at hb
            rcases hb with h | h | h
            · exact absurd h hbs
            · exact absurd h hbne
            · exact h
          apply i9 a b hab
          · simp [hsa]
          · simp [hbr]
          · exact Or.inr hbr
      · by_cases hsb : b = src
        · by_cases has : a ∈ seen
          · exact i8 a b ((hrel a b).2 (Or.inr (Or.inr ⟨hsb, has⟩)))
          · have har : a ∈ r := by
              simp only [List.mem_append, List.mem_cons] at ha
              rcases ha with h | h | h
              · exact absurd h has
              · exact absurd h hsa
              · exact h
            apply i9 a b hab
            · simp [har]
            · simp [hsb]
            · exact Or.inl har
        · apply i9 a b hab
          · simp only [List.mem_append, List.mem_cons] at ha
            rcases ha with h | h | h
            · simp [h]
            · exact absurd h hsa
            · simp [h]
          · simp only [List.mem_append, List.mem_cons] at hb
            rcases hb with h | h | h
            · simp [h]
            · exact absurd h hsb
            · simp [h]
          · simp only [List.mem_cons] at hor
            rcases hor with (h | h) | (h | h)
            · exact absurd h hsa
            · exact Or.inl h
            · exact absurd h hsb
            · exact Or.inr h
    · intro hsym
      apply i10
      intro a b
      have h1 := hrel a b
      have h2 := hrel b a
      have h3 := hsym a b
      rw [Bool.eq_iff_iff, h1, h2]
      rw [Bool.eq_iff_iff] at h3
      rw [h3]
      constructor
      · rintro (g | g | g)
        · exact Or.inl g
        · exact Or.inr (Or.inr g)
        · exact Or.inr (Or.inl g)
      · rintro (g | g | g)
        · exact Or.inl g
        · exact Or.inr (Or.inr g)
        · exact Or.inr (Or.inl g)

theorem applyAntiAffinity_spec (jm : JobManager) (g : List String) :
    (applyAntiAffinity jm g).selfAffinity = jm.selfAffinity ∧
    (applyAntiAffinity jm g).interAffinity = jm.interAffinity ∧
    (applyAntiAffinity jm g).taskExistOrder = jm.taskExistOrder ∧
    (∀ c, inSet (applyAntiAffinity jm g).selfAntiAffinity c = (inSet jm.selfAntiAffinity c || decide (g = [c]))) ∧
    (∀ n, priorityOfName (applyAntiAffinity jm g) n =
      if g = [n] then max (priorityOfName jm n) 4
      else if g.length ≠ 1 ∧ n ∈ g then max (priorityOfName jm n) 1
      else priorityOfName jm n) ∧
    (∀ n, (mapGet (applyAntiAffinity jm g).taskAffinityPriority n).isSome =
      ((mapGet jm.taskAffinityPriority n).isSome || decide (n ∈ g))) ∧
    (∀ a b, inRel (applyAntiAffinity jm g).interAntiAffinity a b = true →
      inRel jm.interAntiAffinity a b = true ∨ (g.length ≠ 1 ∧ a ∈ g ∧ b ∈ g)) ∧
    (∀ a b, inRel jm.interAntiAffinity a b = true → inRel (applyAntiAffinity jm g).interAntiAffinity a b = true) ∧
    (g.length ≠ 1 → ∀ a b, a ≠ b → a ∈ g → b ∈ g →
      inRel (applyAntiAffinity jm g).interAntiAffinity a b = true) ∧
    ((∀ a b, inRel jm.interAntiAffinity a b = inRel jm.interAntiAffinity b a) →
      ∀ a b, inRel (applyAntiAffinity jm g).interAntiAffinity a b = inRel (applyAntiAffinity jm g).interAntiAffinity b a) := by
  have hlink : ∀ l : List String, l.length ≠ 1 → applyAntiAffinity jm l = linkAntiAffinity [] l jm := by
    intro l hl
    cases l with
    | nil => rfl
    | cons x r =>
      cases r with
      | nil => exact absurd rfl hl
      | cons y r2 => rfl
  by_cases hlen : g.length = 1
  · obtain ⟨x, hx⟩ := List.length_eq_one.1 hlen
    subst hx
    obtain ⟨m1, m2, m3, m4, m5, m6, m7⟩ :=
      mark_spec { jm with selfAntiAffinity := mapSet jm.selfAntiAffinity x () } x topologyType.selfAntiAffinity
    have hap : applyAntiAffinity jm [x] =
        MarkTaskHasTopology { jm with selfAntiAffinity := mapSet jm.selfAntiAffinity x () } x topologyType.selfAntiAffinity := rfl
    rw [hap]
    refine ⟨m1, m2, m5, ?_, ?_, ?_, ?_, ?_, ?_, ?_⟩
    · intro c
      rw [m3]
      show (mapGet (mapSet jm.selfAntiAffinity x ()) c).isSome = _
      rw [mapGet_mapSet]
      unfold inSet
      by_cases hc : x = c
      · simp [hc]
      · have hc2 : ¬ c = x := fun e => hc e.symm
        simp [hc, hc2]
    · intro n
      have hp : priorityOfName { jm with selfAntiAffinity := mapSet jm.selfAntiAffinity x () } n =
          priorityOfName jm n := rfl
      have hk : affinityPriority topologyType.selfAntiAffinity = 4 := rfl
      rw [m6 n, hp, hk]
      by_cases hn : n = x
      · subst hn
        simp
      · have hn2 : ¬ x = n := fun e => hn e.symm
        simp [hn, hn2]
    · intro n
      rw [m7 n]
      show _ = ((mapGet jm.taskAffinityPriority n).isSome || decide (n ∈ [x]))
      simp
    · intro a b h
      rw [m4] at h
      exact Or.inl h
    · intro a b h
      rw [m4]
      exact h
    · intro h
      exact absurd rfl h
    · intro hsym a b
      rw [m4]
      exact hsym a b
  · rw [hlink g hlen]
    obtain ⟨i1, i2, i3, i4, i5, i6, i7, i8, i9, i10⟩ := linkAntiAffinity_spec g [] jm
    refine ⟨i2, i3, i4, ?_, ?_, i6, ?_, i8, ?_, i10⟩
    · intro c
      rw [i1]
      have hne : ¬ g = [c] := fun e => hlen (by rw [e]; rfl)
      simp [hne]
    · intro n
      rw [i5 n]
      have hne : ¬ g = [n] := fun e => hlen (by rw [e]; rfl)
      simp [hne, hlen]
    · intro a b h
      rcases i7 a b h with h1 | ⟨h1, h2⟩
      · exact Or.inl h1
      · exact Or.inr ⟨hlen, by simpa using h1, by simpa using h2⟩
    · intro _ a b hab ha hb
      exact i9 a b hab (by simpa using ha) (by simpa using hb) (Or.inl ha)

theorem antiAffinityGroups_spec (gs : List (List String)) :
    ∀ jm : JobManager, (∀ n, 0 ≤ priorityOfName jm n) →
      (gs.foldl applyAntiAffinity jm).selfAffinity = jm.selfAffinity ∧
      (gs.foldl applyAntiAffinity jm).interAffinity = jm.interAffinity ∧
      (gs.foldl applyAntiAffinity jm).taskExistOrder = jm.taskExistOrder ∧
      (∀ c, inSet (gs.foldl applyAntiAffinity jm).selfAntiAffinity c = (inSet jm.selfAntiAffinity c || occursAlone gs c)) ∧
      (∀ n, priorityOfName (gs.foldl applyAntiAffinity jm) n =
        max (priorityOfName jm n)
          (max (if occursAlone gs n = true then 4 else 0)
            (if occursAmong gs n = true then 1 else 0))) ∧
      (∀ n, (mapGet (gs.foldl applyAntiAffinity jm).taskAffinityPriority n).isSome =
        ((mapGet jm.taskAffinityPriority n).isSome || occursAlone gs n || occursAmong gs n)) ∧
      (∀ a b, inRel (gs.foldl applyAntiAffinity jm).interAntiAffinity a b = true →
        inRel jm.interAntiAffinity a b = true ∨ ∃ g ∈ gs, g.length ≠ 1 ∧ a ∈ g ∧ b ∈ g) ∧
      (∀ a b, inRel jm.interAntiAffinity a b = true → inRel (gs.foldl applyAntiAffinity jm).interAntiAffinity a b = true) ∧
      (∀ g ∈ gs, g.length ≠ 1 → ∀ a b, a ≠ b → a ∈ g → b ∈ g →
        inRel (gs.foldl applyAntiAffinity jm).interAntiAffinity a b = true) ∧
      ((∀ a b, inRel jm.interAntiAffinity a b = inRel jm.interAntiAffinity b a) →
        ∀ a b, inRel (gs.foldl applyAntiAffinity jm).interAntiAffinity a b = inRel (gs.foldl applyAntiAffinity jm).interAntiAffinity b a) := by
  induction gs with
  | nil =>
    intro jm hpos
    refine ⟨rfl, rfl, rfl, fun c => by simp [occursAlone], ?_, fun n => by simp [occursAlone, occursAmong],
      fun a b h => Or.inl h, fun a b h => h, fun g hg => absurd hg (List.not_mem_nil g),
      fun h => h⟩
    intro n
    have := hpos n
    simp only [List.foldl_nil, occursAlone, occursAmong, List.any_nil, Bool.false_eq_true,
      if_false]
    omega
  | cons g r ih =>
    intro jm hpos
    obtain ⟨s1, s2, s3, s4, s5, s6, s7, s8, s9, s10⟩ := applyAntiAffinity_spec jm g
    have hpos1 : ∀ n, 0 ≤ priorityOfName (applyAntiAffinity jm g) n := by
      intro n
      rw [s5 n]
      have := hpos n
      split_ifs <;> omega
    obtain ⟨i1, i2, i3, i4, i5, i6, i7, i8, i9, i10⟩ := ih (applyAntiAffinity jm g) hpos1
    rw [List.foldl_cons]
    have hal : ∀ n, occursAlone (g :: r) n = (decide (g = [n]) || occursAlone r n) := by
      intro n; simp [occursAlone]
    have ham : ∀ n, occursAmong (g :: r) n =
        ((decide (g.length ≠ 1) && decide (n ∈ g)) || occursAmong r n) := by
      intro n; simp [occursAmong]
    refine ⟨i1.trans s1, i2.trans s2, i3.trans s3, ?_, ?_, ?_, ?_, ?_, ?_, ?_⟩
    · intro c
      rw [i4 c, s4 c, hal, Bool.or_assoc]
    · intro n
      rw [i5 n, s5 n, hal, ham]
      have := hpos n
      by_cases h1 : g = [n]
      · have h2 : ¬ (g.length ≠ 1 ∧ n ∈ g) := fun h => h.1 (by rw [h1]; rfl)
        have h3 : (decide (g.length ≠ 1) && decide (n ∈ g)) = false := by
          simpa using fun h => (h2 ⟨h, ·⟩)
        rw [if_pos h1, h3]
        simp only [h1, decide_True, Bool.true_or, if_true, Bool.false_or]
        split_ifs <;> omega
      · rw [if_neg h1]
        by_cases h2 : g.length ≠ 1 ∧ n ∈ g
        · have h3 : (decide (g.length ≠ 1) && decide (n ∈ g)) = true := by
            simpa using h2
          rw [if_pos h2, h3]
          simp only [h1, decide_False, Bool.false_or, Bool.true_or, if_true]
          split_ifs <;> omega
        · have h3 : (decide (g.length ≠ 1) && decide (n ∈ g)) = false := by
            simpa using fun h => (fun h' => h2 ⟨h, h'⟩)
          rw [if_neg h2, h3]
          simp only [h1, decide_False, Bool.false_or]
    · intro n
      rw [i6 n, s6 n, hal, ham]
      by_cases h1 : g = [n]
      · have hm : n ∈ g := by rw [h1]; simp
        simp [h1]
      · by_cases h2 : n ∈ g
        · have hl : g.length ≠ 1 := by
            intro hl
            obtain ⟨x, hx⟩ := List.length_eq_one.1 hl
            rw [hx] at h2 h1
            simp only [List.mem_singleton] at h2
            exact h1 (by rw [h2])
          simp [h1, h2, hl]
        · simp [h1, h2]
    · intro a b h
      rcases i7 a b h with h1 | ⟨g2, hg2, h2⟩
      · rcases s7 a b h1 with h3 | h3
        · exact Or.inl h3
        · exact Or.inr ⟨g, List.mem_cons_self _ _, h3⟩
      · exact Or.inr ⟨g2, List.mem_cons_of_mem _ hg2, h2⟩
    · intro a b h
      exact i8 a b (s8 a b h)
    · intro g2 hg2 hlen a b hab ha hb
      rcases List.mem_cons.1 hg2 with e | e
      · subst e
        exact i8 a b (s9 hlen a b hab ha hb)
      · exact i9 g2 e hlen a b hab ha hb
    · intro hsym
      exact i10 (s10 hsym)

theorem setOrder_not_mem (length : Nat) (l : List String) :
    ∀ (index : Nat) (m : List (String × Int)) (name : String), name ∉ l →
      mapGet (setOrder length index l m) name = mapGet m name := by
  induction l with
  | nil => intro index m name _; rfl
  | cons x r ih =>
    intro index m name hn
    have hx : x ≠ name := fun e => hn (by rw [e]; exact List.mem_cons_self _ _)
    have hr : name ∉ r := fun h => hn (List.mem_cons_of_mem _ h)
    show mapGet (setOrder length (index + 1) r (mapSet m x _)) name = _
    rw [ih _ _ _ hr, mapGet_mapSet, if_neg hx]

theorem setOrder_last (length : Nat) (pre : List String) :
    ∀ (index : Nat) (m : List (String × Int)) (name : String) (post : List String),
      name ∉ post →
      mapGet (setOrder length index (pre ++ name :: post) m) name =
        some ((length : Int) - ((index + pre.length : Nat) : Int)) := by
  induction pre with
  | nil =>
    intro index m name post hn
    show mapGet (setOrder length (index + 1) post (mapSet m name _)) name = _
    rw [setOrder_not_mem _ _ _ _ _ hn, mapGet_mapSet, if_pos rfl]
    simp
  | cons x r ih =>
    intro index m name post hn
    show mapGet (setOrder length (index + 1) (r ++ name :: post) (mapSet m x _)) name = _
    rw [ih _ _ _ _ hn]
    congr 2
    simp only [List.length_cons]
    omega

/-- C32: on a new job manager `ApplyTaskTopology` files a name in
`selfAffinity` (`selfAntiAffinity`) exactly when it is the member of a
one-element affinity (anti-affinity) group; it relates in `interAffinity`
(`interAntiAffinity`) every two different members of a group that is no
one-element group, in both directions, and no names that are not members of
one such group, and both relations are symmetric; the affinity priority of a
name is the largest priority of the kinds in which it occurs (4 as the member
of a one-element anti-affinity group, 3 as a member of another affinity group,
2 as the member of a one-element affinity group, 1 as a member of another
anti-affinity group), and a name that occurs in no group has no priority; and
the order of a name is the length of `TaskOrder` less the index at which it
stands last, so that of two names of a `TaskOrder` without repetition the
earlier has the larger order. -/
theorem applyTaskTopology_spec (jobID : JobID) (topo : TaskTopology) :
    (∀ c, inSet ((NewJobManager jobID).ApplyTaskTopology topo).selfAffinity c =
      occursAlone topo.Affinity c) ∧
    (∀ c, inSet ((NewJobManager jobID).ApplyTaskTopology topo).selfAntiAffinity c =
      occursAlone topo.AntiAffinity c) ∧
    (∀ g ∈ topo.Affinity, g.length ≠ 1 → ∀ a b, a ≠ b → a ∈ g → b ∈ g →
      inRel ((NewJobManager jobID).ApplyTaskTopology topo).interAffinity a b = true) ∧
    (∀ a b, inRel ((NewJobManager jobID).ApplyTaskTopology topo).interAffinity a b = true →
      ∃ g ∈ topo.Affinity, g.length ≠ 1 ∧ a ∈ g ∧ b ∈ g) ∧
    (∀ a b, inRel ((NewJobManager jobID).ApplyTaskTopology topo).interAffinity a b =
      inRel ((NewJobManager jobID).ApplyTaskTopology topo).interAffinity b a) ∧
    (∀ g ∈ topo.AntiAffinity, g.length ≠ 1 → ∀ a b, a ≠ b → a ∈ g → b ∈ g →
      inRel ((NewJobManager jobID).ApplyTaskTopology topo).interAntiAffinity a b = true) ∧
    (∀ a b,
      inRel ((NewJobManager jobID).ApplyTaskTopology topo).interAntiAffinity a b = true →
      ∃ g ∈ topo.AntiAffinity, g.length ≠ 1 ∧ a ∈ g ∧ b ∈ g) ∧
    (∀ a b, inRel ((NewJobManager jobID).ApplyTaskTopology topo).interAntiAffinity a b =
      inRel ((NewJobManager jobID).ApplyTaskTopology topo).interAntiAffinity b a) ∧
    (∀ n, priorityOfName ((NewJobManager jobID).ApplyTaskTopology topo) n =
      max (if occursAlone topo.AntiAffinity n = true then 4 else 0)
        (max (if occursAmong topo.Affinity n = true then 3 else 0)
          (max (if occursAlone topo.Affinity n = true then 2 else 0)
            (if occursAmong topo.AntiAffinity n = true then 1 else 0)))) ∧
    (∀ n, (mapGet ((NewJobManager jobID).ApplyTaskTopology topo).taskAffinityPriority n).isSome =
      (occursAlone topo.Affinity n || occursAmong topo.Affinity n ||
        occursAlone topo.AntiAffinity n || occursAmong topo.AntiAffinity n)) ∧
    (∀ pre name post, topo.TaskOrder = pre ++ name :: post → name ∉ post →
      mapGet ((NewJobManager jobID).ApplyTaskTopology topo).taskExistOrder name =
        some ((topo.TaskOrder.length : Int) - (pre.length : Int))) ∧
    (∀ name, name ∉ topo.TaskOrder →
      mapGet ((NewJobManager jobID).ApplyTaskTopology topo).taskExistOrder name = none) ∧
    (topo.TaskOrder.Nodup → ∀ pre a mid b post,
      topo.TaskOrder = pre ++ a :: (mid ++ b :: post) →
      ∃ oa ob,
        mapGet ((NewJobManager jobID).ApplyTaskTopology topo).taskExistOrder a = some oa ∧
        mapGet ((NewJobManager jobID).ApplyTaskTopology topo).taskExistOrder b = some ob ∧
        ob < oa) := by
  have hpos0 : ∀ n, 0 ≤ priorityOfName (NewJobManager jobID) n := by
    intro n; simp [priorityOfName, NewJobManager, mapGet]
  obtain ⟨a1, a2, a3, a4, a5, a6, a7, -, a9, a10⟩ :=
    affinityGroups_spec topo.Affinity (NewJobManager jobID) hpos0
  have hpos1 : ∀ n, 0 ≤ priorityOfName (topo.Affinity.foldl applyAffinity (NewJobManager jobID)) n := by
    intro n
    rw [a5 n]
    have := hpos0 n
    split_ifs <;> omega
  obtain ⟨b1, b2, b3, b4, b5, b6, b7, -, b9, b10⟩ :=
    antiAffinityGroups_spec topo.AntiAffinity
      (topo.Affinity.foldl applyAffinity (NewJobManager jobID)) hpos1
  have hself : ((NewJobManager jobID).ApplyTaskTopology topo).selfAffinity =
      (topo.AntiAffinity.foldl applyAntiAffinity
        (topo.Affinity.foldl applyAffinity (NewJobManager jobID))).selfAffinity := rfl
  have hinter : ((NewJobManager jobID).ApplyTaskTopology topo).interAffinity =
      (topo.AntiAffinity.foldl applyAntiAffinity
        (topo.Affinity.foldl applyAffinity (NewJobManager jobID))).interAffinity := rfl
  have hselfA : ((NewJobManager jobID).ApplyTaskTopology topo).selfAntiAffinity =
      (topo.AntiAffinity.foldl applyAntiAffinity
        (topo.Affinity.foldl applyAffinity (NewJobManager jobID))).selfAntiAffinity := rfl
  have hinterA : ((NewJobManager jobID).ApplyTaskTopology topo).interAntiAffinity =
      (topo.AntiAffinity.foldl applyAntiAffinity
        (topo.Affinity.foldl applyAffinity (NewJobManager jobID))).interAntiAffinity := rfl
  have hprio : ∀ n, priorityOfName ((NewJobManager jobID).ApplyTaskTopology topo) n =
      priorityOfName (topo.AntiAffinity.foldl applyAntiAffinity
        (topo.Affinity.foldl applyAffinity (NewJobManager jobID))) n := fun _ => rfl
  have htap : ((NewJobManager jobID).ApplyTaskTopology topo).taskAffinityPriority =
      (topo.AntiAffinity.foldl applyAntiAffinity
        (topo.Affinity.foldl applyAffinity (NewJobManager jobID))).taskAffinityPriority := rfl
  have hord : ((NewJobManager jobID).ApplyTaskTopology topo).taskExistOrder =
      setOrder topo.TaskOrder.length 0 topo.TaskOrder [] := by
    show setOrder _ 0 _ (topo.AntiAffinity.foldl applyAntiAffinity
        (topo.Affinity.foldl applyAffinity (NewJobManager jobID))).taskExistOrder = _
    rw [b3, a3]
    rfl
  have hlast : ∀ pre name post, topo.TaskOrder = pre ++ name :: post → name ∉ post →
      mapGet ((NewJobManager jobID).ApplyTaskTopology topo).taskExistOrder name =
        some ((topo.TaskOrder.length : Int) - (pre.length : Int)) := by
    intro pre name post e hn
    rw [hord]
    have h := setOrder_last topo.TaskOrder.length pre 0 [] name post hn
    rw [← e] at h
    rw [h]
    simp
  have hrel0 : ∀ a b, inRel (NewJobManager jobID).interAffinity a b = false := by
    intro a b; simp [inRel, NewJobManager, mapGet]
  have hrel0A : ∀ a b, inRel (NewJobManager jobID).interAntiAffinity a b = false := by
    intro a b; simp [inRel, NewJobManager, mapGet]
  have hset0 : ∀ c, inSet (NewJobManager jobID).selfAffinity c = false := by
    intro c; simp [inSet, NewJobManager, mapGet]
  have hset0A : ∀ c, inSet (NewJobManager jobID).selfAntiAffinity c = false := by
    intro c; simp [inSet, NewJobManager, mapGet]
  have htap0 : ∀ n, (mapGet (NewJobManager jobID).taskAffinityPriority n).isSome = false := by
    intro n; simp [NewJobManager, mapGet]
  have hp0 : ∀ n, priorityOfName (NewJobManager jobID) n = 0 := by
    intro n; simp [priorityOfName, NewJobManager, mapGet]
  refine ⟨?_, ?_, ?_, ?_, ?_, ?_, ?_, ?_, ?_, ?_, hlast, ?_, ?_⟩
  · intro c
    rw [hself, b1, a4 c, hset0]
    simp
  · intro c
    rw [hselfA, b4 c, a1, hset0A]
    simp
  · intro g hg hlen a b hab ha hb
    rw [hinter, b2]
    exact a9 g hg hlen a b hab ha hb
  · intro a b h
    rw [hinter, b2] at h
    rcases a7 a b h with h1 | h1
    · rw [hrel0] at h1; cases h1
    · exact h1
  · intro a b
    rw [hinter, b2]
    exact a10 (fun x y => by rw [hrel0, hrel0]) a b
  · intro g hg hlen a b hab ha hb
    rw [hinterA]
    exact b9 g hg hlen a b hab ha hb
  · intro a b h
    rw [hinterA] at h
    rcases b7 a b h with h1 | h1
    · rw [a2, hrel0A] at h1; cases h1
    · exact h1
  · intro a b
    rw [hinterA]
    apply b10
    intro x y
    rw [a2, hrel0A, hrel0A]
  · intro n
    rw [hprio, b5 n, a5 n, hp0]
    split_ifs <;> omega
  · intro n
    rw [htap, b6 n, a6 n, htap0]
    simp
  · intro name hn
    rw [hord]
    rw [setOrder_not_mem _ _ _ _ _ hn]
    rfl
  · intro hnd pre a mid b post e
    have hnd2 : (pre ++ a :: (mid ++ b :: post)).Nodup := e ▸ hnd
    have ha : a ∉ mid ++ b :: post := by
      have := (List.nodup_append.1 hnd2).2.1
      exact (List.nodup_cons.1 this).1
    have hb : b ∉ post := by
      have h1 := (List.nodup_append.1 hnd2).2.1
      have h2 := (List.nodup_cons.1 h1).2
      have h3 := (List.nodup_append.1 h2).2.1
      exact (List.nodup_cons.1 h3).1
    have e2 : topo.TaskOrder = (pre ++ a :: mid) ++ b :: post := by
      rw [e]; simp
    refine ⟨_, _, hlast pre a _ e ha, hlast (pre ++ a :: mid) b post e2 hb, ?_⟩
    simp only [List.length_append, List.length_cons]
    omega

end TopologyTheorems

section BucketTheorems

open TopologyPlugin TopologyPlugin.JobManager

theorem maxSize_nonneg (l : List Bucket) : 0 ≤ maxSize l := by
  unfold maxSize
  induction l with
  | nil => simp
  | cons x r ih =>
    simp only [List.map_cons, List.foldr_cons]
    exact le_max_of_le_right ih

theorem maxSize_cons (x : Bucket) (r : List Bucket) :
    maxSize (x :: r) = max x.size (maxSize r) := rfl

theorem size_le_maxSize (l : List Bucket) (b : Bucket) (h : b ∈ l) : b.size ≤ maxSize l := by
  induction l with
  | nil => cases h
  | cons x r ih =>
    rw [maxSize_cons]
    rcases List.mem_cons.1 h with e | e
    · rw [e]; exact le_max_left _ _
    · exact le_trans (ih e) (le_max_right _ _)

theorem maxSize_attained (l : List Bucket) (hne : l ≠ []) (hpos : ∀ b ∈ l, 0 ≤ b.size) :
    ∃ b ∈ l, b.size = maxSize l := by
  induction l with
  | nil => exact absurd rfl hne
  | cons x r ih =>
    rw [maxSize_cons]
    by_cases hr : r = []
    · subst hr
      refine ⟨x, List.mem_cons_self _ _, ?_⟩
      have := hpos x (List.mem_cons_self _ _)
      show x.size = max x.size 0
      rw [max_eq_left this]
    · obtain ⟨b, hb, e⟩ := ih hr (fun b hb => hpos b (List.mem_cons_of_mem _ hb))
      by_cases hc : maxSize r ≤ x.size
      · exact ⟨x, List.mem_cons_self _ _, (max_eq_left hc).symm⟩
      · refine ⟨b, List.mem_cons_of_mem _ hb, ?_⟩
        rw [e, max_eq_right (le_of_lt (not_le.1 hc))]

theorem maxSize_set (l : List Bucket) :
    ∀ (i : Nat) (b b1 : Bucket), l.get? i = some b → b.size ≤ b1.size →
      maxSize (l.set i b1) = max (maxSize l) b1.size := by
  induction l with
  | nil => intro i b b1 h; simp at h
  | cons x r ih =>
    intro i b b1 h hle
    cases i with
    | zero =>
      simp only [List.get?_cons_zero, Option.some.injEq] at h
      subst h
      rw [List.set_cons_zero, maxSize_cons, maxSize_cons]
      simp only [max_def]
      split_ifs <;> omega
    | succ j =>
      simp only [List.get?_cons_succ] at h
      rw [List.set_cons_succ, maxSize_cons, maxSize_cons, ih j b b1 h hle]
      simp only [max_def]
      split_ifs <;> omega

theorem maxSize_append_empty (l : List Bucket) (b0 : Bucket) (h0 : b0.size = 0) :
    maxSize (l ++ [b0]) = maxSize l := by
  induction l with
  | nil =>
    show max b0.size 0 = 0
    rw [h0]; rfl
  | cons x r ih =>
    rw [List.cons_append, maxSize_cons, maxSize_cons, ih]

theorem mapLen_mapDel_of_mem {κ α : Type} [DecidableEq κ] (m : List (κ × α))
    (hn : NodupKeys m) (k : κ) (h : (mapGet m k).isSome = true) :
    mapLen (mapDel m k) + 1 = mapLen m := by
  induction m with
  | nil => simp [mapGet] at h
  | cons p r ih =>
    obtain ⟨k0, v0⟩ := p
    have hn' : k0 ∉ r.map (fun p => p.1) ∧ NodupKeys r := by
      simpa [NodupKeys] using hn
    rw [mapDel_cons]
    by_cases hk : k0 = k
    · subst hk
      have hr : mapGet r k0 = none := (mapGet_eq_none_iff _ _).2 hn'.1
      rw [if_pos rfl, mapDel_eq_self hr]
      rfl
    · rw [if_neg hk]
      have h2 : (mapGet r k).isSome = true := by
        simpa [mapGet, hk] using h
      have := ih hn'.2 h2
      simp only [mapLen, List.length_cons] at this ⊢
      omega

theorem mapLen_mapSet_ge {κ α : Type} [DecidableEq κ] (m : List (κ × α))
    (hn : NodupKeys m) (k : κ) (v : α) : mapLen m ≤ mapLen (mapSet m k v) := by
  cases hg : mapGet m k with
  | none =>
    unfold mapSet
    rw [mapDel_eq_self hg]
    simp [mapLen]
  | some w =>
    have := mapLen_mapDel_of_mem m hn k (by rw [hg]; rfl)
    unfold mapSet
    simp only [mapLen, List.length_cons] at this ⊢
    omega

theorem calcResReq_frame (b : Bucket) (req : Resource) (action : reqAction) :
    (b.CalcResReq req action).index = b.index ∧ (b.CalcResReq req action).tasks = b.tasks ∧
    (b.CalcResReq req action).boundTask = b.boundTask := by
  cases action <;> exact ⟨rfl, rfl, rfl⟩

theorem addTask_facts (b : Bucket) (taskName : String) (task : TaskInfo)
    (hb : 0 ≤ b.boundTask) (hn : NodupKeys b.tasks) :
    (b.AddTask taskName task).index = b.index ∧ 0 ≤ (b.AddTask taskName task).boundTask ∧
    NodupKeys (b.AddTask taskName task).tasks ∧ b.size ≤ (b.AddTask taskName task).size := by
  unfold Bucket.AddTask
  by_cases hnode : task.NodeName ≠ ""
  · simp only [hnode, ne_eq, not_false_eq_true, if_true]
    refine ⟨trivial, ?_, hn, ?_⟩
    · show 0 ≤ b.boundTask + 1
      omega
    · show (mapLen b.tasks : Int) + b.boundTask ≤ (mapLen b.tasks : Int) + (b.boundTask + 1)
      omega
  · simp only [hnode, if_false]
    obtain ⟨c1, c2, c3⟩ := calcResReq_frame
      { b with taskNameSet := incrAt b.taskNameSet taskName,
               tasks := mapSet b.tasks task.Pod.UID task } task.ResReq reqAction.reqAdd
    refine ⟨c1, ?_, ?_, ?_⟩
    · rw [c3]; exact hb
    · rw [c2]; exact nodupKeys_mapSet hn _ _
    · unfold Bucket.size
      rw [c2, c3]
      have := mapLen_mapSet_ge b.tasks hn task.Pod.UID task
      show (mapLen b.tasks : Int) + b.boundTask ≤
        (mapLen (mapSet b.tasks task.Pod.UID task) : Int) + b.boundTask
      omega

theorem taskBound_facts (b : Bucket) (task : TaskInfo)
    (hb : 0 ≤ b.boundTask) (hn : NodupKeys b.tasks) :
    (b.TaskBound task).index = b.index ∧ 0 ≤ (b.TaskBound task).boundTask ∧
    NodupKeys (b.TaskBound task).tasks ∧
    ((mapGet b.tasks task.Pod.UID).isSome = true → (b.TaskBound task).size = b.size) ∧
    ((mapGet b.tasks task.Pod.UID).isSome = false → (b.TaskBound task).size = b.size + 1) := by
  unfold Bucket.TaskBound
  obtain ⟨c1, c2, c3⟩ := calcResReq_frame
    { b with node := incrAt b.node task.NodeName, boundTask := b.boundTask + 1,
             tasks := mapDel b.tasks task.Pod.UID } task.ResReq reqAction.reqSub
  refine ⟨c1, ?_, ?_, ?_, ?_⟩
  · rw [c3]
    show 0 ≤ b.boundTask + 1
    omega
  · rw [c2]; exact nodupKeys_mapDel hn _
  · intro h
    unfold Bucket.size
    rw [c2, c3]
    have := mapLen_mapDel_of_mem b.tasks hn task.Pod.UID h
    show (mapLen (mapDel b.tasks task.Pod.UID) : Int) + (b.boundTask + 1) =
      (mapLen b.tasks : Int) + b.boundTask
    omega
  · intro h
    unfold Bucket.size
    rw [c2, c3]
    have hnone : mapGet b.tasks task.Pod.UID = none := by
      cases hg : mapGet b.tasks task.Pod.UID with
      | none => rfl
      | some v => rw [hg] at h; cases h
    show (mapLen (mapDel b.tasks task.Pod.UID) : Int) + (b.boundTask + 1) =
      (mapLen b.tasks : Int) + b.boundTask + 1
    rw [mapDel_eq_self hnone]
    omega

theorem inv_update (jm jm1 : JobManager) (i : Nat) (b b1 : Bucket)
    (hinv : BucketInv jm) (hget : jm.buckets.get? i = some b)
    (hidx : b1.index = b.index) (hbt : 0 ≤ b1.boundTask) (hnd : NodupKeys b1.tasks)
    (hsz : b.size ≤ b1.size) (hbk : jm1.buckets = jm.buckets.set i b1)
    (hmax : jm1.bucketMaxSize = max jm.bucketMaxSize b1.size)
    (hpod : ∀ uid index, mapGet jm1.podInBucket uid = some index →
      index = OutOfBucket ∨ (0 ≤ index ∧ index < (jm.buckets.length : Int))) :
    BucketInv jm1 := by
  obtain ⟨h1, h2, h3, h4⟩ := hinv
  refine ⟨?_, ?_, ?_, ?_⟩
  · intro j b2 hj
    rw [hbk, List.get?_eq_getElem?, List.getElem?_set] at hj
    by_cases hij : i = j
    · subst hij
      rw [if_pos rfl] at hj
      by_cases hlt : i < jm.buckets.length
      · rw [if_pos hlt] at hj
        cases hj
        rw [hidx]
        exact h1 i b hget
      · rw [if_neg hlt] at hj
        cases hj
    · rw [if_neg hij, ← List.get?_eq_getElem?] at hj
      exact h1 j b2 hj
  · intro uid index hu
    rw [hbk, List.length_set]
    exact hpod uid index hu
  · rw [hmax, hbk, maxSize_set _ i b b1 hget hsz, h3]
  · intro b2 hb2
    rw [hbk] at hb2
    rcases List.mem_or_eq_of_mem_set hb2 with e | e
    · exact h4 b2 e
    · rw [e]; exact ⟨hbt, hnd⟩

theorem mem_of_get_some {α : Type} (l : List α) (i : Nat) (a : α) (h : l.get? i = some a) :
    a ∈ l := by
  rw [List.get?_eq_getElem?] at h
  obtain ⟨hlt, e⟩ := List.getElem?_eq_some_iff.1 h
  rw [← e]
  exact List.getElem_mem hlt

theorem addTaskToBucket_eq (jm : JobManager) (i : Int) (taskName : String) (task : TaskInfo)
    (jm1 : JobManager) (h : jm.AddTaskToBucket i taskName task = some jm1) :
    0 ≤ i ∧ ∃ b, jm.buckets.get? i.toNat = some b ∧
      jm1.buckets = jm.buckets.set i.toNat (b.AddTask taskName task) ∧
      jm1.bucketMaxSize = max jm.bucketMaxSize (b.AddTask taskName task).size ∧
      jm1.podInBucket = mapSet jm.podInBucket task.Pod.UID i := by
  unfold AddTaskToBucket at h
  by_cases hi : 0 ≤ i
  · rw [if_pos hi] at h
    refine ⟨hi, ?_⟩
    cases hg : jm.buckets.get? i.toNat with
    | none => rw [hg] at h; cases h
    | some b =>
      rw [hg] at h
      simp only at h
      refine ⟨b, rfl, ?_⟩
      by_cases hs : ((mapLen (b.AddTask taskName task).tasks : Int) +
          (b.AddTask taskName task).boundTask) > jm.bucketMaxSize
      · rw [if_pos hs] at h
        cases h
        refine ⟨rfl, ?_, rfl⟩
        show _ = max jm.bucketMaxSize (b.AddTask taskName task).size
        unfold Bucket.size
        rw [max_eq_right (le_of_lt hs)]
      · rw [if_neg hs] at h
        cases h
        refine ⟨rfl, ?_, rfl⟩
        show _ = max jm.bucketMaxSize (b.AddTask taskName task).size
        unfold Bucket.size
        rw [max_eq_left (not_lt.1 hs)]
  · rw [if_neg hi] at h
    cases h

theorem addTaskToBucket_returns (jm : JobManager) (i : Int) (taskName : String)
    (task : TaskInfo) (hi : 0 ≤ i) (hlt : i.toNat < jm.buckets.length) :
    ∃ jm1, jm.AddTaskToBucket i taskName task = some jm1 := by
  unfold AddTaskToBucket
  rw [if_pos hi]
  have hg : jm.buckets.get? i.toNat = some (jm.buckets.get ⟨i.toNat, hlt⟩) :=
    List.get?_eq_get hlt
  rw [hg]
  simp only
  split_ifs <;> exact ⟨_, rfl⟩

theorem inv_AddTaskToBucket (jm : JobManager) (i : Int) (taskName : String) (task : TaskInfo)
    (jm1 : JobManager) (hinv : BucketInv jm)
    (h : jm.AddTaskToBucket i taskName task = some jm1) : BucketInv jm1 := by
  obtain ⟨hi, b, hg, e1, e2, e3⟩ := addTaskToBucket_eq jm i taskName task jm1 h
  have hb := hinv.2.2.2 b (mem_of_get_some _ _ _ hg)
  obtain ⟨f1, f2, f3, f4⟩ := addTask_facts b taskName task hb.1 hb.2
  have hlt : i.toNat < jm.buckets.length := by
    rw [List.get?_eq_getElem?] at hg
    exact (List.getElem?_eq_some_iff.1 hg).1
  apply inv_update jm jm1 i.toNat b (b.AddTask taskName task) hinv hg f1 f2 f3 f4 e1 e2
  intro uid index hu
  rw [e3, mapGet_mapSet] at hu
  by_cases hc : task.Pod.UID = uid
  · rw [if_pos hc] at hu
    cases hu
    right
    constructor
    · exact hi
    · omega
  · rw [if_neg hc] at hu
    exact hinv.2.1 uid index hu

theorem inv_NewBucket (jm : JobManager) (hinv : BucketInv jm) : BucketInv jm.NewBucket := by
  obtain ⟨h1, h2, h3, h4⟩ := hinv
  unfold JobManager.NewBucket
  refine ⟨?_, ?_, ?_, ?_⟩
  · intro i b hi
    simp only at hi
    rw [List.get?_eq_getElem?, List.getElem?_append] at hi
    by_cases hlt : i < jm.buckets.length
    · rw [if_pos hlt, ← List.get?_eq_getElem?] at hi
      exact h1 i b hi
    · rw [if_neg hlt] at hi
      have hi2 := List.getElem?_eq_some_iff.1 hi
      obtain ⟨hlen, hb⟩ := hi2
      simp only [List.length_singleton] at hlen
      have : i = jm.buckets.length := by omega
      rw [← hb]
      simp [this]
  · intro uid index hu
    rcases h2 uid index hu with e | ⟨e1, e2⟩
    · exact Or.inl e
    · right
      simp only [List.length_append, List.length_singleton]
      constructor
      · exact e1
      · push_cast
        omega
  · show jm.bucketMaxSize = maxSize (jm.buckets ++ [_])
    rw [maxSize_append_empty _ _ (by rfl), h3]
  · intro b hb
    simp only [List.mem_append, List.mem_singleton] at hb
    rcases hb with e | e
    · exact h4 b e
    · rw [e]
      exact ⟨le_refl _, by simp [NodupKeys, TopologyPlugin.NewBucket]⟩

theorem getBucket_cases (jm : JobManager) (hinv : BucketInv jm) (task : TaskInfo) :
    jm.GetBucket task = some none ∨
    ∃ i b, jm.GetBucket task = some (some i) ∧ jm.buckets.get? i = some b ∧
      mapGet jm.podInBucket task.Pod.UID = some (i : Int) := by
  unfold GetBucket
  cases hg : mapGet jm.podInBucket task.Pod.UID with
  | none => exact Or.inl rfl
  | some index =>
    simp only
    by_cases ho : index = OutOfBucket
    · rw [if_pos ho]; exact Or.inl rfl
    · rw [if_neg ho]
      rcases hinv.2.1 _ _ hg with e | ⟨e1, e2⟩
      · exact absurd e ho
      · have hlt : index.toNat < jm.buckets.length := by omega
        rw [if_pos ⟨e1, hlt⟩]
        right
        refine ⟨index.toNat, jm.buckets.get ⟨index.toNat, hlt⟩, rfl, List.get?_eq_get hlt, ?_⟩
        rw [Int.toNat_of_nonneg e1]

theorem inv_nodeTaskSet (jm : JobManager) (v : List (String × List (String × Int)))
    (hinv : BucketInv jm) : BucketInv { jm with nodeTaskSet := v } := hinv

theorem taskBound_eq (getTaskName : TaskInfo → String) (jm : JobManager)
    (hinv : BucketInv jm) (task : TaskInfo) :
    (∃ v, jm.GetBucket task = some none ∧
      jm.TaskBound getTaskName task = some { jm with nodeTaskSet := v }) ∨
    ∃ v i b, jm.GetBucket task = some (some i) ∧ jm.buckets.get? i = some b ∧
      mapGet jm.podInBucket task.Pod.UID = some (i : Int) ∧
      jm.TaskBound getTaskName task =
        some { jm with nodeTaskSet := v, buckets := jm.buckets.set i (b.TaskBound task) } := by
  have key : ∀ v : List (String × List (String × Int)),
      (({ jm with nodeTaskSet := v } : JobManager).GetBucket task = jm.GetBucket task) :=
    fun _ => rfl
  unfold TaskBound
  by_cases hn : getTaskName task ≠ ""
  · simp only [hn, ne_eq, not_false_eq_true, if_true]
    rcases getBucket_cases jm hinv task with h | ⟨i, b, h1, h2, h3⟩
    · left
      refine ⟨mapSet jm.nodeTaskSet task.NodeName
        (incrAt ((mapGet jm.nodeTaskSet task.NodeName).getD []) (getTaskName task)), h, ?_⟩
      rw [key, h]
    · right
      refine ⟨mapSet jm.nodeTaskSet task.NodeName
        (incrAt ((mapGet jm.nodeTaskSet task.NodeName).getD []) (getTaskName task)),
        i, b, h1, h2, h3, ?_⟩
      rw [key, h1]
      simp only [h2]
  · simp only [hn, if_false]
    rcases getBucket_cases jm hinv task with h | ⟨i, b, h1, h2, h3⟩
    · left
      refine ⟨jm.nodeTaskSet, h, ?_⟩
      rw [h]
    · right
      refine ⟨jm.nodeTaskSet, i, b, h1, h2, h3, ?_⟩
      rw [h1]
      simp only [h2]

theorem holds_iff (jm : JobManager) (task : TaskInfo) (i : Nat) (b : Bucket)
    (hp : mapGet jm.podInBucket task.Pod.UID = some (i : Int))
    (hg : jm.buckets.get? i = some b) :
    jm.holds task = (mapGet b.tasks task.Pod.UID).isSome := by
  unfold holds
  rw [hp]
  have ho : ¬ ((i : Int) = OutOfBucket) := by
    unfold OutOfBucket; omega
  simp only [ho, decide_False, Bool.false_or, Int.toNat_ofNat, hg]

theorem inv_TaskBound (getTaskName : TaskInfo → String) (jm : JobManager)
    (hinv : BucketInv jm) (task : TaskInfo) (hheld : jm.holds task = true) :
    ∃ jm1, jm.TaskBound getTaskName task = some jm1 ∧ BucketInv jm1 ∧
      jm1.buckets.map Bucket.size = jm.buckets.map Bucket.size ∧
      jm1.bucketMaxSize = jm.bucketMaxSize := by
  rcases taskBound_eq getTaskName jm hinv task with ⟨v, -, h⟩ | ⟨v, i, b, -, hg, hp, h⟩
  · exact ⟨_, h, inv_nodeTaskSet jm v hinv, rfl, rfl⟩
  · have hb := hinv.2.2.2 b (mem_of_get_some _ _ _ hg)
    obtain ⟨f1, f2, f3, f4, -⟩ := taskBound_facts b task hb.1 hb.2
    have hin : (mapGet b.tasks task.Pod.UID).isSome = true := by
      rw [← holds_iff jm task i b hp hg]; exact hheld
    have hsz := f4 hin
    refine ⟨_, h, ?_, ?_, rfl⟩
    · apply inv_update jm _ i b (b.TaskBound task) hinv hg f1 f2 f3 (le_of_eq hsz.symm) rfl
      · show jm.bucketMaxSize = max jm.bucketMaxSize (b.TaskBound task).size
        rw [hsz, hinv.2.2.1]
        exact (max_eq_left (size_le_maxSize _ _ (mem_of_get_some _ _ _ hg))).symm
      · exact hinv.2.1
    · show (jm.buckets.set i (b.TaskBound task)).map Bucket.size = _
      rw [List.map_set, hsz]
      apply List.ext_getElem?
      intro j
      rw [List.getElem?_set]
      by_cases hij : i = j
      · subst hij
        rw [if_pos rfl]
        have hlt : i < jm.buckets.length := by
          rw [List.get?_eq_getElem?] at hg
          exact (List.getElem?_eq_some_iff.1 hg).1
        rw [List.length_map, if_pos hlt, List.getElem?_map, ← List.get?_eq_getElem?, hg]
        rfl
      · rw [if_neg hij]

theorem addTaskToBucket_at (jm : JobManager) (hinv : BucketInv jm) (pos : Nat)
    (hpos : pos < jm.buckets.length) (taskName : String) (task : TaskInfo) :
    ∃ b jm1, jm.buckets.get? pos = some b ∧
      jm.AddTaskToBucket b.index taskName task = some jm1 ∧ BucketInv jm1 ∧
      jm1.buckets.length = jm.buckets.length := by
  have hg : jm.buckets.get? pos = some (jm.buckets.get ⟨pos, hpos⟩) := List.get?_eq_get hpos
  have hidx := hinv.1 pos _ hg
  obtain ⟨jm1, h1⟩ := addTaskToBucket_returns jm (jm.buckets.get ⟨pos, hpos⟩).index taskName
    task (by rw [hidx]; omega) (by rw [hidx]; simpa using hpos)
  refine ⟨_, jm1, hg, h1, inv_AddTaskToBucket jm _ taskName task jm1 hinv h1, ?_⟩
  obtain ⟨-, b, -, e1, -, -⟩ := addTaskToBucket_eq jm _ taskName task jm1 h1
  rw [e1, List.length_set]

theorem selectFrom_pos (jm : JobManager) (taskName : String) (bound : Nat) :
    ∀ (l : List Bucket) (pos : Nat) (acc : Option (Nat × Bucket) × Int),
      pos + l.length ≤ bound → (∀ sel, acc.1 = some sel → sel.1 < bound) →
      ∀ sel, (selectFrom jm taskName pos l acc).1 = some sel → sel.1 < bound := by
  intro l
  induction l with
  | nil =>
    intro pos acc _ hacc sel h
    exact hacc sel h
  | cons bucket rest ih =>
    intro pos acc hb hacc sel h
    obtain ⟨selectedBucket, maxAffinity⟩ := acc
    unfold selectFrom at h
    simp only [List.length_cons] at hb
    refine ih (pos + 1) _ (by omega) ?_ sel h
    intro s hs
    by_cases hgt : checkTaskSetAffinity jm taskName bucket.taskNameSet false > maxAffinity
    · rw [if_pos hgt] at hs
      cases hs
      show pos < bound
      omega
    · rw [if_neg hgt] at hs
      cases selectedBucket with
      | none => cases hs
      | some old =>
        simp only at hs
        split_ifs at hs
        · cases hs
          show pos < bound
          omega
        · exact hacc s hs

theorem placeTask_inv (getTaskName : TaskInfo → String) (st : BuildState) (task : TaskInfo)
    (hinv : BuildInv st) :
    ∃ st1, placeTask getTaskName st task = some st1 ∧ BuildInv st1 := by
  have hchoice : ∀ p,
      (if task.NodeName ≠ "" then (mapGet st.nodeBucketMapping task.NodeName, (0 : Int))
        else
          ((selectFrom st.jm (getTaskName task) 0 st.jm.buckets (none, -2147483648)).1.map
              (fun sel => sel.1),
            (selectFrom st.jm (getTaskName task) 0 st.jm.buckets (none, -2147483648)).2)).1 =
        some p → p < st.jm.buckets.length := by
    intro p hp
    by_cases hn : task.NodeName ≠ ""
    · rw [if_pos hn] at hp
      exact hinv.2 _ _ hp
    · rw [if_neg hn] at hp
      simp only [Option.map_eq_some'] at hp
      obtain ⟨sel, hs, e⟩ := hp
      rw [← e]
      exact selectFrom_pos st.jm (getTaskName task) st.jm.buckets.length st.jm.buckets 0 _
        (by omega) (fun s hs0 => by cases hs0) sel hs
  unfold placeTask
  simp only []
  generalize (if task.NodeName ≠ "" then (mapGet st.nodeBucketMapping task.NodeName, (0 : Int))
        else
          ((selectFrom st.jm (getTaskName task) 0 st.jm.buckets (none, -2147483648)).1.map
              (fun sel => sel.1),
            (selectFrom st.jm (getTaskName task) 0 st.jm.buckets (none, -2147483648)).2)) =
    choice at hchoice ⊢
  by_cases hc : choice.2 < 0 ∨ choice.1 = none
  · simp only [hc, if_true, Option.some_bind]
    have hninv := inv_NewBucket st.jm hinv.1
    have hlen : st.jm.NewBucket.buckets.length = st.jm.buckets.length + 1 := by
      simp [JobManager.NewBucket]
    obtain ⟨b, jm1, hg, h1, hi1, hl1⟩ := addTaskToBucket_at st.jm.NewBucket hninv
      st.jm.buckets.length (by omega) (getTaskName task) task
    rw [hg]
    simp only [h1]
    refine ⟨_, rfl, hi1, ?_⟩
    intro node pos hp
    simp only at hp
    rw [hl1, hlen]
    by_cases hn : task.NodeName ≠ ""
    · rw [if_pos hn, mapGet_mapSet] at hp
      by_cases e : task.NodeName = node
      · rw [if_pos e] at hp
        cases hp
        omega
      · rw [if_neg e] at hp
        have := hinv.2 _ _ hp
        omega
    · rw [if_neg hn] at hp
      have := hinv.2 _ _ hp
      omega
  · simp only [hc, if_false]
    have hsome : ∃ p, choice.1 = some p := by
      cases h : choice.1 with
      | none => exact absurd (Or.inr h) hc
      | some p => exact ⟨p, rfl⟩
    obtain ⟨p, hp⟩ := hsome
    obtain ⟨b, jm1, hg, h1, hi1, hl1⟩ := addTaskToBucket_at st.jm hinv.1 p (hchoice p hp)
      (getTaskName task) task
    rw [hp, Option.some_bind, hg]
    simp only [h1]
    refine ⟨_, rfl, hi1, ?_⟩
    intro node pos hq
    rw [hl1]
    exact hinv.2 _ _ hq

theorem foldlM_placeTask_inv (getTaskName : TaskInfo → String) :
    ∀ (l : List TaskInfo) (st : BuildState), BuildInv st →
      ∃ st1, l.foldlM (placeTask getTaskName) st = some st1 ∧ BuildInv st1 := by
  intro l
  induction l with
  | nil => intro st h; exact ⟨st, rfl, h⟩
  | cons t rest ih =>
    intro st h
    obtain ⟨st1, e1, h1⟩ := placeTask_inv getTaskName st t h
    obtain ⟨st2, e2, h2⟩ := ih st1 h1
    refine ⟨st2, ?_, h2⟩
    rw [List.foldlM_cons, e1]
    exact e2

theorem buildBucket_inv (getTaskName : TaskInfo → String) (jm : JobManager)
    (taskWithOrder : List TaskInfo) (hinv : BucketInv jm) :
    ∃ jm1, jm.buildBucket getTaskName taskWithOrder = some jm1 ∧ BucketInv jm1 := by
  obtain ⟨st1, e1, h1⟩ := foldlM_placeTask_inv getTaskName taskWithOrder
    { jm := jm, nodeBucketMapping := [] } ⟨hinv, fun node pos h => by cases h⟩
  refine ⟨st1.jm, ?_, h1.1⟩
  unfold buildBucket
  rw [e1]
  rfl

theorem inv_MarkOutOfBucket (jm : JobManager) (uid : String) (hinv : BucketInv jm) :
    BucketInv (jm.MarkOutOfBucket uid) := by
  obtain ⟨h1, h2, h3, h4⟩ := hinv
  refine ⟨h1, ?_, h3, h4⟩
  intro u index hu
  unfold MarkOutOfBucket at hu
  simp only at hu
  rw [mapGet_mapSet] at hu
  by_cases e : uid = u
  · rw [if_pos e] at hu
    cases hu
    exact Or.inl rfl
  · rw [if_neg e] at hu
    exact h2 u index hu

theorem buildTaskInfo_fold_inv (getTaskName : TaskInfo → String) :
    ∀ (tasks : List (TaskID × TaskInfo)) (acc : JobManager × List TaskInfo),
      BucketInv acc.1 → BucketInv (List.foldl
      (fun (acc : JobManager × List TaskInfo) (e : TaskID × TaskInfo) =>
        if getTaskName e.2 = "" then (acc.1.MarkOutOfBucket e.2.Pod.UID, acc.2)
        else if (mapGet acc.1.taskAffinityPriority (getTaskName e.2)).isNone then
          (acc.1.MarkOutOfBucket e.2.Pod.UID, acc.2)
        else
          ({ acc.1 with
              podInTask := mapSet acc.1.podInTask e.2.Pod.UID (getTaskName e.2) },
            acc.2 ++ [e.2])) acc tasks).1 := by
  intro tasks
  induction tasks with
  | nil => intro acc h; exact h
  | cons e rest ih =>
    intro acc h
    rw [List.foldl_cons]
    apply ih
    split_ifs
    · exact inv_MarkOutOfBucket _ _ h
    · exact inv_MarkOutOfBucket _ _ h
    · exact h

theorem buildTaskInfo_inv (getTaskName : TaskInfo → String) (jm : JobManager)
    (tasks : List (TaskID × TaskInfo)) (hinv : BucketInv jm) :
    BucketInv (jm.buildTaskInfo getTaskName tasks).1 :=
  buildTaskInfo_fold_inv getTaskName tasks (jm, []) hinv

theorem constructBucket_inv (getTaskName : TaskInfo → String)
    (sort : List TaskInfo → List TaskInfo) (jm : JobManager)
    (tasks : List (TaskID × TaskInfo)) (hinv : BucketInv jm) :
    ∃ jm1, jm.ConstructBucket getTaskName sort tasks = some jm1 ∧ BucketInv jm1 :=
  buildBucket_inv getTaskName _ _ (buildTaskInfo_inv getTaskName jm tasks hinv)

theorem runOps_inv (getTaskName : TaskInfo → String) :
    ∀ (ops : List BucketOp) (jm jm2 : JobManager), BucketInv jm →
      jm.runOps getTaskName ops = some jm2 → BoundsHeld getTaskName jm ops → BucketInv jm2 := by
  intro ops
  induction ops with
  | nil =>
    intro jm jm2 h e _
    cases e
    exact h
  | cons op rest ih =>
    intro jm jm2 h e hb
    unfold runOps at e
    rw [List.foldlM_cons] at e
    cases h1 : jm.applyOp getTaskName op with
    | none => rw [h1] at e; cases e
    | some jm1 =>
      rw [h1] at e
      have hb2 : BoundsHeld getTaskName jm1 rest := by
        have := hb.2
        rw [h1] at this
        exact this
      refine ih jm1 jm2 ?_ e hb2
      cases op with
      | add i n t => exact inv_AddTaskToBucket jm i n t jm1 h h1
      | bound t =>
        obtain ⟨jm3, e3, h3, -, -⟩ := inv_TaskBound getTaskName jm h t hb.1
        have e4 : jm.TaskBound getTaskName t = some jm1 := h1
        rw [e3] at e4
        cases e4
        exact h3

theorem runOps_returns (getTaskName : TaskInfo → String) :
    ∀ (ops : List BucketOp) (jm : JobManager), BucketInv jm →
      BoundsHeld getTaskName jm ops →
      (∀ i n t, BucketOp.add i n t ∈ ops → 0 ≤ i ∧ i < (jm.buckets.length : Int)) →
      ∃ jm2, jm.runOps getTaskName ops = some jm2 ∧
        jm2.buckets.length = jm.buckets.length := by
  intro ops
  induction ops with
  | nil => intro jm _ _ _; exact ⟨jm, rfl, rfl⟩
  | cons op rest ih =>
    intro jm h hb hr
    have step : ∃ jm1, jm.applyOp getTaskName op = some jm1 ∧ BucketInv jm1 ∧
        jm1.buckets.length = jm.buckets.length := by
      cases op with
      | add i n t =>
        obtain ⟨hi, hlt⟩ := hr i n t (List.mem_cons_self _ _)
        obtain ⟨jm1, e1⟩ := addTaskToBucket_returns jm i n t hi (by omega)
        refine ⟨jm1, e1, inv_AddTaskToBucket jm i n t jm1 h e1, ?_⟩
        obtain ⟨-, b, -, e2, -, -⟩ := addTaskToBucket_eq jm i n t jm1 e1
        rw [e2, List.length_set]
      | bound t =>
        obtain ⟨jm3, e3, h3, hs, -⟩ := inv_TaskBound getTaskName jm h t hb.1
        refine ⟨jm3, e3, h3, ?_⟩
        have := congrArg List.length hs
        simpa using this
    obtain ⟨jm1, e1, h1, hl1⟩ := step
    have hb2 : BoundsHeld getTaskName jm1 rest := by
      have := hb.2
      rw [e1] at this
      exact this
    obtain ⟨jm2, e2, hl2⟩ := ih jm1 h1 hb2 (fun i n t hm => by
      rw [hl1]; exact hr i n t (List.mem_cons_of_mem _ hm))
    refine ⟨jm2, ?_, by rw [hl2, hl1]⟩
    unfold runOps
    rw [List.foldlM_cons, e1]
    exact e2

theorem bucketInv_start (jm : JobManager) (h1 : jm.buckets = []) (h2 : jm.podInBucket = [])
    (h3 : jm.bucketMaxSize = 0) : BucketInv jm := by
  refine ⟨?_, ?_, ?_, ?_⟩
  · intro i b h
    rw [h1] at h
    simp at h
  · intro uid index h
    rw [h2] at h
    cases h
  · rw [h1, h3]; rfl
  · intro b hb
    rw [h1] at hb
    cases hb

theorem bucketInv_max (jm : JobManager) (hinv : BucketInv jm) :
    (∀ b ∈ jm.buckets, b.size ≤ jm.bucketMaxSize) ∧
    (jm.buckets ≠ [] → ∃ b ∈ jm.buckets, b.size = jm.bucketMaxSize) ∧
    (jm.buckets = [] → jm.bucketMaxSize = 0) := by
  obtain ⟨-, -, h3, h4⟩ := hinv
  refine ⟨?_, ?_, ?_⟩
  · intro b hb
    rw [h3]
    exact size_le_maxSize _ b hb
  · intro hne
    rw [h3]
    apply maxSize_attained _ hne
    intro b hb
    have := (h4 b hb).1
    unfold Bucket.size
    omega
  · intro he
    rw [h3, he]
    rfl

theorem getBucket_returns (jm : JobManager) (hinv : BucketInv jm) (task : TaskInfo) :
    jm.GetBucket task ≠ none := by
  rcases getBucket_cases jm hinv task with h | ⟨i, b, h, -, -⟩ <;> rw [h] <;> simp

/-- C37 (as stated, refuted): after `ConstructBucket` put the task `a`, which
is bound to a node, into a bucket, that bucket has size 1 and so has
`bucketMaxSize`; `TaskBound` on `a` then raises the size of the bucket to 2
and leaves `bucketMaxSize` at 1. -/
theorem taskBound_counts_twice :
    ((selfAffine.ConstructBucket annotatedName id [("a", boundAtAdd)]).map
      (fun jm => (jm.buckets.map Bucket.size, jm.bucketMaxSize))) = some ([1], 1) ∧
    (((selfAffine.ConstructBucket annotatedName id [("a", boundAtAdd)]).bind
      (fun jm => jm.TaskBound annotatedName boundAtAdd)).map
      (fun jm => (jm.buckets.map Bucket.size, jm.bucketMaxSize))) = some ([2], 1) := by
  decide

/-- C37 (amended): `ConstructBucket` on a job manager that has no buckets, no
entry in `podInBucket` and `bucketMaxSize` 0 returns. After it and any sequence
of calls of `AddTaskToBucket` and `TaskBound` in which every `TaskBound` is
called on a task that is in no bucket or is held in `tasks` of its bucket, the
sequence returns when every `AddTaskToBucket` names an index of `buckets`, and
once it has returned: no bucket is larger than `bucketMaxSize`, where the size
of a bucket is `len(bucket.tasks) + bucket.boundTask`, some bucket has that
size when there is a bucket, and `bucketMaxSize` is 0 when there is none; the
`index` of every bucket is its position in `buckets`; every entry of
`podInBucket` is `OutOfBucket` or an index of `buckets`, so `GetBucket` never
indexes out of range; and `TaskBound` on a task that is in no bucket or is
held in `tasks` of its bucket returns and changes neither the size of any
bucket nor `bucketMaxSize`. -/
theorem bucket_invariant (getTaskName : TaskInfo → String)
    (sort : List TaskInfo → List TaskInfo) (jm0 : JobManager)
    (tasks : List (TaskID × TaskInfo)) (hbuckets : jm0.buckets = [])
    (hpods : jm0.podInBucket = []) (hmax : jm0.bucketMaxSize = 0) :
    ∃ jm1, jm0.ConstructBucket getTaskName sort tasks = some jm1 ∧
      ∀ ops, BoundsHeld getTaskName jm1 ops →
        ((∀ i n t, BucketOp.add i n t ∈ ops → 0 ≤ i ∧ i < (jm1.buckets.length : Int)) →
          ∃ jm2, jm1.runOps getTaskName ops = some jm2) ∧
        ∀ jm2, jm1.runOps getTaskName ops = some jm2 →
          (∀ b ∈ jm2.buckets, b.size ≤ jm2.bucketMaxSize) ∧
          (jm2.buckets ≠ [] → ∃ b ∈ jm2.buckets, b.size = jm2.bucketMaxSize) ∧
          (jm2.buckets = [] → jm2.bucketMaxSize = 0) ∧
          (∀ i b, jm2.buckets.get? i = some b → b.index = (i : Int)) ∧
          (∀ uid index, mapGet jm2.podInBucket uid = some index →
            index = OutOfBucket ∨ (0 ≤ index ∧ index < (jm2.buckets.length : Int))) ∧
          (∀ task, jm2.GetBucket task ≠ none) ∧
          (∀ task, jm2.holds task = true →
            ∃ jm3, jm2.TaskBound getTaskName task = some jm3 ∧
              jm3.buckets.map Bucket.size = jm2.buckets.map Bucket.size ∧
              jm3.bucketMaxSize = jm2.bucketMaxSize) := by
  obtain ⟨jm1, e1, h1⟩ := constructBucket_inv getTaskName sort jm0 tasks
    (bucketInv_start jm0 hbuckets hpods hmax)
  refine ⟨jm1, e1, ?_⟩
  intro ops hb
  refine ⟨fun hr => ?_, ?_⟩
  · obtain ⟨jm2, e2, -⟩ := runOps_returns getTaskName ops jm1 h1 hb hr
    exact ⟨jm2, e2⟩
  · intro jm2 e2
    have h2 := runOps_inv getTaskName ops jm1 jm2 h1 e2 hb
    obtain ⟨m1, m2, m3⟩ := bucketInv_max jm2 h2
    refine ⟨m1, m2, m3, h2.1, h2.2.1, getBucket_returns jm2 h2, ?_⟩
    intro task ht
    obtain ⟨jm3, e3, -, s3, x3⟩ := inv_TaskBound getTaskName jm2 h2 task ht
    exact ⟨jm3, e3, s3, x3⟩

/-- C37 (amended), at an instance: the manager of the topology "`w` has
affinity to itself" puts the pending task `b` into a bucket of size 1, and
`TaskBound` on `b` leaves a bucket of size 1 with `bucketMaxSize` 1. -/
theorem bucket_invariant_witness :
    selfAffine.buckets = [] ∧ selfAffine.podInBucket = [] ∧ selfAffine.bucketMaxSize = 0 ∧
    ∃ jm1 jm2, selfAffine.ConstructBucket annotatedName id [("b", unboundAtAdd)] = some jm1 ∧
      BoundsHeld annotatedName jm1 [BucketOp.bound unboundAtAdd] ∧
      jm1.runOps annotatedName [BucketOp.bound unboundAtAdd] = some jm2 ∧
      jm1.buckets.map Bucket.size = [1] ∧
      jm2.buckets.map Bucket.size = [1] ∧
      (∀ b ∈ jm2.buckets, b.size ≤ jm2.bucketMaxSize) ∧
      (∃ b ∈ jm2.buckets, b.size = jm2.bucketMaxSize) ∧
      (∀ task, jm2.GetBucket task ≠ none) := by
  refine ⟨rfl, rfl, rfl, ?_⟩
  obtain ⟨jm1, e1, h⟩ := bucket_invariant annotatedName id selfAffine [("b", unboundAtAdd)]
    rfl rfl rfl
  have hb : (selfAffine.ConstructBucket annotatedName id [("b", unboundAtAdd)]).map
      (fun jm => decide (BoundsHeld annotatedName jm [BucketOp.bound unboundAtAdd])) =
      some true := by decide
  have hs1 : (selfAffine.ConstructBucket annotatedName id [("b", unboundAtAdd)]).map
      (fun jm => jm.buckets.map Bucket.size) = some [1] := by decide
  have hs2 : ((selfAffine.ConstructBucket annotatedName id [("b", unboundAtAdd)]).bind
      (fun jm => jm.runOps annotatedName [BucketOp.bound unboundAtAdd])).map
      (fun jm => jm.buckets.map Bucket.size) = some [1] := by decide
  rw [e1] at hb hs1 hs2
  have hb1 : BoundsHeld annotatedName jm1 [BucketOp.bound unboundAtAdd] :=
    of_decide_eq_true (Option.some.inj hb)
  obtain ⟨hret, hall⟩ := h [BucketOp.bound unboundAtAdd] hb1
  obtain ⟨jm2, e2⟩ := hret (fun i n t hm => by simp at hm)
  obtain ⟨m1, m2, -, -, -, m6, -⟩ := hall jm2 e2
  rw [Option.some_bind, e2] at hs2
  have hs2a : jm2.buckets.map Bucket.size = [1] := Option.some.inj hs2
  have hne : jm2.buckets ≠ [] := by
    intro he
    rw [he] at hs2a
    cases hs2a
  exact ⟨jm1, jm2, e1, hb1, e2, Option.some.inj hs1, hs2a, m1, m2 hne, m6⟩

end BucketTheorems

end Volcano
